import Mathlib

/-!
Cascade-stage booster (`openbr/core/boost.cpp`).

A shallow embedding of the tree serializer (`CascadeBoostTree::write` / `read`),
of tree and ensemble prediction, of the stage-threshold rule
(`CascadeBoost::isErrDesired`) and of the reweighting step
(`CascadeBoost::update_weights`), followed by the properties proved about them.

Conventions.  `float` and `double` quantities are rationals.  Leaf values, scores and
weights are taken exactly (a narrowing cast `(float)x` is the identity there, except in
the serializer, whose contract speaks of leaf values as floats: there the cast is an
explicit function parameter `toFloat`).  The index and the two rates of `isErrDesired`
are computed as the source computes them, in single precision: every operation on
`float` operands gives the value of type `float` nearest to the exact result
(`roundF32`).  C arrays are functions `Nat → α` together with the length the code
uses.  Run-time failures of the source (a failed `CV_Assert`, an access outside a
buffer, an iterator moved past the start of a sequence) are `none`.
-/

namespace br

/-! ## Decision trees -/

/-- The split of an internal node (`CvDTreeSplit`): the variable index together with
the member of the union the stage mode uses, the threshold `ord.c` of an ordered
split or the bit-set words `subset[]` of a categorical split. -/
inductive CvDTreeSplit where
  | ord (var_idx : Int) (c : ℚ)
  | cat (var_idx : Int) (subset : List Int)
  deriving DecidableEq, Repr

namespace CvDTreeSplit

/-- The field `split->var_idx`. -/
def var_idx : CvDTreeSplit → Int
  | ord v _ => v
  | cat v _ => v

/-- The field `split->ord.c`.  Reading it from a categorical split reinterprets the
union, which this model does not follow: it yields `0` there. -/
def c : CvDTreeSplit → ℚ
  | ord _ x => x
  | cat _ _ => 0

/-- The word `split->subset[i]`.  Reading it from an ordered split, or past the words
held, yields `0`. -/
def subset : CvDTreeSplit → Nat → Int
  | ord _ _, _ => 0
  | cat _ ws, i => ws.getD i 0

end CvDTreeSplit

/-- A tree node (`CvDTreeNode`): a leaf (`left == right == 0`) carrying its `value`,
or an internal node carrying its `split` and both children. -/
inductive CvDTreeNode where
  | leaf (value : ℚ)
  | node (split : CvDTreeSplit) (left right : CvDTreeNode)
  deriving DecidableEq, Repr

namespace CvDTreeNode

/-- Height of the tree below a node: `0` for a leaf (the depth of its deepest leaf
when the node is the root, whose own depth is `0`). -/
def depth : CvDTreeNode → Nat
  | leaf _ => 0
  | node _ l r => max l.depth r.depth + 1

/-- Number of internal nodes. -/
def numInternal : CvDTreeNode → Nat
  | leaf _ => 0
  | node _ l r => l.numInternal + r.numInternal + 1

/-- Number of leaves. -/
def numLeaves : CvDTreeNode → Nat
  | leaf _ => 1
  | node _ l r => l.numLeaves + r.numLeaves

/-- The test `!n->left && !n->right`. -/
def isLeaf : CvDTreeNode → Bool
  | leaf _ => true
  | node _ _ _ => false

/-- The same tree with a function applied to every leaf value. -/
def mapLeaves (f : ℚ → ℚ) : CvDTreeNode → CvDTreeNode
  | leaf v => leaf (f v)
  | node s l r => node s (l.mapLeaves f) (r.mapLeaves f)

end CvDTreeNode

/-- The expression `(maxCatCount + 31)/32` (C division truncates towards zero). -/
def subsetN (maxCatCount : Int) : Int := Int.tdiv (maxCatCount + 31) 32

/-- The macro `CV_DTREE_CAT_DIR(idx, subset)`:
`2*((subset[idx>>5] & (1 << (idx & 31))) == 0) - 1`. -/
def CV_DTREE_CAT_DIR (idx : Int) (split : CvDTreeSplit) : Int :=
  2 * (if Int.testBit (split.subset (idx / 32).toNat) (idx % 32).toNat then 0 else 1) - 1

/-- The cast `(int)x` of a floating-point value: truncation towards zero. -/
def truncToInt (x : ℚ) : Int := if 0 ≤ x then Int.floor x else Int.ceil x

/-- The value of the leaf returned by `CascadeBoostTree::predict(sampleIdx)`
(`predict(sampleIdx)->value`), descending from `root`; `getVarValue vi si` is
`CascadeBoostTrainData::getVarValue`. -/
def CascadeBoostTree.predict (maxCatCount : Int) (getVarValue : Int → Nat → ℚ)
    (sampleIdx : Nat) : CvDTreeNode → ℚ
  | .leaf value => value
  | .node split left right =>
    if maxCatCount = 0 then
      if getVarValue split.var_idx sampleIdx ≤ split.c then
        CascadeBoostTree.predict maxCatCount getVarValue sampleIdx left
      else
        CascadeBoostTree.predict maxCatCount getVarValue sampleIdx right
    else
      if CV_DTREE_CAT_DIR (truncToInt (getVarValue split.var_idx sampleIdx)) split < 0 then
        CascadeBoostTree.predict maxCatCount getVarValue sampleIdx left
      else
        CascadeBoostTree.predict maxCatCount getVarValue sampleIdx right

/-! ## Tree serializer -/

/-- One element of a file-storage sequence: an integer or a real. -/
inductive FileTok where
  | int (i : Int)
  | real (r : ℚ)
  deriving DecidableEq, Repr

/-- The local state of `CascadeBoostTree::write`: the `internalNodes` sequence
emitted so far, the buffer `leafVals`, and the two counters. -/
structure WriteState where
  internalNodes : List FileTok
  leafVals : Nat → ℚ
  leafValIdx : Int
  internalNodeIdx : Int

/-- The branch of `write` handling one child of `tempNode`: a leaf stores its value at
`leafVals[-leafValIdx]` (inside the buffer of `size` floats) and emits `leafValIdx--`;
an internal child is pushed on the queue and emits `internalNodeIdx++`. -/
def writeChild (size : Int) (toFloat : ℚ → ℚ) (child : CvDTreeNode)
    (queue : List CvDTreeNode) (st : WriteState) : Option (List CvDTreeNode × WriteState) :=
  match child with
  | .leaf value =>
    if 0 ≤ -st.leafValIdx ∧ -st.leafValIdx < size then
      some (queue,
        { st with
          leafVals := Function.update st.leafVals (-st.leafValIdx).toNat (toFloat value)
          internalNodes := st.internalNodes ++ [FileTok.int st.leafValIdx]
          leafValIdx := st.leafValIdx - 1 })
    else none
  | .node _ _ _ =>
    some (queue ++ [child],
      { st with
        internalNodes := st.internalNodes ++ [FileTok.int st.internalNodeIdx]
        internalNodeIdx := st.internalNodeIdx + 1 })

/-- The payload `write` emits after `var_idx`: `ord.c` when `!maxCatCount`, else
`subset[0 .. subsetN)`. -/
def writePayload (maxCatCount : Int) (split : CvDTreeSplit) : List FileTok :=
  if maxCatCount = 0 then [FileTok.real split.c]
  else (List.range (subsetN maxCatCount).toNat).map (fun i => FileTok.int (split.subset i))

/-- The loop `while (!internalNodesQueue.empty())` of `write`.  The first argument
bounds the number of iterations; running out of it, like a failed assertion, is
`none`. -/
def writeLoop (maxCatCount : Int) (size : Int) (toFloat : ℚ → ℚ) :
    Nat → List CvDTreeNode → WriteState → Option WriteState
  | _, [], st => some st
  | 0, _ :: _, _ => none
  | fuel + 1, tempNode :: rest, st =>
    match tempNode with
    | .leaf _ => none
    | .node split left right =>
      match writeChild size toFloat left (tempNode :: rest) st with
      | none => none
      | some (q1, st1) =>
        match writeChild size toFloat right q1 st1 with
        | none => none
        | some (q2, st2) =>
          writeLoop maxCatCount size toFloat fuel q2.tail
            { st2 with
              internalNodes := st2.internalNodes ++ [FileTok.int split.var_idx]
                ++ writePayload maxCatCount split }

/-- The size `(int)pow(2.f, (float)max_depth)` of the leaf buffer (below the range
where the conversion to `int` overflows). -/
def leafBufSize (max_depth : Int) : Int := if max_depth < 0 then 0 else 2 ^ max_depth.toNat

/-- The function `CascadeBoostTree::write`: the two sequences `internalNodes` and
`leafValues` (`leafVals[0 .. -leafValIdx)`).  The loop is given one iteration per
internal node of the tree. -/
def CascadeBoostTree.write (maxCatCount max_depth : Int) (toFloat : ℚ → ℚ)
    (root : CvDTreeNode) : Option (List FileTok × List ℚ) :=
  match writeLoop maxCatCount (leafBufSize max_depth) toFloat root.numInternal [root]
      { internalNodes := [], leafVals := fun _ => 0, leafValIdx := 0, internalNodeIdx := 1 } with
  | none => none
  | some st => some (st.internalNodes, (List.range (-st.leafValIdx).toNat).map st.leafVals)

/-- Reading an `int` through a backward iterator (`*it >> x; it--`): the element under
the iterator and the rest.  The sequence is held nearest-element first.  The
conversion the storage layer applies to a real element is not modelled (`none`). -/
def readInt : List FileTok → Option (Int × List FileTok)
  | FileTok.int i :: rest => some (i, rest)
  | _ => none

/-- Reading a `float` through a backward iterator. -/
def readReal : List FileTok → Option (ℚ × List FileTok)
  | FileTok.real r :: rest => some (r, rest)
  | _ => none

/-- The loop `for (j = subsetN-1; j >= 0; j--) *it >> subset[j]`: returns the words
`subset[0 .. n)`. -/
def readSubset : Nat → List FileTok → Option (List Int × List FileTok)
  | 0, it => some ([], it)
  | n + 1, it =>
    match readInt it with
    | none => none
    | some (w, it1) =>
      match readSubset n it1 with
      | none => none
      | some (ws, it2) => some (ws ++ [w], it2)

/-- The branch of `read` building one child from its reference: a fresh leaf taking
the next leaf value when the reference is `<= 0`, else the front of the queue. -/
def readChild (idx : Int) (leafIt : List ℚ) (queue : List CvDTreeNode) :
    Option (CvDTreeNode × List ℚ × List CvDTreeNode) :=
  if idx ≤ 0 then
    match leafIt with
    | v :: rest => some (CvDTreeNode.leaf v, rest, queue)
    | [] => none
  else
    match queue with
    | nd :: q => some (nd, leafIt, q)
    | [] => none

/-- The local state of `CascadeBoostTree::read`: what lies at and before each of the
two backward iterators (nearest first) and the queue of subtrees built. -/
structure ReadState where
  internalNodesIt : List FileTok
  leafValsuesIt : List ℚ
  internalNodesQueue : List CvDTreeNode

/-- The body of the loop of `read`: one record is read backwards (payload, `var_idx`,
`ridx`, `lidx`), the right child is built, then the left child, and the new parent
is pushed on the queue. -/
def readRecord (maxCatCount : Int) (st : ReadState) : Option ReadState :=
  let payload : Option ((Int → CvDTreeSplit) × List FileTok) :=
    if maxCatCount > 0 then
      match readSubset (subsetN maxCatCount).toNat st.internalNodesIt with
      | none => none
      | some (ws, it) => some (fun v => CvDTreeSplit.cat v ws, it)
    else
      match readReal st.internalNodesIt with
      | none => none
      | some (split_value, it) => some (fun v => CvDTreeSplit.ord v split_value, it)
  match payload with
  | none => none
  | some (mk, it1) =>
    match readInt it1 with
    | none => none
    | some (var_idx, it2) =>
      match readInt it2 with
      | none => none
      | some (ridx, it3) =>
        match readInt it3 with
        | none => none
        | some (lidx, it4) =>
          match readChild ridx st.leafValsuesIt st.internalNodesQueue with
          | none => none
          | some (right, lv1, q1) =>
            match readChild lidx lv1 q1 with
            | none => none
            | some (left, lv2, q2) =>
              some { internalNodesIt := it4, leafValsuesIt := lv2,
                     internalNodesQueue := q2 ++ [CvDTreeNode.node (mk var_idx) left right] }

/-- The loop `for (i = 0; i < rnode.size()/step; i++)` of `read`, run `count` times. -/
def readLoop (maxCatCount : Int) : Nat → ReadState → Option ReadState
  | 0, st => some st
  | count + 1, st =>
    match readRecord maxCatCount st with
    | none => none
    | some st1 => readLoop maxCatCount count st1

/-- The record length `step = 3 + (maxCatCount > 0 ? subsetN : 1)` of `read`. -/
def readStep (maxCatCount : Int) : Int :=
  3 + (if maxCatCount > 0 then subsetN maxCatCount else 1)

/-- The function `CascadeBoostTree::read`: the root rebuilt from the two sequences
(`root = internalNodesQueue.front()` after `rnode.size()/step` iterations). -/
def CascadeBoostTree.read (maxCatCount : Int) (internalNodes : List FileTok)
    (leafValues : List ℚ) : Option CvDTreeNode :=
  match readLoop maxCatCount (internalNodes.length / (readStep maxCatCount).toNat)
      { internalNodesIt := internalNodes.reverse, leafValsuesIt := leafValues.reverse,
        internalNodesQueue := [] } with
  | none => none
  | some st => st.internalNodesQueue.head?

/-- The split of a node is of the kind the stage mode uses: ordered when
`maxCatCount = 0`, categorical with exactly `subsetN` words when `maxCatCount > 0`. -/
def SplitOK (maxCatCount : Int) : CvDTreeSplit → Prop
  | .ord _ _ => maxCatCount = 0
  | .cat _ ws => 0 < maxCatCount ∧ (ws.length : Int) = subsetN maxCatCount

/-- A tree of the kind the stage mode builds: every split is of the mode's kind. -/
def ModeOK (maxCatCount : Int) : CvDTreeNode → Prop
  | .leaf _ => True
  | .node split l r => SplitOK maxCatCount split ∧ ModeOK maxCatCount l ∧ ModeOK maxCatCount r

/-! ### Breadth-first order (specification side) -/

/-- The internal node a child contributes to the queue: itself when it is internal. -/
def childInternal : CvDTreeNode → List CvDTreeNode
  | .leaf _ => []
  | .node s l r => [.node s l r]

/-- The leaf value a child contributes: its value when it is a leaf. -/
def childLeaf : CvDTreeNode → List ℚ
  | .leaf v => [v]
  | .node _ _ _ => []

/-- The internal children of a node, left before right. -/
def internalChildren : CvDTreeNode → List CvDTreeNode
  | .leaf _ => []
  | .node _ l r => childInternal l ++ childInternal r

/-- The values of the leaf children of a node, left before right. -/
def leafChildren : CvDTreeNode → List ℚ
  | .leaf _ => []
  | .node _ l r => childLeaf l ++ childLeaf r

/-- Breadth-first traversal from a queue of nodes: the front node, then the traversal
of the rest of the queue followed by the front node's internal children. -/
def bfsFrom : Nat → List CvDTreeNode → List CvDTreeNode
  | _, [] => []
  | 0, _ :: _ => []
  | fuel + 1, t :: rest => t :: bfsFrom fuel (rest ++ internalChildren t)

/-- The internal nodes of a tree in breadth-first order, left child before right. -/
def bfsOrder (root : CvDTreeNode) : List CvDTreeNode := bfsFrom root.numInternal [root]

/-- The leaf values of a tree in the order the leaves are met when the internal nodes
are visited in breadth-first order. -/
def leavesMet (root : CvDTreeNode) : List ℚ := (bfsOrder root).flatMap leafChildren

/-- Number of elements of one record of `internalNodes` as `write` emits it. -/
def recLen (maxCatCount : Int) : Nat :=
  3 + (if maxCatCount = 0 then 1 else (subsetN maxCatCount).toNat)

/-- The reference written for a child when `L` leaves and `K - 1` internal children
have been met so far. -/
def childRef (L : Nat) (K : Int) : CvDTreeNode → Int
  | .leaf _ => -(L : Int)
  | .node _ _ _ => K

/-- The record of one node given the counters before it. -/
def recOf (maxCatCount : Int) (L : Nat) (K : Int) : CvDTreeNode → List FileTok
  | .leaf _ => []
  | .node s l r =>
    FileTok.int (childRef L K l)
      :: FileTok.int (childRef (L + (childLeaf l).length) (K + (childInternal l).length) r)
      :: FileTok.int s.var_idx :: writePayload maxCatCount s

/-- The records of a list of nodes, the counters running through them. -/
def encode (maxCatCount : Int) : Nat → Int → List CvDTreeNode → List FileTok
  | _, _, [] => []
  | L, K, t :: ts =>
    recOf maxCatCount L K t
      ++ encode maxCatCount (L + (leafChildren t).length) (K + (internalChildren t).length) ts

/-- Number of leaves met before record `i` is emitted. -/
def leavesBefore (root : CvDTreeNode) (i : Nat) : Nat :=
  (((bfsOrder root).take i).flatMap leafChildren).length

/-- Number of internal children met before record `i` is emitted. -/
def internalBefore (root : CvDTreeNode) (i : Nat) : Nat :=
  (((bfsOrder root).take i).flatMap internalChildren).length

/-- What the reference `ref` written for a child must be, when `nLeaves` leaves and
`nInternal` internal children have been met before it: for a leaf, `-nLeaves`, the
position at which `leafValues` holds the leaf's value; for an internal child,
`nInternal + 1 > 0`, the position of the child in the breadth-first order, the root
being at position `0`. -/
def RefOK (root : CvDTreeNode) (leafValues : List ℚ) (toFloat : ℚ → ℚ)
    (nLeaves nInternal : Nat) : CvDTreeNode → Int → Prop
  | .leaf v, ref => ref = -(nLeaves : Int) ∧ leafValues[nLeaves]? = some (toFloat v)
  | .node s l r, ref =>
    ref = (nInternal : Int) + 1 ∧ 0 < ref
      ∧ (bfsOrder root)[nInternal + 1]? = some (.node s l r)

/-- The buffer after the values `vs` have been stored at `L, L+1, ...`. -/
def storeAt (f : Nat → ℚ) : Nat → List ℚ → Nat → ℚ
  | _, [] => f
  | L, v :: vs => storeAt (Function.update f L v) (L + 1) vs

/-! ## Single-precision arithmetic -/

/-- Rounding to the nearest integer, a tie going to the even neighbour (a function
meeting `RoundsToNearest`). -/
def roundHalfEven (x : ℚ) : Int :=
  if x - (⌊x⌋ : Int) < 1 / 2 then ⌊x⌋
  else if 1 / 2 < x - (⌊x⌋ : Int) then ⌊x⌋ + 1
  else if ⌊x⌋ % 2 = 0 then ⌊x⌋ else ⌊x⌋ + 1

/-- The exponent `e` of the values of type `float` around `x`: `2^e ≤ |x| < 2^(e+1)`,
and `-126`, the exponent of the denormalised values, for a smaller `x`. -/
def f32Exp (x : ℚ) : Int := max (Int.log 2 |x|) (-126)

/-- The value of type `float` (IEEE 754 binary32) nearest to `x`, a tie going to the even
significand: the multiple of the unit in the last place `2^(e-23)` nearest to `x`.
Overflow past `FLT_MAX` is not modelled; the values rounded here are counts of samples
and quotients of such counts. -/
def roundF32 (x : ℚ) : ℚ :=
  (roundHalfEven (x / 2 ^ (f32Exp x - 23)) : ℚ) * 2 ^ (f32Exp x - 23)

/-- The conversion `(float)n` of an `int`. -/
def f32ofInt (n : Int) : ℚ := roundF32 n

/-- The difference `a - b` of two `float` operands. -/
def f32sub (a b : ℚ) : ℚ := roundF32 (a - b)

/-- The product `a * b` of two `float` operands. -/
def f32mul (a b : ℚ) : ℚ := roundF32 (a * b)

/-- The quotient `a / b` of two `float` operands (`b` not zero). -/
def f32div (a b : ℚ) : ℚ := roundF32 (a / b)

/-! ## The boosted ensemble and its stage threshold -/

/-- The constant `FLT_EPSILON` (`2^-23`). -/
def FLT_EPSILON : ℚ := 1 / 8388608

/-- The part of a `CascadeBoost` object that `predict` and `isErrDesired` use: the
ensemble `weak`, the stage `threshold`, the targets, and, of the training data, the
sample count, `storage->label` and `getVarValue`. -/
structure CascadeBoost where
  maxCatCount : Int
  weak : List CvDTreeNode
  threshold : ℚ
  minTAR : ℚ
  maxFAR : ℚ
  sample_count : Nat
  label : Nat → ℚ
  getVarValue : Int → Nat → ℚ

/-- The function `CascadeBoost::predict(sampleIdx, applyThreshold)`: the loop
`sum += predict(sampleIdx)->value` over `weak`, then the optional subtraction. -/
def CascadeBoost.predict (b : CascadeBoost) (sampleIdx : Nat) (applyThreshold : Bool) : ℚ :=
  let sum := b.weak.foldl
    (fun sum wtree => sum + CascadeBoostTree.predict b.maxCatCount b.getVarValue sampleIdx wtree) 0
  if applyThreshold then sum - b.threshold else sum

/-- The values `isErrDesired` computes on its way. -/
structure ErrReport where
  responses : List ℚ
  numPos : Int
  numNeg : Int
  thresholdIdx : Int
  numTrueAccepts : Int
  TAR : ℚ
  numFalseAccepts : Int
  FAR : ℚ
  result : Bool

/-- The function `CascadeBoost::isErrDesired`: the object with its new `threshold`, and
the values computed.  The index is `(int)((1.0F - minTAR) * numPos)` and the two rates
are `((float) numTrueAccepts) / ((float) numPos)` and
`((float) numFalseAccepts) / ((float) numNeg)`, each operation in single precision.  The
access `responses[thresholdIdx]` outside the list is `none`.  With `numNeg = 0` the
source divides `0.f` by `0.f`, and the comparison of the resulting NaN with `maxFAR` is
false: the result is `false` then, and the field `FAR` holds `0` in place of the NaN. -/
def CascadeBoost.isErrDesired (b : CascadeBoost) : Option (CascadeBoost × ErrReport) :=
  let sampleCount := b.sample_count
  let responses := (((List.range sampleCount).filter (fun i => b.label i = 1)).map
    (fun i => b.predict i false)).insertionSort (· ≤ ·)
  let numPos : Int := responses.length
  let numNeg : Int := (sampleCount : Int) - numPos
  let thresholdIdx : Int := truncToInt (f32mul (f32sub 1 b.minTAR) (f32ofInt numPos))
  if 0 ≤ thresholdIdx ∧ thresholdIdx < numPos then
    let threshold := responses.getD thresholdIdx.toNat 0
    let b1 := { b with threshold := threshold }
    let numTrueAccepts : Int := numPos - thresholdIdx
      + ((responses.take thresholdIdx.toNat).filter
          (fun r => r - threshold > -FLT_EPSILON)).length
    let TAR : ℚ := f32div (f32ofInt numTrueAccepts) (f32ofInt numPos)
    let numFalseAccepts : Int := ((List.range sampleCount).filter
      (fun i => b.label i = 0 ∧ b1.predict i true > -FLT_EPSILON)).length
    let FAR : ℚ := f32div (f32ofInt numFalseAccepts) (f32ofInt numNeg)
    some (b1,
      { responses := responses, numPos := numPos, numNeg := numNeg,
        thresholdIdx := thresholdIdx, numTrueAccepts := numTrueAccepts, TAR := TAR,
        numFalseAccepts := numFalseAccepts, FAR := FAR,
        result := decide (numNeg ≠ 0 ∧ FAR ≤ b.maxFAR) })
  else none

/-- The raw scores `predict(i, false)` of the positive samples (`label(i) == 1.0F`),
in sample order. -/
def positiveScores (b : CascadeBoost) : List ℚ :=
  ((List.range b.sample_count).filter (fun i => b.label i = 1)).map (fun i => b.predict i false)

/-- A pool of two samples, the first positive and the second negative, that one stump
scores alike: both have response `1` on every feature and reach the right leaf. -/
def tiePool : CascadeBoost :=
  { maxCatCount := 0
    weak := [.node (.ord 0 0) (.leaf (-1)) (.leaf 1)]
    threshold := 0
    minTAR := 1 / 2
    maxFAR := 1 / 2
    sample_count := 2
    label := fun i => if i = 0 then 1 else 0
    getVarValue := fun _ _ => 1 }

/-- A pool of sixteen positive samples (`0` to `15`) and one negative sample (`16`); the
one stump of the ensemble scores the samples `14` and `15` with `1` and the others with
`-1`; `minTAR` is `0.125 + 2^-26`, the value of type `float` next above `0.125`. -/
def roundPool : CascadeBoost :=
  { maxCatCount := 0
    weak := [.node (.ord 0 (1 / 2)) (.leaf (-1)) (.leaf 1)]
    threshold := 0
    minTAR := 8388609 / 67108864
    maxFAR := 1 / 2
    sample_count := 17
    label := fun i => if i < 16 then 1 else 0
    getVarValue := fun _ si => if si = 14 ∨ si = 15 then 1 else 0 }

/-- A pool of one positive sample (`0`) and six negative samples, five of which the one
stump of the ensemble scores like the positive one, with `maxFAR` the value of type
`float` nearest to `5/6` (`13981013 / 2^24`, below `5/6`). -/
def farPool : CascadeBoost :=
  { maxCatCount := 0
    weak := [.node (.ord 0 (1 / 2)) (.leaf (-1)) (.leaf 1)]
    threshold := 0
    minTAR := 1 / 2
    maxFAR := 13981013 / 16777216
    sample_count := 7
    label := fun i => if i = 0 then 1 else 0
    getVarValue := fun _ si => if si = 6 then 0 else 1 }

/-- The pool `tiePool` with `minTAR = 2^-26`, a value of type `float` in `(0, 1)`. -/
def tinyPool : CascadeBoost := { tiePool with minTAR := 1 / 67108864 }

/-! ## Reweighting -/

/-- The boosting variants (`CvBoost::DISCRETE`, `REAL`, `LOGIT`, `GENTLE`). -/
inductive BoostType where
  | DISCRETE
  | REAL
  | LOGIT
  | GENTLE
  deriving DecidableEq, Repr

/-- The function `logRatio`, over an abstract `log`. -/
def logRatio (log : ℚ → ℚ) (val : ℚ) : ℚ :=
  let eps : ℚ := 1 / 100000
  let val := max val eps
  let val := min val (1 - eps)
  log (val / (1 - val))

/-- The loop `for (i = 0; i < n; i++) a[i] = f(i)`. -/
def forRange {α : Type} (n : Nat) (f : Nat → α) (a : Nat → α) : Nat → α :=
  fun i => if i < n then f i else a i

/-- The loop `for (i = 0; i < n; i++) sum += w(i)` starting from `0`. -/
def sumRange (n : Nat) (w : Nat → ℚ) : ℚ :=
  (List.range n).foldl (fun sum i => sum + w i) 0

/-- The loop `for (i = 0; i < n; i++) a[idx(i)] = v(i)`. -/
def scatter (n : Nat) (idx : Nat → Nat) (v : Nat → ℚ) (a : Nat → ℚ) : Nat → ℚ :=
  (List.range n).foldl (fun a i => Function.update a (idx i) (v i)) a

/-- Entry `si` of the sample-index row of `data_root`, as the constructor of
`CascadeBoostTrainData` fills it (`udst[si] = (unsigned short)si` when
`sample_count < 65536`, else `idst[si] = si`) and `get_sample_indices` returns it. -/
def rootSampleIndex (sample_count si : Nat) : Nat :=
  if sample_count < 65536 then si % 65536 else si

/-- The method `CvBoostTree::scale` of the base class: every node value is multiplied by
the factor. -/
def CvBoostTree.scale (C : ℚ) (tree : CvDTreeNode) : CvDTreeNode :=
  tree.mapLeaves (fun value => value * C)

/-- The part of a `CascadeBoost` object and of its training data that `update_weights`
reads and writes: `params.boost_type`, `data->sample_count`, the pool labels
(`data->responses`), `have_subsample`, `data->is_classifier`, the vectors `weights`,
`orig_response`, `weak_eval`, `sum_response`, `subsample_mask`, the copy of the responses
`fdata`, and the labels row of the buffer. -/
structure BoostState where
  boost_type : BoostType
  sample_count : Nat
  labels : Nat → ℚ
  have_subsample : Bool
  is_classifier : Bool
  weights : Nat → ℚ
  orig_response : Nat → Int
  weak_eval : Nat → ℚ
  sum_response : Nat → ℚ
  subsample_mask : Nat → Nat
  fdata : Nat → ℚ
  cvLabels : Nat → Nat

/-- The body of `CascadeBoost::update_weights(tree)` up to the renormalisation: the state,
the tree (rescaled in the discrete variant) and `sumW`.  `exp` and `log` are abstract.
In the first call (`!tree`) the table `p[2]` is indexed by the class labels: a label
other than `0` or `1` is an access outside it (`none`). -/
def update_weights_core (exp log : ℚ → ℚ) (maxCatCount : Int) (getVarValue : Int → Nat → ℚ)
    (st : BoostState) (tree : Option CvDTreeNode) :
    Option (BoostState × Option CvDTreeNode × ℚ) :=
  let n := st.sample_count
  let sampleIdx : Nat → Nat := rootSampleIndex n
  match tree with
  | none =>
    let classLabels : Nat → Int := fun i => truncToInt (st.labels (rootSampleIndex n i))
    let w0 : ℚ := 1 / (n : ℚ)
    let p : Int → ℚ := fun _ => 1
    if (List.range n).all (fun i => classLabels i = 0 ∨ classLabels i = 1) then
      let orig_response := forRange n (fun i => classLabels i * 2 - 1) st.orig_response
      let st1 : BoostState :=
        { st with
          orig_response := orig_response
          subsample_mask := forRange n (fun _ => 1) st.subsample_mask
          weights := forRange n (fun i => w0 * p (classLabels i)) st.weights
          cvLabels := forRange n (fun i => if n < 65536 then i % 65536 else i) st.cvLabels }
      let st2 : BoostState :=
        match st.boost_type with
        | .LOGIT =>
          { st1 with
            sum_response := forRange n (fun _ => 0) st1.sum_response
            fdata := scatter n sampleIdx (fun i => if orig_response i > 0 then 2 else -2)
              st1.fdata
            is_classifier := false }
        | .GENTLE =>
          { st1 with
            fdata := scatter n sampleIdx (fun i => (orig_response i : ℚ)) st1.fdata
            is_classifier := false }
        | _ => st1
      some (st2, none, 0)
    else none
  | some t =>
    let st1 : BoostState :=
      if st.have_subsample then
        let mask := forRange n (fun i => st.subsample_mask i ^^^ 1) st.subsample_mask
        { st with
          subsample_mask := mask
          weak_eval := forRange n
            (fun i => if mask i ≠ 0 then CascadeBoostTree.predict maxCatCount getVarValue i t
              else st.weak_eval i) st.weak_eval }
      else st
    match st.boost_type with
    | .DISCRETE =>
      let sumW := sumRange n st1.weights
      let err := sumRange n
        (fun i => st1.weights i * (if st1.weak_eval i ≠ (st1.orig_response i : ℚ) then 1 else 0))
      let err := if sumW ≠ 0 then err / sumW else err
      let C := -logRatio log err
      let scale : Bool → ℚ := fun miss => if miss then exp C else 1
      let w : Nat → ℚ := fun i =>
        st1.weights i * scale (decide (st1.weak_eval i ≠ (st1.orig_response i : ℚ)))
      some ({ st1 with weights := forRange n w st1.weights }, some (CvBoostTree.scale C t),
        sumRange n w)
    | .REAL =>
      let weak_eval := forRange n
        (fun i => exp (st1.weak_eval i * -(st1.orig_response i : ℚ))) st1.weak_eval
      let w : Nat → ℚ := fun i => st1.weights i * weak_eval i
      some ({ st1 with weak_eval := weak_eval, weights := forRange n w st1.weights }, some t,
        sumRange n w)
    | .LOGIT =>
      let lbWeightThresh : ℚ := FLT_EPSILON
      let lbZMax : ℚ := 10
      let sum_response := forRange n
        (fun i => st1.sum_response i + (1 / 2) * st1.weak_eval i) st1.sum_response
      let weak_eval := forRange n (fun i => exp (-2 * sum_response i)) st1.weak_eval
      let p : Nat → ℚ := fun i => 1 / (1 + weak_eval i)
      let w : Nat → ℚ := fun i => max (p i * (1 - p i)) lbWeightThresh
      let z : Nat → ℚ := fun i =>
        if st1.orig_response i > 0 then min (1 / p i) lbZMax else -min (1 / (1 - p i)) lbZMax
      some ({ st1 with
              sum_response := sum_response
              weak_eval := weak_eval
              weights := forRange n w st1.weights
              fdata := scatter n sampleIdx z st1.fdata }, some t, sumRange n w)
    | .GENTLE =>
      let weak_eval := forRange n
        (fun i => exp (st1.weak_eval i * -(st1.orig_response i : ℚ))) st1.weak_eval
      let w : Nat → ℚ := fun i => st1.weights i * weak_eval i
      some ({ st1 with weak_eval := weak_eval, weights := forRange n w st1.weights }, some t,
        sumRange n w)

/-- The function `CascadeBoost::update_weights(tree)`: the body, then the
renormalisation `if (sumW > FLT_EPSILON) weights[i] *= 1./sumW`. -/
def update_weights (exp log : ℚ → ℚ) (maxCatCount : Int) (getVarValue : Int → Nat → ℚ)
    (st : BoostState) (tree : Option CvDTreeNode) : Option (BoostState × Option CvDTreeNode) :=
  match update_weights_core exp log maxCatCount getVarValue st tree with
  | none => none
  | some (st1, t, sumW) =>
    if sumW > FLT_EPSILON then
      some ({ st1 with
              weights := forRange st1.sample_count (fun i => st1.weights i * (1 / sumW))
                st1.weights }, t)
    else some (st1, t)

/-- A pool of three samples labelled `1, 0, 1` before the first call of
`update_weights`, in the gentle variant. -/
def examplePool : BoostState :=
  { boost_type := .GENTLE
    sample_count := 3
    labels := fun i => if i = 1 then 0 else 1
    have_subsample := false
    is_classifier := true
    weights := fun _ => 0
    orig_response := fun _ => 0
    weak_eval := fun _ => 0
    sum_response := fun _ => 0
    subsample_mask := fun _ => 0
    fdata := fun _ => 0
    cvLabels := fun _ => 0 }

/-- The pool `examplePool` after the first call, with the responses `1, -1, 1` of a
weak tree in `weak_eval`. -/
def exampleRound : BoostState :=
  { examplePool with
    weights := fun _ => 1 / 3
    orig_response := fun i => if i = 1 then -1 else 1
    weak_eval := fun i => if i = 1 then -1 else 1
    subsample_mask := fun _ => 1
    fdata := fun i => if i = 1 then -1 else 1
    cvLabels := fun i => i
    is_classifier := false }

/-! ## Node splitting -/

/-- The bit pattern of a 32-bit `int`, as an unsigned number. -/
def toU32 (x : Int) : Nat := (x % 4294967296).toNat

/-- The 32-bit `int` with a given bit pattern (two's complement). -/
def ofU32 (u : Nat) : Int := if u < 2147483648 then (u : Int) else (u : Int) - 4294967296

/-- The operator `&` on 32-bit `int`s. -/
def and32 (a b : Int) : Int := ofU32 (toU32 a &&& toU32 b)

/-- The operator `|` on 32-bit `int`s. -/
def or32 (a b : Int) : Int := ofU32 (toU32 a ||| toU32 b)

/-- The expression `(nl & (d-1)) | (nr & -d)` of `split_node_data`. -/
def newIdxExpr (nl nr d : Int) : Int := or32 (and32 nl (d - 1)) (and32 nr (-d))

/-- The first loop of `split_node_data`, run `i` times from `nl = nr = 0`:
`newIdx[i] = (nl & (d-1)) | (nr & -d); nr += d; nl += d^1` with `d = dir[i]`.
Returns `newIdx`, `nl` and `nr`. -/
def split_newIdx (dir : Nat → Nat) (newIdx0 : Nat → Nat) : Nat → (Nat → Nat) × Nat × Nat
  | 0 => (newIdx0, 0, 0)
  | i + 1 =>
    let (newIdx, nl, nr) := split_newIdx dir newIdx0 i
    let d := dir i
    (Function.update newIdx i (newIdxExpr nl nr d).toNat, nl + (d ^^^ 1), nr + d)

/-- The positions `j < i` whose direction is `d`, in increasing order. -/
def dirPositions (dir : Nat → Nat) (d i : Nat) : List Nat :=
  (List.range i).filter (fun j => dir j = d)

/-- The response `f_i` of the latest tree on sample `i` as `update_weights` uses it: the
entry of `weak_eval` left by the training of the tree, or, when a subsample was used and
the sample was outside it (its inverted mask entry is non-zero), the value the tree
predicts for it. -/
def treeResponse (maxCatCount : Int) (getVarValue : Int → Nat → ℚ) (st : BoostState)
    (tree : CvDTreeNode) (i : Nat) : ℚ :=
  if st.have_subsample = true ∧ i < st.sample_count ∧ st.subsample_mask i ^^^ 1 ≠ 0 then
    CascadeBoostTree.predict maxCatCount getVarValue i tree
  else st.weak_eval i

/-- The fields of a `CvDTreeNode` by which the training data finds the samples of the
node: `sample_count`, `depth`, the buffer slot `buf_idx`, the `offset` inside the rows of
the slot, and the per-variable counts read by `get_num_valid`. -/
structure DataNode where
  sample_count : Nat
  depth : Int
  buf_idx : Nat
  offset : Nat
  num_valid : Nat → Nat

/-- The part of `CascadeBoostTrainData` the accessors and the splitter use.  `response`
is `storage->response(featureIdx, sampleIdx)`.  The working buffer `buf` is addressed by
slot, row and column: the element `buf_idx*get_length_subbuf() + vi*sample_count + col`
of the source is `buf buf_idx vi col` (columns stay below `sample_count` and rows do not
exceed `work_var_count` for the slices of well-formed nodes).  `valCacheEmpty` is
`valCache.empty()`, `direction` and `split_buf` are the two scratch vectors. -/
structure CascadeBoostTrainData where
  sample_count : Nat
  var_count : Nat
  maxCatCount : Int
  numPrecalcVal : Nat
  numPrecalcIdx : Nat
  work_var_count : Nat
  is_buf_16u : Bool
  max_depth : Int
  min_sample_count : Int
  response : Nat → Nat → ℚ
  valCache : Nat → Nat → ℚ
  valCacheEmpty : Bool
  buf : Nat → Nat → Nat → Nat
  direction : Nat → Nat
  split_buf : Nat → Nat

/-- What a buffer cell holds after a value is stored into it: the value cast to
`unsigned short` when the buffer is 16-bit. -/
def storeCell (is_buf_16u : Bool) (v : Nat) : Nat := if is_buf_16u then v % 65536 else v

namespace CascadeBoostTrainData

/-- Reading a buffer cell (a 16-bit cell holds a value below `65536`). -/
def cell (d : CascadeBoostTrainData) (buf_idx vi col : Nat) : Nat :=
  storeCell d.is_buf_16u (d.buf buf_idx vi col)

/-- The accessor `CvDTreeTrainData::get_cat_var_data(n, vi, buf)` of the base class: row
`vi` of the slice of node `n`. -/
def get_cat_var_data_base (d : CascadeBoostTrainData) (n : DataNode) (vi : Nat) : Nat → Nat :=
  fun i => d.cell n.buf_idx vi (n.offset + i)

/-- The function `CascadeBoostTrainData::get_sample_indices`. -/
def get_sample_indices (d : CascadeBoostTrainData) (n : DataNode) : Nat → Nat :=
  d.get_cat_var_data_base n d.work_var_count

/-- The function `CascadeBoostTrainData::get_cv_labels`. -/
def get_cv_labels (d : CascadeBoostTrainData) (n : DataNode) : Nat → Nat :=
  d.get_cat_var_data_base n (d.work_var_count - 1)

/-- The function `CascadeBoostTrainData::getVarValue`. -/
def getVarValue (d : CascadeBoostTrainData) (vi si : Nat) : ℚ :=
  if vi < d.numPrecalcVal ∧ ¬ d.valCacheEmpty = true then d.valCache vi si
  else d.response vi si

/-- The function `CascadeBoostTrainData::free_train_data`, as far as the value cache is
concerned: `valCache.release()`. -/
def free_train_data (d : CascadeBoostTrainData) : CascadeBoostTrainData :=
  { d with valCacheEmpty := true }

end CascadeBoostTrainData

/-- The row of `sample_count` cells after it is initialised with `si` at column `si`
and sorted in place by the routine `icvSortAux` with the auxiliary array `aux`
(`icvSortIntAux` or `icvSortUShAux`, the two instances of `CV_IMPLEMENT_QSORT_EX` with
the comparison `aux[i] < aux[j]`, a parameter here). -/
def precalcIdxRow (icvSortAux : List Nat → (Nat → ℚ) → List Nat) (is_buf_16u : Bool)
    (sample_count : Nat) (aux : Nat → ℚ) (row : Nat → Nat) : Nat → Nat :=
  let sorted := icvSortAux ((List.range sample_count).map (storeCell is_buf_16u)) aux
  fun col => if col < sample_count then storeCell is_buf_16u (sorted.getD col 0) else row col

/-- The loop `for (fi = range.start; fi < range.end; fi++)` of a precalculation body over
`Range(start, end)`. -/
def forFeatures {σ : Type} (start stop : Nat) (body : Nat → σ → σ) (s : σ) : σ :=
  (List.range' start (stop - start)).foldl (fun s fi => body fi s) s

/-- The body of `FeatureIdxOnlyPrecalc` for feature `fi`: the responses go to a scratch
array, row `fi` of slot `0` gets the sorted indices. -/
def featureIdxOnlyPrecalc (icvSortAux : List Nat → (Nat → ℚ) → List Nat) (fi : Nat)
    (d : CascadeBoostTrainData) : CascadeBoostTrainData :=
  { d with
    buf := fun s r =>
      if s = 0 ∧ r = fi then
        precalcIdxRow icvSortAux d.is_buf_16u d.sample_count (fun si => d.response fi si)
          (d.buf 0 fi)
      else d.buf s r }

/-- The body of `FeatureValAndIdxPrecalc` for feature `fi`: row `fi` of the value cache
gets the responses and is the auxiliary array of the sort of row `fi` of slot `0`. -/
def featureValAndIdxPrecalc (icvSortAux : List Nat → (Nat → ℚ) → List Nat) (fi : Nat)
    (d : CascadeBoostTrainData) : CascadeBoostTrainData :=
  let valRow : Nat → ℚ := fun si => if si < d.sample_count then d.response fi si
    else d.valCache fi si
  { d with
    valCache := fun f => if f = fi then valRow else d.valCache f
    buf := fun s r =>
      if s = 0 ∧ r = fi then
        precalcIdxRow icvSortAux d.is_buf_16u d.sample_count valRow (d.buf 0 fi)
      else d.buf s r }

/-- The body of `FeatureValOnlyPrecalc` for feature `fi`. -/
def featureValOnlyPrecalc (fi : Nat) (d : CascadeBoostTrainData) : CascadeBoostTrainData :=
  { d with
    valCache := fun f =>
      if f = fi then
        fun si => if si < d.sample_count then d.response fi si else d.valCache fi si
      else d.valCache f }

/-- The function `CascadeBoostTrainData::precalculate`: the three passes, each a loop
over its range of features. -/
def CascadeBoostTrainData.precalculate (icvSortAux : List Nat → (Nat → ℚ) → List Nat)
    (d : CascadeBoostTrainData) : CascadeBoostTrainData :=
  let minNum := min d.numPrecalcVal d.numPrecalcIdx
  let d1 := forFeatures d.numPrecalcVal d.numPrecalcIdx (featureIdxOnlyPrecalc icvSortAux) d
  let d2 := forFeatures 0 minNum (featureValAndIdxPrecalc icvSortAux) d1
  forFeatures minNum d.numPrecalcVal featureValOnlyPrecalc d2

/-- The function `CascadeBoostTrainData::get_ord_var_data`: the arrays `ordValues` and
`sortedIndices` of the node, each of `n->sample_count` elements. -/
def CascadeBoostTrainData.get_ord_var_data (icvSortAux : List Nat → (Nat → ℚ) → List Nat)
    (d : CascadeBoostTrainData) (n : DataNode) (vi : Nat) : List ℚ × List Nat :=
  let nodeSampleCount := n.sample_count
  let sampleIndices := d.get_sample_indices n
  if vi < d.numPrecalcIdx then
    let sortedIndices := (List.range nodeSampleCount).map (fun i => d.cell n.buf_idx vi (n.offset + i))
    if vi < d.numPrecalcVal then
      (sortedIndices.map (fun idx => d.valCache vi (sampleIndices idx)), sortedIndices)
    else
      (sortedIndices.map (fun idx => d.response vi (sampleIndices idx)), sortedIndices)
  else
    let sampleValues : Nat → ℚ :=
      if vi < d.numPrecalcVal then fun i => d.valCache vi (sampleIndices i)
      else fun i => d.response vi (sampleIndices i)
    let sortedIndicesBuf := icvSortAux (List.range nodeSampleCount) sampleValues
    (sortedIndicesBuf.map sampleValues, sortedIndicesBuf)

/-- The assumption on the sort routine: its result is a rearrangement of the array in
which no element has a smaller auxiliary value than an earlier one. -/
def SortsByAux (icvSortAux : List Nat → (Nat → ℚ) → List Nat) : Prop :=
  ∀ (arr : List Nat) (aux : Nat → ℚ),
    List.Perm (icvSortAux arr aux) arr
    ∧ List.Sorted (fun a b => aux a ≤ aux b) (icvSortAux arr aux)

/-- A sort routine meeting `SortsByAux`: insertion sort. -/
def insertionSortAux (arr : List Nat) (aux : Nat → ℚ) : List Nat :=
  arr.insertionSort (fun a b => aux a ≤ aux b)

/-- The sorted-index row of variable `vi` in the slice of a node. -/
def sortedIndexRow (d : CascadeBoostTrainData) (n : DataNode) (vi : Nat) : List Nat :=
  (List.range n.sample_count).map (fun i => d.cell n.buf_idx vi (n.offset + i))

/-- The sample-index row of a node, as a list. -/
def sampleIndexRow (d : CascadeBoostTrainData) (n : DataNode) : List Nat :=
  (List.range n.sample_count).map (d.get_sample_indices n)

/-- The sort invariant of a node: every cached row `vi < numPrecalcIdx` of its slice is a
permutation of `[0, n)` and lists the samples of the node, through the node's
sample-index row, in non-decreasing order of their response to `vi`. -/
def SortInvariant (d : CascadeBoostTrainData) (n : DataNode) : Prop :=
  ∀ vi, vi < d.numPrecalcIdx →
    List.Perm (sortedIndexRow d n vi) (List.range n.sample_count)
    ∧ List.Sorted (· ≤ ·)
        ((sortedIndexRow d n vi).map (fun j => d.response vi (d.get_sample_indices n j)))

/-- The value cache holds the responses: what `precalculate` establishes. -/
def ValCacheFilled (d : CascadeBoostTrainData) : Prop :=
  ∀ vi si, vi < d.numPrecalcVal → si < d.sample_count → d.valCache vi si = d.response vi si

/-- A pool of three samples and two features before precalculation: one cached value
row, two cached index rows, a 16-bit buffer. -/
def exampleData0 : CascadeBoostTrainData :=
  { sample_count := 3
    var_count := 2
    maxCatCount := 0
    numPrecalcVal := 1
    numPrecalcIdx := 2
    work_var_count := 3
    is_buf_16u := true
    max_depth := 3
    min_sample_count := 0
    response := fun f s => if f = 0 then (2 - (s : ℚ)) else if s = 1 then 5 else 1
    valCache := fun _ _ => 0
    valCacheEmpty := false
    buf := fun _ r c => if r = 3 then c else 0
    direction := fun i => i % 2
    split_buf := fun _ => 0 }

/-- The pool `exampleData0` after `precalculate` with insertion sort. -/
def exampleData : CascadeBoostTrainData := exampleData0.precalculate insertionSortAux

/-- The root node of `exampleData`: all three samples, slot `0`, offset `0`. -/
def exampleRoot : DataNode :=
  { sample_count := 3, depth := 0, buf_idx := 0, offset := 0, num_valid := fun _ => 3 }

/-! ## Splitting the data of a node -/

/-- The accessor `get_var_type(vi)`, the entry `var_type->data.i[vi]` for `vi < var_count`
as the constructor fills it: `vi` when `maxCatCount > 0` (categorical), `-(vi+1)`
otherwise (ordered). -/
def CascadeBoostTrainData.get_var_type (d : CascadeBoostTrainData) (vi : Nat) : Int :=
  if 0 < d.maxCatCount then (vi : Int) else -((vi : Int) + 1)

/-- The call `new_node(parent, count, storage_idx, offset)` of the base class: the
arguments become the fields of the node, the depth is one more than the parent's (`0`
without a parent); the per-variable counts are not set yet (`0` here). -/
def new_node (parent : Option DataNode) (count storage_idx offset : Nat) : DataNode :=
  { sample_count := count
    depth := match parent with
      | some p => p.depth + 1
      | none => 0
    buf_idx := storage_idx
    offset := offset
    num_valid := fun _ => 0 }

/-- The loop `for (vi < var_count) n->set_num_valid(vi, count)`. -/
def set_num_valid_all (var_count : Nat) (n : DataNode) (count : Nat) : DataNode :=
  { n with num_valid := fun vi => if vi < var_count then count else n.num_valid vi }

/-- A store into one cell of the working buffer. -/
def writeCell (buf : Nat → Nat → Nat → Nat) (s r c v : Nat) : Nat → Nat → Nat → Nat :=
  fun s1 r1 c1 => if s1 = s ∧ r1 = r ∧ c1 = c then v else buf s1 r1 c1

/-- The two-pointer loop of `split_node_data` over `i = 0, 1, ...`: element `i` has
direction `dAt i` and value `vAt i`; a non-zero direction stores the value at `*rdst++`,
a zero direction at `*ldst++`.  The state is the buffer and the columns of `ldst` (in
slot `lslot`) and `rdst` (in slot `rslot`), both in row `row`. -/
def splitLoop (is_buf_16u : Bool) (lslot rslot row : Nat) (dAt vAt : Nat → Nat) :
    Nat → (Nat → Nat → Nat → Nat) × Nat × Nat → (Nat → Nat → Nat → Nat) × Nat × Nat
  | 0, st => st
  | i + 1, st =>
    let prev := splitLoop is_buf_16u lslot rslot row dAt vAt i st
    if dAt i ≠ 0 then
      (writeCell prev.1 rslot row prev.2.2 (storeCell is_buf_16u (vAt i)), prev.2.1,
        prev.2.2 + 1)
    else
      (writeCell prev.1 lslot row prev.2.1 (storeCell is_buf_16u (vAt i)), prev.2.1 + 1,
        prev.2.2)

/-- One iteration `vi` of the loop "split ordered variables, keep both halves sorted":
skipped for a categorical variable or when `splitInputData` is false; otherwise the
sorted indices of the node are copied to `tempBuf`, the loop over `i < n1` stores
`newIdx[tempBuf[i]]` to the left or right child by `dir[tempBuf[i]]` (in the 16-bit
layout `rdst = ldst + nl`), and `CV_Assert(n1 == n)` follows (`none` when it fails). -/
def splitOrderedVar (icvSortAux : List Nat → (Nat → ℚ) → List Nat) (d : CascadeBoostTrainData)
    (node left right : DataNode) (nl : Nat) (splitInputData : Bool) (vi : Nat)
    (buf : Nat → Nat → Nat → Nat) : Option (Nat → Nat → Nat → Nat) :=
  if d.get_var_type vi ≥ 0 ∨ splitInputData = false then some buf
  else
    let n1 := node.num_valid vi
    let src_sorted_idx := ({ d with buf := buf }.get_ord_var_data icvSortAux node vi).2
    let tempBuf : Nat → Nat := fun i => src_sorted_idx.getD i 0
    let res :=
      if d.is_buf_16u = true then
        splitLoop d.is_buf_16u left.buf_idx left.buf_idx vi (fun i => d.direction (tempBuf i))
          (fun i => d.split_buf (tempBuf i)) n1 (buf, left.offset, left.offset + nl)
      else
        splitLoop d.is_buf_16u left.buf_idx right.buf_idx vi (fun i => d.direction (tempBuf i))
          (fun i => d.split_buf (tempBuf i)) n1 (buf, left.offset, right.offset)
    if n1 = node.sample_count then some res.1 else none

/-- The loop over `vi < numPrecalcIdx` of `split_node_data`. -/
def splitOrdered (icvSortAux : List Nat → (Nat → ℚ) → List Nat) (d : CascadeBoostTrainData)
    (node left right : DataNode) (nl : Nat) (splitInputData : Bool)
    (buf : Nat → Nat → Nat → Nat) : Option (Nat → Nat → Nat → Nat) :=
  (List.range d.numPrecalcIdx).foldl
    (fun acc vi => acc.bind (splitOrderedVar icvSortAux d node left right nl splitInputData vi))
    (some buf)

/-- The split of row `row` (the cv_labels row `workVarCount-1` or the sample-index row
`workVarCount`): the row of the node is copied to `tempBuf`, then element `i` goes to
the right child when `dir[i]` is non-zero and to the left child otherwise. -/
def splitCatRow (d : CascadeBoostTrainData) (node left right : DataNode) (row : Nat)
    (buf : Nat → Nat → Nat → Nat) : Nat → Nat → Nat → Nat :=
  let tempBuf : Nat → Nat := { d with buf := buf }.get_cat_var_data_base node row
  (splitLoop d.is_buf_16u left.buf_idx right.buf_idx row d.direction tempBuf node.sample_count
    (buf, left.offset, right.offset)).1

/-- The function `CascadeBoostTree::split_node_data`, given the slot `newBufIdx` returned by
`get_child_buf_idx(node)` and the direction vector `d.direction` as `complete_node_dir`
leaves it.  The result is the data (with `split_buf` holding `newIdx` and the children's
rows written to the buffer) and the two children; `none` when an assertion fails. -/
def CascadeBoostTree.split_node_data (icvSortAux : List Nat → (Nat → ℚ) → List Nat)
    (newBufIdx : Nat) (d : CascadeBoostTrainData) (node : DataNode) :
    Option (CascadeBoostTrainData × DataNode × DataNode) :=
  let n := node.sample_count
  let first := split_newIdx d.direction d.split_buf n
  let nl := first.2.1
  let nr := first.2.2
  let d0 : CascadeBoostTrainData := { d with split_buf := first.1 }
  let left := new_node (some node) nl newBufIdx node.offset
  let right := new_node (some node) nr newBufIdx (node.offset + nl)
  let splitInputData : Bool :=
    decide (node.depth + 1 < d.max_depth
      ∧ ((left.sample_count : Int) > d.min_sample_count
        ∨ (right.sample_count : Int) > d.min_sample_count))
  (splitOrdered icvSortAux d0 node left right nl splitInputData d.buf).map (fun buf1 =>
    let buf2 := splitCatRow d0 node left right (d.work_var_count - 1) buf1
    let buf3 := splitCatRow d0 node left right d.work_var_count buf2
    ({ d0 with buf := buf3 }, set_num_valid_all d.var_count left nl,
      set_num_valid_all d.var_count right nr))

/-! ## Index arrays and subsampling -/

/-- A 32-bit signed result: the value modulo `2^32` in two's complement. -/
def wrap32 (x : Int) : Int := ofU32 (toU32 x)

/-- The constant `INT_MIN`. -/
def INT_MIN : Int := -2147483648

/-- The comparison `icvCmpIntegers`: `*a - *b` in 32-bit arithmetic (wrap-around). -/
def icvCmpIntegers (a b : Int) : Int := wrap32 (a - b)

/-- The error codes raised by `CV_ERROR`, `CV_Error` and `CV_Assert` in the functions
below. -/
inductive CvStatus where
  | StsError
  | StsBadArg
  | StsBadSize
  | StsUnmatchedSizes
  | StsOutOfRange
  | StsUnsupportedFormat
  | StsAssert
  deriving DecidableEq, Repr

/-- The element types `CV_MAT_TYPE` distinguishes in `cvPreprocessIndexArray`. -/
inductive MatType where
  | CV_8UC1
  | CV_8SC1
  | CV_32SC1
  | other
  deriving DecidableEq, Repr

/-- A `CvMat` used as an index array: its shape, its element type, and its elements in
storage order (`data i` is the element at `i*step`). -/
structure CvMat where
  rows : Nat
  cols : Nat
  type : MatType
  data : Nat → Int

/-- The read `srci[i*step]` of a 32-bit element. -/
def CvMat.geti (m : CvMat) (i : Nat) : Int := wrap32 (m.data i)

/-- The read `srcb[i*step]` of a byte. -/
def CvMat.getb (m : CvMat) (i : Nat) : Int := m.data i % 256

/-- The scan "check if sorted already" of `cvPreprocessIndexArray`: `is_sorted` is
cleared at the first element with `val >= prev`, where `prev` starts at `INT_MIN`. -/
def scanSorted : List Int → Int → Bool
  | [], _ => true
  | val :: rest, prev => if val ≥ prev then false else scanSorted rest val

/-- The assumption on the library routine `qsort`: the result is a rearrangement of the
array, and it is in non-decreasing order whenever the comparison function agrees with the
order of the integers on the elements of the array. -/
def QsortSorts (qsort : List Int → (Int → Int → Int) → List Int) : Prop :=
  ∀ (arr : List Int) (cmp : Int → Int → Int),
    List.Perm (qsort arr cmp) arr
    ∧ ((∀ a ∈ arr, ∀ b ∈ arr, cmp a b ≤ 0 ↔ a ≤ b) → List.Sorted (· ≤ ·) (qsort arr cmp))

/-- A routine meeting `QsortSorts`: insertion sort by `cmp a b ≤ 0`. -/
def insertionQsort (arr : List Int) (cmp : Int → Int → Int) : List Int :=
  arr.insertionSort (fun a b => cmp a b ≤ 0)

/-- The function `cvPreprocessIndexArray(idx_arr, data_arr_size, check_for_duplicates)`:
the elements of the returned `1 × idx_selected` matrix, or the error raised.  The test
`CV_IS_MAT` is that of a header with positive `rows` and `cols`. -/
def cvPreprocessIndexArray (qsort : List Int → (Int → Int → Int) → List Int) (idx_arr : CvMat)
    (data_arr_size : Int) (check_for_duplicates : Bool) : Except CvStatus (List Int) :=
  if ¬ (0 < idx_arr.rows ∧ 0 < idx_arr.cols) then .error .StsBadArg
  else if idx_arr.rows ≠ 1 ∧ idx_arr.cols ≠ 1 then .error .StsBadSize
  else
    let idx_total := idx_arr.rows + idx_arr.cols - 1
    match idx_arr.type with
    | .other => .error .StsUnsupportedFormat
    | .CV_32SC1 =>
      if (idx_total : Int) > data_arr_size then .error .StsOutOfRange
      else
        let src := (List.range idx_total).map idx_arr.geti
        let is_sorted := scanSorted src INT_MIN
        let dsti := if is_sorted = true then src else qsort src icvCmpIntegers
        if dsti.getD 0 0 < 0 ∨ dsti.getD (idx_total - 1) 0 ≥ data_arr_size then
          .error .StsOutOfRange
        else if check_for_duplicates = true
            ∧ (List.range' 1 (idx_total - 1)).any
                (fun i => decide (dsti.getD i 0 ≤ dsti.getD (i - 1) 0)) = true then
          .error .StsBadArg
        else .ok dsti
    | _ =>
      if (idx_total : Int) ≠ data_arr_size then .error .StsUnmatchedSizes
      else
        let selected := (List.range idx_total).filter (fun i => idx_arr.getb i ≠ 0)
        if selected.length = 0 then .error .StsOutOfRange
        else .ok (selected.map (fun (i : Nat) => (i : Int)))

/-- The decision of `subsample_data` between the root copy and the compaction: the flag
`isMakeRootCopy` and the preprocessed index array `sidx` (empty without an index array).
The flag stays true without an index array, and with one when the preprocessed array has
`sample_count` elements and `sidx[i] == i` for all of them. -/
def subsample_isMakeRootCopy (qsort : List Int → (Int → Int → Int) → List Int)
    (sample_count : Nat) (subsample_idx : Option CvMat) : Except CvStatus (Bool × List Int) :=
  match subsample_idx with
  | none => .ok (true, [])
  | some m =>
    match cvPreprocessIndexArray qsort m sample_count false with
    | .error e => .error e
    | .ok sidx =>
      if sidx.length = sample_count then
        .ok ((List.range sample_count).all (fun (i : Nat) => decide (sidx.getD i 0 = (i : Int))),
          sidx)
      else .ok (false, sidx)

/-- The loop `co[sidx[i]*2]++` over the preprocessed index array: the count column of the
count/offset table, zero before. -/
def coCounts (sidx : List Int) : Int → Nat :=
  sidx.foldl (fun co s => Function.update co s (co s + 1)) (fun _ => 0)

/-- The loop over `i < sample_count` that fills the offset column: `co[i*2+1]` is the
running offset `cur_ofs` when the count of `i` is non-zero (and `cur_ofs` advances by the
count), `-1` otherwise.  The state after `i` iterations is the column and `cur_ofs`. -/
def coOffsets (cnt : Int → Nat) : Nat → (Int → Int) × Nat
  | 0 => (fun _ => 0, 0)
  | i + 1 =>
    let prev := coOffsets cnt i
    if cnt (i : Int) ≠ 0 then
      (Function.update prev.1 (i : Int) (prev.2 : Int), prev.2 + cnt (i : Int))
    else (Function.update prev.1 (i : Int) (-1), prev.2)

/-- The values stored at `dst[0], dst[1], ...` by the loop over the sorted indices of
the data root: an index `idx` with a non-zero count contributes the `count` consecutive
values `co[idx*2+1], co[idx*2+1] + 1, ...`. -/
def expandSorted (cnt : Int → Nat) (ofs : Int → Int) (src_idx : List Nat) : List Int :=
  src_idx.flatMap (fun (idx : Nat) =>
    if cnt (idx : Int) ≠ 0 then
      (List.range (cnt (idx : Int))).map (fun (t : Nat) => ofs (idx : Int) + (t : Int))
    else [])

/-- The stores `dst[j] = vals[j]` for `j = 0, 1, ...` into row `r` of slot `s` from
column `base`. -/
def writeRow (buf : Nat → Nat → Nat → Nat) (s r base : Nat) (vals : List Nat) :
    Nat → Nat → Nat → Nat :=
  fun s1 r1 c1 =>
    if s1 = s ∧ r1 = r ∧ base ≤ c1 ∧ c1 < base + vals.length then vals.getD (c1 - base) 0
    else buf s1 r1 c1

/-- One iteration `vi` of the loop "subsample ordered variables" of `subsample_data`: the
two assertions, then the stores into row `vi` of the slot of the new root (from column
`data_root->offset` in the 16-bit layout and `root->offset` in the 32-bit one). -/
def subsampleOrderedVar (icvSortAux : List Nat → (Nat → ℚ) → List Nat)
    (d : CascadeBoostTrainData) (data_root root : DataNode) (cnt : Int → Nat) (ofs : Int → Int)
    (vi : Nat) (buf : Nat → Nat → Nat → Nat) : Except CvStatus (Nat → Nat → Nat → Nat) :=
  if ¬ d.get_var_type vi < 0 then .error .StsAssert
  else
    let src_idx := ({ d with buf := buf }.get_ord_var_data icvSortAux data_root vi).2
    let num_valid := data_root.num_valid vi
    if num_valid ≠ d.sample_count then .error .StsAssert
    else
      let vals := expandSorted cnt ofs ((List.range num_valid).map (fun i => src_idx.getD i 0))
      .ok (writeRow buf root.buf_idx vi
        (if d.is_buf_16u = true then data_root.offset else root.offset)
        (vals.map (fun v => storeCell d.is_buf_16u v.toNat)))

/-- The row `dst[i] = src[sidx[i]]`, `i < count`, of the cv_labels and of the sample
indices. -/
def subsampleCatRow (d : CascadeBoostTrainData) (data_root root : DataNode) (sidx : List Int)
    (row : Nat) (buf : Nat → Nat → Nat → Nat) : Nat → Nat → Nat → Nat :=
  let src : Nat → Nat := { d with buf := buf }.get_cat_var_data_base data_root row
  writeRow buf root.buf_idx row root.offset
    (sidx.map (fun s => storeCell d.is_buf_16u (src s.toNat)))

/-- The compaction branch of `subsample_data` for the preprocessed index array `sidx`:
the new root in slot `1` at offset `0`, the count/offset table, the rows of the ordered
variables, of the cv_labels and of the sample indices, and the per-variable counts. -/
def subsampleCompact (icvSortAux : List Nat → (Nat → ℚ) → List Nat)
    (d : CascadeBoostTrainData) (data_root : DataNode) (sidx : List Int) :
    Except CvStatus (CascadeBoostTrainData × DataNode) :=
  let count := sidx.length
  let root := new_node none count 1 0
  let cnt := coCounts sidx
  let ofs := (coOffsets cnt d.sample_count).1
  match (List.range d.numPrecalcIdx).foldl
      (fun acc vi => acc.bind (subsampleOrderedVar icvSortAux d data_root root cnt ofs vi))
      (Except.ok d.buf) with
  | .error e => .error e
  | .ok buf1 =>
    let buf2 := subsampleCatRow d data_root root sidx (d.work_var_count - 1) buf1
    let buf3 := subsampleCatRow d data_root root sidx d.work_var_count buf2
    .ok ({ d with buf := buf3 }, set_num_valid_all d.var_count root count)

/-- The root-copy branch of `subsample_data`: a fresh node that takes the fields of the
data root and a copy of its per-variable counts. -/
def subsampleRootCopy (d : CascadeBoostTrainData) (data_root : DataNode) : DataNode :=
  { data_root with
    num_valid := fun vi =>
      if vi < d.var_count then data_root.num_valid vi else (new_node none 1 0 0).num_valid vi }

/-- The function `CascadeBoostTrainData::subsample_data(_subsample_idx)`: the data after
the call and the returned root. -/
def CascadeBoostTrainData.subsample_data (qsort : List Int → (Int → Int → Int) → List Int)
    (icvSortAux : List Nat → (Nat → ℚ) → List Nat) (d : CascadeBoostTrainData)
    (data_root : Option DataNode) (subsample_idx : Option CvMat) :
    Except CvStatus (CascadeBoostTrainData × DataNode) :=
  match data_root with
  | none => .error .StsError
  | some data_root =>
    match subsample_isMakeRootCopy qsort d.sample_count subsample_idx with
    | .error e => .error e
    | .ok r =>
      if r.1 = true then .ok (d, subsampleRootCopy d data_root)
      else subsampleCompact icvSortAux d data_root r.2

/-- The integer index array `1, 0` as a `1 × 2` matrix: the full pool of two samples,
not in order. -/
def unorderedIdx : CvMat :=
  { rows := 1, cols := 2, type := MatType.CV_32SC1, data := fun i => if i = 0 then 1 else 0 }

/-- The integer index array `2, 0, 2` as a `1 × 3` matrix: a subsample of the pool of
`exampleData` with a repeated sample. -/
def repeatedIdx : CvMat :=
  { rows := 1, cols := 3, type := MatType.CV_32SC1, data := fun i => if i = 1 then 0 else 2 }

/-! ## Ranges of the precalculation -/

/-- The enumerator `CvBoost::DISCRETE`. -/
def CvBoost.DISCRETE : Int := 0

/-- The enumerator `CvBoost::REAL`. -/
def CvBoost.REAL : Int := 1

/-- The enumerator `CvBoost::LOGIT`. -/
def CvBoost.LOGIT : Int := 2

/-- The enumerator `CvBoost::GENTLE`. -/
def CvBoost.GENTLE : Int := 3

/-- The fields of `CascadeBoostParams` the file reads or writes: those inherited from
`CvBoostParams` and `CvDTreeParams` (`boost_type`, `weak_count`, `weight_trim_rate`,
`max_depth`, `use_surrogates`, `use_1se_rule`, `truncate_pruned_tree`) and its own
(`maxCatCount`, `minTAR`, `maxFAR`). -/
structure CascadeBoostParams where
  boost_type : Int
  weak_count : Int
  weight_trim_rate : ℚ
  max_depth : Int
  use_surrogates : Bool
  use_1se_rule : Bool
  truncate_pruned_tree : Bool
  maxCatCount : Int
  minTAR : ℚ
  maxFAR : ℚ

namespace CascadeBoostParams

/-- The default constructor `CascadeBoostParams()`: `base` is the object as the default
constructor of the base class and the default initialisation of the own members leave it;
the member initialisers and the body follow. -/
def default (base : CascadeBoostParams) : CascadeBoostParams :=
  { base with
    minTAR := 995 / 1000
    maxFAR := 1 / 2
    boost_type := CvBoost.GENTLE
    maxCatCount := 0
    use_surrogates := false
    use_1se_rule := false
    truncate_pruned_tree := false }

/-- The constructor `CascadeBoostParams(_boostType, _maxCatCount, _minTAR, _maxFAR,
_weightTrimRate, _maxDepth, _maxWeakCount)`: `CvBoostParams_ctor` is the constructor of the
base class, called as `CvBoostParams(_boostType, _maxWeakCount, _weightTrimRate,
_maxDepth, false, 0)`; the body follows. -/
def create (CvBoostParams_ctor : Int → Int → ℚ → Int → Bool → CascadeBoostParams)
    (_boostType _maxCatCount : Int) (_minTAR _maxFAR _weightTrimRate : ℚ)
    (_maxDepth _maxWeakCount : Int) : CascadeBoostParams :=
  { CvBoostParams_ctor _boostType _maxWeakCount _weightTrimRate _maxDepth false with
    boost_type := CvBoost.GENTLE
    maxCatCount := _maxCatCount
    minTAR := _minTAR
    maxFAR := _maxFAR
    use_surrogates := false
    use_1se_rule := false
    truncate_pruned_tree := false }

end CascadeBoostParams

/-- One value written to a `QDataStream`: an `int`, a `float` or a `double`. -/
inductive QTok where
  | int (v : Int)
  | float (v : ℚ)
  | double (v : ℚ)
  deriving DecidableEq, Repr

/-- The function `CascadeBoostParams::store(stream)`: the stream after the six `<<`. -/
def CascadeBoostParams.store (p : CascadeBoostParams) (stream : List QTok) : List QTok :=
  stream ++ [.int p.boost_type, .float p.minTAR, .float p.maxFAR, .double p.weight_trim_rate,
    .int p.max_depth, .int p.weak_count]

/-- The function `CascadeBoostParams::load(stream)`: the object and the rest of the stream
after the six `>>`, each reading a value of the type of its field (`none` when the stream
does not start with such values). -/
def CascadeBoostParams.load (p : CascadeBoostParams) (stream : List QTok) :
    Option (CascadeBoostParams × List QTok) :=
  match stream with
  | .int boost_type :: .float minTAR :: .float maxFAR :: .double weight_trim_rate
      :: .int max_depth :: .int weak_count :: rest =>
    some ({ p with
            boost_type := boost_type
            minTAR := minTAR
            maxFAR := maxFAR
            weight_trim_rate := weight_trim_rate
            max_depth := max_depth
            weak_count := weak_count }, rest)
  | _ => none

/-- The integer index array `INT_MIN, 1` as a `1 × 2` matrix. -/
def wrapIdx : CvMat :=
  { rows := 1, cols := 2, type := MatType.CV_32SC1
    data := fun i => if i = 0 then -2147483648 else 1 }

/-! ## Sizes of the caches -/

/-- The assumption on the library function `cvRound`: for an argument within the range
of `int` the result is an integer nearest to it. -/
def RoundsToNearest (cvRound : ℚ → Int) : Prop :=
  ∀ x : ℚ, -2147483648 ≤ x → x ≤ 2147483647 → |((cvRound x : Int) : ℚ) - x| ≤ 1 / 2

/-- The part of the constructor `CascadeBoostTrainData(_storage, _numSamples,
_precalcValBufSize, _precalcIdxBufSize, _params)` that fixes `is_buf_16u`,
`numPrecalcVal` and `numPrecalcIdx` (in this order in the result): the check of the two
budgets, the width of the buffer, the two quotients rounded by `cvRound` and capped by
`var_count`, the assertion, and `numPrecalcIdx = 0` when `maxCatCount > 0`.  The sample
count is positive (the source divides by it). -/
def CascadeBoostTrainData.precalcCounts (cvRound : ℚ → Int) (_numSamples : Nat)
    (_precalcValBufSize _precalcIdxBufSize var_count maxCatCount : Int) :
    Except CvStatus (Bool × Int × Int) :=
  if _precalcValBufSize < 0 ∨ _precalcIdxBufSize < 0 then .error .StsOutOfRange
  else
    let sample_count := _numSamples
    let is_buf_16u : Bool := decide (sample_count < 65536)
    let numPrecalcVal :=
      min (cvRound (((_precalcValBufSize : ℚ) * 1048576) / ((4 * sample_count : Nat) : ℚ)))
        var_count
    let numPrecalcIdx :=
      min (cvRound (((_precalcIdxBufSize : ℚ) * 1048576)
        / ((((if is_buf_16u = true then 2 else 4) * sample_count : Nat)) : ℚ))) var_count
    if ¬ (numPrecalcIdx ≥ 0 ∧ numPrecalcVal ≥ 0) then .error .StsAssert
    else if maxCatCount > 0 then .ok (is_buf_16u, numPrecalcVal, 0)
    else .ok (is_buf_16u, numPrecalcVal, numPrecalcIdx)

/-- A pool of two positive samples (`0` and `1`) and one negative sample (`2`) with an
ensemble of one stump that scores the positives `1` and the negative `-1`. -/
def driftPool : CascadeBoost :=
  { maxCatCount := 0
    weak := [.node (.ord 0 (1 / 2)) (.leaf (-1)) (.leaf 1)]
    threshold := 0
    minTAR := 1 / 2
    maxFAR := 1 / 2
    sample_count := 3
    label := fun i => if i = 2 then 0 else 1
    getVarValue := fun vi si =>
      if vi = 0 then (if si = 2 then 0 else 1)
      else if vi = 1 then (if si = 0 then 0 else 1)
      else (if si = 2 then 1 else 0) }

/-! ## Training of a stage -/

/-- How a run of a modelled function ends: an assertion fails or an array is accessed
outside its bounds (`fault`), the iterations allowed to the model are used up
(`outOfFuel`), or it returns. -/
inductive Outcome (α : Type) where
  | fault
  | outOfFuel
  | ok (a : α)

/-- The boosting variant named by `params.boost_type` (`none` for an integer that is none
of the four enumerators, which `CvBoost::set_params` rejects). -/
def BoostType.ofInt (c : Int) : Option BoostType :=
  if c = CvBoost.DISCRETE then some .DISCRETE
  else if c = CvBoost.REAL then some .REAL
  else if c = CvBoost.LOGIT then some .LOGIT
  else if c = CvBoost.GENTLE then some .GENTLE
  else none

/-- The functions of the base classes that `CascadeBoost::train` calls and this file does
not define: `CvBoost::set_params` (from the current `params` member and the argument to
the new `params` member and the result), the training of one tree
`tree->train(data, subsample_mask, this)` (`none` when it returns false, else the tree
and the state it leaves), and `trim_weights`. -/
structure TrainOps where
  CvBoost_set_params : CascadeBoostParams → CascadeBoostParams → CascadeBoostParams × Bool
  treeTrain : CascadeBoost → BoostState → Option (CvDTreeNode × BoostState)
  trim_weights : CascadeBoostParams → BoostState → BoostState

/-- The function `CascadeBoost::set_params(_params)`: the `params` member, the object and
the result.  `minTAR` and `maxFAR` are stored first; `CvBoost::set_params` is called only
when the four comparisons before it in the `&&` chain hold. -/
def CascadeBoost.set_params
    (CvBoost_set_params : CascadeBoostParams → CascadeBoostParams → CascadeBoostParams × Bool)
    (params : CascadeBoostParams) (b : CascadeBoost) (_params : CascadeBoostParams) :
    CascadeBoostParams × CascadeBoost × Bool :=
  let b1 := { b with minTAR := _params.minTAR, maxFAR := _params.maxFAR }
  if b1.minTAR > 0 ∧ b1.minTAR < 1 ∧ b1.maxFAR > 0 ∧ b1.maxFAR < 1 then
    ((CvBoost_set_params params _params).1, b1, (CvBoost_set_params params _params).2)
  else (params, b1, false)

/-- The value `cvCountNonZero(subsample_mask)`. -/
def countNonZeroMask (st : BoostState) : Nat :=
  ((List.range st.sample_count).filter (fun i => st.subsample_mask i ≠ 0)).length

/-- The `do ... while` loop of `CascadeBoost::train`, at most `fuel` iterations of it:
a tree is trained (`break` when the training fails), pushed to `weak`, the weights are
updated and trimmed (`break` when the subsample mask has no non-zero entry), and the loop
goes on while `isErrDesired()` is false and `weak->total < params.weak_count`. -/
def boostLoop (ops : TrainOps) (exp log : ℚ → ℚ) (params : CascadeBoostParams) :
    Nat → CascadeBoost → BoostState → Outcome (CascadeBoost × BoostState)
  | 0, _, _ => .outOfFuel
  | fuel + 1, b, st =>
    match ops.treeTrain b st with
    | none => .ok (b, st)
    | some (tree, st1) =>
      match update_weights exp log b.maxCatCount b.getVarValue st1 (some tree) with
      | none => .fault
      | some (st2, t) =>
        let b1 := { b with weak := b.weak ++ [t.getD tree] }
        let st3 := ops.trim_weights params st2
        if countNonZeroMask st3 = 0 then .ok (b1, st3)
        else
          match b1.isErrDesired with
          | none => .fault
          | some (b2, r) =>
            if r.result = false ∧ (b2.weak.length : Int) < params.weak_count then
              boostLoop ops exp log params fuel b2 st3
            else .ok (b2, st3)

/-- The end of `CascadeBoost::train`: with `weak->total > 0` the data is marked as a
classifier and `isTrained` is true; otherwise `clear()` and `isTrained` stays false. -/
def trainFinish (b : CascadeBoost) (st : BoostState) : Bool × CascadeBoost × BoostState :=
  if b.weak.length > 0 then (true, b, { st with is_classifier := true })
  else (false, { b with weak := [] }, st)

/-- The function `CascadeBoost::train(_storage, _numSamples, _precalcValBufSize,
_precalcIdxBufSize, _params)`.  `hasData` tells whether `data` is set at the call,
`params` is the `params` member at the call, `b` carries the pool of the constructed
training data (`sample_count`, `label`, `getVarValue`) and `st` the vectors
`update_weights` is about to allocate.  The result of `set_params` is not used.  The
returned tuple is `isTrained`, the `params` member, the object and the state. -/
def CascadeBoost.train (ops : TrainOps) (exp log : ℚ → ℚ) (fuel : Nat) (hasData : Bool)
    (params : CascadeBoostParams) (b : CascadeBoost) (st : BoostState)
    (_params : CascadeBoostParams) :
    Outcome (Bool × CascadeBoostParams × CascadeBoost × BoostState) :=
  if hasData = true then .fault
  else
    let b0 := { b with weak := [], maxCatCount := _params.maxCatCount }
    let sp := CascadeBoost.set_params ops.CvBoost_set_params params b0 _params
    match BoostType.ofInt sp.1.boost_type with
    | none => .fault
    | some bt =>
      match update_weights exp log sp.2.1.maxCatCount sp.2.1.getVarValue
          { st with boost_type := bt, sample_count := sp.2.1.sample_count,
                    labels := sp.2.1.label } none with
      | none => .fault
      | some (st1, _) =>
        match boostLoop ops exp log sp.1 fuel sp.2.1 st1 with
        | .fault => .fault
        | .outOfFuel => .outOfFuel
        | .ok (b2, st2) =>
          .ok ((trainFinish b2 st2).1, sp.1, (trainFinish b2 st2).2.1, (trainFinish b2 st2).2.2)

/-- Base-class functions for the examples: `CvBoost::set_params` stores the argument with
`weak_count` raised to at least `1`, the training of a tree always yields the stump of
`driftPool`, and `trim_weights` leaves the subsample mask as it is. -/
def exampleOps : TrainOps :=
  { CvBoost_set_params := fun _ p => ({ p with weak_count := max p.weak_count 1 }, true)
    treeTrain := fun _ st => some (.node (.ord 0 (1 / 2)) (.leaf (-1)) (.leaf 1), st)
    trim_weights := fun _ st => st }

/-- Base-class functions for the examples in which no tree can be trained. -/
def failOps : TrainOps :=
  { exampleOps with treeTrain := fun _ _ => none }

/-- Parameters with `minTAR = 0.5`, `maxFAR = 0.5` and `weak_count = 2`. -/
def exampleParams : CascadeBoostParams :=
  { boost_type := CvBoost.GENTLE
    weak_count := 2
    weight_trim_rate := 95 / 100
    max_depth := 1
    use_surrogates := false
    use_1se_rule := false
    truncate_pruned_tree := false
    maxCatCount := 0
    minTAR := 1 / 2
    maxFAR := 1 / 2 }

/-- The parameters `exampleParams` with `maxFAR = 1.5`, outside `(0, 1)`. -/
def badParams : CascadeBoostParams := { exampleParams with maxFAR := 3 / 2 }

/-- Base-class functions for the examples in which only the first tree can be trained:
the stump on feature `1` while the ensemble is empty, a failure afterwards. -/
def retryOps : TrainOps :=
  { exampleOps with
    treeTrain := fun b st =>
      match b.weak with
      | [] => some (.node (.ord 1 (1 / 2)) (.leaf (-1)) (.leaf 1), st)
      | _ :: _ => none }

/-- The mask `1, 0, 1` as a `1 × 3` matrix of bytes. -/
def maskIdx : CvMat :=
  { rows := 1, cols := 3, type := MatType.CV_8UC1, data := fun i => if i = 1 then 0 else 1 }

/-! ## Sample storage -/

/-- The part of a `CascadeDataStorage` object that `setImage` uses: the number of rows of
the matrix `data`, the rows of `data` and the entries of `labels`.  Rows and labels are
addressed by the `int` index of the source; the indices `0 ≤ i < rows` are the ones
inside the two matrices. -/
structure CascadeDataStorage where
  rows : Int
  data : Int → List ℚ
  labels : Int → ℚ

/-- How a call of `setImage` ends: `qFatal` is reached (`fatal`); the function goes on to
`data.row(idx)` and `labels.at<float>(idx)` with an index outside the two matrices
(`outside`); or the row and the label are stored inside them (`stored`). -/
inductive SetImageResult where
  | fatal
  | outside (idx : Int)
  | stored (s : CascadeDataStorage)

/-- The constructor `CascadeDataStorage(rep, numSamples)`: `data` gets `numSamples` rows
of `area` columns and `labels` gets `numSamples` entries (zero here, not initialised in
the source). -/
def CascadeDataStorage.create (area : Nat) (numSamples : Int) : CascadeDataStorage :=
  { rows := numSamples, data := fun _ => List.replicate area 0, labels := fun _ => 0 }

/-- The function `CascadeDataStorage::setImage(sample, label, idx)`.  `flat` is the
preprocessed sample reshaped to one row, `copyTo src dst` is the row that
`src.copyTo(dst)` leaves.  The only test of `idx` in the function is `idx > data.rows`. -/
def CascadeDataStorage.setImage (copyTo : List ℚ → List ℚ → List ℚ) (s : CascadeDataStorage)
    (flat : List ℚ) (label : ℚ) (idx : Int) : SetImageResult :=
  if idx > s.rows then .fatal
  else if 0 ≤ idx ∧ idx < s.rows then
    .stored
      { s with
        data := Function.update s.data idx (copyTo flat (s.data idx))
        labels := Function.update s.labels idx label }
  else .outside idx

/-! ## Examples of trees -/

/-- A depth-2 ordered tree with three internal nodes and four leaves. -/
def exampleTree : CvDTreeNode :=
  .node (.ord 3 (1/2)) (.node (.ord 1 2) (.leaf 1) (.leaf 2)) (.node (.ord 7 5) (.leaf 3) (.leaf 4))

/-! ## Properties -/

theorem storeAt_append (f : Nat → ℚ) (L : Nat) (vs ws : List ℚ) :
    storeAt f L (vs ++ ws) = storeAt (storeAt f L vs) (L + vs.length) ws := by
  induction vs generalizing f L with
  | nil => simp [storeAt]
  | cons v vs ih =>
    show storeAt (Function.update f L v) (L + 1) (vs ++ ws) = _
    rw [ih]
    simp only [storeAt, List.length_cons]
    rw [show L + 1 + vs.length = L + (vs.length + 1) by omega]

theorem map_range_storeAt (f : Nat → ℚ) (L : Nat) (vs : List ℚ) :
    (List.range (L + vs.length)).map (storeAt f L vs) = (List.range L).map f ++ vs := by
  induction vs generalizing f L with
  | nil => simp [storeAt]
  | cons v vs ih =>
    simp only [storeAt, List.length_cons]
    have h := ih (Function.update f L v) (L + 1)
    rw [show L + (vs.length + 1) = L + 1 + vs.length by omega, h, List.range_succ,
      List.map_append]
    simp only [List.map_cons, List.map_nil, Function.update_same, List.append_assoc,
      List.singleton_append, List.append_cancel_right_eq]
    apply List.map_congr_left
    intro a ha
    exact Function.update_noteq (by have := List.mem_range.mp ha; omega) _ _

theorem writeChild_eq (size : Int) (toFloat : ℚ → ℚ) (child : CvDTreeNode)
    (queue : List CvDTreeNode) (st : WriteState) (L : Nat)
    (hL : st.leafValIdx = -(L : Int))
    (hsz : (L : Int) + ((childLeaf child).length : Int) ≤ size) :
    writeChild size toFloat child queue st = some (queue ++ childInternal child,
      { internalNodes := st.internalNodes ++ [FileTok.int (childRef L st.internalNodeIdx child)]
        leafVals := storeAt st.leafVals L ((childLeaf child).map toFloat)
        leafValIdx := -((L + (childLeaf child).length : Nat) : Int)
        internalNodeIdx := st.internalNodeIdx + ((childInternal child).length : Int) }) := by
  cases child with
  | leaf v =>
    have h1 : 0 ≤ -st.leafValIdx ∧ -st.leafValIdx < size := by
      simp only [childLeaf, List.length_singleton] at hsz
      rw [hL]; constructor <;> omega
    simp only [writeChild, h1, and_self, if_true, childInternal, List.append_nil, childRef,
      childLeaf, List.map_cons, List.map_nil, storeAt, List.length_singleton, List.length_nil]
    rw [hL]
    simp
    omega
  | node s l r =>
    simp [writeChild, childInternal, childRef, childLeaf, storeAt, hL]

theorem childInternal_numInternal (c : CvDTreeNode) :
    ((childInternal c).map CvDTreeNode.numInternal).sum = c.numInternal := by
  cases c <;> simp [childInternal, CvDTreeNode.numInternal]

theorem childInternal_numLeaves (c : CvDTreeNode) :
    ((childInternal c).map CvDTreeNode.numLeaves).sum + (childLeaf c).length = c.numLeaves := by
  cases c <;> simp [childInternal, childLeaf, CvDTreeNode.numLeaves]

theorem childInternal_not_leaf (c : CvDTreeNode) :
    ∀ t ∈ childInternal c, t.isLeaf = false := by
  cases c <;> simp [childInternal, CvDTreeNode.isLeaf]

theorem internalChildren_not_leaf (c : CvDTreeNode) :
    ∀ t ∈ internalChildren c, t.isLeaf = false := by
  cases c with
  | leaf v => simp [internalChildren]
  | node s l r =>
    intro t ht
    simp only [internalChildren, List.mem_append] at ht
    rcases ht with ht | ht
    · exact childInternal_not_leaf l t ht
    · exact childInternal_not_leaf r t ht

theorem numInternal_pos_of_not_leaf (t : CvDTreeNode) (h : t.isLeaf = false) :
    0 < t.numInternal := by
  cases t with
  | leaf v => simp [CvDTreeNode.isLeaf] at h
  | node s l r => simp [CvDTreeNode.numInternal]

theorem writeLoop_eq (maxCatCount size : Int) (toFloat : ℚ → ℚ) :
    ∀ (fuel : Nat) (q : List CvDTreeNode) (st : WriteState) (L : Nat),
      st.leafValIdx = -(L : Int) →
      (∀ t ∈ q, t.isLeaf = false) →
      (q.map CvDTreeNode.numInternal).sum ≤ fuel →
      (L : Int) + (((q.map CvDTreeNode.numLeaves).sum : Nat) : Int) ≤ size →
      writeLoop maxCatCount size toFloat fuel q st = some
        { internalNodes :=
            st.internalNodes ++ encode maxCatCount L st.internalNodeIdx (bfsFrom fuel q)
          leafVals := storeAt st.leafVals L (((bfsFrom fuel q).flatMap leafChildren).map toFloat)
          leafValIdx := -((L + ((bfsFrom fuel q).flatMap leafChildren).length : Nat) : Int)
          internalNodeIdx := st.internalNodeIdx
            + ((((bfsFrom fuel q).flatMap internalChildren).length : Nat) : Int) } := by
  intro fuel
  induction fuel with
  | zero =>
    intro q st L hL hq hfuel hsz
    cases q with
    | nil =>
      cases st
      simp_all [writeLoop, bfsFrom, encode, storeAt]
    | cons t rest =>
      have := numInternal_pos_of_not_leaf t (hq t (List.mem_cons_self _ _))
      simp only [List.map_cons, List.sum_cons] at hfuel
      omega
  | succ fuel ih =>
    intro q st L hL hq hfuel hsz
    cases q with
    | nil =>
      cases st
      simp_all [writeLoop, bfsFrom, encode, storeAt]
    | cons t rest =>
      cases t with
      | leaf v =>
        have := hq (CvDTreeNode.leaf v) (List.mem_cons_self _ _)
        simp [CvDTreeNode.isLeaf] at this
      | node s l r =>
        have hlv := childInternal_numLeaves l
        have hrv := childInternal_numLeaves r
        have hli := childInternal_numInternal l
        have hri := childInternal_numInternal r
        simp only [List.map_cons, List.sum_cons, CvDTreeNode.numInternal,
          CvDTreeNode.numLeaves] at hfuel hsz
        have e1 := writeChild_eq size toFloat l (CvDTreeNode.node s l r :: rest) st L hL
          (by omega)
        simp only [writeLoop]
        rw [e1]
        simp only []
        have e2 := writeChild_eq size toFloat r
          (CvDTreeNode.node s l r :: rest ++ childInternal l)
          { internalNodes :=
              st.internalNodes ++ [FileTok.int (childRef L st.internalNodeIdx l)]
            leafVals := storeAt st.leafVals L ((childLeaf l).map toFloat)
            leafValIdx := -((L + (childLeaf l).length : Nat) : Int)
            internalNodeIdx := st.internalNodeIdx + ((childInternal l).length : Int) }
          (L + (childLeaf l).length) rfl (by omega)
        rw [e2]
        simp only [List.cons_append, List.tail_cons]
        rw [ih _ _ (L + (childLeaf l).length + (childLeaf r).length) rfl]
        · simp only [bfsFrom, encode, recOf, internalChildren, leafChildren,
            List.flatMap_cons, List.length_append, List.map_append, storeAt_append,
            List.length_map, List.append_assoc, List.cons_append, List.nil_append,
            List.singleton_append]
          push_cast
          simp only [add_assoc]
        · intro t ht
          simp only [List.append_assoc, List.mem_append] at ht
          rcases ht with ht | ht | ht
          · exact hq t (List.mem_cons_of_mem _ ht)
          · exact childInternal_not_leaf l t ht
          · exact childInternal_not_leaf r t ht
        · simp only [List.map_append, List.sum_append]
          omega
        · simp only [List.map_append, List.sum_append]
          omega

theorem readLoop_add (maxCatCount : Int) (a b : Nat) (st : ReadState) :
    readLoop maxCatCount (a + b) st =
      (readLoop maxCatCount a st).bind (readLoop maxCatCount b) := by
  induction a generalizing st with
  | zero => simp [readLoop]
  | succ a ih =>
    rw [show a + 1 + b = (a + b) + 1 by omega]
    simp only [readLoop]
    cases readRecord maxCatCount st with
    | none => rfl
    | some st1 => exact ih st1

theorem readSubset_eq (ws : List Int) (rest : List FileTok) :
    readSubset ws.length ((ws.map FileTok.int).reverse ++ rest) = some (ws, rest) := by
  induction ws using List.reverseRecOn with
  | nil => rfl
  | append_singleton init w ih =>
    simp only [List.length_append, List.length_singleton, List.map_append, List.map_cons,
      List.map_nil, List.reverse_append, List.reverse_cons, List.reverse_nil, List.nil_append,
      List.singleton_append, List.cons_append, readSubset, readInt]
    rw [ih]

theorem map_range_getD (ws : List Int) :
    (List.range ws.length).map (fun i => FileTok.int (ws.getD i 0)) = ws.map FileTok.int := by
  apply List.ext_getElem
  · simp
  · intro i h1 h2
    simp only [List.length_map, List.length_range] at h1
    simp [List.getD_eq_getElem?_getD, h1]

theorem childInternal_mapLeaves (f : ℚ → ℚ) (c : CvDTreeNode) :
    (childInternal c).map (CvDTreeNode.mapLeaves f) = childInternal (c.mapLeaves f) := by
  cases c <;> simp [childInternal, CvDTreeNode.mapLeaves]

theorem readChild_eq (f : ℚ → ℚ) (c : CvDTreeNode) (L : Nat) (K : Int) (hK : 1 ≤ K)
    (Y : List ℚ) (Q : List CvDTreeNode) :
    readChild (childRef L K c) (((childLeaf c).map f).reverse ++ Y)
        ((childInternal (c.mapLeaves f)).reverse ++ Q)
      = some (c.mapLeaves f, Y, Q) := by
  cases c with
  | leaf v => simp [readChild, childRef, childLeaf, childInternal, CvDTreeNode.mapLeaves]
  | node s l r =>
    have : ¬ K ≤ 0 := by omega
    simp [readChild, childRef, childLeaf, childInternal, CvDTreeNode.mapLeaves, this]

theorem readRecord_eq (maxCatCount : Int) (f : ℚ → ℚ) (s : CvDTreeSplit)
    (l r : CvDTreeNode) (L : Nat) (K : Int) (hK : 1 ≤ K)
    (hmode : SplitOK maxCatCount s) (X : List FileTok) (Y : List ℚ)
    (Q : List CvDTreeNode) :
    readRecord maxCatCount
        { internalNodesIt := (recOf maxCatCount L K (CvDTreeNode.node s l r)).reverse ++ X
          leafValsuesIt := ((leafChildren (CvDTreeNode.node s l r)).map f).reverse ++ Y
          internalNodesQueue :=
            ((Q ++ internalChildren (CvDTreeNode.node s l r)).map
              (CvDTreeNode.mapLeaves f)).reverse }
      = some
        { internalNodesIt := X
          leafValsuesIt := Y
          internalNodesQueue := (Q.map (CvDTreeNode.mapLeaves f)).reverse
            ++ [CvDTreeNode.node s (l.mapLeaves f) (r.mapLeaves f)] } := by
  have hr := readChild_eq f r (L + (childLeaf l).length) (K + ((childInternal l).length : Int))
    (by omega) (((childLeaf l).map f).reverse ++ Y)
    ((childInternal (l.mapLeaves f)).reverse ++ (Q.map (CvDTreeNode.mapLeaves f)).reverse)
  have hl := readChild_eq f l L K hK Y ((Q.map (CvDTreeNode.mapLeaves f)).reverse)
  have hq : ((Q ++ internalChildren (CvDTreeNode.node s l r)).map
        (CvDTreeNode.mapLeaves f)).reverse
      = (childInternal (r.mapLeaves f)).reverse ++ ((childInternal (l.mapLeaves f)).reverse
          ++ (Q.map (CvDTreeNode.mapLeaves f)).reverse) := by
    simp [internalChildren, childInternal_mapLeaves]
  have hv : ((leafChildren (CvDTreeNode.node s l r)).map f).reverse ++ Y
      = ((childLeaf r).map f).reverse ++ (((childLeaf l).map f).reverse ++ Y) := by
    simp [leafChildren]
  rw [hq, hv]
  cases s with
  | ord v c =>
    have h0 : maxCatCount = 0 := hmode
    subst h0
    simp only [readRecord, recOf, writePayload, if_true, List.reverse_cons, List.reverse_nil,
      List.nil_append, List.append_assoc, List.singleton_append, List.cons_append, readReal,
      readInt, gt_iff_lt, lt_self_iff_false, if_false, CvDTreeSplit.c, CvDTreeSplit.var_idx,
      hr, hl]
  | cat v ws =>
    obtain ⟨hpos, hlen⟩ : 0 < maxCatCount ∧ (ws.length : Int) = subsetN maxCatCount := hmode
    have hne : maxCatCount ≠ 0 := by omega
    have hpos : maxCatCount > 0 := hpos
    have hn : (subsetN maxCatCount).toNat = ws.length := by omega
    have hp : writePayload maxCatCount (CvDTreeSplit.cat v ws) = ws.map FileTok.int := by
      simp only [writePayload, hne, if_false, hn, CvDTreeSplit.subset]
      exact map_range_getD ws
    have hs := readSubset_eq ws
      (FileTok.int v
        :: FileTok.int (childRef (L + (childLeaf l).length)
            (K + ((childInternal l).length : Int)) r)
        :: FileTok.int (childRef L K l) :: X)
    simp only [readRecord, recOf, hp, hpos, if_true, List.reverse_cons, List.append_assoc,
      List.singleton_append, List.cons_append, List.nil_append, hn, hs, readInt,
      CvDTreeSplit.var_idx, hr, hl]

theorem childInternal_modeOK (maxCatCount : Int) (c : CvDTreeNode)
    (h : ModeOK maxCatCount c) : ∀ t ∈ childInternal c, ModeOK maxCatCount t := by
  cases c with
  | leaf v => simp [childInternal]
  | node s l r =>
    intro t ht
    simp only [childInternal, List.mem_singleton] at ht
    subst ht
    exact h

theorem readLoop_encode (maxCatCount : Int) (f : ℚ → ℚ) :
    ∀ (fuel : Nat) (q : List CvDTreeNode) (L : Nat) (K : Int), 1 ≤ K →
      (∀ t ∈ q, t.isLeaf = false) → (∀ t ∈ q, ModeOK maxCatCount t) →
      (q.map CvDTreeNode.numInternal).sum ≤ fuel →
      ∀ (X : List FileTok) (Y : List ℚ),
        readLoop maxCatCount (bfsFrom fuel q).length
            { internalNodesIt := (encode maxCatCount L K (bfsFrom fuel q)).reverse ++ X
              leafValsuesIt := (((bfsFrom fuel q).flatMap leafChildren).map f).reverse ++ Y
              internalNodesQueue := [] }
          = some
            { internalNodesIt := X
              leafValsuesIt := Y
              internalNodesQueue := (q.map (CvDTreeNode.mapLeaves f)).reverse } := by
  intro fuel
  induction fuel with
  | zero =>
    intro q L K hK hq hm hfuel X Y
    cases q with
    | nil => simp [bfsFrom, encode, readLoop]
    | cons t rest =>
      have := numInternal_pos_of_not_leaf t (hq t (List.mem_cons_self _ _))
      simp only [List.map_cons, List.sum_cons] at hfuel
      omega
  | succ fuel ih =>
    intro q L K hK hq hm hfuel X Y
    cases q with
    | nil => simp [bfsFrom, encode, readLoop]
    | cons t rest =>
      cases t with
      | leaf v =>
        have := hq (CvDTreeNode.leaf v) (List.mem_cons_self _ _)
        simp [CvDTreeNode.isLeaf] at this
      | node s l r =>
        have hli := childInternal_numInternal l
        have hri := childInternal_numInternal r
        have hmt : ModeOK maxCatCount (CvDTreeNode.node s l r) := hm _ (List.mem_cons_self _ _)
        simp only [List.map_cons, List.sum_cons, CvDTreeNode.numInternal] at hfuel
        have hih := ih (rest ++ internalChildren (CvDTreeNode.node s l r))
          (L + (leafChildren (CvDTreeNode.node s l r)).length)
          (K + ((internalChildren (CvDTreeNode.node s l r)).length : Int)) (by omega)
          (by
            intro t ht
            rcases List.mem_append.mp ht with ht | ht
            · exact hq t (List.mem_cons_of_mem _ ht)
            · exact internalChildren_not_leaf _ t ht)
          (by
            intro t ht
            rcases List.mem_append.mp ht with ht | ht
            · exact hm t (List.mem_cons_of_mem _ ht)
            · simp only [internalChildren, List.mem_append] at ht
              rcases ht with ht | ht
              · exact childInternal_modeOK _ l hmt.2.1 t ht
              · exact childInternal_modeOK _ r hmt.2.2 t ht)
          (by
            simp only [internalChildren, List.map_append, List.sum_append]
            omega)
          ((recOf maxCatCount L K (CvDTreeNode.node s l r)).reverse ++ X)
          (((leafChildren (CvDTreeNode.node s l r)).map f).reverse ++ Y)
        simp only [bfsFrom, List.length_cons, encode, List.reverse_append, List.flatMap_cons,
          List.map_append, List.append_assoc]
        rw [readLoop_add, hih]
        simp only [Option.some_bind, readLoop]
        rw [readRecord_eq maxCatCount f s l r L K hK hmt.1]
        simp [CvDTreeNode.mapLeaves]

theorem numLeaves_le_two_pow_depth (t : CvDTreeNode) : t.numLeaves ≤ 2 ^ t.depth := by
  induction t with
  | leaf v => simp [CvDTreeNode.numLeaves, CvDTreeNode.depth]
  | node s l r ihl ihr =>
    simp only [CvDTreeNode.numLeaves, CvDTreeNode.depth, pow_succ]
    have h1 : 2 ^ l.depth ≤ 2 ^ max l.depth r.depth :=
      Nat.pow_le_pow_right (by decide) (le_max_left _ _)
    have h2 : 2 ^ r.depth ≤ 2 ^ max l.depth r.depth :=
      Nat.pow_le_pow_right (by decide) (le_max_right _ _)
    omega

theorem numLeaves_eq_numInternal_succ (t : CvDTreeNode) : t.numLeaves = t.numInternal + 1 := by
  induction t with
  | leaf v => rfl
  | node s l r ihl ihr => simp only [CvDTreeNode.numLeaves, CvDTreeNode.numInternal]; omega

theorem numLeaves_le_leafBufSize (t : CvDTreeNode) (max_depth : Int)
    (h : (t.depth : Int) ≤ max_depth) : (t.numLeaves : Int) ≤ leafBufSize max_depth := by
  have h0 : ¬ max_depth < 0 := by omega
  simp only [leafBufSize, h0, if_false]
  have h1 : t.numLeaves ≤ 2 ^ max_depth.toNat :=
    le_trans (numLeaves_le_two_pow_depth t) (Nat.pow_le_pow_right (by decide) (by omega))
  exact_mod_cast h1

theorem bfsFrom_not_leaf :
    ∀ (fuel : Nat) (q : List CvDTreeNode), (∀ t ∈ q, t.isLeaf = false) →
      ∀ t ∈ bfsFrom fuel q, t.isLeaf = false := by
  intro fuel
  induction fuel with
  | zero => intro q _ t ht; cases q <;> simp [bfsFrom] at ht
  | succ fuel ih =>
    intro q hq t ht
    cases q with
    | nil => simp [bfsFrom] at ht
    | cons a rest =>
      simp only [bfsFrom, List.mem_cons] at ht
      rcases ht with ht | ht
      · subst ht; exact hq _ (List.mem_cons_self _ _)
      · refine ih _ ?_ t ht
        intro u hu
        rcases List.mem_append.mp hu with hu | hu
        · exact hq u (List.mem_cons_of_mem _ hu)
        · exact internalChildren_not_leaf _ u hu

theorem internalChildren_numInternal (t : CvDTreeNode) (h : t.isLeaf = false) :
    ((internalChildren t).map CvDTreeNode.numInternal).sum + 1 = t.numInternal := by
  cases t with
  | leaf v => simp [CvDTreeNode.isLeaf] at h
  | node s l r =>
    simp only [internalChildren, List.map_append, List.sum_append, childInternal_numInternal,
      CvDTreeNode.numInternal]

theorem bfsFrom_length :
    ∀ (fuel : Nat) (q : List CvDTreeNode), (∀ t ∈ q, t.isLeaf = false) →
      (q.map CvDTreeNode.numInternal).sum ≤ fuel →
      (bfsFrom fuel q).length = (q.map CvDTreeNode.numInternal).sum := by
  intro fuel
  induction fuel with
  | zero =>
    intro q hq hfuel
    cases q with
    | nil => rfl
    | cons t rest =>
      have := numInternal_pos_of_not_leaf t (hq t (List.mem_cons_self _ _))
      simp only [List.map_cons, List.sum_cons] at hfuel
      omega
  | succ fuel ih =>
    intro q hq hfuel
    cases q with
    | nil => rfl
    | cons t rest =>
      have ht := internalChildren_numInternal t (hq t (List.mem_cons_self _ _))
      simp only [List.map_cons, List.sum_cons] at hfuel ⊢
      simp only [bfsFrom, List.length_cons]
      rw [ih]
      · simp only [List.map_append, List.sum_append]; omega
      · intro u hu
        rcases List.mem_append.mp hu with hu | hu
        · exact hq u (List.mem_cons_of_mem _ hu)
        · exact internalChildren_not_leaf _ u hu
      · simp only [List.map_append, List.sum_append]; omega

theorem writePayload_length (maxCatCount : Int) (s : CvDTreeSplit) :
    (writePayload maxCatCount s).length + 3 = recLen maxCatCount := by
  unfold writePayload recLen
  split
  · simp
  · simp; omega

theorem encode_length (maxCatCount : Int) :
    ∀ (B : List CvDTreeNode) (L : Nat) (K : Int), (∀ t ∈ B, t.isLeaf = false) →
      (encode maxCatCount L K B).length = recLen maxCatCount * B.length := by
  intro B
  induction B with
  | nil => intro L K _; simp [encode]
  | cons t ts ih =>
    intro L K hB
    cases t with
    | leaf v =>
      have := hB (CvDTreeNode.leaf v) (List.mem_cons_self _ _)
      simp [CvDTreeNode.isLeaf] at this
    | node s l r =>
      have hp := writePayload_length maxCatCount s
      simp only [encode, List.length_append, recOf, List.length_cons]
      rw [ih _ _ (fun u hu => hB u (List.mem_cons_of_mem _ hu)), Nat.mul_succ]
      omega

theorem readStep_toNat (maxCatCount : Int) (hcat : 0 ≤ maxCatCount) :
    (readStep maxCatCount).toNat = recLen maxCatCount := by
  unfold readStep recLen
  by_cases h : maxCatCount = 0
  · subst h; simp
  · have hpos : maxCatCount > 0 := by omega
    have hs : 0 ≤ subsetN maxCatCount := Int.tdiv_nonneg (by omega) (by decide)
    simp only [hpos, if_true, h, if_false]
    omega

theorem recLen_pos (maxCatCount : Int) : 0 < recLen maxCatCount := by
  unfold recLen; omega

theorem predict_mapLeaves (maxCatCount : Int) (getVarValue : Int → Nat → ℚ) (sampleIdx : Nat)
    (f : ℚ → ℚ) (t : CvDTreeNode) :
    CascadeBoostTree.predict maxCatCount getVarValue sampleIdx (t.mapLeaves f)
      = f (CascadeBoostTree.predict maxCatCount getVarValue sampleIdx t) := by
  induction t with
  | leaf v => rfl
  | node s l r ihl ihr =>
    simp only [CvDTreeNode.mapLeaves, CascadeBoostTree.predict]
    split
    · split
      · exact ihl
      · exact ihr
    · split
      · exact ihl
      · exact ihr

theorem modeOK_nonneg (maxCatCount : Int) (root : CvDTreeNode) (hroot : root.isLeaf = false)
    (hmode : ModeOK maxCatCount root) : 0 ≤ maxCatCount := by
  cases root with
  | leaf v => simp [CvDTreeNode.isLeaf] at hroot
  | node s l r =>
    have h := hmode.1
    cases s with
    | ord v c => exact le_of_eq (Eq.symm h)
    | cat v ws => exact le_of_lt h.1

theorem write_eq (maxCatCount max_depth : Int) (toFloat : ℚ → ℚ) (root : CvDTreeNode)
    (hroot : root.isLeaf = false) (hdepth : (root.depth : Int) ≤ max_depth) :
    CascadeBoostTree.write maxCatCount max_depth toFloat root
      = some (encode maxCatCount 0 1 (bfsOrder root), (leavesMet root).map toFloat) := by
  have hsz := numLeaves_le_leafBufSize root max_depth hdepth
  have hq : ∀ t ∈ [root], t.isLeaf = false := by simpa using hroot
  have h := writeLoop_eq maxCatCount (leafBufSize max_depth) toFloat root.numInternal [root]
    { internalNodes := [], leafVals := fun _ => 0, leafValIdx := 0, internalNodeIdx := 1 } 0
    (by simp) hq (by simp) (by simpa using hsz)
  unfold CascadeBoostTree.write
  rw [h]
  simp only [List.nil_append, Nat.zero_add, Int.neg_neg, Int.toNat_ofNat, neg_neg]
  have hm := map_range_storeAt (fun _ => 0) 0
    (((bfsFrom root.numInternal [root]).flatMap leafChildren).map toFloat)
  simp only [Nat.zero_add, List.length_map, List.range_zero, List.map_nil,
    List.nil_append] at hm
  simp only [bfsOrder, leavesMet]
  rw [hm]

/-- C1 (round trip of the tree serializer).  For a tree of the stage mode (every split
ordered when `maxCatCount = 0`, categorical when `maxCatCount > 0`) whose root is internal and whose depth is
at most `max_depth`, `write` succeeds and `read` applied to its two sequences returns the
same tree, every split unchanged and every leaf value replaced by its `float` cast; hence
tree prediction on the rebuilt tree reaches, for every sample, the leaf whose value is
the `float` cast of the original one. -/
theorem write_read_roundtrip (maxCatCount max_depth : Int) (toFloat : ℚ → ℚ)
    (root : CvDTreeNode) (hroot : root.isLeaf = false)
    (hmode : ModeOK maxCatCount root) (hdepth : (root.depth : Int) ≤ max_depth) :
    ∃ internalNodes leafValues tree,
      CascadeBoostTree.write maxCatCount max_depth toFloat root
        = some (internalNodes, leafValues)
      ∧ CascadeBoostTree.read maxCatCount internalNodes leafValues = some tree
      ∧ tree = root.mapLeaves toFloat
      ∧ ∀ (getVarValue : Int → Nat → ℚ) (sampleIdx : Nat),
          CascadeBoostTree.predict maxCatCount getVarValue sampleIdx tree
            = toFloat (CascadeBoostTree.predict maxCatCount getVarValue sampleIdx root) := by
  refine ⟨_, _, root.mapLeaves toFloat, write_eq maxCatCount max_depth toFloat root hroot hdepth,
    ?_, rfl, fun g i => predict_mapLeaves maxCatCount g i toFloat root⟩
  have hq : ∀ t ∈ [root], t.isLeaf = false := by simpa using hroot
  have hm : ∀ t ∈ [root], ModeOK maxCatCount t := by simpa using hmode
  have hlen := bfsFrom_length root.numInternal [root] hq (by simp)
  have henc := encode_length maxCatCount (bfsFrom root.numInternal [root]) 0 1
    (bfsFrom_not_leaf _ _ hq)
  have hcat : 0 ≤ maxCatCount := modeOK_nonneg maxCatCount root hroot hmode
  have hrd := readLoop_encode maxCatCount toFloat root.numInternal [root] 0 1 (by decide)
    hq hm (by simp) [] []
  simp only [List.append_nil] at hrd
  unfold CascadeBoostTree.read
  simp only [bfsOrder, leavesMet]
  rw [henc, readStep_toNat maxCatCount hcat, Nat.mul_div_cancel_left _ (recLen_pos maxCatCount),
    hrd]
  simp

/-- Witness for C1 at `exampleTree`. -/
theorem write_read_roundtrip_witness :
    exampleTree.isLeaf = false ∧ ModeOK 0 exampleTree ∧ ((exampleTree.depth : Int) ≤ 2) ∧
    ∃ internalNodes leafValues tree,
      CascadeBoostTree.write 0 2 id exampleTree = some (internalNodes, leafValues)
      ∧ CascadeBoostTree.read 0 internalNodes leafValues = some tree
      ∧ tree = exampleTree.mapLeaves id
      ∧ ∀ (getVarValue : Int → Nat → ℚ) (sampleIdx : Nat),
          CascadeBoostTree.predict 0 getVarValue sampleIdx tree
            = id (CascadeBoostTree.predict 0 getVarValue sampleIdx exampleTree) :=
  ⟨rfl, by simp [exampleTree, ModeOK, SplitOK], by decide,
    write_read_roundtrip 0 2 id exampleTree rfl (by simp [exampleTree, ModeOK, SplitOK])
      (by decide)⟩

theorem recOf_length (maxCatCount : Int) (L : Nat) (K : Int) (t : CvDTreeNode)
    (h : t.isLeaf = false) : (recOf maxCatCount L K t).length = recLen maxCatCount := by
  cases t with
  | leaf v => simp [CvDTreeNode.isLeaf] at h
  | node s l r =>
    have hp := writePayload_length maxCatCount s
    simp only [recOf, List.length_cons]
    omega

theorem encode_record (maxCatCount : Int) :
    ∀ (B : List CvDTreeNode) (i : Nat) (L : Nat) (K : Int) (t : CvDTreeNode),
      (∀ u ∈ B, u.isLeaf = false) → B[i]? = some t →
      ((encode maxCatCount L K B).drop (recLen maxCatCount * i)).take (recLen maxCatCount)
        = recOf maxCatCount (L + ((B.take i).flatMap leafChildren).length)
            (K + ((((B.take i).flatMap internalChildren).length : Nat) : Int)) t := by
  intro B
  induction B with
  | nil => intro i L K t _ h; simp at h
  | cons a as ih =>
    intro i L K t hB h
    have ha := recOf_length maxCatCount L K a (hB a (List.mem_cons_self _ _))
    cases i with
    | zero =>
      simp only [List.getElem?_cons_zero, Option.some.injEq] at h
      subst h
      simp only [encode, Nat.mul_zero, List.drop_zero, List.take_zero, List.flatMap_nil,
        List.length_nil, Nat.add_zero, Nat.cast_zero, add_zero]
      rw [← ha, List.take_left']
      rfl
    | succ i =>
      simp only [List.getElem?_cons_succ] at h
      have hd : recLen maxCatCount * (i + 1)
          = (recOf maxCatCount L K a).length + recLen maxCatCount * i := by
        rw [ha, Nat.mul_succ]; omega
      simp only [encode]
      rw [hd, List.drop_append, ih i _ _ t (fun u hu => hB u (List.mem_cons_of_mem _ hu)) h]
      simp only [List.take_succ_cons, List.flatMap_cons, List.length_append, Nat.cast_add,
        add_assoc]

theorem flatMap_lookup {α β : Type} (g : α → List β) :
    ∀ (B : List α) (i : Nat) (t : α) (j : Nat) (x : β),
      B[i]? = some t → (g t)[j]? = some x →
      (B.flatMap g)[((B.take i).flatMap g).length + j]? = some x := by
  intro B
  induction B with
  | nil => intro i t j x h; simp at h
  | cons a as ih =>
    intro i t j x h hx
    cases i with
    | zero =>
      simp only [List.getElem?_cons_zero, Option.some.injEq] at h
      subst h
      have hj : j < (g a).length := by
        by_contra hc
        rw [List.getElem?_eq_none (by omega)] at hx
        exact Option.noConfusion hx
      simp only [List.take_zero, List.flatMap_nil, List.length_nil, Nat.zero_add,
        List.flatMap_cons]
      rw [List.getElem?_append_left hj]
      exact hx
    | succ i =>
      simp only [List.getElem?_cons_succ] at h
      simp only [List.take_succ_cons, List.flatMap_cons, List.length_append]
      rw [List.getElem?_append_right (by omega)]
      rw [show (g a).length + ((as.take i).flatMap g).length + j - (g a).length
        = ((as.take i).flatMap g).length + j by omega]
      exact ih i t j x h hx

theorem bfsFrom_eq :
    ∀ (fuel : Nat) (q : List CvDTreeNode), (∀ t ∈ q, t.isLeaf = false) →
      (q.map CvDTreeNode.numInternal).sum ≤ fuel →
      bfsFrom fuel q = q ++ (bfsFrom fuel q).flatMap internalChildren := by
  intro fuel
  induction fuel with
  | zero =>
    intro q hq hfuel
    cases q with
    | nil => rfl
    | cons t rest =>
      have := numInternal_pos_of_not_leaf t (hq t (List.mem_cons_self _ _))
      simp only [List.map_cons, List.sum_cons] at hfuel
      omega
  | succ fuel ih =>
    intro q hq hfuel
    cases q with
    | nil => rfl
    | cons t rest =>
      have ht := internalChildren_numInternal t (hq t (List.mem_cons_self _ _))
      simp only [List.map_cons, List.sum_cons] at hfuel
      have h := ih (rest ++ internalChildren t)
        (by
          intro u hu
          rcases List.mem_append.mp hu with hu | hu
          · exact hq u (List.mem_cons_of_mem _ hu)
          · exact internalChildren_not_leaf _ u hu)
        (by simp only [List.map_append, List.sum_append]; omega)
      simp only [bfsFrom, List.flatMap_cons, List.cons_append, List.cons.injEq, true_and]
      nth_rewrite 1 [h]
      simp only [List.append_assoc]

theorem bfsFrom_leaves_length :
    ∀ (fuel : Nat) (q : List CvDTreeNode), (∀ t ∈ q, t.isLeaf = false) →
      (q.map CvDTreeNode.numInternal).sum ≤ fuel →
      ((bfsFrom fuel q).flatMap leafChildren).length = (q.map CvDTreeNode.numLeaves).sum := by
  intro fuel
  induction fuel with
  | zero =>
    intro q hq hfuel
    cases q with
    | nil => rfl
    | cons t rest =>
      have := numInternal_pos_of_not_leaf t (hq t (List.mem_cons_self _ _))
      simp only [List.map_cons, List.sum_cons] at hfuel
      omega
  | succ fuel ih =>
    intro q hq hfuel
    cases q with
    | nil => rfl
    | cons t rest =>
      have ht := internalChildren_numInternal t (hq t (List.mem_cons_self _ _))
      simp only [List.map_cons, List.sum_cons] at hfuel ⊢
      simp only [bfsFrom, List.flatMap_cons, List.length_append]
      rw [ih]
      · cases t with
        | leaf v => simp [CvDTreeNode.numInternal] at ht
        | node s l r =>
          have hlv := childInternal_numLeaves l
          have hrv := childInternal_numLeaves r
          simp only [List.map_append, List.sum_append, internalChildren, leafChildren,
            List.length_append, CvDTreeNode.numLeaves]
          omega
      · intro u hu
        rcases List.mem_append.mp hu with hu | hu
        · exact hq u (List.mem_cons_of_mem _ hu)
        · exact internalChildren_not_leaf _ u hu
      · simp only [List.map_append, List.sum_append]; omega

theorem refOK_of (root : CvDTreeNode) (toFloat : ℚ → ℚ) (child : CvDTreeNode)
    (nL L nI : Nat) (K : Int) (hL : L = nL) (hK : K = (nI : Int) + 1)
    (hleaf : ∀ v, child = CvDTreeNode.leaf v → (leavesMet root)[nL]? = some v)
    (hint : child.isLeaf = false → (bfsOrder root)[nI + 1]? = some child) :
    RefOK root ((leavesMet root).map toFloat) toFloat nL nI child (childRef L K child) := by
  subst hL hK
  cases child with
  | leaf v =>
    refine ⟨rfl, ?_⟩
    rw [List.getElem?_map, hleaf v rfl]
    rfl
  | node s l r =>
    refine ⟨rfl, ?_, hint rfl⟩
    show (0 : Int) < (nI : Int) + 1
    omega

/-- C2 (reference encoding of `write`).  For a tree whose root is internal and whose
depth is at most `max_depth`, `write` succeeds; `leafValues` is the list of leaf values in
the order the leaves are met, `float`-cast, and has one more element than there are
internal nodes; and record `i` of `internalNodes` belongs to the `i`-th internal node in
breadth-first order: it holds the left reference, the right reference, `var_idx` and the
payload, a leaf child being written as `-j` with `j` its position in `leafValues` (the
number of leaves met before it) and an internal child as `k > 0` with `k` its position in
the breadth-first order counted from the root at `0`. -/
theorem write_references (maxCatCount max_depth : Int) (toFloat : ℚ → ℚ)
    (root : CvDTreeNode) (hroot : root.isLeaf = false)
    (hdepth : (root.depth : Int) ≤ max_depth) :
    ∃ internalNodes leafValues,
      CascadeBoostTree.write maxCatCount max_depth toFloat root
        = some (internalNodes, leafValues)
      ∧ leafValues = (leavesMet root).map toFloat
      ∧ leafValues.length = root.numInternal + 1
      ∧ (bfsOrder root).length = root.numInternal
      ∧ internalNodes.length = recLen maxCatCount * root.numInternal
      ∧ ∀ (i : Nat) (split : CvDTreeSplit) (left right : CvDTreeNode),
          (bfsOrder root)[i]? = some (CvDTreeNode.node split left right) →
          ∃ lref rref : Int,
            (internalNodes.drop (recLen maxCatCount * i)).take (recLen maxCatCount)
              = FileTok.int lref :: FileTok.int rref :: FileTok.int split.var_idx
                  :: writePayload maxCatCount split
            ∧ RefOK root leafValues toFloat (leavesBefore root i) (internalBefore root i)
                left lref
            ∧ RefOK root leafValues toFloat (leavesBefore root i + (childLeaf left).length)
                (internalBefore root i + (childInternal left).length) right rref := by
  have hq : ∀ t ∈ [root], t.isLeaf = false := by simpa using hroot
  have hlen : (bfsOrder root).length = root.numInternal := by
    have := bfsFrom_length root.numInternal [root] hq (by simp)
    simpa [bfsOrder] using this
  have hnl : ∀ t ∈ bfsOrder root, t.isLeaf = false := bfsFrom_not_leaf _ _ hq
  have hlv : (leavesMet root).length = root.numInternal + 1 := by
    have := bfsFrom_leaves_length root.numInternal [root] hq (by simp)
    simp only [List.map_cons, List.map_nil, List.sum_cons, List.sum_nil, Nat.add_zero] at this
    rw [← numLeaves_eq_numInternal_succ]
    exact this
  have hbfs : bfsOrder root = root :: (bfsOrder root).flatMap internalChildren := by
    have := bfsFrom_eq root.numInternal [root] hq (by simp)
    simpa [bfsOrder] using this
  refine ⟨_, _, write_eq maxCatCount max_depth toFloat root hroot hdepth, rfl, ?_, hlen, ?_, ?_⟩
  · rw [List.length_map, hlv]
  · rw [encode_length maxCatCount _ 0 1 hnl, hlen]
  · intro i split left right hi
    have hrec := encode_record maxCatCount (bfsOrder root) i 0 1 _ hnl hi
    have hint : ∀ (j : Nat) (x : CvDTreeNode),
        (internalChildren (CvDTreeNode.node split left right))[j]? = some x →
        (bfsOrder root)[internalBefore root i + j + 1]? = some x := by
      intro j x hx
      have := flatMap_lookup internalChildren (bfsOrder root) i _ j x hi hx
      rw [hbfs, List.getElem?_cons_succ]
      exact this
    have hleaf : ∀ (j : Nat) (x : ℚ),
        (leafChildren (CvDTreeNode.node split left right))[j]? = some x →
        (leavesMet root)[leavesBefore root i + j]? = some x := by
      intro j x hx
      exact flatMap_lookup leafChildren (bfsOrder root) i _ j x hi hx
    refine ⟨_, _, hrec, ?_, ?_⟩
    · refine refOK_of root toFloat left _ _ _ _ (by simp [leavesBefore])
        (by simp [internalBefore]; ring) ?_ ?_
      · intro v hv
        subst hv
        exact hleaf 0 v (by simp [leafChildren, childLeaf])
      · intro hl
        have := hint 0 left (by
          cases left with
          | leaf v => simp [CvDTreeNode.isLeaf] at hl
          | node s l r => simp [internalChildren, childInternal])
        simpa using this
    · refine refOK_of root toFloat right _ _ _ _ (by simp [leavesBefore])
        (by simp [internalBefore]; ring) ?_ ?_
      · intro v hv
        subst hv
        exact hleaf (childLeaf left).length v (by simp [leafChildren, childLeaf])
      · intro hr
        have := hint (childInternal left).length right (by
          cases right with
          | leaf v => simp [CvDTreeNode.isLeaf] at hr
          | node s l r => simp [internalChildren, childInternal])
        simpa [Nat.add_assoc] using this

/-- Witness for C2 at `exampleTree`. -/
theorem write_references_witness :
    exampleTree.isLeaf = false ∧ ((exampleTree.depth : Int) ≤ 2) ∧
    ∃ internalNodes leafValues,
      CascadeBoostTree.write 0 2 id exampleTree = some (internalNodes, leafValues)
      ∧ leafValues = (leavesMet exampleTree).map id
      ∧ leafValues.length = exampleTree.numInternal + 1
      ∧ (bfsOrder exampleTree).length = exampleTree.numInternal
      ∧ internalNodes.length = recLen 0 * exampleTree.numInternal
      ∧ ∀ (i : Nat) (split : CvDTreeSplit) (left right : CvDTreeNode),
          (bfsOrder exampleTree)[i]? = some (CvDTreeNode.node split left right) →
          ∃ lref rref : Int,
            (internalNodes.drop (recLen 0 * i)).take (recLen 0)
              = FileTok.int lref :: FileTok.int rref :: FileTok.int split.var_idx
                  :: writePayload 0 split
            ∧ RefOK exampleTree leafValues id (leavesBefore exampleTree i)
                (internalBefore exampleTree i) left lref
            ∧ RefOK exampleTree leafValues id
                (leavesBefore exampleTree i + (childLeaf left).length)
                (internalBefore exampleTree i + (childInternal left).length) right rref :=
  ⟨rfl, by decide, write_references 0 2 id exampleTree rfl (by decide)⟩

/-! ### Single-precision arithmetic -/

theorem roundHalfEven_eq (x : ℚ) (z : Int) (h1 : (z : ℚ) - 1 / 2 < x)
    (h2 : x < (z : ℚ) + 1 / 2) : roundHalfEven x = z := by
  unfold roundHalfEven
  have hf1 := Int.floor_le x
  have hf2 := Int.lt_floor_add_one x
  have h4 : (2 * (z : ℚ) - 1) < 2 * ⌊x⌋ + 2 := by linarith
  have h5 : (2 * ⌊x⌋ : ℚ) < 2 * z + 1 := by linarith
  have h6 : (2 * z - 1 : Int) < 2 * ⌊x⌋ + 2 := by exact_mod_cast h4
  have h7 : (2 * ⌊x⌋ : Int) < 2 * z + 1 := by exact_mod_cast h5
  split_ifs with ha hb hc
  · have h8 : (2 * (z : ℚ) - 1) < 2 * ⌊x⌋ + 1 := by linarith
    have h9 : (2 * z - 1 : Int) < 2 * ⌊x⌋ + 1 := by exact_mod_cast h8
    omega
  · have h8 : (2 * ⌊x⌋ + 1 : ℚ) < 2 * z + 1 := by linarith
    have h9 : (2 * ⌊x⌋ + 1 : Int) < 2 * z + 1 := by exact_mod_cast h8
    omega
  · exfalso
    have h8 : (2 * (z : ℚ) - 1) < 2 * ⌊x⌋ + 1 := by linarith
    have h9 : (2 * ⌊x⌋ + 1 : ℚ) < 2 * z + 1 := by linarith
    have h10 : (2 * z - 1 : Int) < 2 * ⌊x⌋ + 1 := by exact_mod_cast h8
    have h11 : (2 * ⌊x⌋ + 1 : Int) < 2 * z + 1 := by exact_mod_cast h9
    omega
  · exfalso
    have h8 : (2 * (z : ℚ) - 1) < 2 * ⌊x⌋ + 1 := by linarith
    have h9 : (2 * ⌊x⌋ + 1 : ℚ) < 2 * z + 1 := by linarith
    have h10 : (2 * z - 1 : Int) < 2 * ⌊x⌋ + 1 := by exact_mod_cast h8
    have h11 : (2 * ⌊x⌋ + 1 : Int) < 2 * z + 1 := by exact_mod_cast h9
    omega

theorem roundHalfEven_abs (x : ℚ) : |((roundHalfEven x : Int) : ℚ) - x| ≤ 1 / 2 := by
  have h1 := Int.floor_le x
  have h2 := Int.lt_floor_add_one x
  unfold roundHalfEven
  split_ifs with ha hb hc
  · rw [abs_le]
    constructor <;> linarith
  · rw [abs_le]
    push_cast
    constructor <;> linarith
  · rw [abs_le]
    constructor <;> linarith
  · rw [abs_le]
    push_cast
    constructor <;> linarith

theorem f32Exp_ge (x : ℚ) : -126 ≤ f32Exp x := le_max_right _ _

theorem f32Exp_eq (x : ℚ) (e : Int) (he : -126 ≤ e) (h1 : (2 : ℚ) ^ e ≤ |x|)
    (h2 : |x| < (2 : ℚ) ^ (e + 1)) : f32Exp x = e := by
  have hpos : 0 < |x| := lt_of_lt_of_le (zpow_pos (by norm_num) e) h1
  have hl : Int.log 2 |x| = e := by
    apply le_antisymm
    · have := (Int.lt_zpow_iff_log_lt (b := 2) (by norm_num) hpos).mp h2
      omega
    · exact (Int.zpow_le_iff_le_log (b := 2) (by norm_num) hpos).mp h1
  unfold f32Exp
  rw [hl]
  exact max_eq_left he

theorem ulp_pos (x : ℚ) : (0 : ℚ) < 2 ^ (f32Exp x - 23) := zpow_pos (by norm_num) _

theorem roundF32_abs (x : ℚ) : |roundF32 x - x| ≤ 2 ^ (f32Exp x - 23) / 2 := by
  have hu := ulp_pos x
  have h := roundHalfEven_abs (x / 2 ^ (f32Exp x - 23))
  unfold roundF32
  have e : ((roundHalfEven (x / 2 ^ (f32Exp x - 23)) : Int) : ℚ) * 2 ^ (f32Exp x - 23) - x
      = (((roundHalfEven (x / 2 ^ (f32Exp x - 23)) : Int) : ℚ) - x / 2 ^ (f32Exp x - 23))
        * 2 ^ (f32Exp x - 23) := by
    field_simp
  rw [e, abs_mul, abs_of_pos hu]
  calc _ ≤ 1 / 2 * 2 ^ (f32Exp x - 23) := mul_le_mul_of_nonneg_right h (le_of_lt hu)
    _ = _ := by ring

theorem roundHalfEven_nonneg (x : ℚ) (h : 0 ≤ x) : 0 ≤ roundHalfEven x := by
  have h1 := roundHalfEven_abs x
  rw [abs_le] at h1
  have h2 : (-1 : ℚ) < ((roundHalfEven x : Int) : ℚ) := by linarith [h1.1]
  have h3 : (-1 : Int) < roundHalfEven x := by exact_mod_cast h2
  omega

theorem roundF32_nonneg (x : ℚ) (h : 0 ≤ x) : 0 ≤ roundF32 x := by
  unfold roundF32
  apply mul_nonneg
  · exact_mod_cast roundHalfEven_nonneg _ (div_nonneg h (le_of_lt (ulp_pos x)))
  · exact le_of_lt (ulp_pos x)

theorem roundHalfEven_le (x : ℚ) (M : Int) (h : x ≤ M) : roundHalfEven x ≤ M := by
  have h1 := roundHalfEven_abs x
  rw [abs_le] at h1
  have h2 : ((roundHalfEven x : Int) : ℚ) < (M : ℚ) + 1 := by linarith [h1.2]
  have h3 : roundHalfEven x < M + 1 := by exact_mod_cast h2
  omega

theorem roundHalfEven_lt (x : ℚ) (M : Int) (h : x < (M : ℚ) - 1 / 2) :
    roundHalfEven x ≤ M - 1 := by
  have h1 := roundHalfEven_abs x
  rw [abs_le] at h1
  have h2 : ((roundHalfEven x : Int) : ℚ) < (M : ℚ) := by linarith [h1.2]
  have h3 : roundHalfEven x < M := by exact_mod_cast h2
  omega

theorem roundHalfEven_intCast (n : Int) : roundHalfEven (n : ℚ) = n := by
  apply roundHalfEven_eq <;> linarith

theorem roundF32_le_grid (x y : ℚ) (M : Int) (hy : y = (M : ℚ) * 2 ^ (f32Exp x - 23))
    (h : x ≤ y) : roundF32 x ≤ y := by
  have hu := ulp_pos x
  have h1 : x / 2 ^ (f32Exp x - 23) ≤ (M : ℚ) := by
    rw [div_le_iff₀ hu, ← hy]; exact h
  have h2 := roundHalfEven_le _ M h1
  have h3 : ((roundHalfEven (x / 2 ^ (f32Exp x - 23)) : Int) : ℚ) ≤ (M : ℚ) := by
    exact_mod_cast h2
  unfold roundF32
  rw [hy]
  exact mul_le_mul_of_nonneg_right h3 (le_of_lt hu)

theorem roundF32_lt_grid (x y : ℚ) (M : Int) (hy : y = (M : ℚ) * 2 ^ (f32Exp x - 23))
    (h : x < y - 2 ^ (f32Exp x - 23) / 2) : roundF32 x ≤ y - 2 ^ (f32Exp x - 23) := by
  have hu := ulp_pos x
  have h1 : x / 2 ^ (f32Exp x - 23) < (M : ℚ) - 1 / 2 := by
    rw [div_lt_iff₀ hu, sub_mul, ← hy]
    linarith
  have h2 := roundHalfEven_lt _ M h1
  have h3 : ((roundHalfEven (x / 2 ^ (f32Exp x - 23)) : Int) : ℚ) ≤ (M : ℚ) - 1 := by
    exact_mod_cast h2
  unfold roundF32
  have h4 := mul_le_mul_of_nonneg_right h3 (le_of_lt hu)
  rw [sub_mul, ← hy, one_mul] at h4
  exact h4

theorem roundF32_zero : roundF32 0 = 0 := by
  unfold roundF32
  rw [zero_div]
  have h : roundHalfEven (0 : ℚ) = 0 := by
    have := roundHalfEven_intCast 0
    simpa using this
  rw [h]
  simp

theorem zpow_toNat (e c : Int) (h : e ≤ c) :
    (((2 : Int) ^ (c - e).toNat : Int) : ℚ) * (2 : ℚ) ^ e = (2 : ℚ) ^ c := by
  have h1 : (((c - e).toNat : Nat) : Int) = c - e := Int.toNat_of_nonneg (by omega)
  push_cast
  rw [← zpow_natCast, h1, ← zpow_add₀ (by norm_num : (2 : ℚ) ≠ 0)]
  congr 1
  omega

theorem f32Exp_le_of_lt (x : ℚ) (c : Int) (hc : -126 ≤ c) (hx : 0 < |x|)
    (h : |x| < (2 : ℚ) ^ (c + 1)) : f32Exp x ≤ c := by
  unfold f32Exp
  apply max_le _ hc
  have := (Int.lt_zpow_iff_log_lt (b := 2) (by norm_num) hx).mp h
  omega

theorem zpow_f32Exp_le (x : ℚ) (hx : 0 < |x|) :
    (2 : ℚ) ^ f32Exp x ≤ max |x| (2 ^ (-126 : Int)) := by
  unfold f32Exp
  rcases le_total (Int.log 2 |x|) (-126) with h | h
  · rw [max_eq_right h]
    exact le_max_right _ _
  · rw [max_eq_left h]
    exact le_trans (Int.zpow_log_le_self (by norm_num) hx) (le_max_left _ _)

theorem roundF32_natCast (n : Nat) (h : n ≤ 16777216) : roundF32 (n : ℚ) = n := by
  rcases Nat.eq_zero_or_pos n with h0 | h0
  · subst h0
    simpa using roundF32_zero
  have hn1 : (1 : ℚ) ≤ (n : ℚ) := by exact_mod_cast h0
  have habs : |(n : ℚ)| = n := abs_of_nonneg (by linarith)
  rcases Nat.eq_or_lt_of_le h with h24 | h24
  · subst h24
    have he : f32Exp ((16777216 : Nat) : ℚ) = 24 := by
      apply f32Exp_eq _ 24 (by norm_num) <;> rw [habs] <;> norm_num
    unfold roundF32
    rw [he]
    have h2 : (((16777216 : Nat) : ℚ)) / 2 ^ ((24 : Int) - 23) = ((8388608 : Int) : ℚ) := by
      norm_num
    rw [h2, roundHalfEven_intCast]
    norm_num
  · have hx : 0 < |(n : ℚ)| := by rw [habs]; linarith
    have hE : f32Exp (n : ℚ) ≤ 23 := by
      apply f32Exp_le_of_lt _ 23 (by norm_num) hx
      rw [habs]
      norm_num
      exact h24
    have hz := zpow_toNat (f32Exp (n : ℚ) - 23) 0 (by omega)
    rw [zpow_zero] at hz
    have hu := ulp_pos (n : ℚ)
    have hdiv : (n : ℚ) / 2 ^ (f32Exp (n : ℚ) - 23)
        = (((n : Int) * (2 : Int) ^ (0 - (f32Exp (n : ℚ) - 23)).toNat : Int) : ℚ) := by
      rw [div_eq_iff (ne_of_gt hu)]
      push_cast
      rw [mul_assoc]
      have hz2 := hz
      push_cast at hz2
      rw [hz2, mul_one]
    unfold roundF32
    rw [hdiv, roundHalfEven_intCast]
    push_cast
    rw [mul_assoc]
    have hz2 := hz
    push_cast at hz2
    rw [hz2, mul_one]

theorem f32sub_one_bounds (m : ℚ) (hm : 1 / 16777216 ≤ m) (hm1 : m < 1) :
    0 ≤ f32sub 1 m ∧ f32sub 1 m ≤ 1 - 1 / 16777216
      ∧ f32sub 1 m ≤ 1 - m + 1 / 33554432
      ∧ 1 - m - 1 / 33554432 ≤ f32sub 1 m := by
  have hx0 : 0 < 1 - m := by linarith
  have habs : |1 - m| = 1 - m := abs_of_pos hx0
  have hx : 0 < |1 - m| := by rw [habs]; exact hx0
  have hE : f32Exp (1 - m) ≤ -1 := by
    apply f32Exp_le_of_lt _ (-1) (by norm_num) hx
    rw [habs]
    norm_num
    linarith
  have hz := zpow_toNat (f32Exp (1 - m) - 23) (-24) (by omega)
  have h24 : (2 : ℚ) ^ (-24 : Int) = 1 / 16777216 := by norm_num
  rw [h24] at hz
  have h := roundF32_abs (1 - m)
  rw [abs_le] at h
  have hu : (2 : ℚ) ^ (f32Exp (1 - m) - 23) ≤ 2 ^ (-24 : Int) :=
    zpow_le_zpow_right₀ (by norm_num) (by omega)
  rw [h24] at hu
  unfold f32sub
  refine ⟨roundF32_nonneg _ (le_of_lt hx0), ?_, by linarith [h.2], by linarith [h.1]⟩
  apply roundF32_le_grid (1 - m) _
    ((16777215 : Int) * (2 : Int) ^ (-24 - (f32Exp (1 - m) - 23)).toNat)
  · rw [Int.cast_mul, mul_assoc, hz]
    norm_num
  · linarith

theorem f32mul_lt (a : ℚ) (P : Nat) (hP : 0 < P) (hP24 : P ≤ 16777216) (ha0 : 0 ≤ a)
    (ha : a ≤ 1 - 1 / 16777216) :
    0 ≤ roundF32 (a * P) ∧ roundF32 (a * P) < P
      ∧ roundF32 (a * P) ≤ a * P + (P : ℚ) / 16777216
      ∧ a * P - (P : ℚ) / 16777216 ≤ roundF32 (a * P) := by
  have hPq : (1 : ℚ) ≤ (P : ℚ) := by exact_mod_cast hP
  have hP24q : (P : ℚ) ≤ 16777216 := by exact_mod_cast hP24
  have hz0 : 0 ≤ a * P := mul_nonneg ha0 (by linarith)
  have hzP : a * P ≤ P - (P : ℚ) / 16777216 := by nlinarith
  refine ⟨roundF32_nonneg _ hz0, ?_⟩
  rcases eq_or_lt_of_le hz0 with h0 | h0
  · rw [← h0, roundF32_zero]
    have hd : (0 : ℚ) ≤ (P : ℚ) / 16777216 := by positivity
    exact ⟨by linarith, by positivity, by linarith⟩
  have habs : |a * P| = a * P := abs_of_pos h0
  have hx : 0 < |a * P| := by rw [habs]; exact h0
  have hpow : (2 : ℚ) ^ f32Exp (a * P) < P := by
    refine lt_of_le_of_lt (zpow_f32Exp_le _ hx) (max_lt ?_ ?_)
    · rw [habs]; linarith
    · have : (2 : ℚ) ^ (-126 : Int) < 1 := by
        rw [zpow_neg]
        apply inv_lt_one_of_one_lt₀
        norm_num
      linarith
  have hE : f32Exp (a * P) ≤ 23 := by
    by_contra hc
    push_neg at hc
    have h2 : (2 : ℚ) ^ (24 : Int) ≤ 2 ^ f32Exp (a * P) :=
      zpow_le_zpow_right₀ (by norm_num) (by omega)
    norm_num at h2
    linarith
  have hu : (2 : ℚ) ^ (f32Exp (a * P) - 23) = 2 ^ f32Exp (a * P) / 8388608 := by
    rw [zpow_sub₀ (by norm_num : (2 : ℚ) ≠ 0)]
    norm_num
  have hupos := ulp_pos (a * P)
  have hz := zpow_toNat (f32Exp (a * P) - 23) 0 (by omega)
  rw [zpow_zero] at hz
  have h := roundF32_abs (a * P)
  rw [abs_le, hu] at h
  refine ⟨?_, by linarith [h.2], by linarith [h.1]⟩
  have hg := roundF32_lt_grid (a * P) (P : ℚ)
    ((P : Int) * (2 : Int) ^ (0 - (f32Exp (a * P) - 23)).toNat)
    (by rw [Int.cast_mul, mul_assoc, hz]; simp)
    (by rw [hu]; linarith)
  linarith

theorem thresholdIdx_f32_bounds (m : ℚ) (P : Nat) (hP : 0 < P) (hP24 : P ≤ 16777216)
    (hm : 1 / 16777216 ≤ m) (hm1 : m < 1) :
    0 ≤ truncToInt (f32mul (f32sub 1 m) (f32ofInt (P : Int)))
      ∧ truncToInt (f32mul (f32sub 1 m) (f32ofInt (P : Int))) < (P : Int)
      ∧ ((truncToInt (f32mul (f32sub 1 m) (f32ofInt (P : Int))) : Int) : ℚ)
          ≤ (1 - m + 3 / 33554432) * (P : ℚ)
      ∧ (1 - m - 3 / 33554432) * (P : ℚ) - 1
          < ((truncToInt (f32mul (f32sub 1 m) (f32ofInt (P : Int))) : Int) : ℚ) := by
  obtain ⟨ha0, ha1, ha2, ha3⟩ := f32sub_one_bounds m hm hm1
  have hp : f32ofInt (P : Int) = (P : ℚ) := by
    unfold f32ofInt
    rw [Int.cast_natCast]
    exact roundF32_natCast P hP24
  obtain ⟨hz0, hz1, hz2, hz3⟩ := f32mul_lt (f32sub 1 m) P hP hP24 ha0 ha1
  have hPq : (1 : ℚ) ≤ (P : ℚ) := by exact_mod_cast hP
  rw [hp]
  unfold f32mul truncToInt
  rw [if_pos hz0]
  refine ⟨Int.floor_nonneg.mpr hz0, ?_, ?_, ?_⟩
  · rw [Int.floor_lt]
    exact_mod_cast hz1
  · have h1 := Int.floor_le (roundF32 (f32sub 1 m * P))
    have h2 : f32sub 1 m * P ≤ (1 - m + 1 / 33554432) * P :=
      mul_le_mul_of_nonneg_right ha2 (by linarith)
    linarith
  · have h1 := Int.lt_floor_add_one (roundF32 (f32sub 1 m * P))
    have h2 : (1 - m - 1 / 33554432) * P ≤ f32sub 1 m * P :=
      mul_le_mul_of_nonneg_right ha3 (by linarith)
    linarith

/-! ### The stage threshold -/

theorem positiveScores_pos (b : CascadeBoost)
    (hpos : ∃ i, i < b.sample_count ∧ b.label i = 1) : 0 < (positiveScores b).length := by
  obtain ⟨i, hi, hl⟩ := hpos
  unfold positiveScores
  rw [List.length_map, List.length_pos]
  intro h
  have hm : i ∈ (List.range b.sample_count).filter (fun i => b.label i = 1) := by
    simp [List.mem_filter, hi, hl]
  rw [h] at hm
  simp at hm

theorem positiveScores_length_le (b : CascadeBoost) :
    (positiveScores b).length ≤ b.sample_count := by
  unfold positiveScores
  rw [List.length_map]
  exact (List.length_filter_le _ _).trans (by rw [List.length_range])

theorem f32ofInt_natCast (n : Nat) (h : n ≤ 16777216) : f32ofInt (n : Int) = (n : ℚ) := by
  unfold f32ofInt
  rw [Int.cast_natCast]
  exact roundF32_natCast n h

theorem roundF32_eval (x : ℚ) (e n : Int) (y : ℚ) (he : -126 ≤ e) (h1 : (2 : ℚ) ^ e ≤ x)
    (h2 : x < (2 : ℚ) ^ (e + 1)) (hn1 : (n : ℚ) - 1 / 2 < x / 2 ^ (e - 23))
    (hn2 : x / 2 ^ (e - 23) < (n : ℚ) + 1 / 2) (hy : y = (n : ℚ) * 2 ^ (e - 23)) :
    roundF32 x = y := by
  have hx0 : 0 < x := lt_of_lt_of_le (zpow_pos (by norm_num) e) h1
  have hE : f32Exp x = e := f32Exp_eq x e he (by rw [abs_of_pos hx0]; exact h1)
    (by rw [abs_of_pos hx0]; exact h2)
  unfold roundF32
  rw [hE, roundHalfEven_eq _ n hn1 hn2, hy]

theorem roundF32_unit_abs (q : ℚ) (h0 : 0 ≤ q) (h1 : q ≤ 1) :
    |roundF32 q - q| ≤ 1 / 33554432 := by
  rcases eq_or_lt_of_le h0 with h | h
  · rw [← h, roundF32_zero]; norm_num
  rcases eq_or_lt_of_le h1 with h2 | h2
  · rw [h2]
    have := roundF32_natCast 1 (by norm_num)
    simp only [Nat.cast_one] at this
    rw [this]
    norm_num
  have habs : |q| = q := abs_of_pos h
  have hE : f32Exp q ≤ -1 := by
    apply f32Exp_le_of_lt _ (-1) (by norm_num) (by rw [habs]; exact h)
    rw [habs]
    norm_num
    exact h2
  have hu : (2 : ℚ) ^ (f32Exp q - 23) ≤ 2 ^ (-24 : Int) :=
    zpow_le_zpow_right₀ (by norm_num) (by omega)
  have h24 : (2 : ℚ) ^ (-24 : Int) = 1 / 16777216 := by norm_num
  rw [h24] at hu
  have := roundF32_abs q
  linarith

theorem isErrDesired_spec (b : CascadeBoost)
    (hk : 0 ≤ truncToInt (f32mul (f32sub 1 b.minTAR)
        (f32ofInt ((positiveScores b).length : Int)))
      ∧ truncToInt (f32mul (f32sub 1 b.minTAR) (f32ofInt ((positiveScores b).length : Int)))
          < ((positiveScores b).length : Int)) :
    ∃ b1 r, b.isErrDesired = some (b1, r)
      ∧ b1 = { b with threshold := r.responses.getD r.thresholdIdx.toNat 0 }
      ∧ r.responses = (positiveScores b).insertionSort (· ≤ ·)
      ∧ r.numPos = ((positiveScores b).length : Int)
      ∧ r.numNeg = (b.sample_count : Int) - ((positiveScores b).length : Int)
      ∧ r.thresholdIdx = truncToInt (f32mul (f32sub 1 b.minTAR)
          (f32ofInt ((positiveScores b).length : Int)))
      ∧ r.numTrueAccepts = r.numPos - r.thresholdIdx
          + (((r.responses.take r.thresholdIdx.toNat).filter
              (fun x => x - b1.threshold > -FLT_EPSILON)).length : Int)
      ∧ r.TAR = f32div (f32ofInt r.numTrueAccepts) (f32ofInt r.numPos)
      ∧ r.numFalseAccepts = (((List.range b.sample_count).filter
          (fun i => b.label i = 0 ∧ b1.predict i true > -FLT_EPSILON)).length : Int)
      ∧ r.FAR = f32div (f32ofInt r.numFalseAccepts) (f32ofInt r.numNeg)
      ∧ r.result = decide (r.numNeg ≠ 0 ∧ r.FAR ≤ b.maxFAR) := by
  unfold CascadeBoost.isErrDesired
  simp only [List.length_insertionSort]
  rw [if_pos (by simpa [positiveScores] using hk)]
  exact ⟨_, _, rfl, rfl, rfl, by simp [positiveScores], by simp [positiveScores],
    by simp [positiveScores], rfl, rfl, rfl, rfl, rfl⟩

theorem isErrDesired_valid (b : CascadeBoost)
    (hpos : ∃ i, i < b.sample_count ∧ b.label i = 1) (hm : 1 / 16777216 ≤ b.minTAR)
    (h1 : b.minTAR < 1) (hN : b.sample_count ≤ 16777216) :
    ∃ b1 r, b.isErrDesired = some (b1, r)
      ∧ b1 = { b with threshold := r.responses.getD r.thresholdIdx.toNat 0 }
      ∧ r.responses = (positiveScores b).insertionSort (· ≤ ·)
      ∧ r.numPos = ((positiveScores b).length : Int)
      ∧ r.numNeg = (b.sample_count : Int) - ((positiveScores b).length : Int)
      ∧ r.thresholdIdx = truncToInt (f32mul (f32sub 1 b.minTAR)
          (f32ofInt ((positiveScores b).length : Int)))
      ∧ r.numTrueAccepts = r.numPos - r.thresholdIdx
          + (((r.responses.take r.thresholdIdx.toNat).filter
              (fun x => x - b1.threshold > -FLT_EPSILON)).length : Int)
      ∧ r.TAR = f32div (f32ofInt r.numTrueAccepts) (f32ofInt r.numPos)
      ∧ r.numFalseAccepts = (((List.range b.sample_count).filter
          (fun i => b.label i = 0 ∧ b1.predict i true > -FLT_EPSILON)).length : Int)
      ∧ r.FAR = f32div (f32ofInt r.numFalseAccepts) (f32ofInt r.numNeg)
      ∧ r.result = decide (r.numNeg ≠ 0 ∧ r.FAR ≤ b.maxFAR)
      ∧ 0 < r.numPos ∧ 0 ≤ r.thresholdIdx ∧ r.thresholdIdx < r.numPos
      ∧ (r.thresholdIdx : ℚ) ≤ (1 - b.minTAR + 3 / 33554432) * (r.numPos : ℚ)
      ∧ (1 - b.minTAR - 3 / 33554432) * (r.numPos : ℚ) - 1 < (r.thresholdIdx : ℚ) := by
  have hP := positiveScores_pos b hpos
  have hP24 : (positiveScores b).length ≤ 16777216 :=
    (positiveScores_length_le b).trans hN
  obtain ⟨hk0, hk1, hk3, hk4⟩ :=
    thresholdIdx_f32_bounds b.minTAR (positiveScores b).length hP hP24 hm h1
  obtain ⟨b1, r, he, hb1, hresp, hnp, hnn, hti, hta, htar, hfa, hfar, hres⟩ :=
    isErrDesired_spec b ⟨hk0, hk1⟩
  have hcast : ((((positiveScores b).length : Int) : ℚ)) = ((positiveScores b).length : ℚ) := by
    push_cast; rfl
  refine ⟨b1, r, he, hb1, hresp, hnp, hnn, hti, hta, htar, hfa, hfar, hres,
    ?_, by rw [hti]; exact hk0, by rw [hti, hnp]; exact hk1, ?_, ?_⟩
  · rw [hnp]; exact_mod_cast hP
  · rw [hti, hnp, hcast]
    exact hk3
  · rw [hti, hnp, hcast]
    exact hk4

theorem report_TAR_ge (t : ℚ) (r : ErrReport) (c : Nat)
    (hta : r.numTrueAccepts = r.numPos - r.thresholdIdx + (c : Int)) (hP : 0 < r.numPos)
    (hk : (r.thresholdIdx : ℚ) ≤ (1 - t) * (r.numPos : ℚ)) :
    t ≤ (r.numTrueAccepts : ℚ) / (r.numPos : ℚ) := by
  have hPq : (0 : ℚ) < (r.numPos : ℚ) := by exact_mod_cast hP
  rw [le_div_iff₀ hPq, hta]
  push_cast
  have hc : (0 : ℚ) ≤ (c : ℚ) := Nat.cast_nonneg c
  linarith

theorem report_TAR_ge_eps (minTAR : ℚ) (r : ErrReport) (c : Nat)
    (hta : r.numTrueAccepts = r.numPos - r.thresholdIdx + (c : Int)) (hP : 0 < r.numPos)
    (hk : (r.thresholdIdx : ℚ) ≤ (1 - minTAR + 3 / 33554432) * (r.numPos : ℚ)) :
    minTAR - FLT_EPSILON ≤ (r.numTrueAccepts : ℚ) / (r.numPos : ℚ) := by
  have h := report_TAR_ge (minTAR - 3 / 33554432) r c hta hP
    (by have e : (1 : ℚ) - (minTAR - 3 / 33554432) = 1 - minTAR + 3 / 33554432 := by ring
        rw [e]; exact hk)
  unfold FLT_EPSILON
  linarith

theorem isErrDesired_fields (b b1 : CascadeBoost) (r : ErrReport)
    (h : b.isErrDesired = some (b1, r)) :
    b1 = { b with threshold := r.responses.getD r.thresholdIdx.toNat 0 }
      ∧ r.responses = (positiveScores b).insertionSort (· ≤ ·)
      ∧ r.numPos = ((positiveScores b).length : Int)
      ∧ r.numNeg = (b.sample_count : Int) - ((positiveScores b).length : Int)
      ∧ r.numFalseAccepts = (((List.range b.sample_count).filter
          (fun i => b.label i = 0 ∧ b1.predict i true > -FLT_EPSILON)).length : Int)
      ∧ r.FAR = f32div (f32ofInt r.numFalseAccepts) (f32ofInt r.numNeg)
      ∧ r.result = decide (r.numNeg ≠ 0 ∧ r.FAR ≤ b.maxFAR) := by
  unfold CascadeBoost.isErrDesired at h
  simp only [List.length_insertionSort] at h
  split at h
  · simp only [Option.some.injEq, Prod.mk.injEq] at h
    obtain ⟨hb, hr⟩ := h
    subst hb hr
    exact ⟨rfl, rfl, by simp [positiveScores], by simp [positiveScores], rfl, rfl, rfl⟩
  · exact Option.noConfusion h

theorem numNeg_eq (b : CascadeBoost) :
    (b.sample_count : Int) - ((positiveScores b).length : Int)
      = (((List.range b.sample_count).filter (fun i => b.label i ≠ 1)).length : Int) := by
  have h := List.length_eq_length_filter_add (l := List.range b.sample_count)
    (fun i => decide (b.label i = 1))
  simp only [List.length_range] at h
  simp only [positiveScores, List.length_map, ne_eq, decide_not]
  omega

theorem isErrDesired_eval (b : CascadeBoost) (resp : List ℚ) (k : Nat) (thr : ℚ)
    (nta nfa : Nat) (nneg : Int) (tar far : ℚ) (res : Bool)
    (hresp : (positiveScores b).insertionSort (· ≤ ·) = resp)
    (hk : truncToInt (f32mul (f32sub 1 b.minTAR) (f32ofInt (resp.length : Int))) = (k : Int))
    (hkP : k < resp.length)
    (hthr : resp.getD k 0 = thr)
    (hnta : resp.length - k
        + ((resp.take k).filter (fun x => x - thr > -FLT_EPSILON)).length = nta)
    (hnfa : ((List.range b.sample_count).filter
        (fun i => b.label i = 0
          ∧ CascadeBoost.predict { b with threshold := thr } i true > -FLT_EPSILON)).length
        = nfa)
    (hnneg : (b.sample_count : Int) - (resp.length : Int) = nneg)
    (htar : f32div (f32ofInt (nta : Int)) (f32ofInt (resp.length : Int)) = tar)
    (hfar : f32div (f32ofInt (nfa : Int)) (f32ofInt nneg) = far)
    (hres : decide (nneg ≠ 0 ∧ far ≤ b.maxFAR) = res) :
    b.isErrDesired = some
      ({ b with threshold := thr },
       { responses := resp, numPos := (resp.length : Int), numNeg := nneg,
         thresholdIdx := (k : Int), numTrueAccepts := (nta : Int), TAR := tar,
         numFalseAccepts := (nfa : Int), FAR := far, result := res }) := by
  have hlen : (positiveScores b).length = resp.length := by
    rw [← hresp, List.length_insertionSort]
  obtain ⟨b1, r, he, hb1, hr1, hr2, hr3, hr4, hr5, hr6, hr7, hr8, hr9⟩ :=
    isErrDesired_spec b (by rw [hlen, hk]; exact ⟨by omega, by omega⟩)
  rw [hlen] at hr2 hr3 hr4
  rw [hresp] at hr1
  rw [hk] at hr4
  have hb : b1 = { b with threshold := thr } := by
    rw [hb1, hr1, hr4, Int.toNat_ofNat, hthr]
  subst hb
  rw [hr1, hr2, hr4, Int.toNat_ofNat] at hr5
  have hta : r.numTrueAccepts = (nta : Int) := by
    rw [hr5, ← hnta]
    push_cast
    omega
  have hfa : r.numFalseAccepts = (nfa : Int) := by rw [hr7, hnfa]
  rw [hnneg] at hr3
  rw [hta, hr2] at hr6
  rw [hfa, hr3] at hr8
  rw [htar] at hr6
  rw [hfar] at hr8
  rw [hr3, hr8, hres] at hr9
  rw [he]
  cases r
  simp only at hr1 hr2 hr3 hr4 hta hr6 hfa hr8 hr9
  subst hr1 hr2 hr3 hr4 hta hr6 hfa hr8 hr9
  rfl

theorem isErrDesired_none (b : CascadeBoost)
    (hk : ¬ (0 ≤ truncToInt (f32mul (f32sub 1 b.minTAR)
        (f32ofInt ((positiveScores b).length : Int)))
      ∧ truncToInt (f32mul (f32sub 1 b.minTAR) (f32ofInt ((positiveScores b).length : Int)))
          < ((positiveScores b).length : Int))) :
    b.isErrDesired = none := by
  unfold CascadeBoost.isErrDesired
  simp only [List.length_insertionSort]
  rw [if_neg (by simpa [positiveScores] using hk)]

theorem thresholdIdx_eval (m a z : ℚ) (P k : Nat) (ha : f32sub 1 m = a)
    (hP : P ≤ 16777216) (hz : roundF32 (a * (P : ℚ)) = z) (hk1 : (k : ℚ) ≤ z)
    (hk2 : z < (k : ℚ) + 1) :
    truncToInt (f32mul (f32sub 1 m) (f32ofInt (P : Int))) = (k : Int) := by
  rw [ha, f32ofInt_natCast P hP]
  unfold f32mul
  rw [hz]
  unfold truncToInt
  have hz0 : 0 ≤ z := le_trans (Nat.cast_nonneg k) hk1
  rw [if_pos hz0, Int.floor_eq_iff]
  exact ⟨by exact_mod_cast hk1, by exact_mod_cast hk2⟩

theorem rate_eval (a b : Nat) (q : ℚ) (ha : a ≤ 16777216) (hb : b ≤ 16777216)
    (h : roundF32 ((a : ℚ) / (b : ℚ)) = q) :
    f32div (f32ofInt (a : Int)) (f32ofInt (b : Int)) = q := by
  rw [f32ofInt_natCast a ha, f32ofInt_natCast b hb]
  exact h

theorem roundF32_one : roundF32 1 = 1 := by
  have := roundF32_natCast 1 (by norm_num)
  simpa using this

theorem roundF32_half : roundF32 (1 / 2) = 1 / 2 := by
  apply roundF32_eval (1 / 2) (-1) 8388608 <;> norm_num

theorem f32sub_one_half : f32sub 1 (1 / 2) = 1 / 2 := by
  unfold f32sub
  have e : (1 : ℚ) - 1 / 2 = 1 / 2 := by norm_num
  rw [e, roundF32_half]

theorem roundPool_scores :
    (positiveScores roundPool).insertionSort (· ≤ ·)
      = [-1, -1, -1, -1, -1, -1, -1, -1, -1, -1, -1, -1, -1, -1, 1, 1] := by
  simp [positiveScores, roundPool, CascadeBoost.predict, CascadeBoostTree.predict,
    List.range, List.range.loop, CvDTreeSplit.c, CvDTreeSplit.var_idx]
  norm_num

theorem roundPool_isErrDesired :
    roundPool.isErrDesired = some
      ({ roundPool with threshold := 1 },
       { responses := [-1, -1, -1, -1, -1, -1, -1, -1, -1, -1, -1, -1, -1, -1, 1, 1],
         numPos := 16, numNeg := 1, thresholdIdx := 14, numTrueAccepts := 2, TAR := 1 / 8,
         numFalseAccepts := 0, FAR := 0, result := true }) := by
  have h := isErrDesired_eval roundPool
    [-1, -1, -1, -1, -1, -1, -1, -1, -1, -1, -1, -1, -1, -1, 1, 1] 14 1 2 0 ((1 : Nat) : Int)
    (1 / 8) 0 true roundPool_scores
    (thresholdIdx_eval _ (7 / 8) 14 16 14
      (by unfold f32sub
          apply roundF32_eval _ (-1) 14680064 <;> norm_num [roundPool])
      (by norm_num)
      (by have := roundF32_natCast 14 (by norm_num)
          norm_num at this ⊢
          exact this)
      (by norm_num) (by norm_num))
    (by decide) (by rfl)
    (by simp [FLT_EPSILON]; norm_num)
    (by simp [roundPool, CascadeBoost.predict, CascadeBoostTree.predict, List.range,
          List.range.loop, CvDTreeSplit.c, CvDTreeSplit.var_idx, FLT_EPSILON]
        norm_num)
    (by simp [roundPool])
    (rate_eval 2 16 _ (by norm_num) (by norm_num)
      (by apply roundF32_eval _ (-3) 8388608 <;> norm_num))
    (rate_eval 0 1 _ (by norm_num) (by norm_num) (by simpa using roundF32_zero))
    (by simp [roundPool])
  simpa using h

theorem f32ofInt_of_bounds (n : Int) (h0 : 0 ≤ n) (h : n ≤ 16777216) :
    f32ofInt n = (n : ℚ) := by
  obtain ⟨m, rfl⟩ := Int.eq_ofNat_of_zero_le h0
  rw [f32ofInt_natCast m (by omega)]
  simp

theorem report_TAR_f32_ge (t : ℚ) (r : ErrReport) (c : Nat)
    (hta : r.numTrueAccepts = r.numPos - r.thresholdIdx + (c : Int))
    (htar : r.TAR = f32div (f32ofInt r.numTrueAccepts) (f32ofInt r.numPos))
    (hP : 0 < r.numPos) (hP24 : r.numPos ≤ 16777216)
    (hk1 : r.thresholdIdx < r.numPos) (hc : (c : Int) ≤ r.thresholdIdx)
    (hq : t ≤ (r.numTrueAccepts : ℚ) / (r.numPos : ℚ)) :
    t - 1 / 33554432 ≤ r.TAR := by
  have hn0 : 0 ≤ r.numTrueAccepts := by omega
  have hn1 : r.numTrueAccepts ≤ r.numPos := by omega
  rw [htar, f32ofInt_of_bounds _ hn0 (by omega), f32ofInt_of_bounds _ (le_of_lt hP) hP24]
  unfold f32div
  have hPq : (0 : ℚ) < (r.numPos : ℚ) := by exact_mod_cast hP
  have h := roundF32_unit_abs ((r.numTrueAccepts : ℚ) / (r.numPos : ℚ))
    (div_nonneg (by exact_mod_cast hn0) (le_of_lt hPq))
    (by rw [div_le_one hPq]; exact_mod_cast hn1)
  rw [abs_le] at h
  linarith [h.1]

theorem take_filter_length_le (S : List ℚ) (k : Int) (hk : 0 ≤ k) (p : ℚ → Bool) :
    ((((S.take k.toNat).filter p).length : Nat) : Int) ≤ k := by
  have h1 := List.length_filter_le p (S.take k.toNat)
  have h2 := List.length_take_le k.toNat S
  omega

theorem FLT_EPSILON_pos : 0 < FLT_EPSILON := by
  unfold FLT_EPSILON; norm_num

theorem count_ge_le (S : List ℚ) (k : Nat) (thr : ℚ) :
    S.countP (fun x => decide (thr ≤ x))
      ≤ ((S.take k).filter (fun x => decide (x - thr > -FLT_EPSILON))).length
        + (S.length - k) := by
  have hS : S.countP (fun x => decide (thr ≤ x))
      = (S.take k).countP (fun x => decide (thr ≤ x))
        + (S.drop k).countP (fun x => decide (thr ≤ x)) := by
    rw [← List.countP_append, List.take_append_drop]
  have h1 : (S.take k).countP (fun x => decide (thr ≤ x))
      ≤ (S.take k).countP (fun x => decide (x - thr > -FLT_EPSILON)) := by
    apply List.countP_mono_left
    intro x _ hx
    have hx1 : thr ≤ x := of_decide_eq_true hx
    have := FLT_EPSILON_pos
    exact decide_eq_true (by linarith)
  have h2 : (S.drop k).countP (fun x => decide (thr ≤ x)) ≤ S.length - k := by
    have := List.countP_le_length (l := S.drop k) (fun x => decide (thr ≤ x))
    rwa [List.length_drop] at this
  rw [hS, ← List.countP_eq_length_filter]
  omega

theorem count_positive_ge (b : CascadeBoost) (thr : ℚ) :
    ((List.range b.sample_count).filter
        (fun i => decide (b.label i = 1 ∧ thr ≤ b.predict i false))).length
      = (positiveScores b).countP (fun x => decide (thr ≤ x)) := by
  unfold positiveScores
  rw [List.countP_map, List.countP_filter, List.countP_eq_length_filter]
  congr 1
  apply List.filter_congr
  intro i _
  simp only [Function.comp_apply, Bool.decide_and, Bool.and_comm]

/-- What `isErrDesired` guarantees about the true accepts for at most `2^24` samples,
at least one of them positive, and `2^-24 ≤ minTAR < 1`. -/
theorem isErrDesired_TAR_bounds (b : CascadeBoost)
    (hpos : ∃ i, i < b.sample_count ∧ b.label i = 1) (hm : 1 / 16777216 ≤ b.minTAR)
    (h1 : b.minTAR < 1) (hN : b.sample_count ≤ 16777216) :
    ∃ b1 r, b.isErrDesired = some (b1, r)
      ∧ r.numPos = (((List.range b.sample_count).filter (fun i => b.label i = 1)).length : Int)
      ∧ r.TAR = f32div (f32ofInt r.numTrueAccepts) (f32ofInt r.numPos)
      ∧ (((List.range b.sample_count).filter
            (fun i => b.label i = 1 ∧ b1.threshold ≤ b.predict i false)).length : Int)
          ≤ r.numTrueAccepts
      ∧ r.numPos - r.thresholdIdx ≤ r.numTrueAccepts
      ∧ b.minTAR - 3 / 33554432 ≤ (r.numTrueAccepts : ℚ) / (r.numPos : ℚ)
      ∧ b.minTAR - FLT_EPSILON ≤ r.TAR
      ∧ ((r.thresholdIdx : ℚ) ≤ (1 - b.minTAR) * (r.numPos : ℚ) →
          b.minTAR ≤ (r.numTrueAccepts : ℚ) / (r.numPos : ℚ)) := by
  obtain ⟨b1, r, he, hb1, hresp, hnp, -, -, hta, htar, -, -, -, hP, hk0, hk1, hk, -⟩ :=
    isErrDesired_valid b hpos hm h1 hN
  have hP24 : r.numPos ≤ 16777216 := by
    rw [hnp]
    have := (positiveScores_length_le b).trans hN
    omega
  have hex := report_TAR_ge (b.minTAR - 3 / 33554432) r _ hta hP
    (by have e : (1 : ℚ) - (b.minTAR - 3 / 33554432) = 1 - b.minTAR + 3 / 33554432 := by ring
        rw [e]; exact hk)
  have hfl := report_TAR_f32_ge (b.minTAR - 3 / 33554432) r _ hta htar hP hP24 hk1
    (take_filter_length_le _ _ hk0 _) hex
  refine ⟨b1, r, he, ?_, htar, ?_, ?_, hex, ?_,
    fun hk2 => report_TAR_ge b.minTAR r _ hta hP hk2⟩
  · rw [hnp]
    simp [positiveScores]
  · have hc := count_ge_le r.responses r.thresholdIdx.toNat b1.threshold
    have hperm : r.responses.countP (fun x => decide (b1.threshold ≤ x))
        = (positiveScores b).countP (fun x => decide (b1.threshold ≤ x)) := by
      rw [hresp]
      exact List.Perm.countP_eq _ (List.perm_insertionSort _ _)
    have hlen : r.responses.length = (positiveScores b).length := by
      rw [hresp, List.length_insertionSort]
    rw [count_positive_ge b b1.threshold, ← hperm, hta]
    rw [hlen] at hc
    omega
  · rw [hta]
    omega
  · unfold FLT_EPSILON
    linarith

/-- C3, counterexample.  In `roundPool` (sixteen positives, `minTAR = 0.125 + 2^-26`) the
single-precision difference `1.0F - minTAR` is `0.875` and the index `(int)(0.875F * 16)`
is `14`, one more than the integer part `13` of the exact product; `isErrDesired` takes the
score `1` as the threshold and counts two true accepts, so the true-accept rate `2/16`,
in exact arithmetic and in single precision alike, is below `minTAR`. -/
theorem TAR_below_minTAR_counterexample :
    roundPool.isErrDesired = some
      ({ roundPool with threshold := 1 },
       { responses := [-1, -1, -1, -1, -1, -1, -1, -1, -1, -1, -1, -1, -1, -1, 1, 1],
         numPos := 16, numNeg := 1, thresholdIdx := 14, numTrueAccepts := 2, TAR := 1 / 8,
         numFalseAccepts := 0, FAR := 0, result := true })
    ∧ (∃ i, i < roundPool.sample_count ∧ roundPool.label i = 1)
    ∧ 0 < roundPool.minTAR ∧ roundPool.minTAR < 1
    ∧ ((2 : Int) : ℚ) / ((16 : Int) : ℚ) < roundPool.minTAR
    ∧ (1 / 8 : ℚ) < roundPool.minTAR :=
  ⟨roundPool_isErrDesired, ⟨0, by decide, by simp [roundPool]⟩, by norm_num [roundPool],
    by norm_num [roundPool], by norm_num [roundPool], by norm_num [roundPool]⟩

/-- C3, amended.  For a pool of at most `2^24` samples with at least one positive sample
and `2^-24 ≤ minTAR < 1`, `isErrDesired` returns, the number of positives it uses is the
number of samples labelled `1`, the rate it holds is the single-precision quotient of the
two counts, and the true-accept rate `numTrueAccepts / numPos` in exact arithmetic is at
least `minTAR - 3 * 2^-25`, the rate held at least `minTAR - FLT_EPSILON`; the exact rate
is at least `minTAR` whenever the index the function computed in single precision does
not exceed the exact product `(1 - minTAR) * numPos`. -/
theorem isErrDesired_TAR_ge_minTAR (b : CascadeBoost)
    (hpos : ∃ i, i < b.sample_count ∧ b.label i = 1) (hm : 1 / 16777216 ≤ b.minTAR)
    (h1 : b.minTAR < 1) (hN : b.sample_count ≤ 16777216) :
    ∃ b1 r, b.isErrDesired = some (b1, r)
      ∧ r.numPos = (((List.range b.sample_count).filter (fun i => b.label i = 1)).length : Int)
      ∧ r.TAR = f32div (f32ofInt r.numTrueAccepts) (f32ofInt r.numPos)
      ∧ b.minTAR - 3 / 33554432 ≤ (r.numTrueAccepts : ℚ) / (r.numPos : ℚ)
      ∧ b.minTAR - FLT_EPSILON ≤ r.TAR
      ∧ ((r.thresholdIdx : ℚ) ≤ (1 - b.minTAR) * (r.numPos : ℚ) →
          b.minTAR ≤ (r.numTrueAccepts : ℚ) / (r.numPos : ℚ)) := by
  obtain ⟨b1, r, he, hnp, htar, -, -, hex, hfl, himp⟩ := isErrDesired_TAR_bounds b hpos hm h1 hN
  exact ⟨b1, r, he, hnp, htar, hex, hfl, himp⟩

/-- Witness for the amended C3 at `roundPool`. -/
theorem isErrDesired_TAR_ge_minTAR_witness :
    (∃ i, i < roundPool.sample_count ∧ roundPool.label i = 1)
    ∧ 1 / 16777216 ≤ roundPool.minTAR
    ∧ roundPool.minTAR < 1 ∧ roundPool.sample_count ≤ 16777216 ∧
    ∃ b1 r, roundPool.isErrDesired = some (b1, r)
      ∧ r.numPos = (((List.range roundPool.sample_count).filter
          (fun i => roundPool.label i = 1)).length : Int)
      ∧ r.TAR = f32div (f32ofInt r.numTrueAccepts) (f32ofInt r.numPos)
      ∧ roundPool.minTAR - 3 / 33554432 ≤ (r.numTrueAccepts : ℚ) / (r.numPos : ℚ)
      ∧ roundPool.minTAR - FLT_EPSILON ≤ r.TAR
      ∧ ((r.thresholdIdx : ℚ) ≤ (1 - roundPool.minTAR) * (r.numPos : ℚ) →
          roundPool.minTAR ≤ (r.numTrueAccepts : ℚ) / (r.numPos : ℚ)) :=
  ⟨⟨0, by decide, by simp [roundPool]⟩, by norm_num [roundPool], by norm_num [roundPool],
    by decide,
    isErrDesired_TAR_ge_minTAR roundPool ⟨0, by decide, by simp [roundPool]⟩
      (by norm_num [roundPool]) (by norm_num [roundPool]) (by decide)⟩

theorem farPool_scores : (positiveScores farPool).insertionSort (· ≤ ·) = [1] := by
  simp [positiveScores, farPool, CascadeBoost.predict, CascadeBoostTree.predict,
    List.range, List.range.loop, CvDTreeSplit.c, CvDTreeSplit.var_idx]
  norm_num

theorem farPool_isErrDesired :
    farPool.isErrDesired = some
      ({ farPool with threshold := 1 },
       { responses := [1], numPos := 1, numNeg := 6, thresholdIdx := 0,
         numTrueAccepts := 1, TAR := 1, numFalseAccepts := 5,
         FAR := 13981013 / 16777216, result := true }) := by
  have h := isErrDesired_eval farPool [1] 0 1 1 5 ((6 : Nat) : Int) 1
    (13981013 / 16777216) true farPool_scores
    (thresholdIdx_eval _ (1 / 2) (1 / 2) 1 0 f32sub_one_half (by norm_num)
      (by simpa using roundF32_half) (by norm_num) (by norm_num))
    (by decide) (by rfl)
    (by simp)
    (by simp [farPool, CascadeBoost.predict, CascadeBoostTree.predict, List.range,
          List.range.loop, CvDTreeSplit.c, CvDTreeSplit.var_idx, FLT_EPSILON]
        norm_num)
    (by simp [farPool])
    (rate_eval 1 1 _ (by norm_num) (by norm_num) (by simpa using roundF32_one))
    (rate_eval 5 6 _ (by norm_num) (by norm_num)
      (by apply roundF32_eval _ (-1) 13981013 <;> norm_num))
    (by simp [farPool])
  simpa using h

/-- C4, counterexample.  In `farPool` five of the six negative samples are counted as
false accepts; the single-precision quotient `5.f / 6.f` is `13981013 / 2^24`, equal to
`maxFAR`, so `isErrDesired` returns true, while the quotient of the two counts, `5/6`, is
greater than `maxFAR`. -/
theorem result_true_FAR_above_counterexample :
    farPool.isErrDesired = some
      ({ farPool with threshold := 1 },
       { responses := [1], numPos := 1, numNeg := 6, thresholdIdx := 0,
         numTrueAccepts := 1, TAR := 1, numFalseAccepts := 5,
         FAR := 13981013 / 16777216, result := true })
    ∧ (∃ i, i < farPool.sample_count ∧ farPool.label i = 1)
    ∧ (∃ j, j < farPool.sample_count ∧ farPool.label j = 0)
    ∧ farPool.maxFAR < ((5 : Int) : ℚ) / ((6 : Int) : ℚ) :=
  ⟨farPool_isErrDesired, ⟨0, by decide, by simp [farPool]⟩, ⟨1, by decide, by simp [farPool]⟩,
    by norm_num [farPool]⟩

theorem falseAccepts_le (b b1 : CascadeBoost) :
    ((List.range b.sample_count).filter
        (fun i => b.label i = 0 ∧ b1.predict i true > -FLT_EPSILON)).length
      ≤ ((List.range b.sample_count).filter (fun i => b.label i ≠ 1)).length := by
  rw [← List.countP_eq_length_filter, ← List.countP_eq_length_filter]
  apply List.countP_mono_left
  intro i _ hi
  simp only [decide_eq_true_eq] at hi
  simp only [ne_eq, decide_not, Bool.not_eq_eq_eq_not, Bool.not_true, decide_eq_false_iff_not]
  rw [hi.1]
  norm_num

theorem filter_range_le (n : Nat) (p : Nat → Bool) :
    ((List.range n).filter p).length ≤ n :=
  (List.length_filter_le _ _).trans (by rw [List.length_range])

/-- C4, amended.  For a pool with at least one positive and one negative sample,
whenever `isErrDesired` returns, it returns true exactly when the single-precision
quotient of the number of samples labelled `0` with `predict(i, true) > -FLT_EPSILON`
(under the threshold just set) and the number of samples not labelled `1` is at most
`maxFAR`; for at most `2^24` samples that quotient is the value of type `float` nearest
to the exact quotient, so a true result gives an exact quotient of at most
`maxFAR + 2^-25`, and an exact quotient of at most `maxFAR - 2^-25` gives a true result;
and for `2^-24 ≤ minTAR < 1` the function does return. -/
theorem isErrDesired_result_iff (b : CascadeBoost)
    (hpos : ∃ i, i < b.sample_count ∧ b.label i = 1)
    (hneg : ∃ j, j < b.sample_count ∧ b.label j = 0) (hN : b.sample_count ≤ 16777216) :
    (∀ b1 r, b.isErrDesired = some (b1, r) →
      (r.result = true ↔
        f32div
          (f32ofInt (((List.range b.sample_count).filter
            (fun i => b.label i = 0 ∧ b1.predict i true > -FLT_EPSILON)).length : Int))
          (f32ofInt (((List.range b.sample_count).filter
            (fun i => b.label i ≠ 1)).length : Int))
          ≤ b.maxFAR)
      ∧ (r.result = true →
          ((((List.range b.sample_count).filter
              (fun i => b.label i = 0 ∧ b1.predict i true > -FLT_EPSILON)).length : ℚ)
            / (((List.range b.sample_count).filter (fun i => b.label i ≠ 1)).length : ℚ)
            ≤ b.maxFAR + 1 / 33554432))
      ∧ (((((List.range b.sample_count).filter
              (fun i => b.label i = 0 ∧ b1.predict i true > -FLT_EPSILON)).length : ℚ)
            / (((List.range b.sample_count).filter (fun i => b.label i ≠ 1)).length : ℚ)
            ≤ b.maxFAR - 1 / 33554432) → r.result = true))
    ∧ (1 / 16777216 ≤ b.minTAR → b.minTAR < 1 → ∃ b1 r, b.isErrDesired = some (b1, r)) := by
  constructor
  · intro b1 r h
    obtain ⟨-, -, -, hnn, hfa, hfar, hres⟩ := isErrDesired_fields b b1 r h
    have hnn2 := hnn.trans (numNeg_eq b)
    obtain ⟨j, hj, hl⟩ := hneg
    have hmem : j ∈ (List.range b.sample_count).filter (fun i => b.label i ≠ 1) := by
      simp [List.mem_filter, hj, hl]
    have hlen := List.length_pos_of_mem hmem
    have hne : r.numNeg ≠ 0 := by
      rw [hnn2]
      omega
    have hiff : r.result = true ↔
        f32div
          (f32ofInt (((List.range b.sample_count).filter
            (fun i => b.label i = 0 ∧ b1.predict i true > -FLT_EPSILON)).length : Int))
          (f32ofInt (((List.range b.sample_count).filter
            (fun i => b.label i ≠ 1)).length : Int))
          ≤ b.maxFAR := by
      rw [hres, decide_eq_true_iff, hfar, hfa, hnn2]
      constructor
      · intro h; exact h.2
      · intro h; exact ⟨by rw [← hnn2]; exact hne, h⟩
    have hq : f32div
          (f32ofInt (((List.range b.sample_count).filter
            (fun i => b.label i = 0 ∧ b1.predict i true > -FLT_EPSILON)).length : Int))
          (f32ofInt (((List.range b.sample_count).filter
            (fun i => b.label i ≠ 1)).length : Int))
        = roundF32 ((((List.range b.sample_count).filter
              (fun i => b.label i = 0 ∧ b1.predict i true > -FLT_EPSILON)).length : ℚ)
            / (((List.range b.sample_count).filter (fun i => b.label i ≠ 1)).length : ℚ)) :=
      rate_eval _ _ _ ((filter_range_le _ _).trans hN) ((filter_range_le _ _).trans hN) rfl
    have hle := falseAccepts_le b b1
    have hden : (0 : ℚ) < (((List.range b.sample_count).filter
        (fun i => b.label i ≠ 1)).length : ℚ) := by exact_mod_cast hlen
    have herr := roundF32_unit_abs
      ((((List.range b.sample_count).filter
          (fun i => b.label i = 0 ∧ b1.predict i true > -FLT_EPSILON)).length : ℚ)
        / (((List.range b.sample_count).filter (fun i => b.label i ≠ 1)).length : ℚ))
      (div_nonneg (Nat.cast_nonneg _) (le_of_lt hden))
      (by rw [div_le_one hden]; exact_mod_cast hle)
    rw [abs_le] at herr
    refine ⟨hiff, ?_, ?_⟩
    · intro ht
      have := hiff.mp ht
      rw [hq] at this
      linarith [herr.1]
    · intro hl2
      apply hiff.mpr
      rw [hq]
      linarith [herr.2]
  · intro hm h1
    obtain ⟨b1, r, he, -⟩ := isErrDesired_valid b hpos hm h1 hN
    exact ⟨b1, r, he⟩

/-- Witness for the amended C4 at `farPool`. -/
theorem isErrDesired_result_iff_witness :
    (∃ i, i < farPool.sample_count ∧ farPool.label i = 1)
    ∧ (∃ j, j < farPool.sample_count ∧ farPool.label j = 0)
    ∧ farPool.sample_count ≤ 16777216
    ∧ (∀ b1 r, farPool.isErrDesired = some (b1, r) →
      (r.result = true ↔
        f32div
          (f32ofInt (((List.range farPool.sample_count).filter
            (fun i => farPool.label i = 0 ∧ b1.predict i true > -FLT_EPSILON)).length : Int))
          (f32ofInt (((List.range farPool.sample_count).filter
            (fun i => farPool.label i ≠ 1)).length : Int))
          ≤ farPool.maxFAR)
      ∧ (r.result = true →
          ((((List.range farPool.sample_count).filter
              (fun i => farPool.label i = 0 ∧ b1.predict i true > -FLT_EPSILON)).length : ℚ)
            / (((List.range farPool.sample_count).filter
                (fun i => farPool.label i ≠ 1)).length : ℚ)
            ≤ farPool.maxFAR + 1 / 33554432))
      ∧ (((((List.range farPool.sample_count).filter
              (fun i => farPool.label i = 0 ∧ b1.predict i true > -FLT_EPSILON)).length : ℚ)
            / (((List.range farPool.sample_count).filter
                (fun i => farPool.label i ≠ 1)).length : ℚ)
            ≤ farPool.maxFAR - 1 / 33554432) → r.result = true))
    ∧ (1 / 16777216 ≤ farPool.minTAR → farPool.minTAR < 1 →
        ∃ b1 r, farPool.isErrDesired = some (b1, r)) :=
  ⟨⟨0, by decide, by simp [farPool]⟩, ⟨1, by decide, by simp [farPool]⟩, by decide,
    isErrDesired_result_iff farPool ⟨0, by decide, by simp [farPool]⟩
      ⟨1, by decide, by simp [farPool]⟩ (by decide)⟩

/-- C5, counterexample.  In `roundPool` the integer part of `(1 - minTAR) * 16` is `13`
and the element at index `13` of the ascending scores of the sixteen positives is `-1`;
`isErrDesired` computes the index `14` in single precision and sets the threshold to the
element there, `1`. -/
theorem threshold_index_above_floor_counterexample :
    roundPool.isErrDesired = some
      ({ roundPool with threshold := 1 },
       { responses := [-1, -1, -1, -1, -1, -1, -1, -1, -1, -1, -1, -1, -1, -1, 1, 1],
         numPos := 16, numNeg := 1, thresholdIdx := 14, numTrueAccepts := 2, TAR := 1 / 8,
         numFalseAccepts := 0, FAR := 0, result := true })
    ∧ (positiveScores roundPool).insertionSort (· ≤ ·)
        = [-1, -1, -1, -1, -1, -1, -1, -1, -1, -1, -1, -1, -1, -1, 1, 1]
    ∧ ⌊(1 - roundPool.minTAR) * (16 : ℚ)⌋ = 13
    ∧ ([-1, -1, -1, -1, -1, -1, -1, -1, -1, -1, -1, -1, -1, -1, 1, 1] : List ℚ)[(13 : Nat)]?
        = some (-1) := by
  refine ⟨roundPool_isErrDesired, roundPool_scores, ?_, by simp⟩
  rw [Int.floor_eq_iff]
  norm_num [roundPool]

/-- C5, amended.  For a pool of at most `2^24` samples with `P ≥ 1` positive samples and
`2^-24 ≤ minTAR < 1`, `isErrDesired` returns, changing only the threshold, and the
threshold is the element at index `k = (int)((1.0F - minTAR) * P)`, computed in single
precision, of the raw scores of the positive samples arranged in ascending order; that
index satisfies `0 ≤ k < P` and
`(1 - minTAR - 3 * 2^-25) * P - 1 < k ≤ (1 - minTAR + 3 * 2^-25) * P`. -/
theorem isErrDesired_threshold (b : CascadeBoost)
    (hpos : ∃ i, i < b.sample_count ∧ b.label i = 1) (hm : 1 / 16777216 ≤ b.minTAR)
    (h1 : b.minTAR < 1) (hN : b.sample_count ≤ 16777216) :
    ∃ b1 r sorted, b.isErrDesired = some (b1, r)
      ∧ b1 = { b with threshold := b1.threshold }
      ∧ List.Sorted (· ≤ ·) sorted
      ∧ List.Perm sorted (positiveScores b)
      ∧ r.thresholdIdx
          = truncToInt (f32mul (f32sub 1 b.minTAR)
              (f32ofInt (((List.range b.sample_count).filter
                (fun i => b.label i = 1)).length : Int)))
      ∧ 0 ≤ r.thresholdIdx
      ∧ r.thresholdIdx
          < (((List.range b.sample_count).filter (fun i => b.label i = 1)).length : Int)
      ∧ sorted[r.thresholdIdx.toNat]? = some b1.threshold
      ∧ (1 - b.minTAR - 3 / 33554432)
            * (((List.range b.sample_count).filter (fun i => b.label i = 1)).length : ℚ) - 1
          < (r.thresholdIdx : ℚ)
      ∧ (r.thresholdIdx : ℚ) ≤ (1 - b.minTAR + 3 / 33554432)
            * (((List.range b.sample_count).filter (fun i => b.label i = 1)).length : ℚ) := by
  obtain ⟨b1, r, he, hb1, hresp, hnp, -, hti, -, -, -, -, -, hP, hk0, hk1, hup, hlo⟩ :=
    isErrDesired_valid b hpos hm h1 hN
  have hlenP : (positiveScores b).length
      = ((List.range b.sample_count).filter (fun i => b.label i = 1)).length := by
    simp [positiveScores]
  rw [hlenP] at hnp hti
  have hnq : (r.numPos : ℚ)
      = (((List.range b.sample_count).filter (fun i => b.label i = 1)).length : ℚ) := by
    rw [hnp]; simp
  rw [hnq] at hup hlo
  refine ⟨b1, r, r.responses, he, ?_, ?_, ?_, hti, hk0, by rw [← hnp]; exact hk1, ?_,
    hlo, hup⟩
  · rw [hb1]
  · rw [hresp]; exact List.sorted_insertionSort _ _
  · rw [hresp]; exact List.perm_insertionSort _ _
  · have hlen : r.thresholdIdx.toNat < r.responses.length := by
      rw [hresp, List.length_insertionSort, hlenP]
      omega
    rw [hb1]
    simp only [List.getD_eq_getElem?_getD]
    rw [List.getElem?_eq_getElem hlen]
    rfl

/-- Witness for the amended C5 at `roundPool`. -/
theorem isErrDesired_threshold_witness :
    (∃ i, i < roundPool.sample_count ∧ roundPool.label i = 1)
    ∧ 1 / 16777216 ≤ roundPool.minTAR
    ∧ roundPool.minTAR < 1 ∧ roundPool.sample_count ≤ 16777216 ∧
    ∃ b1 r sorted, roundPool.isErrDesired = some (b1, r)
      ∧ b1 = { roundPool with threshold := b1.threshold }
      ∧ List.Sorted (· ≤ ·) sorted
      ∧ List.Perm sorted (positiveScores roundPool)
      ∧ r.thresholdIdx
          = truncToInt (f32mul (f32sub 1 roundPool.minTAR)
              (f32ofInt (((List.range roundPool.sample_count).filter
                (fun i => roundPool.label i = 1)).length : Int)))
      ∧ 0 ≤ r.thresholdIdx
      ∧ r.thresholdIdx
          < (((List.range roundPool.sample_count).filter
              (fun i => roundPool.label i = 1)).length : Int)
      ∧ sorted[r.thresholdIdx.toNat]? = some b1.threshold
      ∧ (1 - roundPool.minTAR - 3 / 33554432)
            * (((List.range roundPool.sample_count).filter
                (fun i => roundPool.label i = 1)).length : ℚ) - 1
          < (r.thresholdIdx : ℚ)
      ∧ (r.thresholdIdx : ℚ) ≤ (1 - roundPool.minTAR + 3 / 33554432)
            * (((List.range roundPool.sample_count).filter
                (fun i => roundPool.label i = 1)).length : ℚ) :=
  ⟨⟨0, by decide, by simp [roundPool]⟩, by norm_num [roundPool], by norm_num [roundPool],
    by decide,
    isErrDesired_threshold roundPool ⟨0, by decide, by simp [roundPool]⟩
      (by norm_num [roundPool]) (by norm_num [roundPool]) (by decide)⟩

/-- C6, counterexample.  In `roundPool` the positives `14` and `15` have the raw score
`1`, equal to the threshold `isErrDesired` sets; both are counted, and the number of true
accepts equals the number of positives with a score `≥` the threshold; yet the counted
true-accept rate `2/16 = 0.125` is below `minTAR`. -/
theorem ties_counted_TAR_below_counterexample :
    ∃ b1 r, roundPool.isErrDesired = some (b1, r)
      ∧ b1.threshold = 1
      ∧ roundPool.predict 14 false = b1.threshold
      ∧ roundPool.predict 15 false = b1.threshold
      ∧ (((List.range roundPool.sample_count).filter
            (fun i => roundPool.label i = 1
              ∧ b1.threshold ≤ roundPool.predict i false)).length : Int)
          = r.numTrueAccepts
      ∧ r.TAR < roundPool.minTAR
      ∧ (r.numTrueAccepts : ℚ) / (r.numPos : ℚ) < roundPool.minTAR := by
  refine ⟨_, _, roundPool_isErrDesired, rfl, ?_, ?_, ?_, ?_, ?_⟩
  · simp [roundPool, CascadeBoost.predict, CascadeBoostTree.predict, CvDTreeSplit.c,
      CvDTreeSplit.var_idx]
    norm_num
  · simp [roundPool, CascadeBoost.predict, CascadeBoostTree.predict, CvDTreeSplit.c,
      CvDTreeSplit.var_idx]
    norm_num
  · simp [roundPool, CascadeBoost.predict, CascadeBoostTree.predict, CvDTreeSplit.c,
      CvDTreeSplit.var_idx, List.range, List.range.loop]
    norm_num
  · norm_num [roundPool]
  · norm_num [roundPool]

/-- C6, amended.  For a pool of at most `2^24` samples with at least one positive sample
and `2^-24 ≤ minTAR < 1`, the number of true accepts `isErrDesired` counts is at least the
number of positive samples whose raw score is `≥` the chosen threshold, those sorting
before index `k` included, and at least `numPos - k`; the counted true-accept rate is at
least `minTAR - FLT_EPSILON` (the exact quotient at least `minTAR - 3 * 2^-25`), and the
exact quotient is at least `minTAR` whenever the index computed in single precision does
not exceed the exact product `(1 - minTAR) * numPos`. -/
theorem isErrDesired_counts_ties (b : CascadeBoost)
    (hpos : ∃ i, i < b.sample_count ∧ b.label i = 1) (hm : 1 / 16777216 ≤ b.minTAR)
    (h1 : b.minTAR < 1) (hN : b.sample_count ≤ 16777216) :
    ∃ b1 r, b.isErrDesired = some (b1, r)
      ∧ (((List.range b.sample_count).filter
            (fun i => b.label i = 1 ∧ b1.threshold ≤ b.predict i false)).length : Int)
          ≤ r.numTrueAccepts
      ∧ r.numPos - r.thresholdIdx ≤ r.numTrueAccepts
      ∧ b.minTAR - FLT_EPSILON ≤ r.TAR
      ∧ b.minTAR - 3 / 33554432 ≤ (r.numTrueAccepts : ℚ) / (r.numPos : ℚ)
      ∧ ((r.thresholdIdx : ℚ) ≤ (1 - b.minTAR) * (r.numPos : ℚ) →
          b.minTAR ≤ (r.numTrueAccepts : ℚ) / (r.numPos : ℚ)) := by
  obtain ⟨b1, r, he, -, -, hcnt, hge, hex, hfl, himp⟩ := isErrDesired_TAR_bounds b hpos hm h1 hN
  exact ⟨b1, r, he, hcnt, hge, hfl, hex, himp⟩

/-- Witness for the amended C6 at `roundPool`. -/
theorem isErrDesired_counts_ties_witness :
    (∃ i, i < roundPool.sample_count ∧ roundPool.label i = 1)
    ∧ 1 / 16777216 ≤ roundPool.minTAR
    ∧ roundPool.minTAR < 1 ∧ roundPool.sample_count ≤ 16777216 ∧
    ∃ b1 r, roundPool.isErrDesired = some (b1, r)
      ∧ (((List.range roundPool.sample_count).filter
            (fun i => roundPool.label i = 1
              ∧ b1.threshold ≤ roundPool.predict i false)).length : Int)
          ≤ r.numTrueAccepts
      ∧ r.numPos - r.thresholdIdx ≤ r.numTrueAccepts
      ∧ roundPool.minTAR - FLT_EPSILON ≤ r.TAR
      ∧ roundPool.minTAR - 3 / 33554432 ≤ (r.numTrueAccepts : ℚ) / (r.numPos : ℚ)
      ∧ ((r.thresholdIdx : ℚ) ≤ (1 - roundPool.minTAR) * (r.numPos : ℚ) →
          roundPool.minTAR ≤ (r.numTrueAccepts : ℚ) / (r.numPos : ℚ)) :=
  ⟨⟨0, by decide, by simp [roundPool]⟩, by norm_num [roundPool], by norm_num [roundPool],
    by decide,
    isErrDesired_counts_ties roundPool ⟨0, by decide, by simp [roundPool]⟩
      (by norm_num [roundPool]) (by norm_num [roundPool]) (by decide)⟩

/-- C34, failing input.  `tinyPool` has one positive sample and `minTAR = 2^-26`, inside
`(0, 1)`; the single-precision difference `1.0F - minTAR` is `1`, so the index
`(int)((1.0F - minTAR) * 1)` is `1`, the number of positives, and the access
`responses[thresholdIdx]` of `isErrDesired` is outside the one-element array. -/
theorem isErrDesired_thresholdIdx_out_of_bounds :
    (∃ i, i < tinyPool.sample_count ∧ tinyPool.label i = 1)
    ∧ 0 < tinyPool.minTAR ∧ tinyPool.minTAR < 1
    ∧ (positiveScores tinyPool).length = 1
    ∧ f32sub 1 tinyPool.minTAR = 1
    ∧ truncToInt (f32mul (f32sub 1 tinyPool.minTAR)
        (f32ofInt ((positiveScores tinyPool).length : Int))) = 1
    ∧ tinyPool.isErrDesired = none := by
  have hlen : (positiveScores tinyPool).length = 1 := by
    simp [positiveScores, tinyPool, tiePool, List.range, List.range.loop]
  have hsub : f32sub 1 tinyPool.minTAR = 1 := by
    unfold f32sub
    apply roundF32_eval _ (-1) 16777216 <;> norm_num [tinyPool, tiePool]
  have hidx : truncToInt (f32mul (f32sub 1 tinyPool.minTAR)
      (f32ofInt ((positiveScores tinyPool).length : Int))) = 1 := by
    rw [hlen]
    exact thresholdIdx_eval _ 1 1 1 1 hsub (by norm_num) (by simpa using roundF32_one)
      (by norm_num) (by norm_num)
  refine ⟨⟨0, by decide, by simp [tinyPool, tiePool]⟩, by norm_num [tinyPool, tiePool],
    by norm_num [tinyPool, tiePool], hlen, hsub, hidx, ?_⟩
  apply isErrDesired_none
  rw [hidx, hlen]
  omega

/-! ### Prediction -/

theorem sumRange_eq (n : Nat) (w : Nat → ℚ) :
    sumRange n w = ∑ i in Finset.range n, w i := by
  unfold sumRange
  induction n with
  | zero => simp
  | succ n ih => rw [List.range_succ, List.foldl_append, ih, Finset.sum_range_succ]; rfl

theorem sum_forRange (n : Nat) (f a : Nat → ℚ) :
    ∑ i in Finset.range n, forRange n f a i = ∑ i in Finset.range n, f i := by
  apply Finset.sum_congr rfl
  intro i hi
  simp only [forRange, Finset.mem_range.mp hi, if_true]

theorem sum_renormalized (n : Nat) (w a : Nat → ℚ) (sumW : ℚ)
    (hs : sumW = ∑ i in Finset.range n, w i) (hpos : sumW > FLT_EPSILON) :
    ∑ i in Finset.range n, forRange n (fun i => w i * (1 / sumW)) a i = 1 := by
  have hne : sumW ≠ 0 := by
    have := FLT_EPSILON_pos
    exact ne_of_gt (lt_trans this hpos)
  rw [sum_forRange, ← Finset.sum_mul, ← hs]
  field_simp

theorem update_weights_core_tree (exp log : ℚ → ℚ) (maxCatCount : Int)
    (getVarValue : Int → Nat → ℚ) (st : BoostState) (t : CvDTreeNode) :
    ∃ st0 t0 w a, update_weights_core exp log maxCatCount getVarValue st (some t)
        = some (st0, t0, sumRange st.sample_count w)
      ∧ st0.weights = forRange st.sample_count w a
      ∧ st0.sample_count = st.sample_count
      ∧ st0.orig_response = st.orig_response
      ∧ st0.labels = st.labels := by
  unfold update_weights_core
  cases hbt : st.boost_type <;> cases hs : st.have_subsample <;>
    exact ⟨_, _, _, _, rfl, rfl, rfl, rfl, rfl⟩

theorem update_weights_core_init (exp log : ℚ → ℚ) (maxCatCount : Int)
    (getVarValue : Int → Nat → ℚ) (st : BoostState)
    (hlab : ∀ i, i < st.sample_count → st.labels i = 0 ∨ st.labels i = 1) :
    ∃ st0, update_weights_core exp log maxCatCount getVarValue st none = some (st0, none, 0)
      ∧ st0.weights = forRange st.sample_count (fun _ => 1 / (st.sample_count : ℚ)) st.weights
      ∧ st0.orig_response = forRange st.sample_count
          (fun i => truncToInt (st.labels i) * 2 - 1) st.orig_response
      ∧ st0.sample_count = st.sample_count
      ∧ st0.labels = st.labels := by
  have hidx : ∀ i, i < st.sample_count → rootSampleIndex st.sample_count i = i := by
    intro i hi
    unfold rootSampleIndex
    split
    · exact Nat.mod_eq_of_lt (by omega)
    · rfl
  have hcl : ∀ i, i < st.sample_count →
      (truncToInt (st.labels (rootSampleIndex st.sample_count i)) = 0
        ∨ truncToInt (st.labels (rootSampleIndex st.sample_count i)) = 1) := by
    intro i hi
    rw [hidx i hi]
    rcases hlab i hi with h | h
    · left; rw [h]; simp [truncToInt]
    · right; rw [h]; simp [truncToInt]
  have hall : (List.range st.sample_count).all
      (fun i => decide (truncToInt (st.labels (rootSampleIndex st.sample_count i)) = 0
        ∨ truncToInt (st.labels (rootSampleIndex st.sample_count i)) = 1)) = true := by
    rw [List.all_eq_true]
    intro i hi
    exact decide_eq_true (hcl i (List.mem_range.mp hi))
  have hw : forRange st.sample_count (fun _ => (1 : ℚ) / (st.sample_count : ℚ) * 1) st.weights
      = forRange st.sample_count (fun _ => 1 / (st.sample_count : ℚ)) st.weights := by
    simp only [mul_one]
  have ho : forRange st.sample_count
        (fun i => truncToInt (st.labels (rootSampleIndex st.sample_count i)) * 2 - 1)
        st.orig_response
      = forRange st.sample_count (fun i => truncToInt (st.labels i) * 2 - 1)
        st.orig_response := by
    funext i
    unfold forRange
    split
    · rename_i hi; simp only [hidx i hi]
    · rfl
  unfold update_weights_core
  simp only [hall, if_true]
  cases hbt : st.boost_type <;> exact ⟨_, rfl, hw, ho, rfl, rfl⟩

theorem update_weights_init (exp log : ℚ → ℚ) (maxCatCount : Int)
    (getVarValue : Int → Nat → ℚ) (st : BoostState)
    (hlab : ∀ i, i < st.sample_count → st.labels i = 0 ∨ st.labels i = 1) :
    ∃ st1, update_weights exp log maxCatCount getVarValue st none = some (st1, none)
      ∧ st1.weights = forRange st.sample_count (fun _ => 1 / (st.sample_count : ℚ)) st.weights
      ∧ st1.orig_response = forRange st.sample_count
          (fun i => truncToInt (st.labels i) * 2 - 1) st.orig_response
      ∧ st1.sample_count = st.sample_count
      ∧ st1.labels = st.labels := by
  obtain ⟨st0, hc, hw, ho, hn, hl⟩ :=
    update_weights_core_init exp log maxCatCount getVarValue st hlab
  have hno : ¬ ((0 : ℚ) > FLT_EPSILON) := not_lt.mpr (le_of_lt FLT_EPSILON_pos)
  refine ⟨st0, ?_, hw, ho, hn, hl⟩
  unfold update_weights
  rw [hc]
  simp only [hno, if_false]

theorem update_weights_tree (exp log : ℚ → ℚ) (maxCatCount : Int)
    (getVarValue : Int → Nat → ℚ) (st : BoostState) (t : CvDTreeNode) :
    ∃ st0 t0 w a st1, update_weights_core exp log maxCatCount getVarValue st (some t)
        = some (st0, t0, sumRange st.sample_count w)
      ∧ update_weights exp log maxCatCount getVarValue st (some t) = some (st1, t0)
      ∧ st0.weights = forRange st.sample_count w a
      ∧ st1.weights = (if sumRange st.sample_count w > FLT_EPSILON then
          forRange st.sample_count (fun i => st0.weights i * (1 / sumRange st.sample_count w))
            st0.weights
          else st0.weights)
      ∧ st1.sample_count = st.sample_count
      ∧ st1.orig_response = st.orig_response
      ∧ st1.labels = st.labels := by
  obtain ⟨st0, t0, w, a, hc, hw, hn, ho, hl⟩ :=
    update_weights_core_tree exp log maxCatCount getVarValue st t
  by_cases hs : sumRange st.sample_count w > FLT_EPSILON
  · refine ⟨st0, t0, w, a,
      { st0 with
        weights := forRange st0.sample_count
          (fun i => st0.weights i * (1 / sumRange st.sample_count w)) st0.weights },
      hc, ?_, hw, ?_, ?_, ?_, ?_⟩
    · unfold update_weights
      rw [hc]
      simp only [hs, if_true]
    · simp only [hs, if_true, hn]
    · exact hn
    · exact ho
    · exact hl
  · refine ⟨st0, t0, w, a, st0, hc, ?_, hw, ?_, hn, ho, hl⟩
    · unfold update_weights
      rw [hc]
      simp only [hs, if_false]
    · simp only [hs, if_false]

/-- C9 (the weights are normalised).  The first call of `update_weights` (no tree), on a
pool whose labels are `0` or `1`, leaves every weight equal to `1/N`, so that the weights
sum to `1` when `N > 0`.  A call after a tree, in any of the four variants, computes as
`sumW` the sum of the weights before the renormalisation, and when `sumW > FLT_EPSILON`
the weights it leaves sum to `1`. -/
theorem update_weights_sum_one (exp log : ℚ → ℚ) (maxCatCount : Int)
    (getVarValue : Int → Nat → ℚ) (st : BoostState) :
    ((∀ i, i < st.sample_count → st.labels i = 0 ∨ st.labels i = 1) →
      ∃ st1, update_weights exp log maxCatCount getVarValue st none = some (st1, none)
        ∧ (∀ i, i < st.sample_count → st1.weights i = 1 / (st.sample_count : ℚ))
        ∧ (0 < st.sample_count → ∑ i in Finset.range st.sample_count, st1.weights i = 1))
    ∧ (∀ tree : CvDTreeNode, ∃ st0 t0 sumW st1,
        update_weights_core exp log maxCatCount getVarValue st (some tree)
          = some (st0, t0, sumW)
        ∧ update_weights exp log maxCatCount getVarValue st (some tree) = some (st1, t0)
        ∧ sumW = ∑ i in Finset.range st.sample_count, st0.weights i
        ∧ (sumW > FLT_EPSILON → ∑ i in Finset.range st.sample_count, st1.weights i = 1)) := by
  constructor
  · intro hlab
    obtain ⟨st1, he, hw, -⟩ := update_weights_init exp log maxCatCount getVarValue st hlab
    refine ⟨st1, he, ?_, ?_⟩
    · intro i hi
      rw [hw]
      simp only [forRange, hi, if_true]
    · intro hn
      rw [hw, sum_forRange, Finset.sum_const, Finset.card_range, nsmul_eq_mul]
      have : (st.sample_count : ℚ) ≠ 0 := by exact_mod_cast (Nat.pos_iff_ne_zero.mp hn)
      field_simp
  · intro tree
    obtain ⟨st0, t0, w, a, st1, hc, he, hw, hw1, -⟩ :=
      update_weights_tree exp log maxCatCount getVarValue st tree
    have hsum : sumRange st.sample_count w = ∑ i in Finset.range st.sample_count, st0.weights i := by
      rw [sumRange_eq, hw, sum_forRange]
    refine ⟨st0, t0, _, st1, hc, he, hsum, ?_⟩
    intro hs
    rw [hw1, if_pos hs]
    exact sum_renormalized _ _ _ _ hsum hs

theorem exampleRound_sumW :
    (update_weights_core (fun x => 1 + x * x) id 0 (fun _ _ => 1) exampleRound
      (some exampleTree)).map (fun r => r.2.2) = some 2 := by
  simp [update_weights_core, exampleRound, examplePool, sumRange, forRange, List.range,
    List.range.loop]
  norm_num

/-- Witness for C9: the first call at `examplePool`, and the call after `exampleTree` at
`exampleRound`, with `exp x = 1 + x * x`, where `sumW = 2`. -/
theorem update_weights_sum_one_witness :
    (∀ i, i < examplePool.sample_count → examplePool.labels i = 0 ∨ examplePool.labels i = 1)
    ∧ 0 < examplePool.sample_count
    ∧ (∃ st1, update_weights (fun x => 1 + x * x) id 0 (fun _ _ => 1) examplePool none
          = some (st1, none)
        ∧ (∀ i, i < examplePool.sample_count → st1.weights i = 1 / (examplePool.sample_count : ℚ))
        ∧ ∑ i in Finset.range examplePool.sample_count, st1.weights i = 1)
    ∧ (∃ st0 t0 sumW st1,
        update_weights_core (fun x => 1 + x * x) id 0 (fun _ _ => 1) exampleRound
          (some exampleTree) = some (st0, t0, sumW)
        ∧ update_weights (fun x => 1 + x * x) id 0 (fun _ _ => 1) exampleRound
          (some exampleTree) = some (st1, t0)
        ∧ sumW > FLT_EPSILON
        ∧ ∑ i in Finset.range exampleRound.sample_count, st1.weights i = 1) := by
  have hlab : ∀ i, i < examplePool.sample_count →
      examplePool.labels i = 0 ∨ examplePool.labels i = 1 := by
    intro i _
    by_cases h : i = 1 <;> simp [examplePool, h]
  obtain ⟨st1, he, hw, hs⟩ :=
    (update_weights_sum_one (fun x => 1 + x * x) id 0 (fun _ _ => 1) examplePool).1 hlab
  obtain ⟨st0, t0, sumW, st2, hc, he2, -, hs2⟩ :=
    (update_weights_sum_one (fun x => 1 + x * x) id 0 (fun _ _ => 1) exampleRound).2
      exampleTree
  have h2 := exampleRound_sumW
  rw [hc] at h2
  have hsum : sumW = 2 := by simpa using h2
  have hgt : sumW > FLT_EPSILON := by rw [hsum]; unfold FLT_EPSILON; norm_num
  exact ⟨hlab, by decide, ⟨st1, he, hw, hs (by decide)⟩, st0, t0, sumW, st2, hc, he2, hgt,
    hs2 hgt⟩

/-- C10 (label mapping).  On a pool whose labels are all `0` or `1`, the first call of
`update_weights` sets `orig_response[i] = 2 * label(i) - 1`, a value in `{-1, +1}`, for
every sample, and keeps the labels; and a call of `update_weights` after a tree, from any
state and in any of the four variants, returns with `orig_response` (and the labels)
unchanged. -/
theorem orig_response_label_mapping (exp log : ℚ → ℚ) (maxCatCount : Int)
    (getVarValue : Int → Nat → ℚ) (st : BoostState)
    (hlab : ∀ i, i < st.sample_count → st.labels i = 0 ∨ st.labels i = 1) :
    ∃ st1, update_weights exp log maxCatCount getVarValue st none = some (st1, none)
      ∧ (∀ i, i < st.sample_count →
          ((st1.orig_response i : Int) : ℚ) = 2 * st.labels i - 1
          ∧ (st1.orig_response i = -1 ∨ st1.orig_response i = 1))
      ∧ st1.labels = st.labels ∧ st1.sample_count = st.sample_count
      ∧ ∀ (st2 : BoostState) (tree : CvDTreeNode), ∃ st3 t3,
          update_weights exp log maxCatCount getVarValue st2 (some tree) = some (st3, t3)
          ∧ st3.orig_response = st2.orig_response
          ∧ st3.labels = st2.labels ∧ st3.sample_count = st2.sample_count := by
  obtain ⟨st1, he, -, ho, hn, hl⟩ := update_weights_init exp log maxCatCount getVarValue st hlab
  refine ⟨st1, he, ?_, hl, hn, ?_⟩
  · intro i hi
    rw [ho]
    simp only [forRange, hi, if_true]
    rcases hlab i hi with h | h
    · rw [h]; simp [truncToInt]
    · rw [h]; simp [truncToInt]; norm_num
  · intro st2 tree
    obtain ⟨st0, t0, w, a, st3, -, he3, -, -, hn3, ho3, hl3⟩ :=
      update_weights_tree exp log maxCatCount getVarValue st2 tree
    exact ⟨st3, t0, he3, ho3, hl3, hn3⟩

/-- Witness for C10 at `examplePool`. -/
theorem orig_response_label_mapping_witness :
    (∀ i, i < examplePool.sample_count → examplePool.labels i = 0 ∨ examplePool.labels i = 1)
    ∧ ∃ st1, update_weights (fun x => 1 + x * x) id 0 (fun _ _ => 1) examplePool none
          = some (st1, none)
      ∧ (∀ i, i < examplePool.sample_count →
          ((st1.orig_response i : Int) : ℚ) = 2 * examplePool.labels i - 1
          ∧ (st1.orig_response i = -1 ∨ st1.orig_response i = 1))
      ∧ st1.labels = examplePool.labels ∧ st1.sample_count = examplePool.sample_count
      ∧ ∀ (st2 : BoostState) (tree : CvDTreeNode), ∃ st3 t3,
          update_weights (fun x => 1 + x * x) id 0 (fun _ _ => 1) st2 (some tree)
            = some (st3, t3)
          ∧ st3.orig_response = st2.orig_response
          ∧ st3.labels = st2.labels ∧ st3.sample_count = st2.sample_count :=
  ⟨fun i _ => by by_cases h : i = 1 <;> simp [examplePool, h],
    orig_response_label_mapping (fun x => 1 + x * x) id 0 (fun _ _ => 1) examplePool
      (fun i _ => by by_cases h : i = 1 <;> simp [examplePool, h])⟩

/-! ### Node splitting -/

theorem toU32_of_nonneg (x : Int) (h0 : 0 ≤ x) (h1 : x < 2147483648) :
    toU32 x = x.toNat := by
  unfold toU32
  rw [Int.emod_eq_of_lt h0 (by omega)]

theorem toU32_zero : toU32 0 = 0 := by decide

theorem toU32_neg_one : toU32 (-1) = 2 ^ 32 - 1 := by decide

theorem ofU32_toNat (x : Int) (h0 : 0 ≤ x) (h1 : x < 2147483648) : ofU32 x.toNat = x := by
  unfold ofU32
  have : x.toNat < 2147483648 := by omega
  rw [if_pos this]; omega

theorem and32_neg_one (x : Int) (h0 : 0 ≤ x) (h1 : x < 2147483648) : and32 x (-1) = x := by
  unfold and32
  rw [toU32_neg_one, Nat.and_pow_two_sub_one_eq_mod, toU32_of_nonneg x h0 h1,
    Nat.mod_eq_of_lt (by omega)]
  exact ofU32_toNat x h0 h1

theorem and32_zero (x : Int) : and32 x 0 = 0 := by
  unfold and32
  rw [toU32_zero, Nat.and_zero]; rfl

theorem or32_zero_right (x : Int) (h0 : 0 ≤ x) (h1 : x < 2147483648) : or32 x 0 = x := by
  unfold or32
  rw [toU32_zero, Nat.or_zero, toU32_of_nonneg x h0 h1]
  exact ofU32_toNat x h0 h1

theorem or32_zero_left (x : Int) (h0 : 0 ≤ x) (h1 : x < 2147483648) : or32 0 x = x := by
  unfold or32
  rw [toU32_zero, Nat.zero_or, toU32_of_nonneg x h0 h1]
  exact ofU32_toNat x h0 h1

theorem newIdxExpr_zero (nl nr : Int) (h0 : 0 ≤ nl) (h1 : nl < 2147483648) :
    newIdxExpr nl nr 0 = nl := by
  unfold newIdxExpr
  rw [show (0 : Int) - 1 = -1 by norm_num, show -(0 : Int) = 0 by norm_num, and32_zero,
    and32_neg_one nl h0 h1, or32_zero_right nl h0 h1]

theorem newIdxExpr_one (nl nr : Int) (h0 : 0 ≤ nr) (h1 : nr < 2147483648) :
    newIdxExpr nl nr 1 = nr := by
  unfold newIdxExpr
  rw [show (1 : Int) - 1 = 0 by norm_num, and32_zero, and32_neg_one nr h0 h1,
    or32_zero_left nr h0 h1]

theorem dirPositions_succ (dir : Nat → Nat) (d i : Nat) :
    dirPositions dir d (i + 1)
      = dirPositions dir d i ++ (if dir i = d then [i] else []) := by
  unfold dirPositions
  rw [List.range_succ, List.filter_append]
  by_cases h : dir i = d <;> simp [h]

theorem dirPositions_lt (dir : Nat → Nat) (d i : Nat) : ∀ j ∈ dirPositions dir d i, j < i := by
  intro j hj
  unfold dirPositions at hj
  exact List.mem_range.mp (List.mem_filter.mp hj).1

theorem dirPositions_length_add (dir : Nat → Nat) (n : Nat)
    (hdir : ∀ i, i < n → dir i = 0 ∨ dir i = 1) :
    (dirPositions dir 0 n).length + (dirPositions dir 1 n).length = n := by
  induction n with
  | zero => rfl
  | succ n ih =>
    have h := ih (fun i hi => hdir i (by omega))
    rw [dirPositions_succ, dirPositions_succ]
    rcases hdir n (by omega) with h0 | h1
    · simp [h0]; omega
    · simp [h1]; omega

theorem split_newIdx_spec (dir : Nat → Nat) (newIdx0 : Nat → Nat) (n : Nat)
    (hdir : ∀ i, i < n → dir i = 0 ∨ dir i = 1) (hn : n < 2147483648) :
    (split_newIdx dir newIdx0 n).2.1 = (dirPositions dir 0 n).length
    ∧ (split_newIdx dir newIdx0 n).2.2 = (dirPositions dir 1 n).length
    ∧ (∀ i, i < n →
        (split_newIdx dir newIdx0 n).1 i = (dirPositions dir (dir i) i).length)
    ∧ (∀ i, n ≤ i → (split_newIdx dir newIdx0 n).1 i = newIdx0 i) := by
  induction n with
  | zero =>
    refine ⟨rfl, rfl, ?_, fun i _ => rfl⟩
    intro i hi; omega
  | succ n ih =>
    obtain ⟨hl, hr, hi, ho⟩ := ih (fun i hi => hdir i (by omega)) (by omega)
    have hsum := dirPositions_length_add dir n (fun i hi => hdir i (by omega))
    simp only [split_newIdx]
    rw [dirPositions_succ, dirPositions_succ]
    rcases hdir n (by omega) with h0 | h1
    · have he : newIdxExpr ((split_newIdx dir newIdx0 n).2.1 : Int)
          ((split_newIdx dir newIdx0 n).2.2 : Int) ((dir n : Nat) : Int)
          = ((split_newIdx dir newIdx0 n).2.1 : Int) := by
        rw [h0]
        exact newIdxExpr_zero _ _ (by omega) (by omega)
      refine ⟨by simp [h0, hl], by simp [h0, hr], ?_, ?_⟩
      · intro i hlt
        by_cases hin : i = n
        · subst hin
          rw [Function.update_same, he, Int.toNat_ofNat, h0]
          exact hl
        · rw [Function.update_noteq hin]
          exact hi i (by omega)
      · intro i hge
        rw [Function.update_noteq (by omega)]
        exact ho i (by omega)
    · have he : newIdxExpr ((split_newIdx dir newIdx0 n).2.1 : Int)
          ((split_newIdx dir newIdx0 n).2.2 : Int) ((dir n : Nat) : Int)
          = ((split_newIdx dir newIdx0 n).2.2 : Int) := by
        rw [h1]
        exact newIdxExpr_one _ _ (by omega) (by omega)
      refine ⟨by simp [h1, hl], by simp [h1, hr], ?_, ?_⟩
      · intro i hlt
        by_cases hin : i = n
        · subst hin
          rw [Function.update_same, he, Int.toNat_ofNat, h1]
          exact hr
        · rw [Function.update_noteq hin]
          exact hi i (by omega)
      · intro i hge
        rw [Function.update_noteq (by omega)]
        exact ho i (by omega)

theorem map_rank_dirPositions (dir : Nat → Nat) (d : Nat) (f : Nat → Nat) (n : Nat)
    (h : ∀ i, i < n → dir i = d → f i = (dirPositions dir d i).length) :
    (dirPositions dir d n).map f = List.range (dirPositions dir d n).length := by
  induction n with
  | zero => rfl
  | succ n ih =>
    rw [dirPositions_succ]
    by_cases hd : dir n = d
    · simp only [hd, if_true, List.map_append, List.map_cons, List.map_nil,
        List.length_append, List.length_singleton, List.range_succ]
      rw [ih (fun i hi => h i (by omega)), h n (by omega) hd]
    · simp only [hd, if_false, List.append_nil]
      exact ih (fun i hi => h i (by omega))

/-- C18 (the new-index expression).  For `d` in `{0, 1}` and non-negative 32-bit
counters, `(nl & (d-1)) | (nr & -d)` in two's complement is `nl` when `d = 0` and `nr`
when `d = 1`.  Hence, for a direction vector in `{0,1}^n`, the first loop of
`split_node_data` ends with `nl` and `nr` the numbers of samples directed left and
right, and `newIdx` sends the samples directed left, taken in increasing order, to
`0, 1, ..., nl-1`, and the samples directed right to `0, 1, ..., nr-1`. -/
theorem newIdx_bit_trick :
    (∀ d nl nr : Int, d = 0 ∨ d = 1 → 0 ≤ nl → nl < 2147483648 → 0 ≤ nr → nr < 2147483648 →
      newIdxExpr nl nr d = if d = 0 then nl else nr)
    ∧ ∀ (dir newIdx0 : Nat → Nat) (n : Nat), (∀ i, i < n → dir i = 0 ∨ dir i = 1) →
        n < 2147483648 →
        (split_newIdx dir newIdx0 n).2.1 = (dirPositions dir 0 n).length
        ∧ (split_newIdx dir newIdx0 n).2.2 = (dirPositions dir 1 n).length
        ∧ (dirPositions dir 0 n).map (split_newIdx dir newIdx0 n).1
            = List.range (split_newIdx dir newIdx0 n).2.1
        ∧ (dirPositions dir 1 n).map (split_newIdx dir newIdx0 n).1
            = List.range (split_newIdx dir newIdx0 n).2.2 := by
  constructor
  · intro d nl nr hd hl0 hl1 hr0 hr1
    rcases hd with h | h
    · subst h; simp only [if_true]; exact newIdxExpr_zero nl nr hl0 hl1
    · subst h; simp only [one_ne_zero, if_false]; exact newIdxExpr_one nl nr hr0 hr1
  · intro dir newIdx0 n hdir hn
    obtain ⟨hl, hr, hi, -⟩ := split_newIdx_spec dir newIdx0 n hdir hn
    refine ⟨hl, hr, ?_, ?_⟩
    · rw [hl]
      exact map_rank_dirPositions dir 0 _ n (fun i hlt hd => by rw [hi i hlt, hd])
    · rw [hr]
      exact map_rank_dirPositions dir 1 _ n (fun i hlt hd => by rw [hi i hlt, hd])

/-- Witness for C18: `d = 1`, `nl = 2`, `nr = 3`, and the directions `0, 1, 0, 1`. -/
theorem newIdx_bit_trick_witness :
    ((1 : Int) = 0 ∨ (1 : Int) = 1) ∧ (0 : Int) ≤ 2 ∧ (2 : Int) < 2147483648 ∧ (0 : Int) ≤ 3
    ∧ (3 : Int) < 2147483648
    ∧ newIdxExpr 2 3 1 = (if (1 : Int) = 0 then 2 else 3)
    ∧ (∀ i, i < 4 → (fun j => j % 2) i = 0 ∨ (fun j => j % 2) i = 1) ∧ 4 < 2147483648
    ∧ (split_newIdx (fun j => j % 2) (fun _ => 0) 4).2.1
        = (dirPositions (fun j => j % 2) 0 4).length
    ∧ (split_newIdx (fun j => j % 2) (fun _ => 0) 4).2.2
        = (dirPositions (fun j => j % 2) 1 4).length
    ∧ (dirPositions (fun j => j % 2) 0 4).map (split_newIdx (fun j => j % 2) (fun _ => 0) 4).1
        = List.range (split_newIdx (fun j => j % 2) (fun _ => 0) 4).2.1
    ∧ (dirPositions (fun j => j % 2) 1 4).map (split_newIdx (fun j => j % 2) (fun _ => 0) 4).1
        = List.range (split_newIdx (fun j => j % 2) (fun _ => 0) 4).2.2 :=
  ⟨Or.inr rfl, by decide, by decide, by decide, by decide,
    newIdx_bit_trick.1 1 2 3 (Or.inr rfl) (by decide) (by decide) (by decide) (by decide),
    fun i _ => by simp only []; omega, by decide,
    newIdx_bit_trick.2 (fun j => j % 2) (fun _ => 0) 4 (fun i _ => by simp only []; omega)
      (by decide)⟩

/-! ### Reweighting rules -/

theorem update_weights_core_exp (exp log : ℚ → ℚ) (maxCatCount : Int)
    (getVarValue : Int → Nat → ℚ) (st : BoostState) (t : CvDTreeNode)
    (hbt : st.boost_type = BoostType.GENTLE ∨ st.boost_type = BoostType.REAL) :
    ∃ st0 a, update_weights_core exp log maxCatCount getVarValue st (some t)
        = some (st0, some t, sumRange st.sample_count (fun i => st.weights i
            * exp (-(st.orig_response i : ℚ) * treeResponse maxCatCount getVarValue st t i)))
      ∧ st0.sample_count = st.sample_count
      ∧ st0.weights = forRange st.sample_count (fun i => st.weights i
            * exp (-(st.orig_response i : ℚ) * treeResponse maxCatCount getVarValue st t i)) a := by
  have harg : ∀ (f : Nat → ℚ) (i : Nat),
      f i * -(st.orig_response i : ℚ) = -(st.orig_response i : ℚ) * f i := by
    intro f i; ring
  have hw : ∀ (we : Nat → ℚ), (∀ i, i < st.sample_count →
        we i = treeResponse maxCatCount getVarValue st t i) →
      (fun i => st.weights i * forRange st.sample_count
          (fun i => exp (we i * -(st.orig_response i : ℚ))) we i)
        = forRange st.sample_count (fun i => st.weights i
            * exp (-(st.orig_response i : ℚ) * treeResponse maxCatCount getVarValue st t i))
            (fun i => st.weights i * we i) := by
    intro we hwe
    funext i
    unfold forRange
    by_cases hi : i < st.sample_count
    · simp only [hi, if_true, hwe i hi, harg]
    · simp only [hi, if_false]
  have hsum : ∀ (f g : Nat → ℚ), (∀ i, i < st.sample_count → f i = g i) →
      sumRange st.sample_count f = sumRange st.sample_count g := by
    intro f g hfg
    rw [sumRange_eq, sumRange_eq]
    exact Finset.sum_congr rfl (fun i hi => hfg i (Finset.mem_range.mp hi))
  have hfr : ∀ (f a b : Nat → ℚ), forRange st.sample_count (forRange st.sample_count f a) b
      = forRange st.sample_count f b := by
    intro f a b; funext i; unfold forRange; split <;> rfl
  have hsf : ∀ (f a : Nat → ℚ), sumRange st.sample_count (forRange st.sample_count f a)
      = sumRange st.sample_count f :=
    fun f a => hsum _ _ (fun i hi => by simp only [forRange, hi, if_true])
  unfold update_weights_core
  cases hs : st.have_subsample
  · have hwe : ∀ i, i < st.sample_count →
        st.weak_eval i = treeResponse maxCatCount getVarValue st t i := by
      intro i _
      simp [treeResponse, hs]
    rcases hbt with h | h <;> rw [h] <;>
    · simp only [Bool.false_eq_true, if_false]
      rw [hw st.weak_eval hwe, hfr, hsf]
      exact ⟨_, _, rfl, rfl, rfl⟩
  · have hwe : ∀ i, i < st.sample_count →
        forRange st.sample_count
          (fun i => if forRange st.sample_count (fun i => st.subsample_mask i ^^^ 1)
              st.subsample_mask i ≠ 0
            then CascadeBoostTree.predict maxCatCount getVarValue i t else st.weak_eval i)
          st.weak_eval i
        = treeResponse maxCatCount getVarValue st t i := by
      intro i hi
      simp [treeResponse, hs, forRange, hi]
    rcases hbt with h | h <;> rw [h] <;>
    · simp only [if_true]
      rw [hw _ hwe, hfr, hsf]
      exact ⟨_, _, rfl, rfl, rfl⟩

/-- C19 (gentle and real reweighting).  In the gentle and in the real variant,
`update_weights(tree)` leaves the tree as it is, computes as `sumW` the sum over `j` of
`w_j * exp(-y_j * f_j)`, and, when `sumW > FLT_EPSILON`, leaves every weight equal to
`w_i * exp(-y_i * f_i) / sumW`, where `w` is the weight vector before the call,
`y_i = orig_response[i]` and `f_i` the response of the tree on sample `i`. -/
theorem update_weights_gentle_real (exp log : ℚ → ℚ) (maxCatCount : Int)
    (getVarValue : Int → Nat → ℚ) (st : BoostState) (tree : CvDTreeNode)
    (hbt : st.boost_type = BoostType.GENTLE ∨ st.boost_type = BoostType.REAL) :
    ∃ st0 sumW st1,
      update_weights_core exp log maxCatCount getVarValue st (some tree)
        = some (st0, some tree, sumW)
      ∧ update_weights exp log maxCatCount getVarValue st (some tree) = some (st1, some tree)
      ∧ sumW = ∑ j in Finset.range st.sample_count, st.weights j
          * exp (-(st.orig_response j : ℚ) * treeResponse maxCatCount getVarValue st tree j)
      ∧ (sumW > FLT_EPSILON → ∀ i, i < st.sample_count →
          st1.weights i = st.weights i
            * exp (-(st.orig_response i : ℚ) * treeResponse maxCatCount getVarValue st tree i)
            / sumW) := by
  obtain ⟨st0, a, hc, hn, hw⟩ :=
    update_weights_core_exp exp log maxCatCount getVarValue st tree hbt
  by_cases hs : sumRange st.sample_count (fun i => st.weights i
      * exp (-(st.orig_response i : ℚ) * treeResponse maxCatCount getVarValue st tree i))
      > FLT_EPSILON
  · refine ⟨st0, _,
      { st0 with
        weights := forRange st0.sample_count
          (fun i => st0.weights i * (1 / sumRange st.sample_count (fun i => st.weights i
            * exp (-(st.orig_response i : ℚ)
              * treeResponse maxCatCount getVarValue st tree i)))) st0.weights },
      hc, ?_, sumRange_eq _ _, ?_⟩
    · unfold update_weights
      rw [hc]
      simp only [hs, if_true]
    · intro _ i hi
      simp only [forRange, hn, hi, if_true, hw]
      rw [mul_one_div]
  · refine ⟨st0, _, st0, hc, ?_, sumRange_eq _ _, fun h => absurd h hs⟩
    unfold update_weights
    rw [hc]
    simp only [hs, if_false]

/-- Witness for C19 at `exampleRound` (gentle variant) with `exp x = 1 + x * x`, where
`sumW = 2`. -/
theorem update_weights_gentle_real_witness :
    (exampleRound.boost_type = BoostType.GENTLE ∨ exampleRound.boost_type = BoostType.REAL)
    ∧ ∃ st0 sumW st1,
      update_weights_core (fun x => 1 + x * x) id 0 (fun _ _ => 1) exampleRound
        (some exampleTree) = some (st0, some exampleTree, sumW)
      ∧ update_weights (fun x => 1 + x * x) id 0 (fun _ _ => 1) exampleRound
        (some exampleTree) = some (st1, some exampleTree)
      ∧ sumW > FLT_EPSILON
      ∧ ∀ i, i < exampleRound.sample_count →
          st1.weights i = exampleRound.weights i
            * (fun x => 1 + x * x) (-(exampleRound.orig_response i : ℚ)
                * treeResponse 0 (fun _ _ => 1) exampleRound exampleTree i)
            / sumW := by
  obtain ⟨st0, sumW, st1, hc, he, hsum, hw⟩ :=
    update_weights_gentle_real (fun x => 1 + x * x) id 0 (fun _ _ => 1) exampleRound
      exampleTree (Or.inl rfl)
  have h2 := exampleRound_sumW
  rw [hc] at h2
  have hs : sumW = 2 := by simpa using h2
  have hgt : sumW > FLT_EPSILON := by rw [hs]; unfold FLT_EPSILON; norm_num
  exact ⟨Or.inl rfl, st0, sumW, st1, hc, he, hgt, hw hgt⟩

theorem forFeatures_valOnly (a k : Nat) (d : CascadeBoostTrainData) :
    (List.range' a k).foldl (fun s fi => featureValOnlyPrecalc fi s) d
      = { d with
          valCache := fun f =>
            if a ≤ f ∧ f < a + k then
              fun si => if si < d.sample_count then d.response f si else d.valCache f si
            else d.valCache f } := by
  induction k with
  | zero =>
    simp only [List.range'_zero, List.foldl_nil, Nat.add_zero]
    cases d
    simp only [CascadeBoostTrainData.mk.injEq, true_and, and_true]
    funext f
    have : ¬ (a ≤ f ∧ f < a) := by omega
    simp only [this, if_false]
  | succ k ih =>
    rw [List.range'_concat, List.foldl_append, ih]
    simp only [List.foldl_cons, List.foldl_nil, Nat.one_mul, featureValOnlyPrecalc,
      lt_self_iff_false, and_false, if_false]
    congr 1
    funext f
    split_ifs <;> first | rfl | (exfalso; omega) | (subst_vars; rfl)

theorem forFeatures_idxOnly (sortAux : List Nat → (Nat → ℚ) → List Nat) (a k : Nat)
    (d : CascadeBoostTrainData) :
    (List.range' a k).foldl (fun s fi => featureIdxOnlyPrecalc sortAux fi s) d
      = { d with
          buf := fun s r =>
            if s = 0 ∧ a ≤ r ∧ r < a + k then
              precalcIdxRow sortAux d.is_buf_16u d.sample_count (fun si => d.response r si)
                (d.buf 0 r)
            else d.buf s r } := by
  induction k with
  | zero =>
    simp only [List.range'_zero, List.foldl_nil, Nat.add_zero]
    cases d
    simp only [CascadeBoostTrainData.mk.injEq, true_and, and_true]
    funext s r
    have : ¬ (s = 0 ∧ a ≤ r ∧ r < a) := by omega
    simp only [this, if_false]
  | succ k ih =>
    rw [List.range'_concat, List.foldl_append, ih]
    simp only [List.foldl_cons, List.foldl_nil, Nat.one_mul, featureIdxOnlyPrecalc,
      lt_self_iff_false, and_false, if_false]
    congr 1
    funext s r
    split_ifs <;> first | rfl | (exfalso; omega) | (obtain ⟨-, rfl⟩ := ‹s = 0 ∧ r = a + k›; rfl)

theorem forFeatures_valAndIdx (sortAux : List Nat → (Nat → ℚ) → List Nat) (a k : Nat)
    (d : CascadeBoostTrainData) :
    (List.range' a k).foldl (fun s fi => featureValAndIdxPrecalc sortAux fi s) d
      = { d with
          valCache := fun f =>
            if a ≤ f ∧ f < a + k then
              fun si => if si < d.sample_count then d.response f si else d.valCache f si
            else d.valCache f
          buf := fun s r =>
            if s = 0 ∧ a ≤ r ∧ r < a + k then
              precalcIdxRow sortAux d.is_buf_16u d.sample_count
                (fun si => if si < d.sample_count then d.response r si else d.valCache r si)
                (d.buf 0 r)
            else d.buf s r } := by
  induction k with
  | zero =>
    simp only [List.range'_zero, List.foldl_nil, Nat.add_zero]
    cases d
    simp only [CascadeBoostTrainData.mk.injEq, true_and, and_true]
    constructor
    · funext f
      have : ¬ (a ≤ f ∧ f < a) := by omega
      simp only [this, if_false]
    · funext s r
      have : ¬ (s = 0 ∧ a ≤ r ∧ r < a) := by omega
      simp only [this, if_false]
  | succ k ih =>
    rw [List.range'_concat, List.foldl_append, ih]
    simp only [List.foldl_cons, List.foldl_nil, Nat.one_mul, featureValAndIdxPrecalc,
      lt_self_iff_false, and_false, if_false]
    congr 1
    · funext f
      split_ifs <;> first | rfl | (exfalso; omega) | (subst_vars; rfl)
    · funext s r
      split_ifs <;>
        first | rfl | (exfalso; omega) | (obtain ⟨-, rfl⟩ := ‹s = 0 ∧ r = a + k›; rfl)

theorem precalculate_fields (sortAux : List Nat → (Nat → ℚ) → List Nat)
    (d : CascadeBoostTrainData) :
    (d.precalculate sortAux).sample_count = d.sample_count
    ∧ (d.precalculate sortAux).numPrecalcVal = d.numPrecalcVal
    ∧ (d.precalculate sortAux).numPrecalcIdx = d.numPrecalcIdx
    ∧ (d.precalculate sortAux).is_buf_16u = d.is_buf_16u
    ∧ (d.precalculate sortAux).response = d.response
    ∧ (d.precalculate sortAux).valCacheEmpty = d.valCacheEmpty
    ∧ (d.precalculate sortAux).work_var_count = d.work_var_count := by
  unfold CascadeBoostTrainData.precalculate forFeatures
  simp only [forFeatures_idxOnly, forFeatures_valAndIdx, forFeatures_valOnly, and_self]

theorem precalculate_valCache (sortAux : List Nat → (Nat → ℚ) → List Nat)
    (d : CascadeBoostTrainData) : ValCacheFilled (d.precalculate sortAux) := by
  intro vi si hvi hsi
  rw [(precalculate_fields sortAux d).2.1] at hvi
  rw [(precalculate_fields sortAux d).1] at hsi
  unfold CascadeBoostTrainData.precalculate forFeatures
  simp only [forFeatures_idxOnly, forFeatures_valAndIdx, forFeatures_valOnly]
  by_cases h : vi < min d.numPrecalcVal d.numPrecalcIdx
  · have h1 : ¬ (min d.numPrecalcVal d.numPrecalcIdx ≤ vi
        ∧ vi < min d.numPrecalcVal d.numPrecalcIdx
          + (d.numPrecalcVal - min d.numPrecalcVal d.numPrecalcIdx)) := by omega
    have h2 : 0 ≤ vi ∧ vi < 0 + (min d.numPrecalcVal d.numPrecalcIdx - 0) := by omega
    simp only [h1, h2, if_true, if_false, hsi, and_self]
  · have h1 : min d.numPrecalcVal d.numPrecalcIdx ≤ vi
        ∧ vi < min d.numPrecalcVal d.numPrecalcIdx
          + (d.numPrecalcVal - min d.numPrecalcVal d.numPrecalcIdx) := by omega
    simp only [h1, if_true, hsi, and_self]

theorem precalculate_buf (sortAux : List Nat → (Nat → ℚ) → List Nat)
    (d : CascadeBoostTrainData) (f : Nat) (hf : f < d.numPrecalcIdx) :
    ∃ aux : Nat → ℚ,
      (∀ si, si < d.sample_count → aux si = d.response f si)
      ∧ ∀ col, col < d.sample_count →
          (d.precalculate sortAux).buf 0 f col
            = storeCell d.is_buf_16u
                ((sortAux ((List.range d.sample_count).map (storeCell d.is_buf_16u)) aux).getD
                  col 0) := by
  unfold CascadeBoostTrainData.precalculate forFeatures
  simp only [forFeatures_idxOnly, forFeatures_valAndIdx, forFeatures_valOnly]
  by_cases h : f < d.numPrecalcVal
  · have h2 : True ∧ 0 ≤ f ∧ f < 0 + (min d.numPrecalcVal d.numPrecalcIdx - 0) :=
      ⟨trivial, by omega, by omega⟩
    refine ⟨fun si => if si < d.sample_count then d.response f si else d.valCache f si,
      fun si hsi => by simp only [hsi, if_true], ?_⟩
    intro col hcol
    rw [if_pos h2]
    simp only [precalcIdxRow, hcol, if_true]
  · have h1 : ¬ (True ∧ 0 ≤ f
        ∧ f < 0 + (min d.numPrecalcVal d.numPrecalcIdx - 0)) := by
      rintro ⟨-, -, h3⟩; omega
    have h2 : True ∧ d.numPrecalcVal ≤ f
        ∧ f < d.numPrecalcVal + (d.numPrecalcIdx - d.numPrecalcVal) :=
      ⟨trivial, by omega, by omega⟩
    refine ⟨fun si => d.response f si, fun si _ => rfl, ?_⟩
    intro col hcol
    rw [if_neg h1, if_pos h2]
    simp only [precalcIdxRow, hcol, if_true]

/-- C16 (value queries agree with the representation).  After `precalculate`, for every
feature `vi` and every sample `si < N`, `getVarValue(vi, si)` is `storage.response(vi, si)`,
whether or not `vi < numPrecalcVal`, and this stays so after `free_train_data` has
released the value cache. -/
theorem getVarValue_eq_response (icvSortAux : List Nat → (Nat → ℚ) → List Nat)
    (d : CascadeBoostTrainData) (vi si : Nat) (hsi : si < d.sample_count) :
    (d.precalculate icvSortAux).getVarValue vi si = d.response vi si
    ∧ (d.precalculate icvSortAux).free_train_data.getVarValue vi si = d.response vi si := by
  obtain ⟨hn, hv, -, -, hr, -, -⟩ := precalculate_fields icvSortAux d
  constructor
  · unfold CascadeBoostTrainData.getVarValue
    split
    · rename_i h
      rw [precalculate_valCache icvSortAux d vi si h.1 (by rw [hn]; exact hsi), hr]
    · rw [hr]
  · simp [CascadeBoostTrainData.getVarValue, CascadeBoostTrainData.free_train_data, hr]

/-- Witness for C16 at `exampleData0`: a cached and an uncached feature. -/
theorem getVarValue_eq_response_witness :
    1 < exampleData0.sample_count
    ∧ ((exampleData0.precalculate insertionSortAux).getVarValue 0 1 = exampleData0.response 0 1
      ∧ (exampleData0.precalculate insertionSortAux).free_train_data.getVarValue 0 1
          = exampleData0.response 0 1)
    ∧ ((exampleData0.precalculate insertionSortAux).getVarValue 1 1 = exampleData0.response 1 1
      ∧ (exampleData0.precalculate insertionSortAux).free_train_data.getVarValue 1 1
          = exampleData0.response 1 1) :=
  ⟨by decide, getVarValue_eq_response insertionSortAux exampleData0 0 1 (by decide),
    getVarValue_eq_response insertionSortAux exampleData0 1 1 (by decide)⟩

theorem storeCell_of_lt (is16 : Bool) (v : Nat) (h : is16 = true → v < 65536) :
    storeCell is16 v = v := by
  unfold storeCell
  cases is16
  · rfl
  · exact Nat.mod_eq_of_lt (h rfl)

theorem map_getD_range (l : List Nat) (n : Nat) (h : l.length = n) :
    (List.range n).map (fun i => l.getD i 0) = l := by
  subst h
  apply List.ext_getElem
  · simp
  · intro i h1 h2
    simp only [List.length_map, List.length_range] at h1
    simp [List.getD_eq_getElem?_getD, h1]

theorem insertionSortAux_sorts : SortsByAux insertionSortAux := by
  intro arr aux
  haveI : IsTotal Nat (fun a b => aux a ≤ aux b) := ⟨fun a b => le_total (aux a) (aux b)⟩
  haveI : IsTrans Nat (fun a b => aux a ≤ aux b) := ⟨fun a b c h1 h2 => le_trans h1 h2⟩
  exact ⟨List.perm_insertionSort _ _, List.sorted_insertionSort _ _⟩

theorem precalculate_row (icvSortAux : List Nat → (Nat → ℚ) → List Nat)
    (hsort : SortsByAux icvSortAux) (d : CascadeBoostTrainData)
    (h16 : d.is_buf_16u = true → d.sample_count ≤ 65536) (f : Nat) (hf : f < d.numPrecalcIdx) :
    List.Perm ((List.range d.sample_count).map (fun i => (d.precalculate icvSortAux).cell 0 f i))
        (List.range d.sample_count)
    ∧ List.Sorted (· ≤ ·)
        (((List.range d.sample_count).map
          (fun i => (d.precalculate icvSortAux).cell 0 f i)).map (d.response f)) := by
  obtain ⟨aux, haux, hbuf⟩ := precalculate_buf icvSortAux d f hf
  have hinit : (List.range d.sample_count).map (storeCell d.is_buf_16u)
      = List.range d.sample_count := by
    conv_rhs => rw [← List.map_id (List.range d.sample_count)]
    apply List.map_congr_left
    intro a ha
    have := List.mem_range.mp ha
    exact storeCell_of_lt _ _ (fun h => by have := h16 h; omega)
  rw [hinit] at hbuf
  obtain ⟨hperm, hsorted⟩ := hsort (List.range d.sample_count) aux
  have hlt : ∀ a ∈ icvSortAux (List.range d.sample_count) aux, a < d.sample_count :=
    fun a ha => List.mem_range.mp (hperm.mem_iff.mp ha)
  have hlen : (icvSortAux (List.range d.sample_count) aux).length = d.sample_count := by
    rw [hperm.length_eq, List.length_range]
  have hrow : (List.range d.sample_count).map (fun i => (d.precalculate icvSortAux).cell 0 f i)
      = icvSortAux (List.range d.sample_count) aux := by
    conv_rhs => rw [← map_getD_range _ _ hlen]
    apply List.map_congr_left
    intro i hi
    have hi2 := List.mem_range.mp hi
    have hmem : (icvSortAux (List.range d.sample_count) aux).getD i 0
        ∈ icvSortAux (List.range d.sample_count) aux := by
      rw [List.getD_eq_getElem _ _ (by rw [hlen]; exact hi2)]
      exact List.getElem_mem _
    have hv := hlt _ hmem
    unfold CascadeBoostTrainData.cell
    rw [(precalculate_fields icvSortAux d).2.2.2.1, hbuf i hi2]
    have e := storeCell_of_lt d.is_buf_16u
      ((icvSortAux (List.range d.sample_count) aux).getD i 0)
      (fun h => by have := h16 h; omega)
    rw [e, e]
  rw [hrow]
  refine ⟨hperm, ?_⟩
  unfold List.Sorted
  rw [List.pairwise_map]
  refine List.Pairwise.imp_of_mem ?_ hsorted
  intro a b ha hb hab
  rw [← haux a (hlt a ha), ← haux b (hlt b hb)]
  exact hab

/-- C13 (sort invariant after precalculation).  Assuming the sort routine sorts by the
comparison `aux[i] < aux[j]`, after `precalculate` every row `f < numPrecalcIdx` of buffer
slot `0` is a permutation of `[0, N)`, and along it the responses to `f` never decrease:
`response(f, row[i]) ≤ response(f, row[i+1])` for every adjacent pair.  (The buffer is
16-bit only when `N ≤ 65536`.) -/
theorem precalculate_sort_invariant (icvSortAux : List Nat → (Nat → ℚ) → List Nat)
    (hsort : SortsByAux icvSortAux) (d : CascadeBoostTrainData)
    (h16 : d.is_buf_16u = true → d.sample_count ≤ 65536) (f : Nat) (hf : f < d.numPrecalcIdx) :
    List.Perm ((List.range d.sample_count).map (fun i => (d.precalculate icvSortAux).cell 0 f i))
        (List.range d.sample_count)
    ∧ List.Sorted (· ≤ ·)
        (((List.range d.sample_count).map
          (fun i => (d.precalculate icvSortAux).cell 0 f i)).map (d.response f))
    ∧ ∀ i, i + 1 < d.sample_count →
        d.response f ((d.precalculate icvSortAux).cell 0 f i)
          ≤ d.response f ((d.precalculate icvSortAux).cell 0 f (i + 1)) := by
  obtain ⟨hperm, hsorted⟩ := precalculate_row icvSortAux hsort d h16 f hf
  refine ⟨hperm, hsorted, ?_⟩
  intro i hi
  have h := List.pairwise_iff_getElem.mp hsorted i (i + 1) (by simp; omega) (by simp; omega)
    (by omega)
  simpa using h

/-- Witness for C13 at `exampleData0` with insertion sort, row `1`. -/
theorem precalculate_sort_invariant_witness :
    SortsByAux insertionSortAux
    ∧ (exampleData0.is_buf_16u = true → exampleData0.sample_count ≤ 65536)
    ∧ 1 < exampleData0.numPrecalcIdx
    ∧ List.Perm ((List.range exampleData0.sample_count).map
          (fun i => (exampleData0.precalculate insertionSortAux).cell 0 1 i))
        (List.range exampleData0.sample_count)
    ∧ List.Sorted (· ≤ ·)
        (((List.range exampleData0.sample_count).map
          (fun i => (exampleData0.precalculate insertionSortAux).cell 0 1 i)).map
            (exampleData0.response 1))
    ∧ ∀ i, i + 1 < exampleData0.sample_count →
        exampleData0.response 1 ((exampleData0.precalculate insertionSortAux).cell 0 1 i)
          ≤ exampleData0.response 1
              ((exampleData0.precalculate insertionSortAux).cell 0 1 (i + 1)) :=
  ⟨insertionSortAux_sorts, fun _ => by decide, by decide,
    precalculate_sort_invariant insertionSortAux insertionSortAux_sorts exampleData0
      (fun _ => by decide) 1 (by decide)⟩

/-! ### Ordered-variable data of a node -/

theorem sorted_values_canonical (idx : List Nat) (n : Nat) (g : Nat → ℚ)
    (hperm : List.Perm idx (List.range n)) (hsorted : List.Sorted (· ≤ ·) (idx.map g)) :
    idx.map g = ((List.range n).map g).insertionSort (· ≤ ·) := by
  apply List.eq_of_perm_of_sorted (r := (· ≤ ·)) _ hsorted (List.sorted_insertionSort _ _)
  exact (hperm.map g).trans (List.perm_insertionSort _ _).symm

theorem get_ord_var_data_spec (icvSortAux : List Nat → (Nat → ℚ) → List Nat)
    (hsort : SortsByAux icvSortAux) (d : CascadeBoostTrainData) (n : DataNode) (vi : Nat)
    (hinv : SortInvariant d n) (hval : ValCacheFilled d)
    (hidx : ∀ i, i < n.sample_count → d.get_sample_indices n i < d.sample_count) :
    List.Perm (d.get_ord_var_data icvSortAux n vi).2 (List.range n.sample_count)
    ∧ (d.get_ord_var_data icvSortAux n vi).1
        = (d.get_ord_var_data icvSortAux n vi).2.map
            (fun j => d.response vi (d.get_sample_indices n j))
    ∧ List.Sorted (· ≤ ·) (d.get_ord_var_data icvSortAux n vi).1 := by
  have hvc : ∀ (l : List Nat), (∀ j ∈ l, j < n.sample_count) → vi < d.numPrecalcVal →
      l.map (fun idx => d.valCache vi (d.get_sample_indices n idx))
        = l.map (fun j => d.response vi (d.get_sample_indices n j)) := by
    intro l hl hv
    apply List.map_congr_left
    intro j hj
    exact hval vi _ hv (hidx j (hl j hj))
  unfold CascadeBoostTrainData.get_ord_var_data
  by_cases h1 : vi < d.numPrecalcIdx
  · obtain ⟨hperm, hsorted⟩ := hinv vi h1
    have hmem : ∀ j ∈ sortedIndexRow d n vi, j < n.sample_count :=
      fun j hj => List.mem_range.mp (hperm.mem_iff.mp hj)
    by_cases h2 : vi < d.numPrecalcVal
    · simp only [h1, h2, if_true]
      refine ⟨hperm, hvc _ hmem h2, ?_⟩
      have := hvc _ hmem h2
      unfold sortedIndexRow at this hsorted
      rw [this]
      exact hsorted
    · simp only [h1, h2, if_true, if_false]
      exact ⟨hperm, trivial, hsorted⟩
  · simp only [h1, if_false]
    by_cases h2 : vi < d.numPrecalcVal
    · simp only [h2, if_true]
      obtain ⟨hperm, hsorted⟩ := hsort (List.range n.sample_count)
        (fun i => d.valCache vi (d.get_sample_indices n i))
      have hmem : ∀ j ∈ icvSortAux (List.range n.sample_count)
          (fun i => d.valCache vi (d.get_sample_indices n i)), j < n.sample_count :=
        fun j hj => List.mem_range.mp (hperm.mem_iff.mp hj)
      refine ⟨hperm, hvc _ hmem h2, ?_⟩
      unfold List.Sorted
      rw [List.pairwise_map]
      exact hsorted
    · simp only [h2, if_false]
      obtain ⟨hperm, hsorted⟩ := hsort (List.range n.sample_count)
        (fun i => d.response vi (d.get_sample_indices n i))
      refine ⟨hperm, trivial, ?_⟩
      unfold List.Sorted
      rw [List.pairwise_map]
      exact hsorted

/-- C17 (ordered data of a node).  For a node whose cached rows satisfy the sort
invariant (the value cache holding the responses, the node's sample indices being sample
numbers, the sort routine sorting by its comparison), `get_ord_var_data` returns a
sorted-index array that is a permutation of `[0, n)` and a values array with
`values[i] = response(vi, sampleIndices[sortedIndices[i]])` in non-decreasing order; the
values array is the ascending arrangement of the responses of the node's samples, the same
sequence whichever of the four paths (index row cached or not, value row cached or not)
produced it. -/
theorem get_ord_var_data_sorted (icvSortAux : List Nat → (Nat → ℚ) → List Nat)
    (hsort : SortsByAux icvSortAux) (d : CascadeBoostTrainData) (n : DataNode) (vi : Nat)
    (hinv : SortInvariant d n) (hval : ValCacheFilled d)
    (hidx : ∀ i, i < n.sample_count → d.get_sample_indices n i < d.sample_count) :
    List.Perm (d.get_ord_var_data icvSortAux n vi).2 (List.range n.sample_count)
    ∧ (d.get_ord_var_data icvSortAux n vi).1
        = (d.get_ord_var_data icvSortAux n vi).2.map
            (fun j => d.response vi (d.get_sample_indices n j))
    ∧ List.Sorted (· ≤ ·) (d.get_ord_var_data icvSortAux n vi).1
    ∧ (d.get_ord_var_data icvSortAux n vi).1
        = ((sampleIndexRow d n).map (d.response vi)).insertionSort (· ≤ ·) := by
  obtain ⟨hperm, hvals, hsorted⟩ := get_ord_var_data_spec icvSortAux hsort d n vi hinv hval hidx
  refine ⟨hperm, hvals, hsorted, ?_⟩
  have h := sorted_values_canonical _ n.sample_count
    (fun j => d.response vi (d.get_sample_indices n j)) hperm (by rw [← hvals]; exact hsorted)
  rw [hvals, h]
  simp [sampleIndexRow, List.map_map, Function.comp_def]

theorem precalculate_buf_frame (sortAux : List Nat → (Nat → ℚ) → List Nat)
    (d : CascadeBoostTrainData) (s r : Nat) (h : ¬ (s = 0 ∧ r < d.numPrecalcIdx)) :
    (d.precalculate sortAux).buf s r = d.buf s r := by
  unfold CascadeBoostTrainData.precalculate forFeatures
  simp only [forFeatures_idxOnly, forFeatures_valAndIdx, forFeatures_valOnly]
  have h1 : ¬ (s = 0 ∧ 0 ≤ r ∧ r < 0 + (min d.numPrecalcVal d.numPrecalcIdx - 0)) := by
    rintro ⟨h2, -, h3⟩; exact h ⟨h2, by omega⟩
  have h2 : ¬ (s = 0 ∧ d.numPrecalcVal ≤ r
      ∧ r < d.numPrecalcVal + (d.numPrecalcIdx - d.numPrecalcVal)) := by
    rintro ⟨h2, h3, h4⟩; exact h ⟨h2, by omega⟩
  rw [if_neg h1, if_neg h2]

theorem precalculate_root_invariant (icvSortAux : List Nat → (Nat → ℚ) → List Nat)
    (hsort : SortsByAux icvSortAux) (d : CascadeBoostTrainData)
    (h16 : d.is_buf_16u = true → d.sample_count ≤ 65536) (root : DataNode)
    (hb : root.buf_idx = 0) (ho : root.offset = 0) (hn : root.sample_count = d.sample_count)
    (hW : d.numPrecalcIdx ≤ d.work_var_count)
    (hrow : ∀ i, i < d.sample_count → d.buf 0 d.work_var_count i = i) :
    SortInvariant (d.precalculate icvSortAux) root
    ∧ ∀ i, i < d.sample_count → (d.precalculate icvSortAux).get_sample_indices root i = i := by
  obtain ⟨hN, -, hI, h16e, hr, -, hWe⟩ := precalculate_fields icvSortAux d
  have hsi : ∀ i, i < d.sample_count →
      (d.precalculate icvSortAux).get_sample_indices root i = i := by
    intro i hi
    unfold CascadeBoostTrainData.get_sample_indices CascadeBoostTrainData.get_cat_var_data_base
      CascadeBoostTrainData.cell
    rw [hb, ho, hWe, h16e, precalculate_buf_frame icvSortAux d 0 d.work_var_count (by omega),
      Nat.zero_add, hrow i hi]
    exact storeCell_of_lt _ _ (fun h => by have := h16 h; omega)
  refine ⟨?_, hsi⟩
  intro vi hvi
  rw [hI] at hvi
  obtain ⟨hperm, hsorted⟩ := precalculate_row icvSortAux hsort d h16 vi hvi
  have hrowe : sortedIndexRow (d.precalculate icvSortAux) root vi
      = (List.range d.sample_count).map (fun i => (d.precalculate icvSortAux).cell 0 vi i) := by
    unfold sortedIndexRow
    rw [hb, ho, hn]
    simp only [Nat.zero_add]
  rw [hrowe, hn]
  refine ⟨hperm, ?_⟩
  have hmem : ∀ j ∈ (List.range d.sample_count).map
      (fun i => (d.precalculate icvSortAux).cell 0 vi i), j < d.sample_count :=
    fun j hj => List.mem_range.mp (hperm.mem_iff.mp hj)
  have : ((List.range d.sample_count).map
        (fun i => (d.precalculate icvSortAux).cell 0 vi i)).map
        (fun j => (d.precalculate icvSortAux).response vi
          ((d.precalculate icvSortAux).get_sample_indices root j))
      = ((List.range d.sample_count).map
        (fun i => (d.precalculate icvSortAux).cell 0 vi i)).map (d.response vi) := by
    apply List.map_congr_left
    intro j hj
    rw [hr, hsi j (hmem j hj)]
  rw [this]
  exact hsorted

theorem exampleData_invariant :
    SortInvariant exampleData exampleRoot
    ∧ ∀ i, i < 3 → exampleData.get_sample_indices exampleRoot i = i :=
  precalculate_root_invariant insertionSortAux insertionSortAux_sorts exampleData0
    (fun _ => by decide) exampleRoot rfl rfl rfl (by decide)
    (fun i _ => by simp [exampleData0])

/-- Witness for C17 at the root of `exampleData`, feature `1` (index row cached, value row
not cached). -/
theorem get_ord_var_data_sorted_witness :
    SortsByAux insertionSortAux ∧ SortInvariant exampleData exampleRoot
    ∧ ValCacheFilled exampleData
    ∧ (∀ i, i < exampleRoot.sample_count →
        exampleData.get_sample_indices exampleRoot i < exampleData.sample_count)
    ∧ List.Perm (exampleData.get_ord_var_data insertionSortAux exampleRoot 1).2
        (List.range exampleRoot.sample_count)
    ∧ (exampleData.get_ord_var_data insertionSortAux exampleRoot 1).1
        = (exampleData.get_ord_var_data insertionSortAux exampleRoot 1).2.map
            (fun j => exampleData.response 1 (exampleData.get_sample_indices exampleRoot j))
    ∧ List.Sorted (· ≤ ·) (exampleData.get_ord_var_data insertionSortAux exampleRoot 1).1
    ∧ (exampleData.get_ord_var_data insertionSortAux exampleRoot 1).1
        = ((sampleIndexRow exampleData exampleRoot).map
            (exampleData.response 1)).insertionSort (· ≤ ·) :=
  have hidx : ∀ i, i < exampleRoot.sample_count →
      exampleData.get_sample_indices exampleRoot i < exampleData.sample_count := by
    intro i hi
    rw [exampleData_invariant.2 i hi]
    exact hi
  ⟨insertionSortAux_sorts, exampleData_invariant.1,
    precalculate_valCache insertionSortAux exampleData0, hidx,
    get_ord_var_data_sorted insertionSortAux insertionSortAux_sorts exampleData exampleRoot 1
      exampleData_invariant.1 (precalculate_valCache insertionSortAux exampleData0) hidx⟩

/-! ### Splitting the data of a node -/

theorem storeCell_idem (is16 : Bool) (v : Nat) :
    storeCell is16 (storeCell is16 v) = storeCell is16 v := by
  unfold storeCell
  cases is16
  · rfl
  · simp

theorem dirPositions_length_mono (dir : Nat → Nat) (d : Nat) {i n : Nat} (h : i ≤ n) :
    (dirPositions dir d i).length ≤ (dirPositions dir d n).length := by
  unfold dirPositions
  exact ((List.range_sublist.mpr h).filter _).length_le

theorem map_comp_getD_range (l : List Nat) (f : Nat → Nat) :
    (List.range l.length).map (fun k => f (l.getD k 0)) = l.map f := by
  have h := congrArg (List.map f) (map_getD_range l l.length rfl)
  rw [List.map_map] at h
  exact h

theorem splitLoop_frame (is16 : Bool) (ls rs row : Nat) (dAt vAt : Nat → Nat) (i : Nat)
    (st : (Nat → Nat → Nat → Nat) × Nat × Nat) (s r c : Nat) (hr : r ≠ row) :
    (splitLoop is16 ls rs row dAt vAt i st).1 s r c = st.1 s r c := by
  induction i with
  | zero => rfl
  | succ i ih =>
    simp only [splitLoop]
    split_ifs
    · simp only [writeCell]
      rw [if_neg (by tauto)]
      exact ih
    · simp only [writeCell]
      rw [if_neg (by tauto)]
      exact ih

theorem splitLoop_spec (is16 : Bool) (slot row : Nat) (dAt vAt : Nat → Nat) (n : Nat)
    (buf : Nat → Nat → Nat → Nat) (lbase : Nat)
    (hd : ∀ i, i < n → dAt i = 0 ∨ dAt i = 1) (i : Nat) (hi : i ≤ n) :
    (splitLoop is16 slot slot row dAt vAt i
        (buf, lbase, lbase + (dirPositions dAt 0 n).length)).2.1
      = lbase + (dirPositions dAt 0 i).length
    ∧ (splitLoop is16 slot slot row dAt vAt i
        (buf, lbase, lbase + (dirPositions dAt 0 n).length)).2.2
      = lbase + (dirPositions dAt 0 n).length + (dirPositions dAt 1 i).length
    ∧ (∀ k, k < (dirPositions dAt 0 i).length →
        (splitLoop is16 slot slot row dAt vAt i
          (buf, lbase, lbase + (dirPositions dAt 0 n).length)).1 slot row (lbase + k)
        = storeCell is16 (vAt ((dirPositions dAt 0 i).getD k 0)))
    ∧ (∀ k, k < (dirPositions dAt 1 i).length →
        (splitLoop is16 slot slot row dAt vAt i
          (buf, lbase, lbase + (dirPositions dAt 0 n).length)).1 slot row
            (lbase + (dirPositions dAt 0 n).length + k)
        = storeCell is16 (vAt ((dirPositions dAt 1 i).getD k 0))) := by
  induction i with
  | zero =>
    refine ⟨rfl, rfl, ?_, ?_⟩
    · intro k hk; simp [dirPositions] at hk
    · intro k hk; simp [dirPositions] at hk
  | succ i ih =>
    obtain ⟨h1, h2, h3, h4⟩ := ih (by omega)
    have hmono := dirPositions_length_mono dAt 0 (show i + 1 ≤ n from hi)
    simp only [splitLoop]
    rw [dirPositions_succ, dirPositions_succ] at *
    rcases hd i (by omega) with h0 | h0
    · simp only [h0, ne_eq, not_true_eq_false, if_false, if_true, zero_ne_one,
        List.append_nil, List.length_append, List.length_singleton] at *
      refine ⟨by rw [h1]; omega, h2, ?_, ?_⟩
      · intro k hk
        simp only [writeCell]
        by_cases hkl : k < (dirPositions dAt 0 i).length
        · rw [if_neg (by rw [h1]; omega), List.getD_append _ _ _ _ hkl]
          exact h3 k hkl
        · have hke : k = (dirPositions dAt 0 i).length := by omega
          rw [if_pos ⟨trivial, trivial, by rw [h1, hke]⟩, List.getD_append_right _ _ _ _ (by omega), hke]
          simp
      · intro k hk
        simp only [writeCell]
        rw [if_neg (by rw [h1]; omega)]
        exact h4 k hk
    · simp only [h0, ne_eq, one_ne_zero, not_false_eq_true, if_false, if_true,
        List.append_nil, List.length_append, List.length_singleton] at *
      refine ⟨h1, by rw [h2]; omega, ?_, ?_⟩
      · intro k hk
        simp only [writeCell]
        rw [if_neg (by rw [h2]; omega)]
        exact h3 k hk
      · intro k hk
        simp only [writeCell]
        by_cases hkl : k < (dirPositions dAt 1 i).length
        · rw [if_neg (by rw [h2]; omega), List.getD_append _ _ _ _ hkl]
          exact h4 k hkl
        · have hke : k = (dirPositions dAt 1 i).length := by omega
          rw [if_pos ⟨trivial, trivial, by rw [h2, hke]⟩, List.getD_append_right _ _ _ _ (by omega), hke]
          simp

theorem splitLoop_rows (is16 : Bool) (slot row : Nat) (dAt vAt : Nat → Nat) (n : Nat)
    (buf : Nat → Nat → Nat → Nat) (lbase : Nat)
    (hd : ∀ i, i < n → dAt i = 0 ∨ dAt i = 1) :
    (List.range (dirPositions dAt 0 n).length).map (fun k =>
        (splitLoop is16 slot slot row dAt vAt n
          (buf, lbase, lbase + (dirPositions dAt 0 n).length)).1 slot row (lbase + k))
      = (dirPositions dAt 0 n).map (fun j => storeCell is16 (vAt j))
    ∧ (List.range (dirPositions dAt 1 n).length).map (fun k =>
        (splitLoop is16 slot slot row dAt vAt n
          (buf, lbase, lbase + (dirPositions dAt 0 n).length)).1 slot row
            (lbase + (dirPositions dAt 0 n).length + k))
      = (dirPositions dAt 1 n).map (fun j => storeCell is16 (vAt j)) := by
  obtain ⟨-, -, h3, h4⟩ := splitLoop_spec is16 slot row dAt vAt n buf lbase hd n (le_refl n)
  constructor
  · rw [← map_comp_getD_range (dirPositions dAt 0 n) (fun j => storeCell is16 (vAt j))]
    exact List.map_congr_left (fun k hk => h3 k (List.mem_range.mp hk))
  · rw [← map_comp_getD_range (dirPositions dAt 1 n) (fun j => storeCell is16 (vAt j))]
    exact List.map_congr_left (fun k hk => h4 k (List.mem_range.mp hk))

theorem dirPositions_comp_getD (dir : Nat → Nat) (dv : Nat) (T : List Nat) (n : Nat)
    (hlen : T.length = n) (f : Nat → Nat) :
    (dirPositions (fun i => dir (T.getD i 0)) dv n).map (fun i => f (T.getD i 0))
      = (T.filter (fun j => dir j = dv)).map f := by
  have hT : (List.range n).map (fun i => T.getD i 0) = T := map_getD_range T n hlen
  conv_rhs => rw [← hT]
  rw [List.filter_map, List.map_map]
  rfl

theorem dirPositions_perm (dir : Nat → Nat) (n : Nat)
    (hdir : ∀ i, i < n → dir i = 0 ∨ dir i = 1) :
    List.Perm (dirPositions dir 0 n ++ dirPositions dir 1 n) (List.range n) := by
  have h := List.filter_append_perm (fun j => decide (dir j = 0)) (List.range n)
  have e : (List.range n).filter (fun x => !(fun j => decide (dir j = 0)) x)
      = (List.range n).filter (fun j => decide (dir j = 1)) := by
    apply List.filter_congr
    intro x hx
    rcases hdir x (List.mem_range.mp hx) with h0 | h1
    · simp [h0]
    · simp [h1]
  rw [e] at h
  exact h

theorem splitOrderedVar_spec (icvSortAux : List Nat → (Nat → ℚ) → List Nat)
    (d : CascadeBoostTrainData) (node left right : DataNode) (nl : Nat) (sid : Bool) (vi : Nat)
    (buf : Nat → Nat → Nat → Nat)
    (hlb : right.buf_idx = left.buf_idx) (hro : right.offset = left.offset + nl)
    (hnl : nl = (dirPositions d.direction 0 node.sample_count).length)
    (hdir : ∀ i, i < node.sample_count → d.direction i = 0 ∨ d.direction i = 1)
    (hvi : vi < d.numPrecalcIdx) (hv : node.num_valid vi = node.sample_count) :
    ∃ b, splitOrderedVar icvSortAux d node left right nl sid vi buf = some b
      ∧ (∀ s r c, r ≠ vi → b s r c = buf s r c)
      ∧ (d.get_var_type vi < 0 → sid = true →
          List.Perm ((List.range node.sample_count).map
            (fun i => storeCell d.is_buf_16u (buf node.buf_idx vi (node.offset + i))))
            (List.range node.sample_count) →
          (List.range (dirPositions d.direction 0 node.sample_count).length).map
              (fun k => b left.buf_idx vi (left.offset + k))
            = (((List.range node.sample_count).map
                (fun i => storeCell d.is_buf_16u (buf node.buf_idx vi (node.offset + i)))).filter
                  (fun j => d.direction j = 0)).map (fun j => storeCell d.is_buf_16u (d.split_buf j))
          ∧ (List.range (dirPositions d.direction 1 node.sample_count).length).map
              (fun k => b left.buf_idx vi (left.offset + nl + k))
            = (((List.range node.sample_count).map
                (fun i => storeCell d.is_buf_16u (buf node.buf_idx vi (node.offset + i)))).filter
                  (fun j => d.direction j = 1)).map
                    (fun j => storeCell d.is_buf_16u (d.split_buf j))) := by
  unfold splitOrderedVar
  by_cases hskip : d.get_var_type vi ≥ 0 ∨ sid = false
  · rw [if_pos hskip]
    refine ⟨buf, rfl, fun _ _ _ _ => rfl, ?_⟩
    intro h1 h2
    rcases hskip with h | h
    · omega
    · rw [h2] at h; exact absurd h (by decide)
  · rw [if_neg hskip]
    simp only [hv, if_true, hlb, hro, ite_self]
    refine ⟨_, rfl, fun s r c hr => splitLoop_frame _ _ _ _ _ _ _ _ s r c hr, ?_⟩
    intro _ _ hperm
    have hT : ((CascadeBoostTrainData.get_ord_var_data icvSortAux
          { d with buf := buf } node vi).2)
        = (List.range node.sample_count).map
            (fun i => storeCell d.is_buf_16u (buf node.buf_idx vi (node.offset + i))) := by
      unfold CascadeBoostTrainData.get_ord_var_data
      simp only [hvi, if_true]
      split_ifs <;> rfl
    rw [hT]
    generalize hTd : (List.range node.sample_count).map
      (fun i => storeCell d.is_buf_16u (buf node.buf_idx vi (node.offset + i))) = T at hperm ⊢
    have hlen : T.length = node.sample_count := by rw [hperm.length_eq, List.length_range]
    have hd : ∀ i, i < node.sample_count →
        (fun i => d.direction (T.getD i 0)) i = 0 ∨ (fun i => d.direction (T.getD i 0)) i = 1 := by
      intro i hi
      simp only []
      apply hdir
      rw [List.getD_eq_getElem T 0 (by omega)]
      exact List.mem_range.mp (hperm.mem_iff.mp (List.getElem_mem _))
    have hcount : ∀ dv, (dirPositions (fun i => d.direction (T.getD i 0)) dv
          node.sample_count).length = (dirPositions d.direction dv node.sample_count).length := by
      intro dv
      have h1 := congrArg List.length
        (dirPositions_comp_getD d.direction dv T node.sample_count hlen id)
      rw [List.length_map, List.length_map] at h1
      rw [h1]
      unfold dirPositions
      exact (hperm.filter _).length_eq
    have hrows := splitLoop_rows d.is_buf_16u left.buf_idx vi
      (fun i => d.direction (T.getD i 0)) (fun i => d.split_buf (T.getD i 0)) node.sample_count
      buf left.offset hd
    rw [hcount 0, hcount 1, ← hnl] at hrows
    rw [← hnl]
    refine ⟨?_, ?_⟩
    · rw [hrows.1]
      exact dirPositions_comp_getD d.direction 0 T node.sample_count hlen
        (fun j => storeCell d.is_buf_16u (d.split_buf j))
    · rw [hrows.2]
      exact dirPositions_comp_getD d.direction 1 T node.sample_count hlen
        (fun j => storeCell d.is_buf_16u (d.split_buf j))

theorem splitOrdered_spec (icvSortAux : List Nat → (Nat → ℚ) → List Nat)
    (d : CascadeBoostTrainData) (node left right : DataNode) (nl : Nat) (sid : Bool)
    (buf : Nat → Nat → Nat → Nat)
    (hlb : right.buf_idx = left.buf_idx) (hro : right.offset = left.offset + nl)
    (hnl : nl = (dirPositions d.direction 0 node.sample_count).length)
    (hdir : ∀ i, i < node.sample_count → d.direction i = 0 ∨ d.direction i = 1)
    (hv : ∀ vi, vi < d.numPrecalcIdx → node.num_valid vi = node.sample_count) :
    ∃ b, splitOrdered icvSortAux d node left right nl sid buf = some b
      ∧ (∀ s r c, d.numPrecalcIdx ≤ r → b s r c = buf s r c)
      ∧ ∀ vi, vi < d.numPrecalcIdx → d.get_var_type vi < 0 → sid = true →
          List.Perm ((List.range node.sample_count).map
            (fun i => storeCell d.is_buf_16u (buf node.buf_idx vi (node.offset + i))))
            (List.range node.sample_count) →
          (List.range (dirPositions d.direction 0 node.sample_count).length).map
              (fun k => b left.buf_idx vi (left.offset + k))
            = (((List.range node.sample_count).map
                (fun i => storeCell d.is_buf_16u (buf node.buf_idx vi (node.offset + i)))).filter
                  (fun j => d.direction j = 0)).map (fun j => storeCell d.is_buf_16u (d.split_buf j))
          ∧ (List.range (dirPositions d.direction 1 node.sample_count).length).map
              (fun k => b left.buf_idx vi (left.offset + nl + k))
            = (((List.range node.sample_count).map
                (fun i => storeCell d.is_buf_16u (buf node.buf_idx vi (node.offset + i)))).filter
                  (fun j => d.direction j = 1)).map
                    (fun j => storeCell d.is_buf_16u (d.split_buf j)) := by
  have key : ∀ k, k ≤ d.numPrecalcIdx →
      ∃ b, (List.range k).foldl
          (fun acc vi => acc.bind (splitOrderedVar icvSortAux d node left right nl sid vi))
          (some buf) = some b
        ∧ (∀ s r c, k ≤ r → b s r c = buf s r c)
        ∧ ∀ vi, vi < k → d.get_var_type vi < 0 → sid = true →
          List.Perm ((List.range node.sample_count).map
            (fun i => storeCell d.is_buf_16u (buf node.buf_idx vi (node.offset + i))))
            (List.range node.sample_count) →
          (List.range (dirPositions d.direction 0 node.sample_count).length).map
              (fun k => b left.buf_idx vi (left.offset + k))
            = (((List.range node.sample_count).map
                (fun i => storeCell d.is_buf_16u (buf node.buf_idx vi (node.offset + i)))).filter
                  (fun j => d.direction j = 0)).map (fun j => storeCell d.is_buf_16u (d.split_buf j))
          ∧ (List.range (dirPositions d.direction 1 node.sample_count).length).map
              (fun k => b left.buf_idx vi (left.offset + nl + k))
            = (((List.range node.sample_count).map
                (fun i => storeCell d.is_buf_16u (buf node.buf_idx vi (node.offset + i)))).filter
                  (fun j => d.direction j = 1)).map
                    (fun j => storeCell d.is_buf_16u (d.split_buf j)) := by
    intro k
    induction k with
    | zero =>
      intro _
      exact ⟨buf, rfl, fun _ _ _ _ => rfl, fun vi hvi => absurd hvi (Nat.not_lt_zero vi)⟩
    | succ k ih =>
      intro hk
      obtain ⟨b, hb, hframe, hrows⟩ := ih (by omega)
      obtain ⟨b2, h2, hf2, hr2⟩ := splitOrderedVar_spec icvSortAux d node left right nl sid k b
        hlb hro hnl hdir (by omega) (hv k (by omega))
      refine ⟨b2, ?_, ?_, ?_⟩
      · rw [List.range_succ, List.foldl_append, hb]
        simp only [List.foldl_cons, List.foldl_nil, Option.some_bind]
        exact h2
      · intro s r c hr
        rw [hf2 s r c (by omega)]
        exact hframe s r c (by omega)
      · intro vi hvi hty hsid hperm
        by_cases hvk : vi = k
        · subst hvk
          have hrow : (fun i => storeCell d.is_buf_16u (b node.buf_idx vi (node.offset + i)))
              = (fun i => storeCell d.is_buf_16u (buf node.buf_idx vi (node.offset + i))) := by
            funext i
            rw [hframe _ _ _ (le_refl vi)]
          have h := hr2 hty hsid
          rw [hrow] at h
          exact h hperm
        · have h := hrows vi (by omega) hty hsid hperm
          have e1 : (fun k => b2 left.buf_idx vi (left.offset + k))
              = (fun k => b left.buf_idx vi (left.offset + k)) := by
            funext j
            exact hf2 _ _ _ hvk
          have e2 : (fun k => b2 left.buf_idx vi (left.offset + nl + k))
              = (fun k => b left.buf_idx vi (left.offset + nl + k)) := by
            funext j
            exact hf2 _ _ _ hvk
          rw [e1, e2]
          exact h
  exact key d.numPrecalcIdx (le_refl _)

theorem splitCatRow_spec (d : CascadeBoostTrainData) (node left right : DataNode) (row : Nat)
    (buf : Nat → Nat → Nat → Nat)
    (hlb : right.buf_idx = left.buf_idx)
    (hro : right.offset = left.offset + (dirPositions d.direction 0 node.sample_count).length)
    (hdir : ∀ i, i < node.sample_count → d.direction i = 0 ∨ d.direction i = 1) :
    (∀ s r c, r ≠ row → splitCatRow d node left right row buf s r c = buf s r c)
    ∧ (List.range (dirPositions d.direction 0 node.sample_count).length).map
          (fun k => storeCell d.is_buf_16u
            (splitCatRow d node left right row buf left.buf_idx row (left.offset + k)))
        = (dirPositions d.direction 0 node.sample_count).map
            (fun j => storeCell d.is_buf_16u (buf node.buf_idx row (node.offset + j)))
    ∧ (List.range (dirPositions d.direction 1 node.sample_count).length).map
          (fun k => storeCell d.is_buf_16u
            (splitCatRow d node left right row buf right.buf_idx row (right.offset + k)))
        = (dirPositions d.direction 1 node.sample_count).map
            (fun j => storeCell d.is_buf_16u (buf node.buf_idx row (node.offset + j))) := by
  unfold splitCatRow
  simp only [hlb, hro]
  refine ⟨fun s r c hr => splitLoop_frame _ _ _ _ _ _ _ _ s r c hr, ?_, ?_⟩
  · have h := congrArg (List.map (storeCell d.is_buf_16u))
      (splitLoop_rows d.is_buf_16u left.buf_idx row d.direction
        (CascadeBoostTrainData.get_cat_var_data_base { d with buf := buf } node row)
        node.sample_count buf left.offset hdir).1
    rw [List.map_map, List.map_map] at h
    refine Eq.trans h ?_
    apply List.map_congr_left
    intro j _
    simp only [Function.comp, CascadeBoostTrainData.get_cat_var_data_base,
      CascadeBoostTrainData.cell, storeCell_idem]
  · have h := congrArg (List.map (storeCell d.is_buf_16u))
      (splitLoop_rows d.is_buf_16u left.buf_idx row d.direction
        (CascadeBoostTrainData.get_cat_var_data_base { d with buf := buf } node row)
        node.sample_count buf left.offset hdir).2
    rw [List.map_map, List.map_map] at h
    refine Eq.trans h ?_
    apply List.map_congr_left
    intro j _
    simp only [Function.comp, CascadeBoostTrainData.get_cat_var_data_base,
      CascadeBoostTrainData.cell, storeCell_idem]

theorem split_node_data_spec (icvSortAux : List Nat → (Nat → ℚ) → List Nat) (newBufIdx : Nat)
    (d : CascadeBoostTrainData) (node : DataNode)
    (hdir : ∀ i, i < node.sample_count → d.direction i = 0 ∨ d.direction i = 1)
    (hn : node.sample_count < 2147483648)
    (hW : d.numPrecalcIdx < d.work_var_count)
    (hv : ∀ vi, vi < d.numPrecalcIdx → node.num_valid vi = node.sample_count) :
    ∃ buf3, CascadeBoostTree.split_node_data icvSortAux newBufIdx d node
        = some ({ d with split_buf := (split_newIdx d.direction d.split_buf node.sample_count).1
                         buf := buf3 },
            set_num_valid_all d.var_count
              (new_node (some node) (dirPositions d.direction 0 node.sample_count).length
                newBufIdx node.offset) (dirPositions d.direction 0 node.sample_count).length,
            set_num_valid_all d.var_count
              (new_node (some node) (dirPositions d.direction 1 node.sample_count).length
                newBufIdx (node.offset + (dirPositions d.direction 0 node.sample_count).length))
              (dirPositions d.direction 1 node.sample_count).length)
      ∧ (List.range (dirPositions d.direction 0 node.sample_count).length).map
            (fun k => storeCell d.is_buf_16u (buf3 newBufIdx d.work_var_count (node.offset + k)))
          = (dirPositions d.direction 0 node.sample_count).map (d.get_sample_indices node)
      ∧ (List.range (dirPositions d.direction 1 node.sample_count).length).map
            (fun k => storeCell d.is_buf_16u (buf3 newBufIdx d.work_var_count
              (node.offset + (dirPositions d.direction 0 node.sample_count).length + k)))
          = (dirPositions d.direction 1 node.sample_count).map (d.get_sample_indices node)
      ∧ ∀ vi, vi < d.numPrecalcIdx → d.get_var_type vi < 0 →
          (node.depth + 1 < d.max_depth
            ∧ (((dirPositions d.direction 0 node.sample_count).length : Int) > d.min_sample_count
              ∨ ((dirPositions d.direction 1 node.sample_count).length : Int)
                  > d.min_sample_count)) →
          List.Perm (sortedIndexRow d node vi) (List.range node.sample_count) →
          (List.range (dirPositions d.direction 0 node.sample_count).length).map
              (fun k => buf3 newBufIdx vi (node.offset + k))
            = ((sortedIndexRow d node vi).filter (fun j => d.direction j = 0)).map
                (fun j => storeCell d.is_buf_16u
                  ((split_newIdx d.direction d.split_buf node.sample_count).1 j))
          ∧ (List.range (dirPositions d.direction 1 node.sample_count).length).map
              (fun k => buf3 newBufIdx vi
                (node.offset + (dirPositions d.direction 0 node.sample_count).length + k))
            = ((sortedIndexRow d node vi).filter (fun j => d.direction j = 1)).map
                (fun j => storeCell d.is_buf_16u
                  ((split_newIdx d.direction d.split_buf node.sample_count).1 j)) := by
  obtain ⟨hl, hr, -, -⟩ := split_newIdx_spec d.direction d.split_buf node.sample_count hdir hn
  unfold CascadeBoostTree.split_node_data
  simp only [hl, hr]
  generalize hsid : decide (node.depth + 1 < d.max_depth
      ∧ (((new_node (some node) (dirPositions d.direction 0 node.sample_count).length newBufIdx
            node.offset).sample_count : Int) > d.min_sample_count
        ∨ ((new_node (some node) (dirPositions d.direction 1 node.sample_count).length newBufIdx
            (node.offset + (dirPositions d.direction 0 node.sample_count).length)).sample_count
            : Int) > d.min_sample_count)) = sid
  obtain ⟨b1, hb1, hf1, hrows1⟩ := splitOrdered_spec icvSortAux
    { d with split_buf := (split_newIdx d.direction d.split_buf node.sample_count).1 } node
    (new_node (some node) (dirPositions d.direction 0 node.sample_count).length newBufIdx
      node.offset)
    (new_node (some node) (dirPositions d.direction 1 node.sample_count).length newBufIdx
      (node.offset + (dirPositions d.direction 0 node.sample_count).length))
    (dirPositions d.direction 0 node.sample_count).length sid d.buf rfl rfl rfl hdir hv
  rw [hb1]
  have h2 := splitCatRow_spec
    { d with split_buf := (split_newIdx d.direction d.split_buf node.sample_count).1 } node
    (new_node (some node) (dirPositions d.direction 0 node.sample_count).length newBufIdx
      node.offset)
    (new_node (some node) (dirPositions d.direction 1 node.sample_count).length newBufIdx
      (node.offset + (dirPositions d.direction 0 node.sample_count).length))
    (d.work_var_count - 1) b1 rfl rfl hdir
  have h3 := splitCatRow_spec
    { d with split_buf := (split_newIdx d.direction d.split_buf node.sample_count).1 } node
    (new_node (some node) (dirPositions d.direction 0 node.sample_count).length newBufIdx
      node.offset)
    (new_node (some node) (dirPositions d.direction 1 node.sample_count).length newBufIdx
      (node.offset + (dirPositions d.direction 0 node.sample_count).length))
    d.work_var_count (splitCatRow
      { d with split_buf := (split_newIdx d.direction d.split_buf node.sample_count).1 } node
      (new_node (some node) (dirPositions d.direction 0 node.sample_count).length newBufIdx
        node.offset)
      (new_node (some node) (dirPositions d.direction 1 node.sample_count).length newBufIdx
        (node.offset + (dirPositions d.direction 0 node.sample_count).length))
      (d.work_var_count - 1) b1) rfl rfl hdir
  have hsrc : ∀ j, storeCell d.is_buf_16u
      (splitCatRow
        { d with split_buf := (split_newIdx d.direction d.split_buf node.sample_count).1 } node
        (new_node (some node) (dirPositions d.direction 0 node.sample_count).length newBufIdx
          node.offset)
        (new_node (some node) (dirPositions d.direction 1 node.sample_count).length newBufIdx
          (node.offset + (dirPositions d.direction 0 node.sample_count).length))
        (d.work_var_count - 1) b1 node.buf_idx d.work_var_count (node.offset + j))
      = d.get_sample_indices node j := by
    intro j
    rw [h2.1 _ _ _ (by omega),
      hf1 _ _ _ (show d.numPrecalcIdx ≤ d.work_var_count by omega)]
    rfl
  refine ⟨_, rfl, ?_, ?_, ?_⟩
  · refine Eq.trans h3.2.1 ?_
    exact List.map_congr_left (fun j _ => hsrc j)
  · refine Eq.trans h3.2.2 ?_
    exact List.map_congr_left (fun j _ => hsrc j)
  · intro vi hvi hty hsplit hperm
    have hsidt : sid = true := by
      rw [← hsid]
      exact decide_eq_true hsplit
    obtain ⟨e1, e2⟩ := hrows1 vi hvi hty hsidt hperm
    have hfr : ∀ c, splitCatRow
        { d with split_buf := (split_newIdx d.direction d.split_buf node.sample_count).1 } node
        (new_node (some node) (dirPositions d.direction 0 node.sample_count).length newBufIdx
          node.offset)
        (new_node (some node) (dirPositions d.direction 1 node.sample_count).length newBufIdx
          (node.offset + (dirPositions d.direction 0 node.sample_count).length))
        d.work_var_count (splitCatRow
          { d with split_buf := (split_newIdx d.direction d.split_buf node.sample_count).1 } node
          (new_node (some node) (dirPositions d.direction 0 node.sample_count).length newBufIdx
            node.offset)
          (new_node (some node) (dirPositions d.direction 1 node.sample_count).length newBufIdx
            (node.offset + (dirPositions d.direction 0 node.sample_count).length))
          (d.work_var_count - 1) b1) newBufIdx vi c = b1 newBufIdx vi c := by
      intro c
      rw [h3.1 _ _ _ (by omega), h2.1 _ _ _ (by omega)]
    constructor
    · refine Eq.trans ?_ e1
      exact List.map_congr_left (fun k _ => hfr _)
    · refine Eq.trans ?_ e2
      exact List.map_congr_left (fun k _ => hfr _)

theorem dirPositions_getD_rank (dir : Nat → Nat) (dv n j : Nat) (hj : j < n)
    (hd : dir j = dv) :
    (dirPositions dir dv n).getD (dirPositions dir dv j).length 0 = j := by
  induction n with
  | zero => omega
  | succ m ih =>
    rw [dirPositions_succ]
    by_cases hjm : j = m
    · subst hjm
      rw [if_pos hd, List.getD_append_right _ _ _ _ (le_refl _)]
      simp
    · have hlt : (dirPositions dir dv j).length < (dirPositions dir dv m).length := by
        have h1 := dirPositions_length_mono dir dv (show j + 1 ≤ m by omega)
        rw [dirPositions_succ, if_pos hd, List.length_append, List.length_singleton] at h1
        omega
      rw [List.getD_append _ _ _ _ hlt]
      exact ih (by omega)

theorem map_range_eq_getD (m : Nat) (f : Nat → Nat) (l : List Nat)
    (h : (List.range m).map f = l) (k : Nat) (hk : k < m) : f k = l.getD k 0 := by
  subst h
  rw [List.getD_eq_getElem _ 0 (by simp; exact hk)]
  simp

theorem child_sort_invariant (d d1 : CascadeBoostTrainData) (node child : DataNode) (dv : Nat)
    (newIdx : Nat → Nat)
    (hresp : d1.response = d.response) (hnum : d1.numPrecalcIdx = d.numPrecalcIdx)
    (hcount : child.sample_count = (dirPositions d.direction dv node.sample_count).length)
    (hrank : ∀ i, i < node.sample_count → d.direction i = dv →
      newIdx i = (dirPositions d.direction dv i).length)
    (hsi : sampleIndexRow d1 child
      = (dirPositions d.direction dv node.sample_count).map (d.get_sample_indices node))
    (hrows : ∀ vi, vi < d.numPrecalcIdx → sortedIndexRow d1 child vi
      = ((sortedIndexRow d node vi).filter (fun j => d.direction j = dv)).map newIdx)
    (hinv : SortInvariant d node) : SortInvariant d1 child := by
  intro vi hvi
  rw [hnum] at hvi
  obtain ⟨hperm, hsorted⟩ := hinv vi hvi
  rw [hrows vi hvi, hcount, hresp]
  constructor
  · have h1 : List.Perm (((sortedIndexRow d node vi).filter (fun j => d.direction j = dv)).map
        newIdx) ((dirPositions d.direction dv node.sample_count).map newIdx) :=
      (hperm.filter _).map newIdx
    rw [map_rank_dirPositions d.direction dv newIdx node.sample_count hrank] at h1
    exact h1
  · rw [List.map_map]
    have hval : ((sortedIndexRow d node vi).filter (fun j => d.direction j = dv)).map
          ((fun j => d.response vi (d1.get_sample_indices child j)) ∘ newIdx)
        = ((sortedIndexRow d node vi).filter (fun j => d.direction j = dv)).map
          (fun j => d.response vi (d.get_sample_indices node j)) := by
      apply List.map_congr_left
      intro j hj
      obtain ⟨hjm, hjd⟩ := List.mem_filter.mp hj
      have hjn : j < node.sample_count := List.mem_range.mp (hperm.mem_iff.mp hjm)
      have hjd2 : d.direction j = dv := of_decide_eq_true hjd
      have hlt : (dirPositions d.direction dv j).length < child.sample_count := by
        have h1 := dirPositions_length_mono d.direction dv (show j + 1 ≤ node.sample_count from hjn)
        rw [dirPositions_succ, if_pos hjd2, List.length_append, List.length_singleton] at h1
        omega
      have hk := map_range_eq_getD child.sample_count (d1.get_sample_indices child) _ hsi
        (dirPositions d.direction dv j).length hlt
      simp only [Function.comp]
      rw [hrank j hjn hjd2, hk]
      rw [List.getD_eq_getElem _ 0 (by rw [List.length_map, ← hcount]; exact hlt),
        List.getElem_map]
      rw [← List.getD_eq_getElem _ 0, dirPositions_getD_rank d.direction dv _ j hjn hjd2]
    rw [hval]
    exact List.Pairwise.sublist ((List.filter_sublist _).map _) hsorted

/-- C12 (partition of the samples).  For a node with `n` samples whose per-variable counts
are all `n`, and a direction vector in `{0,1}^n`, `split_node_data` returns a left child
with as many samples as there are `0` directions and a right child with as many as there are
`1` directions, together `n`; the sample-index row of the left (right) child is the
parent's sample-index row restricted to the positions of direction `0` (`1`), in the
parent's order; the two rows together are a rearrangement of the parent's row, and they
have no common element when the parent's row has no repetition. -/
theorem split_node_data_partition (icvSortAux : List Nat → (Nat → ℚ) → List Nat)
    (newBufIdx : Nat) (d : CascadeBoostTrainData) (node : DataNode)
    (hdir : ∀ i, i < node.sample_count → d.direction i = 0 ∨ d.direction i = 1)
    (hn : node.sample_count < 2147483648)
    (hW : d.numPrecalcIdx < d.work_var_count)
    (hv : ∀ vi, vi < d.numPrecalcIdx → node.num_valid vi = node.sample_count) :
    ∃ d1 left right,
      CascadeBoostTree.split_node_data icvSortAux newBufIdx d node = some (d1, left, right)
      ∧ left.sample_count = (dirPositions d.direction 0 node.sample_count).length
      ∧ right.sample_count = (dirPositions d.direction 1 node.sample_count).length
      ∧ left.sample_count + right.sample_count = node.sample_count
      ∧ sampleIndexRow d1 left
          = (dirPositions d.direction 0 node.sample_count).map (d.get_sample_indices node)
      ∧ sampleIndexRow d1 right
          = (dirPositions d.direction 1 node.sample_count).map (d.get_sample_indices node)
      ∧ List.Perm (sampleIndexRow d1 left ++ sampleIndexRow d1 right) (sampleIndexRow d node)
      ∧ ((sampleIndexRow d node).Nodup →
          List.Disjoint (sampleIndexRow d1 left) (sampleIndexRow d1 right)) := by
  obtain ⟨buf3, heq, hs0, hs1, -⟩ :=
    split_node_data_spec icvSortAux newBufIdx d node hdir hn hW hv
  have hl : sampleIndexRow
      { d with split_buf := (split_newIdx d.direction d.split_buf node.sample_count).1
               buf := buf3 }
      (set_num_valid_all d.var_count
        (new_node (some node) (dirPositions d.direction 0 node.sample_count).length
          newBufIdx node.offset) (dirPositions d.direction 0 node.sample_count).length)
      = (dirPositions d.direction 0 node.sample_count).map (d.get_sample_indices node) := hs0
  have hr : sampleIndexRow
      { d with split_buf := (split_newIdx d.direction d.split_buf node.sample_count).1
               buf := buf3 }
      (set_num_valid_all d.var_count
        (new_node (some node) (dirPositions d.direction 1 node.sample_count).length
          newBufIdx (node.offset + (dirPositions d.direction 0 node.sample_count).length))
        (dirPositions d.direction 1 node.sample_count).length)
      = (dirPositions d.direction 1 node.sample_count).map (d.get_sample_indices node) := hs1
  have hperm : List.Perm
      ((dirPositions d.direction 0 node.sample_count).map (d.get_sample_indices node)
        ++ (dirPositions d.direction 1 node.sample_count).map (d.get_sample_indices node))
      (sampleIndexRow d node) := by
    rw [← List.map_append]
    exact (dirPositions_perm d.direction node.sample_count hdir).map _
  refine ⟨_, _, _, heq, rfl, rfl, dirPositions_length_add d.direction node.sample_count hdir,
    hl, hr, ?_, ?_⟩
  · rw [hl, hr]
    exact hperm
  · intro hnd
    rw [hl, hr]
    exact (List.nodup_append.mp (hperm.nodup_iff.mpr hnd)).2.2

theorem exampleData_fields :
    exampleData.numPrecalcIdx = 2 ∧ exampleData.work_var_count = 3
    ∧ exampleData.is_buf_16u = true ∧ exampleData.sample_count = 3
    ∧ exampleData.direction = (fun i => i % 2) ∧ exampleData.maxCatCount = 0
    ∧ exampleData.max_depth = 3 ∧ exampleData.min_sample_count = 0 := by
  obtain ⟨h1, -, h3, h4, -, -, h7⟩ := precalculate_fields insertionSortAux exampleData0
  refine ⟨h3, h7, h4, h1, ?_, ?_, ?_, ?_⟩ <;>
  · unfold exampleData CascadeBoostTrainData.precalculate forFeatures
    simp only [forFeatures_idxOnly, forFeatures_valAndIdx, forFeatures_valOnly]
    rfl

theorem exampleData_dir (i : Nat) :
    exampleData.direction i = 0 ∨ exampleData.direction i = 1 := by
  rw [exampleData_fields.2.2.2.2.1]
  simp only []
  omega

/-- Witness for C12: the root of `exampleData` split into slot `1` with the directions
`0, 1, 0`. -/
theorem split_node_data_partition_witness :
    (∀ i, i < exampleRoot.sample_count →
      exampleData.direction i = 0 ∨ exampleData.direction i = 1)
    ∧ exampleRoot.sample_count < 2147483648
    ∧ exampleData.numPrecalcIdx < exampleData.work_var_count
    ∧ (∀ vi, vi < exampleData.numPrecalcIdx →
        exampleRoot.num_valid vi = exampleRoot.sample_count)
    ∧ ∃ d1 left right,
      CascadeBoostTree.split_node_data insertionSortAux 1 exampleData exampleRoot
        = some (d1, left, right)
      ∧ left.sample_count = (dirPositions exampleData.direction 0 exampleRoot.sample_count).length
      ∧ right.sample_count
          = (dirPositions exampleData.direction 1 exampleRoot.sample_count).length
      ∧ left.sample_count + right.sample_count = exampleRoot.sample_count
      ∧ sampleIndexRow d1 left
          = (dirPositions exampleData.direction 0 exampleRoot.sample_count).map
              (exampleData.get_sample_indices exampleRoot)
      ∧ sampleIndexRow d1 right
          = (dirPositions exampleData.direction 1 exampleRoot.sample_count).map
              (exampleData.get_sample_indices exampleRoot)
      ∧ List.Perm (sampleIndexRow d1 left ++ sampleIndexRow d1 right)
          (sampleIndexRow exampleData exampleRoot)
      ∧ ((sampleIndexRow exampleData exampleRoot).Nodup →
          List.Disjoint (sampleIndexRow d1 left) (sampleIndexRow d1 right)) :=
  ⟨fun i _ => exampleData_dir i, by decide,
    by rw [exampleData_fields.1, exampleData_fields.2.1]; decide, fun _ _ => rfl,
    split_node_data_partition insertionSortAux 1 exampleData exampleRoot
      (fun i _ => exampleData_dir i) (by decide)
      (by rw [exampleData_fields.1, exampleData_fields.2.1]; decide) (fun _ _ => rfl)⟩

/-- C11 (the split keeps the rows sorted).  For a node whose cached rows satisfy the sort
invariant, a direction vector in `{0,1}^n`, ordered variables, and `splitInputData` true,
`split_node_data` returns children each of which satisfies the sort invariant: every row
`vi < numPrecalcIdx` of a child is a permutation of `[0, child.sample_count)` and lists
the samples of the child, through the child's own sample-index row, in non-decreasing
order of their response to `vi`.  (A 16-bit buffer holds the indices of at most `65536`
samples.) -/
theorem split_node_data_sorted (icvSortAux : List Nat → (Nat → ℚ) → List Nat)
    (newBufIdx : Nat) (d : CascadeBoostTrainData) (node : DataNode)
    (hdir : ∀ i, i < node.sample_count → d.direction i = 0 ∨ d.direction i = 1)
    (hn : node.sample_count < 2147483648)
    (hW : d.numPrecalcIdx < d.work_var_count)
    (hv : ∀ vi, vi < d.numPrecalcIdx → node.num_valid vi = node.sample_count)
    (h16 : d.is_buf_16u = true → node.sample_count ≤ 65536)
    (hord : ∀ vi, vi < d.numPrecalcIdx → d.get_var_type vi < 0)
    (hsplit : node.depth + 1 < d.max_depth
      ∧ (((dirPositions d.direction 0 node.sample_count).length : Int) > d.min_sample_count
        ∨ ((dirPositions d.direction 1 node.sample_count).length : Int) > d.min_sample_count))
    (hinv : SortInvariant d node) :
    ∃ d1 left right,
      CascadeBoostTree.split_node_data icvSortAux newBufIdx d node = some (d1, left, right)
      ∧ SortInvariant d1 left ∧ SortInvariant d1 right := by
  obtain ⟨buf3, heq, hs0, hs1, hrows⟩ :=
    split_node_data_spec icvSortAux newBufIdx d node hdir hn hW hv
  obtain ⟨-, -, hi, -⟩ := split_newIdx_spec d.direction d.split_buf node.sample_count hdir hn
  have hrank : ∀ dv i, i < node.sample_count → d.direction i = dv →
      (split_newIdx d.direction d.split_buf node.sample_count).1 i
        = (dirPositions d.direction dv i).length := by
    intro dv i hlt hd
    rw [hi i hlt, hd]
  have hstore : ∀ dv vi, vi < d.numPrecalcIdx →
      (((sortedIndexRow d node vi).filter (fun j => d.direction j = dv)).map
        (fun j => storeCell d.is_buf_16u
          ((split_newIdx d.direction d.split_buf node.sample_count).1 j))).map
            (storeCell d.is_buf_16u)
      = ((sortedIndexRow d node vi).filter (fun j => d.direction j = dv)).map
          (split_newIdx d.direction d.split_buf node.sample_count).1 := by
    intro dv vi hvi
    rw [List.map_map]
    apply List.map_congr_left
    intro j hj
    obtain ⟨hjm, hjd⟩ := List.mem_filter.mp hj
    have hjn : j < node.sample_count := List.mem_range.mp (((hinv vi hvi).1).mem_iff.mp hjm)
    have hle := dirPositions_length_mono d.direction dv (show j ≤ node.sample_count by omega)
    have hle2 : (dirPositions d.direction dv node.sample_count).length ≤ node.sample_count := by
      unfold dirPositions
      exact (List.length_filter_le _ _).trans (by rw [List.length_range])
    have hlt : (dirPositions d.direction dv j).length < node.sample_count := by
      have h1 := dirPositions_length_mono d.direction dv (show j + 1 ≤ node.sample_count from hjn)
      rw [dirPositions_succ, if_pos (of_decide_eq_true hjd), List.length_append,
        List.length_singleton] at h1
      omega
    simp only [Function.comp, storeCell_idem]
    rw [hrank dv j hjn (of_decide_eq_true hjd)]
    exact storeCell_of_lt _ _ (fun h => by have := h16 h; omega)
  refine ⟨_, _, _, heq, ?_, ?_⟩
  · refine child_sort_invariant d _ node _ 0
      (split_newIdx d.direction d.split_buf node.sample_count).1 rfl rfl rfl (hrank 0) hs0 ?_ hinv
    intro vi hvi
    have h := congrArg (List.map (storeCell d.is_buf_16u))
      (hrows vi hvi (hord vi hvi) hsplit (hinv vi hvi).1).1
    rw [hstore 0 vi hvi, List.map_map] at h
    exact h
  · refine child_sort_invariant d _ node _ 1
      (split_newIdx d.direction d.split_buf node.sample_count).1 rfl rfl rfl (hrank 1) hs1 ?_ hinv
    intro vi hvi
    have h := congrArg (List.map (storeCell d.is_buf_16u))
      (hrows vi hvi (hord vi hvi) hsplit (hinv vi hvi).1).2
    rw [hstore 1 vi hvi, List.map_map] at h
    exact h

theorem exampleData_ord (vi : Nat) : exampleData.get_var_type vi < 0 := by
  unfold CascadeBoostTrainData.get_var_type
  rw [exampleData_fields.2.2.2.2.2.1]
  simp only [lt_self_iff_false, if_false]
  omega

theorem exampleData_split :
    exampleRoot.depth + 1 < exampleData.max_depth
    ∧ (((dirPositions exampleData.direction 0 exampleRoot.sample_count).length : Int)
          > exampleData.min_sample_count
      ∨ ((dirPositions exampleData.direction 1 exampleRoot.sample_count).length : Int)
          > exampleData.min_sample_count) := by
  rw [exampleData_fields.2.2.2.2.1, exampleData_fields.2.2.2.2.2.2.1,
    exampleData_fields.2.2.2.2.2.2.2]
  decide

/-- Witness for C11: the root of `exampleData` split into slot `1` with the directions
`0, 1, 0`. -/
theorem split_node_data_sorted_witness :
    (∀ i, i < exampleRoot.sample_count →
      exampleData.direction i = 0 ∨ exampleData.direction i = 1)
    ∧ exampleRoot.sample_count < 2147483648
    ∧ exampleData.numPrecalcIdx < exampleData.work_var_count
    ∧ (∀ vi, vi < exampleData.numPrecalcIdx →
        exampleRoot.num_valid vi = exampleRoot.sample_count)
    ∧ (exampleData.is_buf_16u = true → exampleRoot.sample_count ≤ 65536)
    ∧ (∀ vi, vi < exampleData.numPrecalcIdx → exampleData.get_var_type vi < 0)
    ∧ (exampleRoot.depth + 1 < exampleData.max_depth
      ∧ (((dirPositions exampleData.direction 0 exampleRoot.sample_count).length : Int)
            > exampleData.min_sample_count
        ∨ ((dirPositions exampleData.direction 1 exampleRoot.sample_count).length : Int)
            > exampleData.min_sample_count))
    ∧ SortInvariant exampleData exampleRoot
    ∧ ∃ d1 left right,
      CascadeBoostTree.split_node_data insertionSortAux 1 exampleData exampleRoot
        = some (d1, left, right)
      ∧ SortInvariant d1 left ∧ SortInvariant d1 right :=
  ⟨fun i _ => exampleData_dir i, by decide,
    by rw [exampleData_fields.1, exampleData_fields.2.1]; decide, fun _ _ => rfl,
    fun _ => by decide, fun vi _ => exampleData_ord vi, exampleData_split,
    exampleData_invariant.1,
    split_node_data_sorted insertionSortAux 1 exampleData exampleRoot
      (fun i _ => exampleData_dir i) (by decide)
      (by rw [exampleData_fields.1, exampleData_fields.2.1]; decide) (fun _ _ => rfl)
      (fun _ => by decide) (fun vi _ => exampleData_ord vi) exampleData_split
      exampleData_invariant.1⟩

/-! ### Index arrays and subsampling -/

theorem wrap32_of_range (x : Int) (h1 : -2147483648 ≤ x) (h2 : x < 2147483648) :
    wrap32 x = x := by
  unfold wrap32 ofU32 toU32
  split_ifs <;> omega

theorem INT_MIN_le_wrap32 (x : Int) : INT_MIN ≤ wrap32 x := by
  unfold wrap32 ofU32 toU32 INT_MIN
  split_ifs <;> omega

theorem icvCmpIntegers_le_iff (a b : Int) (h1 : -2147483648 ≤ a - b) (h2 : a - b < 2147483648) :
    icvCmpIntegers a b ≤ 0 ↔ a ≤ b := by
  unfold icvCmpIntegers
  rw [wrap32_of_range _ h1 h2]
  omega

theorem scanSorted_cons (val : Int) (rest : List Int) (h : INT_MIN ≤ val) :
    scanSorted (val :: rest) INT_MIN = false := by
  simp [scanSorted, h]

theorem insertionQsort_sorts : QsortSorts insertionQsort := by
  intro arr cmp
  refine ⟨List.perm_insertionSort _ arr, ?_⟩
  intro hcmp
  have hperm : List.Perm (insertionQsort arr cmp) arr := List.perm_insertionSort _ arr
  have h1 : List.Perm (arr.insertionSort (· ≤ ·)) (insertionQsort arr cmp) :=
    (List.perm_insertionSort _ arr).trans hperm.symm
  have e : insertionQsort arr cmp = arr.insertionSort (· ≤ ·) := by
    unfold insertionQsort
    have key : ∀ (l : List Int), (∀ a ∈ l, a ∈ arr) →
        l.insertionSort (fun a b => cmp a b ≤ 0) = l.insertionSort (· ≤ ·)
          ∧ ∀ x ∈ arr, (∀ a ∈ l, a ∈ arr) →
            List.orderedInsert (fun a b => cmp a b ≤ 0) x (l.insertionSort (· ≤ ·))
              = List.orderedInsert (· ≤ ·) x (l.insertionSort (· ≤ ·)) := by
      intro l
      have hins : ∀ (t : List Int) (x : Int), x ∈ arr → (∀ a ∈ t, a ∈ arr) →
          List.orderedInsert (fun a b => cmp a b ≤ 0) x t = List.orderedInsert (· ≤ ·) x t := by
        intro t
        induction t with
        | nil => intro x _ _; rfl
        | cons y t ih =>
          intro x hx ht
          simp only [List.orderedInsert]
          have hy : y ∈ arr := ht y (List.mem_cons_self _ _)
          by_cases hxy : x ≤ y
          · rw [if_pos ((hcmp x hx y hy).mpr hxy), if_pos hxy]
          · rw [if_neg (fun h => hxy ((hcmp x hx y hy).mp h)), if_neg hxy,
              ih x hx (fun a ha => ht a (List.mem_cons_of_mem _ ha))]
      induction l with
      | nil => intro _; exact ⟨rfl, fun x hx _ => rfl⟩
      | cons y t ih =>
        intro ht
        have hmem : ∀ a ∈ t, a ∈ arr := fun a ha => ht a (List.mem_cons_of_mem _ ha)
        obtain ⟨e1, -⟩ := ih hmem
        have hsub : ∀ a ∈ t.insertionSort (· ≤ ·), a ∈ arr :=
          fun a ha => hmem a ((List.perm_insertionSort _ t).mem_iff.mp ha)
        refine ⟨?_, ?_⟩
        · simp only [List.insertionSort]
          rw [e1]
          exact hins _ y (ht y (List.mem_cons_self _ _)) hsub
        · intro x hx _
          exact hins _ x hx (fun a ha =>
            ht a ((List.perm_insertionSort _ (y :: t)).mem_iff.mp ha))
    exact (key arr (fun a ha => ha)).1
  rw [e]
  exact List.sorted_insertionSort _ arr

theorem scanSorted_false (l : List Int) (hne : l ≠ []) (h : ∀ x ∈ l, INT_MIN ≤ x) :
    scanSorted l INT_MIN = false := by
  cases l with
  | nil => exact absurd rfl hne
  | cons val rest => exact scanSorted_cons val rest (h val (List.mem_cons_self _ _))

theorem cvPreprocessIndexArray_int (qsort : List Int → (Int → Int → Int) → List Int)
    (hq : QsortSorts qsort) (m : CvMat) (N : Nat)
    (hty : m.type = MatType.CV_32SC1) (hr : 0 < m.rows) (hc : 0 < m.cols)
    (h1d : m.rows = 1 ∨ m.cols = 1) (hlen : m.rows + m.cols - 1 ≤ N) (hN : N < 2147483648)
    (hel : ∀ i, i < m.rows + m.cols - 1 → 0 ≤ m.geti i ∧ m.geti i < N) :
    cvPreprocessIndexArray qsort m N false
      = .ok (qsort ((List.range (m.rows + m.cols - 1)).map m.geti) icvCmpIntegers)
    ∧ List.Sorted (· ≤ ·) (qsort ((List.range (m.rows + m.cols - 1)).map m.geti) icvCmpIntegers)
    ∧ List.Perm (qsort ((List.range (m.rows + m.cols - 1)).map m.geti) icvCmpIntegers)
        ((List.range (m.rows + m.cols - 1)).map m.geti) := by
  have hmem : ∀ x ∈ (List.range (m.rows + m.cols - 1)).map m.geti, 0 ≤ x ∧ x < N := by
    intro x hx
    obtain ⟨i, hi, rfl⟩ := List.mem_map.mp hx
    exact hel i (List.mem_range.mp hi)
  obtain ⟨hperm, hsorted⟩ := hq ((List.range (m.rows + m.cols - 1)).map m.geti) icvCmpIntegers
  have hs := hsorted (fun a ha b hb => by
    have h1 := hmem a ha
    have h2 := hmem b hb
    exact icvCmpIntegers_le_iff a b (by omega) (by omega))
  have hscan : scanSorted ((List.range (m.rows + m.cols - 1)).map m.geti) INT_MIN = false := by
    apply scanSorted_false
    · intro h
      have := congrArg List.length h
      simp at this
      omega
    · intro x hx
      obtain ⟨i, -, rfl⟩ := List.mem_map.mp hx
      exact INT_MIN_le_wrap32 _
  have hlenq : (qsort ((List.range (m.rows + m.cols - 1)).map m.geti) icvCmpIntegers).length
      = m.rows + m.cols - 1 := by
    rw [hperm.length_eq, List.length_map, List.length_range]
  have hget : ∀ k, k < m.rows + m.cols - 1 →
      0 ≤ (qsort ((List.range (m.rows + m.cols - 1)).map m.geti) icvCmpIntegers).getD k 0
      ∧ (qsort ((List.range (m.rows + m.cols - 1)).map m.geti) icvCmpIntegers).getD k 0 < N := by
    intro k hk
    rw [List.getD_eq_getElem _ 0 (by rw [hlenq]; exact hk)]
    exact hmem _ (hperm.mem_iff.mp (List.getElem_mem _))
  refine ⟨?_, hs, hperm⟩
  unfold cvPreprocessIndexArray
  rw [if_neg (by simp [hr, hc]), if_neg (by omega), hty]
  simp only [hscan]
  rw [if_neg (by omega)]
  have h0 := hget 0 (by omega)
  have h1 := hget (m.rows + m.cols - 1 - 1) (by omega)
  simp only [Bool.false_eq_true, if_false, false_and]
  rw [if_neg (by omega)]

theorem all_getD_iff (sidx : List Int) (N : Nat) (hlen : sidx.length = N) :
    (List.range N).all (fun (i : Nat) => decide (sidx.getD i 0 = (i : Int))) = true
      ↔ sidx = (List.range N).map (fun (i : Nat) => (i : Int)) := by
  constructor
  · intro h
    rw [List.all_eq_true] at h
    apply List.ext_getElem
    · simp [hlen]
    · intro k h1 h2
      have hk : k < N := by omega
      have := of_decide_eq_true (h k (List.mem_range.mpr hk))
      rw [List.getD_eq_getElem _ 0 h1] at this
      simp [this]
  · intro h
    rw [List.all_eq_true]
    intro k hk
    have hk2 := List.mem_range.mp hk
    apply decide_eq_true
    rw [List.getD_eq_getElem _ 0 (by omega)]
    simp [h]

theorem isMakeRootCopy_some (qsort : List Int → (Int → Int → Int) → List Int) (N : Nat)
    (m : CvMat) (b : Bool) (sidx : List Int)
    (h : subsample_isMakeRootCopy qsort N (some m) = .ok (b, sidx)) :
    cvPreprocessIndexArray qsort m N false = .ok sidx
    ∧ (b = true ↔ sidx = (List.range N).map (fun (i : Nat) => (i : Int))) := by
  unfold subsample_isMakeRootCopy at h
  simp only [] at h
  cases hp : cvPreprocessIndexArray qsort m (N : Int) false with
  | error e => rw [hp] at h; cases h
  | ok l =>
    rw [hp] at h
    simp only [] at h
    by_cases hl : l.length = N
    · rw [if_pos hl] at h
      injection h with h
      injection h with h1 h2
      subst h2
      refine ⟨rfl, ?_⟩
      rw [← h1]
      exact all_getD_iff l N hl
    · rw [if_neg hl] at h
      injection h with h
      injection h with h1 h2
      subst h2
      refine ⟨rfl, ?_⟩
      rw [← h1]
      constructor
      · intro h3; cases h3
      · intro h3
        exfalso
        apply hl
        rw [h3]
        simp

theorem isMakeRootCopy_of_ok (qsort : List Int → (Int → Int → Int) → List Int) (N : Nat)
    (m : CvMat)
    (h : cvPreprocessIndexArray qsort m N false = .ok ((List.range N).map (fun (i : Nat) => (i : Int)))) :
    subsample_isMakeRootCopy qsort N (some m)
      = .ok (true, (List.range N).map (fun (i : Nat) => (i : Int))) := by
  unfold subsample_isMakeRootCopy
  simp only [h]
  rw [if_pos (by simp)]
  rw [(all_getD_iff _ N (by simp)).mpr rfl]

theorem isMakeRootCopy_of_perm (qsort : List Int → (Int → Int → Int) → List Int)
    (hq : QsortSorts qsort) (N : Nat) (hN : N < 2147483648) (m : CvMat)
    (hty : m.type = MatType.CV_32SC1) (hr : 0 < m.rows) (hc : 0 < m.cols)
    (h1d : m.rows = 1 ∨ m.cols = 1) (hlen : m.rows + m.cols - 1 = N)
    (hperm : List.Perm ((List.range N).map m.geti) ((List.range N).map (fun (i : Nat) => (i : Int)))) :
    subsample_isMakeRootCopy qsort N (some m)
      = .ok (true, (List.range N).map (fun (i : Nat) => (i : Int))) := by
  have hel : ∀ i, i < m.rows + m.cols - 1 → 0 ≤ m.geti i ∧ m.geti i < N := by
    intro i hi
    rw [hlen] at hi
    have hmem : m.geti i ∈ (List.range N).map m.geti :=
      List.mem_map.mpr ⟨i, List.mem_range.mpr hi, rfl⟩
    obtain ⟨j, hj, hje⟩ := List.mem_map.mp (hperm.mem_iff.mp hmem)
    have := List.mem_range.mp hj
    rw [← hje]
    constructor <;> omega
  obtain ⟨hok, hsorted, hp⟩ :=
    cvPreprocessIndexArray_int qsort hq m N hty hr hc h1d (by omega) hN hel
  rw [hlen] at hok hsorted hp
  have hsr : List.Sorted (· ≤ ·) ((List.range N).map (fun (i : Nat) => (i : Int))) := by
    rw [List.Sorted, List.pairwise_map]
    exact (List.sorted_le_range N).imp (fun h => by omega)
  have e := List.eq_of_perm_of_sorted (hp.trans hperm) hsorted hsr
  rw [e] at hok
  exact isMakeRootCopy_of_ok qsort N m hok

theorem subsample_data_of_flag (qsort : List Int → (Int → Int → Int) → List Int)
    (icvSortAux : List Nat → (Nat → ℚ) → List Nat) (d : CascadeBoostTrainData)
    (data_root : DataNode) (idx : Option CvMat) (b : Bool) (sidx : List Int)
    (h : subsample_isMakeRootCopy qsort d.sample_count idx = .ok (b, sidx)) :
    d.subsample_data qsort icvSortAux (some data_root) idx
      = if b = true then .ok (d, subsampleRootCopy d data_root)
        else subsampleCompact icvSortAux d data_root sidx := by
  unfold CascadeBoostTrainData.subsample_data
  simp only [h]

theorem isMakeRootCopy_of_ne (qsort : List Int → (Int → Int → Int) → List Int) (N : Nat)
    (m : CvMat) (sidx : List Int) (h : cvPreprocessIndexArray qsort m N false = .ok sidx)
    (hne : sidx ≠ (List.range N).map (fun (i : Nat) => (i : Int))) :
    subsample_isMakeRootCopy qsort N (some m) = .ok (false, sidx) := by
  unfold subsample_isMakeRootCopy
  simp only [h]
  by_cases hl : sidx.length = N
  · rw [if_pos hl]
    have : (List.range N).all (fun (i : Nat) => decide (sidx.getD i 0 = (i : Int))) = false := by
      cases hb : (List.range N).all (fun (i : Nat) => decide (sidx.getD i 0 = (i : Int))) with
      | false => rfl
      | true => exact absurd ((all_getD_iff sidx N hl).mp hb) hne
    rw [this]
  · rw [if_neg hl]

/-- C15, as first stated, fails: the integer index array `1, 0` over a pool of two
samples is not `0, 1` in that order, yet `subsample_data` takes the root-copy branch,
because `cvPreprocessIndexArray` sorts the array before the comparison with
`0, 1, ..., N-1`. -/
theorem root_copy_unordered_counterexample :
    unorderedIdx.type = MatType.CV_32SC1 ∧ unorderedIdx.rows = 1 ∧ unorderedIdx.cols = 2
    ∧ unorderedIdx.geti 0 = 1 ∧ unorderedIdx.geti 1 = 0
    ∧ subsample_isMakeRootCopy insertionQsort 2 (some unorderedIdx) = .ok (true, [0, 1])
    ∧ ∀ (qsort : List Int → (Int → Int → Int) → List Int)
        (icvSortAux : List Nat → (Nat → ℚ) → List Nat) (d : CascadeBoostTrainData)
        (data_root : DataNode), QsortSorts qsort → d.sample_count = 2 →
        d.subsample_data qsort icvSortAux (some data_root) (some unorderedIdx)
          = .ok (d, subsampleRootCopy d data_root) := by
  have hg0 : unorderedIdx.geti 0 = 1 := by
    unfold CvMat.geti unorderedIdx
    exact wrap32_of_range _ (by decide) (by decide)
  have hg1 : unorderedIdx.geti 1 = 0 := by
    unfold CvMat.geti unorderedIdx
    exact wrap32_of_range _ (by decide) (by decide)
  have key : ∀ (qsort : List Int → (Int → Int → Int) → List Int), QsortSorts qsort →
      subsample_isMakeRootCopy qsort 2 (some unorderedIdx) = .ok (true, [0, 1]) := by
    intro qsort hq
    have h := isMakeRootCopy_of_perm qsort hq 2 (by decide) unorderedIdx rfl (by decide)
      (by decide) (Or.inl rfl) rfl (by
        simp only [List.range, List.range.loop, List.map, hg0, hg1]
        exact List.Perm.swap _ _ _)
    exact h
  refine ⟨rfl, rfl, rfl, hg0, hg1, key insertionQsort insertionQsort_sorts, ?_⟩
  intro qsort icvSortAux d data_root hq hN
  have h := key qsort hq
  rw [← hN] at h
  rw [subsample_data_of_flag qsort icvSortAux d data_root _ _ _ h]
  rfl

/-- C15, amended.  `subsample_data` takes the root-copy branch exactly when no index
array is given or the preprocessed index array (the integer indices after sorting, or
the positions of the non-zero mask entries) is `0, 1, ..., N-1`; every other index array
that `cvPreprocessIndexArray` accepts takes the compaction branch.  In particular an
integer array that is a permutation of `0, 1, ..., N-1`, in any order, takes the
root-copy branch. -/
theorem subsample_root_copy_iff (qsort : List Int → (Int → Int → Int) → List Int)
    (hq : QsortSorts qsort) (icvSortAux : List Nat → (Nat → ℚ) → List Nat)
    (d : CascadeBoostTrainData) (data_root : DataNode) (hN : d.sample_count < 2147483648) :
    d.subsample_data qsort icvSortAux (some data_root) none
        = .ok (d, subsampleRootCopy d data_root)
    ∧ (∀ (m : CvMat) (sidx : List Int),
        cvPreprocessIndexArray qsort m d.sample_count false = .ok sidx →
        (sidx = (List.range d.sample_count).map (fun (i : Nat) => (i : Int)) →
          subsample_isMakeRootCopy qsort d.sample_count (some m) = .ok (true, sidx)
          ∧ d.subsample_data qsort icvSortAux (some data_root) (some m)
              = .ok (d, subsampleRootCopy d data_root))
        ∧ (sidx ≠ (List.range d.sample_count).map (fun (i : Nat) => (i : Int)) →
          subsample_isMakeRootCopy qsort d.sample_count (some m) = .ok (false, sidx)
          ∧ d.subsample_data qsort icvSortAux (some data_root) (some m)
              = subsampleCompact icvSortAux d data_root sidx))
    ∧ (∀ (m : CvMat), m.type = MatType.CV_32SC1 → 0 < m.rows → 0 < m.cols →
        (m.rows = 1 ∨ m.cols = 1) → m.rows + m.cols - 1 = d.sample_count →
        List.Perm ((List.range d.sample_count).map m.geti)
          ((List.range d.sample_count).map (fun (i : Nat) => (i : Int))) →
        d.subsample_data qsort icvSortAux (some data_root) (some m)
          = .ok (d, subsampleRootCopy d data_root)) := by
  refine ⟨rfl, ?_, ?_⟩
  · intro m sidx hp
    constructor
    · intro he
      have h := isMakeRootCopy_of_ok qsort d.sample_count m (he ▸ hp)
      rw [← he] at h
      refine ⟨h, ?_⟩
      rw [subsample_data_of_flag qsort icvSortAux d data_root _ _ _ h]
      rfl
    · intro hne
      have h := isMakeRootCopy_of_ne qsort d.sample_count m sidx hp hne
      refine ⟨h, ?_⟩
      rw [subsample_data_of_flag qsort icvSortAux d data_root _ _ _ h]
      rfl
  · intro m hty hr hc h1d hlen hperm
    have h := isMakeRootCopy_of_perm qsort hq d.sample_count hN m hty hr hc h1d hlen hperm
    rw [subsample_data_of_flag qsort icvSortAux d data_root _ _ _ h]
    rfl

/-- Witness for the amended C15 at `exampleData` and `exampleRoot`. -/
theorem subsample_root_copy_iff_witness :
    QsortSorts insertionQsort ∧ exampleData.sample_count < 2147483648
    ∧ exampleData.subsample_data insertionQsort insertionSortAux (some exampleRoot) none
        = .ok (exampleData, subsampleRootCopy exampleData exampleRoot)
    ∧ (∀ (m : CvMat) (sidx : List Int),
        cvPreprocessIndexArray insertionQsort m exampleData.sample_count false = .ok sidx →
        (sidx = (List.range exampleData.sample_count).map (fun (i : Nat) => (i : Int)) →
          subsample_isMakeRootCopy insertionQsort exampleData.sample_count (some m)
              = .ok (true, sidx)
          ∧ exampleData.subsample_data insertionQsort insertionSortAux (some exampleRoot)
              (some m) = .ok (exampleData, subsampleRootCopy exampleData exampleRoot))
        ∧ (sidx ≠ (List.range exampleData.sample_count).map (fun (i : Nat) => (i : Int)) →
          subsample_isMakeRootCopy insertionQsort exampleData.sample_count (some m)
              = .ok (false, sidx)
          ∧ exampleData.subsample_data insertionQsort insertionSortAux (some exampleRoot)
              (some m) = subsampleCompact insertionSortAux exampleData exampleRoot sidx))
    ∧ (∀ (m : CvMat), m.type = MatType.CV_32SC1 → 0 < m.rows → 0 < m.cols →
        (m.rows = 1 ∨ m.cols = 1) → m.rows + m.cols - 1 = exampleData.sample_count →
        List.Perm ((List.range exampleData.sample_count).map m.geti)
          ((List.range exampleData.sample_count).map (fun (i : Nat) => (i : Int))) →
        exampleData.subsample_data insertionQsort insertionSortAux (some exampleRoot) (some m)
          = .ok (exampleData, subsampleRootCopy exampleData exampleRoot)) :=
  ⟨insertionQsort_sorts, by rw [exampleData_fields.2.2.2.1]; decide,
    subsample_root_copy_iff insertionQsort insertionQsort_sorts insertionSortAux exampleData
      exampleRoot (by rw [exampleData_fields.2.2.2.1]; decide)⟩

theorem coCounts_eq (sidx : List Int) (x : Int) : coCounts sidx x = sidx.count x := by
  have key : ∀ (l : List Int) (init : Int → Nat),
      l.foldl (fun co s => Function.update co s (co s + 1)) init x = init x + l.count x := by
    intro l
    induction l with
    | nil => intro init; simp
    | cons a l ih =>
      intro init
      rw [List.foldl_cons, ih, List.count_cons]
      by_cases ha : a = x
      · subst ha
        simp only [Function.update_same, beq_self_eq_true, if_true]
        omega
      · rw [Function.update_noteq (Ne.symm ha)]
        simp [ha]
  unfold coCounts
  rw [key]
  simp

theorem coOffsets_snd_succ (cnt : Int → Nat) (i : Nat) :
    (coOffsets cnt (i + 1)).2 = (coOffsets cnt i).2 + cnt (i : Int) := by
  simp only [coOffsets]
  split_ifs with h
  · rfl
  · simp only [ne_eq, not_not] at h
    simp [h]

theorem coOffsets_fst (cnt : Int → Nat) (n i : Nat) (hi : i < n) (hc : cnt (i : Int) ≠ 0) :
    (coOffsets cnt n).1 (i : Int) = ((coOffsets cnt i).2 : Int) := by
  induction n with
  | zero => omega
  | succ n ih =>
    simp only [coOffsets]
    by_cases hin : i = n
    · subst hin
      rw [if_pos hc]
      simp only [Function.update_same]
    · have hne : (i : Int) ≠ (n : Int) := by omega
      split_ifs
      · simp only [Function.update_noteq hne]
        exact ih (by omega)
      · simp only [Function.update_noteq hne]
        exact ih (by omega)

theorem coOffsets_tile (cnt : Int → Nat) (n : Nat) :
    (List.range n).flatMap (fun (i : Nat) =>
        (List.range (cnt (i : Int))).map (fun (t : Nat) => (coOffsets cnt i).2 + t))
      = List.range (coOffsets cnt n).2 := by
  induction n with
  | zero => rfl
  | succ n ih =>
    rw [List.range_succ, List.flatMap_append, ih, List.flatMap_singleton, coOffsets_snd_succ,
      List.range_add]

theorem replicate_blocks (cnt : Int → Nat) (n : Nat) :
    ((List.range n).flatMap (fun (i : Nat) => List.replicate (cnt (i : Int)) i)).length
        = (coOffsets cnt n).2
    ∧ ∀ i, i < n → ∀ t, t < cnt (i : Int) →
        ((List.range n).flatMap (fun (i : Nat) => List.replicate (cnt (i : Int)) i)).getD
          ((coOffsets cnt i).2 + t) 0 = i := by
  induction n with
  | zero => exact ⟨rfl, fun i hi => absurd hi (Nat.not_lt_zero i)⟩
  | succ n ih =>
    obtain ⟨hlen, hget⟩ := ih
    rw [List.range_succ, List.flatMap_append, List.flatMap_singleton]
    refine ⟨by rw [List.length_append, hlen, List.length_replicate, coOffsets_snd_succ], ?_⟩
    intro i hi t ht
    by_cases hin : i = n
    · subst hin
      rw [List.getD_append_right _ _ _ _ (by rw [hlen]; omega), hlen,
        List.getD_eq_getElem _ 0 (by rw [List.length_replicate]; omega)]
      simp
    · have hmono : ∀ k, i + 1 ≤ k → (coOffsets cnt (i + 1)).2 ≤ (coOffsets cnt k).2 := by
        intro k hk
        induction k with
        | zero => omega
        | succ k ihk =>
          by_cases hik : i = k
          · subst hik; exact le_refl _
          · have := ihk (by omega)
            rw [coOffsets_snd_succ cnt k]
            omega
      have hle := hmono n (by omega)
      rw [coOffsets_snd_succ] at hle
      rw [List.getD_append _ _ _ _ (by rw [hlen]; omega)]
      exact hget i (by omega) t ht

theorem count_blocks (c : Nat → Nat) (n a : Nat) :
    ((List.range n).flatMap (fun (i : Nat) => List.replicate (c i) i)).count a
      = if a < n then c a else 0 := by
  induction n with
  | zero => rfl
  | succ n ih =>
    rw [List.range_succ, List.flatMap_append, List.count_append, ih, List.flatMap_singleton,
      List.count_replicate]
    by_cases h1 : a < n
    · have h2 : ¬ (n == a) = true := by simp; omega
      simp [h1, h2, Nat.lt_succ_of_lt h1]
    · by_cases h3 : a = n
      · subst h3; simp
      · have h2 : ¬ (n == a) = true := by simp; omega
        have h4 : ¬ a < n + 1 := by omega
        simp [h1, h2, h4]

theorem sorted_blocks (c : Nat → Nat) (n : Nat) :
    List.Sorted (· ≤ ·) ((List.range n).flatMap (fun (i : Nat) => List.replicate (c i) i)) := by
  induction n with
  | zero => exact List.sorted_nil
  | succ n ih =>
    rw [List.range_succ, List.flatMap_append, List.flatMap_singleton]
    unfold List.Sorted
    rw [List.pairwise_append]
    refine ⟨ih, List.pairwise_replicate.mpr (Or.inr (le_refl n)), ?_⟩
    intro a ha b hb
    obtain ⟨i, hi, hai⟩ := List.mem_flatMap.mp ha
    have h1 := List.mem_range.mp hi
    have h2 := (List.mem_replicate.mp hai).2
    have h3 := (List.mem_replicate.mp hb).2
    omega

theorem sorted_eq_blocks (s : List Nat) (N : Nat) (hs : List.Sorted (· ≤ ·) s)
    (hr : ∀ x ∈ s, x < N) :
    s = (List.range N).flatMap (fun (i : Nat) => List.replicate (s.count i) i) := by
  apply List.eq_of_perm_of_sorted ?_ hs (sorted_blocks (fun i => s.count i) N)
  rw [List.perm_iff_count]
  intro a
  rw [count_blocks (fun i => s.count i) N a]
  by_cases h : a < N
  · rw [if_pos h]
  · rw [if_neg h]
    exact List.count_eq_zero_of_not_mem (fun hm => h (hr a hm))

theorem sorted_flatMap_replicate (T : List Nat) (g : Nat → ℚ) (c : Nat → Nat)
    (h : List.Sorted (· ≤ ·) (T.map g)) :
    List.Sorted (· ≤ ·) (T.flatMap (fun (idx : Nat) => List.replicate (c idx) (g idx))) := by
  induction T with
  | nil => exact List.sorted_nil
  | cons a T ih =>
    rw [List.map_cons, List.sorted_cons] at h
    rw [List.flatMap_cons]
    unfold List.Sorted
    rw [List.pairwise_append]
    refine ⟨List.pairwise_replicate.mpr (Or.inr (le_refl _)), ih h.2, ?_⟩
    intro x hx y hy
    obtain ⟨b, hb, hyb⟩ := List.mem_flatMap.mp hy
    rw [(List.mem_replicate.mp hx).2, (List.mem_replicate.mp hyb).2]
    exact h.1 _ (List.mem_map.mpr ⟨b, hb, rfl⟩)

theorem blocks_of_sorted (cnt : Int → Nat) (s : List Nat) (N : Nat)
    (hcnt : ∀ i : Nat, cnt (i : Int) = s.count i)
    (hs : List.Sorted (· ≤ ·) s) (hr : ∀ x ∈ s, x < N) :
    s.length = (coOffsets cnt N).2
    ∧ ∀ i, i < N → ∀ t, t < cnt (i : Int) → s.getD ((coOffsets cnt i).2 + t) 0 = i := by
  have e : s = (List.range N).flatMap (fun (i : Nat) => List.replicate (cnt (i : Int)) i) := by
    have h := sorted_eq_blocks s N hs hr
    have e2 : (fun (i : Nat) => List.replicate (s.count i) i)
        = (fun (i : Nat) => List.replicate (cnt (i : Int)) i) := by
      funext i
      rw [hcnt i]
    rw [e2] at h
    exact h
  obtain ⟨h1, h2⟩ := replicate_blocks cnt N
  rw [← e] at h1 h2
  exact ⟨h1, h2⟩

theorem compact_sort_invariant (d d1 : CascadeBoostTrainData) (data_root root : DataNode)
    (cnt : Int → Nat) (s : List Nat)
    (hresp : d1.response = d.response) (hnum : d1.numPrecalcIdx = d.numPrecalcIdx)
    (hcount : root.sample_count = s.length)
    (hcnt : ∀ i : Nat, cnt (i : Int) = s.count i)
    (hs : List.Sorted (· ≤ ·) s) (hr : ∀ x ∈ s, x < data_root.sample_count)
    (hsi : ∀ k, k < s.length →
      d1.get_sample_indices root k = d.get_sample_indices data_root (s.getD k 0))
    (hrows : ∀ vi, vi < d.numPrecalcIdx → sortedIndexRow d1 root vi
      = (sortedIndexRow d data_root vi).flatMap (fun (idx : Nat) =>
          (List.range (cnt (idx : Int))).map (fun (t : Nat) => (coOffsets cnt idx).2 + t)))
    (hinv : SortInvariant d data_root) : SortInvariant d1 root := by
  obtain ⟨hlen, hget⟩ := blocks_of_sorted cnt s data_root.sample_count hcnt hs hr
  intro vi hvi
  rw [hnum] at hvi
  obtain ⟨hperm, hsorted⟩ := hinv vi hvi
  rw [hrows vi hvi, hcount, hresp]
  constructor
  · have h1 := hperm.flatMap_right (fun (idx : Nat) =>
      (List.range (cnt (idx : Int))).map (fun (t : Nat) => (coOffsets cnt idx).2 + t))
    rw [coOffsets_tile, ← hlen] at h1
    exact h1
  · rw [List.map_flatMap]
    have e : (sortedIndexRow d data_root vi).flatMap (fun (idx : Nat) =>
          ((List.range (cnt (idx : Int))).map (fun (t : Nat) => (coOffsets cnt idx).2 + t)).map
            (fun j => d.response vi (d1.get_sample_indices root j)))
        = (sortedIndexRow d data_root vi).flatMap (fun (idx : Nat) =>
            List.replicate (cnt (idx : Int))
              (d.response vi (d.get_sample_indices data_root idx))) := by
      apply List.flatMap_congr
      intro idx hidx
      have hidn : idx < data_root.sample_count := List.mem_range.mp (hperm.mem_iff.mp hidx)
      rw [List.map_map, List.eq_replicate_iff]
      refine ⟨by simp, ?_⟩
      intro b hb
      obtain ⟨t, ht, rfl⟩ := List.mem_map.mp hb
      have ht2 := List.mem_range.mp ht
      have hmono : (coOffsets cnt idx).2 + cnt (idx : Int) ≤ s.length := by
        have hm : ∀ k, idx + 1 ≤ k → (coOffsets cnt (idx + 1)).2 ≤ (coOffsets cnt k).2 := by
          intro k hk
          induction k with
          | zero => omega
          | succ k ihk =>
            by_cases hik : idx = k
            · subst hik; exact le_refl _
            · have := ihk (by omega)
              rw [coOffsets_snd_succ cnt k]
              omega
        have := hm data_root.sample_count (by omega)
        rw [coOffsets_snd_succ] at this
        omega
      simp only [Function.comp]
      rw [hsi _ (by omega), hget idx hidn t ht2]
    rw [e]
    exact sorted_flatMap_replicate _ (fun idx => d.response vi (d.get_sample_indices data_root idx))
      (fun idx => cnt (idx : Int)) hsorted

theorem writeRow_frame (buf : Nat → Nat → Nat → Nat) (s r base : Nat) (vals : List Nat)
    (s1 r1 c1 : Nat) (h : r1 ≠ r) : writeRow buf s r base vals s1 r1 c1 = buf s1 r1 c1 := by
  unfold writeRow
  rw [if_neg (by tauto)]

theorem writeRow_row (buf : Nat → Nat → Nat → Nat) (s r base : Nat) (vals : List Nat) :
    (List.range vals.length).map (fun k => writeRow buf s r base vals s r (base + k)) = vals := by
  have e : (List.range vals.length).map (fun k => writeRow buf s r base vals s r (base + k))
      = (List.range vals.length).map (fun k => vals.getD k 0) := by
    apply List.map_congr_left
    intro k hk
    have hk2 := List.mem_range.mp hk
    unfold writeRow
    rw [if_pos ⟨rfl, rfl, by omega, by omega⟩, Nat.add_sub_cancel_left]
  rw [e]
  exact map_getD_range vals vals.length rfl

theorem get_ord_var_data_snd (icvSortAux : List Nat → (Nat → ℚ) → List Nat)
    (d : CascadeBoostTrainData) (n : DataNode) (vi : Nat) (hvi : vi < d.numPrecalcIdx) :
    (d.get_ord_var_data icvSortAux n vi).2 = sortedIndexRow d n vi := by
  unfold CascadeBoostTrainData.get_ord_var_data sortedIndexRow
  simp only [hvi, if_true]
  split_ifs <;> rfl

theorem expandSorted_eq (cnt : Int → Nat) (N : Nat) (is16 : Bool) (T : List Nat)
    (hT : ∀ idx ∈ T, idx < N) :
    (expandSorted cnt (coOffsets cnt N).1 T).map (fun v => storeCell is16 v.toNat)
      = (T.flatMap (fun (idx : Nat) =>
          (List.range (cnt (idx : Int))).map (fun (t : Nat) => (coOffsets cnt idx).2 + t))).map
            (storeCell is16) := by
  unfold expandSorted
  rw [List.map_flatMap, List.map_flatMap]
  apply List.flatMap_congr
  intro idx hidx
  by_cases hc : cnt (idx : Int) ≠ 0
  · rw [if_pos hc, List.map_map, List.map_map]
    apply List.map_congr_left
    intro t _
    simp only [Function.comp]
    rw [coOffsets_fst cnt N idx (hT idx hidx) hc]
    congr 1
  · rw [if_neg hc]
    simp only [ne_eq, not_not] at hc
    simp [hc]

theorem subsampleOrdered_spec (icvSortAux : List Nat → (Nat → ℚ) → List Nat)
    (d : CascadeBoostTrainData) (data_root root : DataNode) (cnt : Int → Nat) (ofs : Int → Int)
    (buf0 : Nat → Nat → Nat → Nat)
    (hds : data_root.sample_count = d.sample_count)
    (hord : ∀ vi, vi < d.numPrecalcIdx → d.get_var_type vi < 0)
    (hv : ∀ vi, vi < d.numPrecalcIdx → data_root.num_valid vi = d.sample_count)
    (k : Nat) (hk : k ≤ d.numPrecalcIdx) :
    ∃ b, (List.range k).foldl
        (fun acc vi => acc.bind (subsampleOrderedVar icvSortAux d data_root root cnt ofs vi))
        (Except.ok buf0) = .ok b
      ∧ (∀ s r c, k ≤ r → b s r c = buf0 s r c)
      ∧ ∀ vi, vi < k →
        (List.range ((expandSorted cnt ofs
            (sortedIndexRow { d with buf := buf0 } data_root vi)).map
              (fun v => storeCell d.is_buf_16u v.toNat)).length).map
          (fun j => b root.buf_idx vi
            ((if d.is_buf_16u = true then data_root.offset else root.offset) + j))
        = (expandSorted cnt ofs (sortedIndexRow { d with buf := buf0 } data_root vi)).map
            (fun v => storeCell d.is_buf_16u v.toNat) := by
  induction k with
  | zero => exact ⟨buf0, rfl, fun _ _ _ _ => rfl, fun vi hvi => absurd hvi (Nat.not_lt_zero vi)⟩
  | succ k ih =>
    obtain ⟨b, hb, hframe, hrows⟩ := ih (by omega)
    have hsrc : (List.range (data_root.num_valid k)).map
        (fun i => ((CascadeBoostTrainData.get_ord_var_data icvSortAux
          { d with buf := b } data_root k).2).getD i 0)
        = sortedIndexRow { d with buf := buf0 } data_root k := by
      rw [get_ord_var_data_snd icvSortAux { d with buf := b } data_root k (by
        show k < d.numPrecalcIdx
        omega)]
      have e : sortedIndexRow { d with buf := b } data_root k
          = sortedIndexRow { d with buf := buf0 } data_root k := by
        unfold sortedIndexRow CascadeBoostTrainData.cell
        apply List.map_congr_left
        intro i _
        simp only []
        rw [hframe _ _ _ (le_refl k)]
      rw [e, hv k (by omega)]
      exact map_getD_range _ _ (by
        unfold sortedIndexRow
        rw [List.length_map, List.length_range, hds])
    have hstep : subsampleOrderedVar icvSortAux d data_root root cnt ofs k b
        = .ok (writeRow b root.buf_idx k
            (if d.is_buf_16u = true then data_root.offset else root.offset)
            ((expandSorted cnt ofs (sortedIndexRow { d with buf := buf0 } data_root k)).map
              (fun v => storeCell d.is_buf_16u v.toNat))) := by
      unfold subsampleOrderedVar
      rw [if_neg (by
        have := hord k (by omega)
        omega), if_neg (by
        have := hv k (by omega)
        simp [this])]
      simp only []
      rw [hsrc]
    refine ⟨writeRow b root.buf_idx k
      (if d.is_buf_16u = true then data_root.offset else root.offset)
      ((expandSorted cnt ofs (sortedIndexRow { d with buf := buf0 } data_root k)).map
        (fun v => storeCell d.is_buf_16u v.toNat)), ?_, ?_, ?_⟩
    · rw [List.range_succ, List.foldl_append, hb]
      simp only [List.foldl_cons, List.foldl_nil]
      exact hstep
    · intro s r c hr
      rw [writeRow_frame _ _ _ _ _ _ _ _ (by omega)]
      exact hframe s r c (by omega)
    · intro vi hvi
      by_cases hvk : vi = k
      · subst hvk
        exact writeRow_row _ _ _ _ _
      · refine Eq.trans ?_ (hrows vi (by omega))
        apply List.map_congr_left
        intro j _
        exact writeRow_frame _ _ _ _ _ _ _ _ hvk

theorem writeRow_get (buf : Nat → Nat → Nat → Nat) (s r base : Nat) (vals : List Nat)
    (k : Nat) (hk : k < vals.length) :
    writeRow buf s r base vals s r (base + k) = vals.getD k 0 := by
  unfold writeRow
  rw [if_pos ⟨rfl, rfl, by omega, by omega⟩, Nat.add_sub_cancel_left]

theorem count_toNat (l : List Int) (i : Nat) (h : ∀ x ∈ l, 0 ≤ x) :
    l.count (i : Int) = (l.map Int.toNat).count i := by
  induction l with
  | nil => rfl
  | cons x l ih =>
    have hx := h x (List.mem_cons_self _ _)
    rw [List.map_cons, List.count_cons, List.count_cons,
      ih (fun y hy => h y (List.mem_cons_of_mem _ hy))]
    by_cases hxi : x = (i : Int)
    · subst hxi
      simp
    · have h2 : ¬ x.toNat = i := by omega
      simp [hxi, h2]

theorem subsampleCompact_spec (icvSortAux : List Nat → (Nat → ℚ) → List Nat)
    (d : CascadeBoostTrainData) (data_root : DataNode) (sidx : List Int)
    (hsorted : List.Sorted (· ≤ ·) sidx)
    (hrange : ∀ x ∈ sidx, 0 ≤ x ∧ x < (d.sample_count : Int))
    (hcount : sidx.length ≤ d.sample_count)
    (hroot : data_root.offset = 0 ∧ data_root.sample_count = d.sample_count)
    (hv : ∀ vi, vi < d.numPrecalcIdx → data_root.num_valid vi = d.sample_count)
    (hord : ∀ vi, vi < d.numPrecalcIdx → d.get_var_type vi < 0)
    (hW : d.numPrecalcIdx < d.work_var_count)
    (h16 : d.is_buf_16u = true → d.sample_count ≤ 65536)
    (hinv : SortInvariant d data_root) :
    ∃ buf3, subsampleCompact icvSortAux d data_root sidx
        = .ok ({ d with buf := buf3 },
            set_num_valid_all d.var_count (new_node none sidx.length 1 0) sidx.length)
      ∧ SortInvariant { d with buf := buf3 }
          (set_num_valid_all d.var_count (new_node none sidx.length 1 0) sidx.length)
      ∧ ∀ k, k < sidx.length →
          CascadeBoostTrainData.get_sample_indices { d with buf := buf3 }
            (set_num_valid_all d.var_count (new_node none sidx.length 1 0) sidx.length) k
          = d.get_sample_indices data_root (sidx.getD k 0).toNat := by
  obtain ⟨ho, hds⟩ := hroot
  obtain ⟨b, hb, hframe, hrows⟩ := subsampleOrdered_spec icvSortAux d data_root
    (new_node none sidx.length 1 0) (coCounts sidx)
    (coOffsets (coCounts sidx) d.sample_count).1 d.buf hds hord hv d.numPrecalcIdx (le_refl _)
  unfold subsampleCompact
  simp only [hb]
  have hsrc : ∀ i, CascadeBoostTrainData.get_cat_var_data_base
      { d with buf := (subsampleCatRow d data_root (new_node none sidx.length 1 0) sidx
          (d.work_var_count - 1) b) } data_root d.work_var_count i
      = d.get_sample_indices data_root i := by
    intro i
    unfold CascadeBoostTrainData.get_sample_indices CascadeBoostTrainData.get_cat_var_data_base
      CascadeBoostTrainData.cell subsampleCatRow
    simp only []
    rw [writeRow_frame _ _ _ _ _ _ _ _ (by omega), hframe _ _ _ (by omega)]
  have hsi : ∀ k, k < sidx.length →
      CascadeBoostTrainData.get_sample_indices
        { d with buf := (subsampleCatRow d data_root (new_node none sidx.length 1 0) sidx
            d.work_var_count (subsampleCatRow d data_root (new_node none sidx.length 1 0) sidx
              (d.work_var_count - 1) b)) }
        (set_num_valid_all d.var_count (new_node none sidx.length 1 0) sidx.length) k
      = d.get_sample_indices data_root (sidx.getD k 0).toNat := by
    intro k hk
    have hg := writeRow_get
      (subsampleCatRow d data_root (new_node none sidx.length 1 0) sidx (d.work_var_count - 1) b)
      1 d.work_var_count 0 (sidx.map (fun s => storeCell d.is_buf_16u
        (CascadeBoostTrainData.get_cat_var_data_base
          { d with buf := (subsampleCatRow d data_root (new_node none sidx.length 1 0) sidx
              (d.work_var_count - 1) b) } data_root d.work_var_count s.toNat))) k
      (by rw [List.length_map]; exact hk)
    rw [List.getD_eq_getElem _ 0 (by rw [List.length_map]; exact hk), List.getElem_map,
      hsrc] at hg
    have e : CascadeBoostTrainData.get_sample_indices
        { d with buf := (subsampleCatRow d data_root (new_node none sidx.length 1 0) sidx
            d.work_var_count (subsampleCatRow d data_root (new_node none sidx.length 1 0) sidx
              (d.work_var_count - 1) b)) }
        (set_num_valid_all d.var_count (new_node none sidx.length 1 0) sidx.length) k
        = storeCell d.is_buf_16u (storeCell d.is_buf_16u
            (d.get_sample_indices data_root (sidx[k]).toNat)) := congrArg _ hg
    rw [e, List.getD_eq_getElem _ 0 hk]
    unfold CascadeBoostTrainData.get_sample_indices CascadeBoostTrainData.get_cat_var_data_base
      CascadeBoostTrainData.cell
    rw [storeCell_idem, storeCell_idem]
  refine ⟨_, rfl, ?_, hsi⟩
  have hnn : ∀ x ∈ sidx, 0 ≤ x := fun x hx => (hrange x hx).1
  have hlenT : ∀ vi, vi < d.numPrecalcIdx → ∀ idx ∈ sortedIndexRow d data_root vi,
      idx < d.sample_count := by
    intro vi hvi idx hidx
    have := List.mem_range.mp (((hinv vi hvi).1).mem_iff.mp hidx)
    omega
  have hcnt : ∀ i : Nat, coCounts sidx (i : Int) = (sidx.map Int.toNat).count i := by
    intro i
    rw [coCounts_eq, count_toNat sidx i hnn]
  have hs : List.Sorted (· ≤ ·) (sidx.map Int.toNat) := by
    unfold List.Sorted
    rw [List.pairwise_map]
    exact List.Pairwise.imp (fun h => Int.toNat_le_toNat h) hsorted
  have hr : ∀ x ∈ sidx.map Int.toNat, x < data_root.sample_count := by
    intro x hx
    obtain ⟨y, hy, rfl⟩ := List.mem_map.mp hx
    have := hrange y hy
    omega
  obtain ⟨hlen, -⟩ := blocks_of_sorted (coCounts sidx) (sidx.map Int.toNat)
    data_root.sample_count hcnt hs hr
  rw [List.length_map] at hlen
  refine compact_sort_invariant d _ data_root _ (coCounts sidx) (sidx.map Int.toNat) rfl rfl
    (by rw [List.length_map]; rfl) hcnt hs hr ?_ ?_ hinv
  · intro k hk
    rw [List.length_map] at hk
    rw [hsi k hk, List.getD_eq_getElem _ 0 hk,
      List.getD_eq_getElem _ 0 (by rw [List.length_map]; exact hk), List.getElem_map]
  · intro vi hvi
    have hrow := hrows vi hvi
    rw [expandSorted_eq (coCounts sidx) d.sample_count d.is_buf_16u _ (hlenT vi hvi)] at hrow
    have hperm : List.Perm ((sortedIndexRow d data_root vi).flatMap (fun (idx : Nat) =>
          (List.range (coCounts sidx (idx : Int))).map
            (fun (t : Nat) => (coOffsets (coCounts sidx) idx).2 + t)))
        (List.range sidx.length) := by
      have h1 := ((hinv vi hvi).1).flatMap_right (fun (idx : Nat) =>
        (List.range (coCounts sidx (idx : Int))).map
          (fun (t : Nat) => (coOffsets (coCounts sidx) idx).2 + t))
      rw [coOffsets_tile, ← hlen] at h1
      exact h1
    have hLlen : ((sortedIndexRow d data_root vi).flatMap (fun (idx : Nat) =>
          (List.range (coCounts sidx (idx : Int))).map
            (fun (t : Nat) => (coOffsets (coCounts sidx) idx).2 + t))).length = sidx.length := by
      rw [hperm.length_eq, List.length_range]
    have hbase : (if d.is_buf_16u = true then data_root.offset
        else (new_node none sidx.length 1 0).offset) = 0 := by
      split_ifs
      · exact ho
      · rfl
    rw [List.length_map, hLlen, hbase] at hrow
    have hstore : ∀ x ∈ (sortedIndexRow d data_root vi).flatMap (fun (idx : Nat) =>
          (List.range (coCounts sidx (idx : Int))).map
            (fun (t : Nat) => (coOffsets (coCounts sidx) idx).2 + t)),
        storeCell d.is_buf_16u (storeCell d.is_buf_16u x) = x := by
      intro x hx
      have hxl := List.mem_range.mp (hperm.mem_iff.mp hx)
      rw [storeCell_idem]
      exact storeCell_of_lt _ _ (fun h => by have := h16 h; omega)
    have e : sortedIndexRow
        { d with buf := (subsampleCatRow d data_root (new_node none sidx.length 1 0) sidx
            d.work_var_count (subsampleCatRow d data_root (new_node none sidx.length 1 0) sidx
              (d.work_var_count - 1) b)) }
        (set_num_valid_all d.var_count (new_node none sidx.length 1 0) sidx.length) vi
        = ((List.range sidx.length).map (fun j => b (new_node none sidx.length 1 0).buf_idx vi
            (0 + j))).map (storeCell d.is_buf_16u) := by
      rw [List.map_map]
      unfold sortedIndexRow CascadeBoostTrainData.cell
      apply List.map_congr_left
      intro j _
      simp only [Function.comp]
      unfold subsampleCatRow
      simp only []
      rw [writeRow_frame _ _ _ _ _ _ _ _ (by omega), writeRow_frame _ _ _ _ _ _ _ _ (by omega)]
      rfl
    rw [e, hrow, List.map_map]
    conv_rhs => rw [← List.map_id ((sortedIndexRow d data_root vi).flatMap (fun (idx : Nat) =>
      (List.range (coCounts sidx (idx : Int))).map
        (fun (t : Nat) => (coOffsets (coCounts sidx) idx).2 + t)))]
    exact List.map_congr_left (fun x hx => hstore x hx)

/-- Compaction keeps the rows sorted when the preprocessed index array is in range.  Let
`cvPreprocessIndexArray` accept the index array with the result `sidx`, sorted with
entries in `[0, N)` (repetitions allowed) and different from `0, 1, ..., N-1`, and let the
rows of the data root satisfy the sort invariant.  Then `subsample_data` takes the
compaction branch and returns a root of
`count = |sidx|` samples in slot `1` whose position `k` holds the sample of position
`sidx[k]` of the data root, and every row `vi < numPrecalcIdx` of the new root is a
permutation of `[0, count)` that lists these samples in non-decreasing order of their
response to `vi`. -/
theorem subsample_data_sorted (qsort : List Int → (Int → Int → Int) → List Int)
    (icvSortAux : List Nat → (Nat → ℚ) → List Nat) (d : CascadeBoostTrainData)
    (data_root : DataNode) (m : CvMat) (sidx : List Int)
    (hpre : cvPreprocessIndexArray qsort m d.sample_count false = .ok sidx)
    (hne : sidx ≠ (List.range d.sample_count).map (fun (i : Nat) => (i : Int)))
    (hsorted : List.Sorted (· ≤ ·) sidx)
    (hrange : ∀ x ∈ sidx, 0 ≤ x ∧ x < (d.sample_count : Int))
    (hcount : sidx.length ≤ d.sample_count)
    (hroot : data_root.offset = 0 ∧ data_root.sample_count = d.sample_count)
    (hv : ∀ vi, vi < d.numPrecalcIdx → data_root.num_valid vi = d.sample_count)
    (hord : ∀ vi, vi < d.numPrecalcIdx → d.get_var_type vi < 0)
    (hW : d.numPrecalcIdx < d.work_var_count)
    (h16 : d.is_buf_16u = true → d.sample_count ≤ 65536)
    (hinv : SortInvariant d data_root) :
    ∃ d1 root, d.subsample_data qsort icvSortAux (some data_root) (some m) = .ok (d1, root)
      ∧ d.subsample_data qsort icvSortAux (some data_root) (some m)
          = subsampleCompact icvSortAux d data_root sidx
      ∧ root.sample_count = sidx.length ∧ root.buf_idx = 1 ∧ root.offset = 0
      ∧ SortInvariant d1 root
      ∧ ∀ k, k < sidx.length →
          d1.get_sample_indices root k = d.get_sample_indices data_root (sidx.getD k 0).toNat := by
  obtain ⟨buf3, heq, hsi, hrow⟩ := subsampleCompact_spec icvSortAux d data_root sidx hsorted
    hrange hcount hroot hv hord hW h16 hinv
  have hflag := isMakeRootCopy_of_ne qsort d.sample_count m sidx hpre hne
  have hpath : d.subsample_data qsort icvSortAux (some data_root) (some m)
      = subsampleCompact icvSortAux d data_root sidx := by
    rw [subsample_data_of_flag qsort icvSortAux d data_root _ _ _ hflag]
    rfl
  exact ⟨_, _, hpath.trans heq, hpath, rfl, rfl, rfl, hsi, hrow⟩

theorem repeatedIdx_pre :
    cvPreprocessIndexArray insertionQsort repeatedIdx exampleData.sample_count false
      = .ok [0, 2, 2] := by
  rw [exampleData_fields.2.2.2.1]
  rfl

/-- The compaction of the index array `2, 0, 2` over the pool of `exampleData`, which
repeats sample `2`. -/
theorem subsample_data_sorted_witness :
    cvPreprocessIndexArray insertionQsort repeatedIdx exampleData.sample_count false
        = .ok [0, 2, 2]
    ∧ ([0, 2, 2] : List Int)
        ≠ (List.range exampleData.sample_count).map (fun (i : Nat) => (i : Int))
    ∧ List.Sorted (· ≤ ·) ([0, 2, 2] : List Int)
    ∧ (∀ x ∈ ([0, 2, 2] : List Int), 0 ≤ x ∧ x < (exampleData.sample_count : Int))
    ∧ ([0, 2, 2] : List Int).length ≤ exampleData.sample_count
    ∧ (exampleRoot.offset = 0 ∧ exampleRoot.sample_count = exampleData.sample_count)
    ∧ (∀ vi, vi < exampleData.numPrecalcIdx →
        exampleRoot.num_valid vi = exampleData.sample_count)
    ∧ (∀ vi, vi < exampleData.numPrecalcIdx → exampleData.get_var_type vi < 0)
    ∧ exampleData.numPrecalcIdx < exampleData.work_var_count
    ∧ (exampleData.is_buf_16u = true → exampleData.sample_count ≤ 65536)
    ∧ SortInvariant exampleData exampleRoot
    ∧ ∃ d1 root,
      exampleData.subsample_data insertionQsort insertionSortAux (some exampleRoot)
        (some repeatedIdx) = .ok (d1, root)
      ∧ exampleData.subsample_data insertionQsort insertionSortAux (some exampleRoot)
          (some repeatedIdx) = subsampleCompact insertionSortAux exampleData exampleRoot [0, 2, 2]
      ∧ root.sample_count = ([0, 2, 2] : List Int).length ∧ root.buf_idx = 1 ∧ root.offset = 0
      ∧ SortInvariant d1 root
      ∧ ∀ k, k < ([0, 2, 2] : List Int).length →
          d1.get_sample_indices root k
            = exampleData.get_sample_indices exampleRoot (([0, 2, 2] : List Int).getD k 0).toNat :=
  have hne : ([0, 2, 2] : List Int)
      ≠ (List.range exampleData.sample_count).map (fun (i : Nat) => (i : Int)) := by
    rw [exampleData_fields.2.2.2.1]
    decide
  have hsorted : List.Sorted (· ≤ ·) ([0, 2, 2] : List Int) := by decide
  have hrange : ∀ x ∈ ([0, 2, 2] : List Int), 0 ≤ x ∧ x < (exampleData.sample_count : Int) := by
    rw [exampleData_fields.2.2.2.1]
    decide
  have hcount : ([0, 2, 2] : List Int).length ≤ exampleData.sample_count := by
    rw [exampleData_fields.2.2.2.1]
    decide
  have hroot : exampleRoot.offset = 0 ∧ exampleRoot.sample_count = exampleData.sample_count :=
    ⟨rfl, by rw [exampleData_fields.2.2.2.1]; rfl⟩
  have hv : ∀ vi, vi < exampleData.numPrecalcIdx →
      exampleRoot.num_valid vi = exampleData.sample_count :=
    fun _ _ => by rw [exampleData_fields.2.2.2.1]; rfl
  have hW : exampleData.numPrecalcIdx < exampleData.work_var_count := by
    rw [exampleData_fields.1, exampleData_fields.2.1]
    decide
  have h16 : exampleData.is_buf_16u = true → exampleData.sample_count ≤ 65536 :=
    fun _ => by rw [exampleData_fields.2.2.2.1]; decide
  ⟨repeatedIdx_pre, hne, hsorted, hrange, hcount, hroot, hv, fun vi _ => exampleData_ord vi, hW,
    h16, exampleData_invariant.1,
    subsample_data_sorted insertionQsort insertionSortAux exampleData exampleRoot repeatedIdx
      [0, 2, 2] repeatedIdx_pre hne hsorted hrange hcount hroot hv
      (fun vi _ => exampleData_ord vi) hW h16 exampleData_invariant.1⟩

/-! ### Slices of the children -/

/-- C30 (the children tile the slice of the parent).  For a node at offset `o` with `n`
samples whose per-variable counts are all `n`, and a direction vector in `{0,1}^n`,
`split_node_data` returns two children in the same buffer slot; the left child has offset
`o` and the right child offset `o + nl`, so the column ranges `[o, o+nl)` and
`[o+nl, o+nl+nr)`, of lengths the children's `sample_count`, have no column in common and
together are exactly the range `[o, o+n)` of the parent. -/
theorem split_node_data_slices (icvSortAux : List Nat → (Nat → ℚ) → List Nat)
    (newBufIdx : Nat) (d : CascadeBoostTrainData) (node : DataNode)
    (hdir : ∀ i, i < node.sample_count → d.direction i = 0 ∨ d.direction i = 1)
    (hn : node.sample_count < 2147483648)
    (hW : d.numPrecalcIdx < d.work_var_count)
    (hv : ∀ vi, vi < d.numPrecalcIdx → node.num_valid vi = node.sample_count) :
    ∃ d1 left right,
      CascadeBoostTree.split_node_data icvSortAux newBufIdx d node = some (d1, left, right)
      ∧ left.buf_idx = newBufIdx ∧ right.buf_idx = newBufIdx
      ∧ left.offset = node.offset ∧ right.offset = node.offset + left.sample_count
      ∧ left.sample_count + right.sample_count = node.sample_count
      ∧ (∀ c, ¬ ((left.offset ≤ c ∧ c < left.offset + left.sample_count)
            ∧ (right.offset ≤ c ∧ c < right.offset + right.sample_count)))
      ∧ (∀ c, (node.offset ≤ c ∧ c < node.offset + node.sample_count)
            ↔ ((left.offset ≤ c ∧ c < left.offset + left.sample_count)
              ∨ (right.offset ≤ c ∧ c < right.offset + right.sample_count))) := by
  obtain ⟨buf3, heq, -, -, -⟩ :=
    split_node_data_spec icvSortAux newBufIdx d node hdir hn hW hv
  have hsum := dirPositions_length_add d.direction node.sample_count hdir
  refine ⟨_, _, _, heq, rfl, rfl, rfl, rfl, hsum, ?_, ?_⟩
  · intro c
    show ¬ ((node.offset ≤ c
        ∧ c < node.offset + (dirPositions d.direction 0 node.sample_count).length)
      ∧ (node.offset + (dirPositions d.direction 0 node.sample_count).length ≤ c
        ∧ c < node.offset + (dirPositions d.direction 0 node.sample_count).length
            + (dirPositions d.direction 1 node.sample_count).length))
    omega
  · intro c
    show (node.offset ≤ c ∧ c < node.offset + node.sample_count)
      ↔ ((node.offset ≤ c
          ∧ c < node.offset + (dirPositions d.direction 0 node.sample_count).length)
        ∨ (node.offset + (dirPositions d.direction 0 node.sample_count).length ≤ c
          ∧ c < node.offset + (dirPositions d.direction 0 node.sample_count).length
              + (dirPositions d.direction 1 node.sample_count).length))
    omega

/-- Witness for C30: the root of `exampleData` split into slot `1`. -/
theorem split_node_data_slices_witness :
    (∀ i, i < exampleRoot.sample_count →
      exampleData.direction i = 0 ∨ exampleData.direction i = 1)
    ∧ exampleRoot.sample_count < 2147483648
    ∧ exampleData.numPrecalcIdx < exampleData.work_var_count
    ∧ (∀ vi, vi < exampleData.numPrecalcIdx →
        exampleRoot.num_valid vi = exampleRoot.sample_count)
    ∧ ∃ d1 left right,
      CascadeBoostTree.split_node_data insertionSortAux 1 exampleData exampleRoot
        = some (d1, left, right)
      ∧ left.buf_idx = 1 ∧ right.buf_idx = 1
      ∧ left.offset = exampleRoot.offset
      ∧ right.offset = exampleRoot.offset + left.sample_count
      ∧ left.sample_count + right.sample_count = exampleRoot.sample_count
      ∧ (∀ c, ¬ ((left.offset ≤ c ∧ c < left.offset + left.sample_count)
            ∧ (right.offset ≤ c ∧ c < right.offset + right.sample_count)))
      ∧ (∀ c, (exampleRoot.offset ≤ c ∧ c < exampleRoot.offset + exampleRoot.sample_count)
            ↔ ((left.offset ≤ c ∧ c < left.offset + left.sample_count)
              ∨ (right.offset ≤ c ∧ c < right.offset + right.sample_count))) :=
  ⟨fun i _ => exampleData_dir i, by decide,
    by rw [exampleData_fields.1, exampleData_fields.2.1]; decide, fun _ _ => rfl,
    split_node_data_slices insertionSortAux 1 exampleData exampleRoot
      (fun i _ => exampleData_dir i) (by decide)
      (by rw [exampleData_fields.1, exampleData_fields.2.1]; decide) (fun _ _ => rfl)⟩

/-! ### Ranges of the precalculation -/

/-- C27 (the boosting variant is fixed).  Whatever `_boostType` is requested, and for
the default constructor as well, the constructed parameters have `boost_type` equal to
`CvBoost::GENTLE`; with the seven-argument constructor `maxCatCount`, `minTAR` and
`maxFAR` are the values passed (the default constructor sets `0`, `0.995` and `0.5`). -/
theorem params_boost_type_gentle :
    (∀ (CvBoostParams_ctor : Int → Int → ℚ → Int → Bool → CascadeBoostParams)
        (_boostType _maxCatCount : Int) (_minTAR _maxFAR _weightTrimRate : ℚ)
        (_maxDepth _maxWeakCount : Int),
      (CascadeBoostParams.create CvBoostParams_ctor _boostType _maxCatCount _minTAR _maxFAR
          _weightTrimRate _maxDepth _maxWeakCount).boost_type = CvBoost.GENTLE
      ∧ (CascadeBoostParams.create CvBoostParams_ctor _boostType _maxCatCount _minTAR _maxFAR
          _weightTrimRate _maxDepth _maxWeakCount).maxCatCount = _maxCatCount
      ∧ (CascadeBoostParams.create CvBoostParams_ctor _boostType _maxCatCount _minTAR _maxFAR
          _weightTrimRate _maxDepth _maxWeakCount).minTAR = _minTAR
      ∧ (CascadeBoostParams.create CvBoostParams_ctor _boostType _maxCatCount _minTAR _maxFAR
          _weightTrimRate _maxDepth _maxWeakCount).maxFAR = _maxFAR)
    ∧ ∀ base : CascadeBoostParams,
        (CascadeBoostParams.default base).boost_type = CvBoost.GENTLE
        ∧ (CascadeBoostParams.default base).maxCatCount = 0
        ∧ (CascadeBoostParams.default base).minTAR = 995 / 1000
        ∧ (CascadeBoostParams.default base).maxFAR = 1 / 2 :=
  ⟨fun _ _ _ _ _ _ _ _ => ⟨rfl, rfl, rfl, rfl⟩, fun _ => ⟨rfl, rfl, rfl, rfl⟩⟩

/-- C28 (store and load of the parameters).  `store` appends exactly the six values
`boost_type`, `minTAR`, `maxFAR`, `weight_trim_rate`, `max_depth`, `weak_count`, in this
order; `load` applied to a stream that starts with what `store` wrote for `p` succeeds,
sets these six fields of the loading object to those of `p`, leaves every other field of
it (among them `maxCatCount`) as it was, and consumes exactly the six values. -/
theorem params_store_load (p q : CascadeBoostParams) (stream rest : List QTok) :
    p.store stream = stream ++ [QTok.int p.boost_type, QTok.float p.minTAR,
        QTok.float p.maxFAR, QTok.double p.weight_trim_rate, QTok.int p.max_depth,
        QTok.int p.weak_count]
    ∧ (p.store stream).length = stream.length + 6
    ∧ q.load (p.store [] ++ rest)
        = some ({ q with
                  boost_type := p.boost_type
                  minTAR := p.minTAR
                  maxFAR := p.maxFAR
                  weight_trim_rate := p.weight_trim_rate
                  max_depth := p.max_depth
                  weak_count := p.weak_count }, rest)
    ∧ (∀ q1 r, q.load (p.store [] ++ rest) = some (q1, r) →
        q1.boost_type = p.boost_type ∧ q1.minTAR = p.minTAR ∧ q1.maxFAR = p.maxFAR
        ∧ q1.weight_trim_rate = p.weight_trim_rate ∧ q1.max_depth = p.max_depth
        ∧ q1.weak_count = p.weak_count ∧ q1.maxCatCount = q.maxCatCount
        ∧ q1.use_surrogates = q.use_surrogates ∧ q1.use_1se_rule = q.use_1se_rule
        ∧ q1.truncate_pruned_tree = q.truncate_pruned_tree ∧ r = rest) := by
  refine ⟨rfl, by simp [CascadeBoostParams.store], rfl, ?_⟩
  intro q1 r h
  have h2 : q.load (p.store [] ++ rest)
      = some ({ q with
                boost_type := p.boost_type
                minTAR := p.minTAR
                maxFAR := p.maxFAR
                weight_trim_rate := p.weight_trim_rate
                max_depth := p.max_depth
                weak_count := p.weak_count }, rest) := rfl
  rw [h2] at h
  injection h with h
  injection h with h3 h4
  subst h3 h4
  exact ⟨rfl, rfl, rfl, rfl, rfl, rfl, rfl, rfl, rfl, rfl, rfl⟩

/-! ### The range check of the index array -/

theorem wrapIdx_src : (List.range (wrapIdx.rows + wrapIdx.cols - 1)).map wrapIdx.geti
    = [-2147483648, 1] := by
  rfl

theorem perm_pair_cases (l : List Int) (a b : Int) (h : List.Perm l [a, b]) :
    l = [a, b] ∨ l = [b, a] := by
  have hlen := h.length_eq
  match l, hlen with
  | [x, y], _ =>
    have hx : x ∈ [a, b] := h.mem_iff.mp (List.mem_cons_self _ _)
    have hy : y ∈ [a, b] := h.mem_iff.mp (List.mem_cons_of_mem _ (List.mem_cons_self _ _))
    have ha : a ∈ [x, y] := h.mem_iff.mpr (List.mem_cons_self _ _)
    have hb : b ∈ [x, y] := h.mem_iff.mpr (List.mem_cons_of_mem _ (List.mem_cons_self _ _))
    simp only [List.mem_cons, List.mem_singleton, List.not_mem_nil, or_false] at hx hy ha hb
    rcases hx with rfl | rfl
    · rcases hy with rfl | rfl
      · rcases hb with rfl | rfl <;> exact Or.inl rfl
      · exact Or.inl rfl
    · rcases hy with rfl | rfl
      · exact Or.inr rfl
      · rcases ha with rfl | rfl <;> exact Or.inl rfl

/-- C24 at the failing input: the index array `INT_MIN, 1` with `data_arr_size = 2` holds
a negative element, yet `cvPreprocessIndexArray` returns the array `1, INT_MIN` instead of
failing.  The difference `INT_MIN - 1` wraps to `INT_MAX`, so `icvCmpIntegers` reports
`INT_MIN` as the greater element, the sort puts it last, and the range check looks only
at the first element for `< 0` and at the last for `>= data_arr_size`.  This is so for
insertion sort and for every sort routine whose result is a rearrangement of the array
in which no element compares greater than a later one. -/
theorem preprocess_accepts_negative_index :
    wrapIdx.type = MatType.CV_32SC1 ∧ wrapIdx.rows = 1 ∧ wrapIdx.cols = 2
    ∧ wrapIdx.geti 0 = -2147483648 ∧ wrapIdx.geti 1 = 1
    ∧ icvCmpIntegers (-2147483648) 1 = 2147483647
    ∧ icvCmpIntegers 1 (-2147483648) = -2147483647
    ∧ cvPreprocessIndexArray insertionQsort wrapIdx 2 false = .ok [1, -2147483648]
    ∧ ∀ qsort : List Int → (Int → Int → Int) → List Int,
        List.Perm (qsort [-2147483648, 1] icvCmpIntegers) [-2147483648, 1] →
        List.Sorted (fun a b => icvCmpIntegers a b ≤ 0) (qsort [-2147483648, 1] icvCmpIntegers) →
        cvPreprocessIndexArray qsort wrapIdx 2 false = .ok [1, -2147483648] := by
  refine ⟨rfl, rfl, rfl, rfl, rfl, rfl, rfl, rfl, ?_⟩
  intro qsort hperm hsorted
  have hq : qsort [-2147483648, 1] icvCmpIntegers = [1, -2147483648] := by
    rcases perm_pair_cases _ _ _ hperm with h | h
    · rw [h] at hsorted
      have := List.rel_of_sorted_cons hsorted 1 (List.mem_cons_self _ _)
      exact absurd this (by decide)
    · exact h
  unfold cvPreprocessIndexArray
  rw [if_neg (by decide), if_neg (by decide)]
  simp only [wrapIdx_src]
  rw [show wrapIdx.type = MatType.CV_32SC1 from rfl]
  simp only [hq]
  rfl

/-- C14 at the failing input: the index array `INT_MIN, 1` over the pool of three samples
of `exampleData`, whose root satisfies the sort invariant.  `cvPreprocessIndexArray`
accepts it and returns `1, INT_MIN` (the comparison `icvCmpIntegers` wraps), the array has
two elements and not three, so `subsample_data` takes the compaction branch with
`sidx = 1, INT_MIN`: an array that is not sorted and whose element `sidx[1]` is negative,
so that `co[sidx[1]*2]`, `src_lbls[sidx[1]]` and `sample_idx_src[sidx[1]]` lie outside the
count/offset table and the rows of the data root, and position `1` of the new root has no
sample of the pool to hold. -/
theorem subsample_data_compacts_negative_index :
    wrapIdx.type = MatType.CV_32SC1 ∧ wrapIdx.rows = 1 ∧ wrapIdx.cols = 2
    ∧ wrapIdx.geti 0 = -2147483648 ∧ wrapIdx.geti 1 = 1
    ∧ exampleData.sample_count = 3
    ∧ SortInvariant exampleData exampleRoot
    ∧ cvPreprocessIndexArray insertionQsort wrapIdx exampleData.sample_count false
        = .ok [1, -2147483648]
    ∧ subsample_isMakeRootCopy insertionQsort exampleData.sample_count (some wrapIdx)
        = .ok (false, [1, -2147483648])
    ∧ exampleData.subsample_data insertionQsort insertionSortAux (some exampleRoot)
          (some wrapIdx)
        = subsampleCompact insertionSortAux exampleData exampleRoot [1, -2147483648]
    ∧ ([1, -2147483648] : List Int).getD 1 0 < 0
    ∧ ¬ List.Sorted (· ≤ ·) ([1, -2147483648] : List Int) := by
  have hpre : cvPreprocessIndexArray insertionQsort wrapIdx exampleData.sample_count false
      = .ok [1, -2147483648] := by
    rw [exampleData_fields.2.2.2.1]
    rfl
  have hne : ([1, -2147483648] : List Int)
      ≠ (List.range exampleData.sample_count).map (fun (i : Nat) => (i : Int)) := by
    rw [exampleData_fields.2.2.2.1]
    decide
  have hflag := isMakeRootCopy_of_ne insertionQsort exampleData.sample_count wrapIdx _ hpre hne
  refine ⟨rfl, rfl, rfl, rfl, rfl, exampleData_fields.2.2.2.1, exampleData_invariant.1, hpre,
    hflag, ?_, by decide, by decide⟩
  rw [subsample_data_of_flag insertionQsort insertionSortAux exampleData exampleRoot _ _ _ hflag]
  rfl

/-! ### Sizes of the caches -/

theorem roundHalfEven_nearest : RoundsToNearest roundHalfEven := by
  intro x _ _
  have h1 := Int.floor_le x
  have h2 := Int.lt_floor_add_one x
  unfold roundHalfEven
  split_ifs with ha hb hc
  · rw [abs_le]
    constructor <;> linarith
  · rw [abs_le]
    push_cast
    constructor <;> linarith
  · rw [abs_le]
    constructor <;> linarith
  · rw [abs_le]
    push_cast
    constructor <;> linarith

/-- C25, as first stated, fails: with a budget of `1` MiB for each cache, `5` samples and
`100000` features the quotient `1048576 / 20` is `52428.8`, whose floor is `52428`, while
the constructor, which rounds with `cvRound`, sets `numPrecalcVal = 52429`. -/
theorem precalcCounts_floor_counterexample :
    CascadeBoostTrainData.precalcCounts roundHalfEven 5 1 1 100000 0
      = .ok (true, 52429, 100000)
    ∧ min (⌊((1 : ℚ) * 1048576) / (4 * 5)⌋) (100000 : Int) = 52428 := by
  constructor
  · have hv : roundHalfEven ((((1 : Int) : ℚ) * 1048576) / ((4 * 5 : Nat) : ℚ)) = 52429 :=
      roundHalfEven_eq _ _ (by norm_num) (by norm_num)
    have hi : roundHalfEven ((((1 : Int) : ℚ) * 1048576)
        / ((((if decide (5 < 65536) = true then 2 else 4) * 5 : Nat)) : ℚ)) = 104858 :=
      roundHalfEven_eq _ _ (by norm_num) (by norm_num)
    unfold CascadeBoostTrainData.precalcCounts
    simp only [hv, hi]
    norm_num
  · have h : ⌊((1 : ℚ) * 1048576) / (4 * 5)⌋ = 52428 := by
      rw [Int.floor_eq_iff]
      norm_num
    rw [h]
    decide

theorem round_nonneg (cvRound : ℚ → Int) (hr : RoundsToNearest cvRound) (x : ℚ)
    (h0 : 0 ≤ x) (h1 : x ≤ 2147483647) : 0 ≤ cvRound x := by
  have h := hr x (by linarith) h1
  rw [abs_le] at h
  have h2 : (-1 : ℚ) < ((cvRound x : Int) : ℚ) := by linarith [h.1]
  have h3 : (-1 : Int) < cvRound x := by exact_mod_cast h2
  omega

/-- C25, amended.  For non-negative budgets in MiB, `N ≥ 1` samples and `F ≥ 0` features,
with both quotients within the range of `int`, the constructor sets `is_buf_16u` exactly
when `N < 65536`, `numPrecalcVal = min(cvRound(precalcValMiB * 1048576 / (4 * N)), F)`
and, in ordered mode (`maxCatCount ≤ 0`),
`numPrecalcIdx = min(cvRound(precalcIdxMiB * 1048576 / (width * N)), F)` with `width = 2`
when `N < 65536` and `4` otherwise, where `cvRound` gives an integer nearest to its
argument (at distance at most `1/2`), not the floor; with `maxCatCount > 0` it sets
`numPrecalcIdx = 0`. -/
theorem precalcCounts_round (cvRound : ℚ → Int) (hr : RoundsToNearest cvRound) (N : Nat)
    (_hN : 1 ≤ N) (bv bi F maxCatCount : Int) (hbv : 0 ≤ bv) (hbi : 0 ≤ bi) (hF : 0 ≤ F)
    (hqv : ((bv : ℚ) * 1048576) / ((4 * N : Nat) : ℚ) ≤ 2147483647)
    (hqi : ((bi : ℚ) * 1048576) / ((((if N < 65536 then 2 else 4) * N : Nat)) : ℚ)
      ≤ 2147483647) :
    ∃ nv ni, CascadeBoostTrainData.precalcCounts cvRound N bv bi F maxCatCount
        = .ok (decide (N < 65536), nv, ni)
      ∧ nv = min (cvRound (((bv : ℚ) * 1048576) / ((4 * N : Nat) : ℚ))) F
      ∧ |((cvRound (((bv : ℚ) * 1048576) / ((4 * N : Nat) : ℚ)) : Int) : ℚ)
          - ((bv : ℚ) * 1048576) / ((4 * N : Nat) : ℚ)| ≤ 1 / 2
      ∧ (maxCatCount ≤ 0 →
          ni = min (cvRound (((bi : ℚ) * 1048576)
                / ((((if N < 65536 then 2 else 4) * N : Nat)) : ℚ))) F
          ∧ |((cvRound (((bi : ℚ) * 1048576)
                / ((((if N < 65536 then 2 else 4) * N : Nat)) : ℚ)) : Int) : ℚ)
              - ((bi : ℚ) * 1048576) / ((((if N < 65536 then 2 else 4) * N : Nat)) : ℚ)|
            ≤ 1 / 2)
      ∧ (0 < maxCatCount → ni = 0) := by
  have hbvq : (0 : ℚ) ≤ (bv : ℚ) := by exact_mod_cast hbv
  have hbiq : (0 : ℚ) ≤ (bi : ℚ) := by exact_mod_cast hbi
  have hqv0 : (0 : ℚ) ≤ ((bv : ℚ) * 1048576) / ((4 * N : Nat) : ℚ) :=
    div_nonneg (by linarith) (Nat.cast_nonneg _)
  have hqi0 : (0 : ℚ) ≤ ((bi : ℚ) * 1048576)
      / ((((if N < 65536 then 2 else 4) * N : Nat)) : ℚ) :=
    div_nonneg (by linarith) (Nat.cast_nonneg _)
  have hcv := round_nonneg cvRound hr _ hqv0 hqv
  have hci := round_nonneg cvRound hr _ hqi0 hqi
  have hnv := hr _ (by linarith) hqv
  have hni := hr _ (by linarith) hqi
  unfold CascadeBoostTrainData.precalcCounts
  rw [if_neg (by omega)]
  simp only [decide_eq_true_eq]
  rw [if_neg (by
    rw [not_not]
    exact ⟨le_min hci hF, le_min hcv hF⟩)]
  by_cases hcat : maxCatCount > 0
  · rw [if_pos hcat]
    exact ⟨_, _, rfl, rfl, hnv, fun h => absurd hcat (by omega), fun _ => rfl⟩
  · rw [if_neg hcat]
    exact ⟨_, _, rfl, rfl, hnv, fun _ => ⟨rfl, hni⟩, fun h => absurd h hcat⟩

/-- Witness for the amended C25: `1` MiB for each cache, `5` samples, `100000` features,
ordered mode, rounding with a tie to the even neighbour. -/
theorem precalcCounts_round_witness :
    RoundsToNearest roundHalfEven ∧ 1 ≤ 5 ∧ (0 : Int) ≤ 1 ∧ (0 : Int) ≤ 1
    ∧ (0 : Int) ≤ 100000
    ∧ ((((1 : Int) : ℚ) * 1048576) / ((4 * 5 : Nat) : ℚ) ≤ 2147483647)
    ∧ ((((1 : Int) : ℚ) * 1048576) / ((((if 5 < 65536 then 2 else 4) * 5 : Nat)) : ℚ)
        ≤ 2147483647)
    ∧ ∃ nv ni, CascadeBoostTrainData.precalcCounts roundHalfEven 5 1 1 100000 0
        = .ok (decide (5 < 65536), nv, ni)
      ∧ nv = min (roundHalfEven ((((1 : Int) : ℚ) * 1048576) / ((4 * 5 : Nat) : ℚ))) 100000
      ∧ |((roundHalfEven ((((1 : Int) : ℚ) * 1048576) / ((4 * 5 : Nat) : ℚ)) : Int) : ℚ)
          - (((1 : Int) : ℚ) * 1048576) / ((4 * 5 : Nat) : ℚ)| ≤ 1 / 2
      ∧ ((0 : Int) ≤ 0 →
          ni = min (roundHalfEven ((((1 : Int) : ℚ) * 1048576)
                / ((((if 5 < 65536 then 2 else 4) * 5 : Nat)) : ℚ))) 100000
          ∧ |((roundHalfEven ((((1 : Int) : ℚ) * 1048576)
                / ((((if 5 < 65536 then 2 else 4) * 5 : Nat)) : ℚ)) : Int) : ℚ)
              - (((1 : Int) : ℚ) * 1048576)
                / ((((if 5 < 65536 then 2 else 4) * 5 : Nat)) : ℚ)| ≤ 1 / 2)
      ∧ ((0 : Int) < 0 → ni = 0) :=
  ⟨roundHalfEven_nearest, by decide, by decide, by decide, by decide, by norm_num,
    by norm_num,
    precalcCounts_round roundHalfEven roundHalfEven_nearest 5 (by decide) 1 1 100000 0
      (by decide) (by decide) (by decide) (by norm_num) (by norm_num)⟩

/-! ### The rates after one more tree -/

theorem isErrDesired_weak (b b2 : CascadeBoost) (r : ErrReport)
    (h : b.isErrDesired = some (b2, r)) : b2.weak = b.weak := by
  obtain ⟨hb, -⟩ := isErrDesired_fields b b2 r h
  rw [hb]

theorem boostLoop_succ (ops : TrainOps) (exp log : ℚ → ℚ) (params : CascadeBoostParams)
    (fuel : Nat) (b : CascadeBoost) (st : BoostState) :
    (ops.treeTrain b st = none ∧ boostLoop ops exp log params (fuel + 1) b st = .ok (b, st))
    ∨ (∃ tree st1, ops.treeTrain b st = some (tree, st1)
        ∧ update_weights exp log b.maxCatCount b.getVarValue st1 (some tree) = none
        ∧ boostLoop ops exp log params (fuel + 1) b st = .fault)
    ∨ (∃ tree st1 st2 t, ops.treeTrain b st = some (tree, st1)
        ∧ update_weights exp log b.maxCatCount b.getVarValue st1 (some tree) = some (st2, t)
        ∧ ((countNonZeroMask (ops.trim_weights params st2) = 0
            ∧ boostLoop ops exp log params (fuel + 1) b st
                = .ok ({ b with weak := b.weak ++ [t.getD tree] }, ops.trim_weights params st2))
          ∨ (countNonZeroMask (ops.trim_weights params st2) ≠ 0
            ∧ CascadeBoost.isErrDesired { b with weak := b.weak ++ [t.getD tree] } = none
            ∧ boostLoop ops exp log params (fuel + 1) b st = .fault)
          ∨ (∃ b2 r, countNonZeroMask (ops.trim_weights params st2) ≠ 0
            ∧ CascadeBoost.isErrDesired { b with weak := b.weak ++ [t.getD tree] } = some (b2, r)
            ∧ b2.weak = b.weak ++ [t.getD tree]
            ∧ ((r.result = false ∧ (b2.weak.length : Int) < params.weak_count
                ∧ boostLoop ops exp log params (fuel + 1) b st
                    = boostLoop ops exp log params fuel b2 (ops.trim_weights params st2))
              ∨ (¬ (r.result = false ∧ (b2.weak.length : Int) < params.weak_count)
                ∧ boostLoop ops exp log params (fuel + 1) b st
                    = .ok (b2, ops.trim_weights params st2)))))) := by
  cases h1 : ops.treeTrain b st with
  | none =>
    left
    refine ⟨rfl, ?_⟩
    simp only [boostLoop, h1]
  | some p =>
    obtain ⟨tree, st1⟩ := p
    right
    cases h2 : update_weights exp log b.maxCatCount b.getVarValue st1 (some tree) with
    | none =>
      left
      refine ⟨tree, st1, rfl, h2, ?_⟩
      simp only [boostLoop, h1, h2]
    | some q =>
      obtain ⟨st2, t⟩ := q
      right
      refine ⟨tree, st1, st2, t, rfl, h2, ?_⟩
      by_cases h3 : countNonZeroMask (ops.trim_weights params st2) = 0
      · left
        refine ⟨h3, ?_⟩
        simp only [boostLoop, h1, h2, h3, if_true]
      · right
        cases h4 : CascadeBoost.isErrDesired { b with weak := b.weak ++ [t.getD tree] } with
        | none =>
          left
          refine ⟨h3, rfl, ?_⟩
          simp only [boostLoop, h1, h2, h3, if_false, h4]
        | some w =>
          obtain ⟨b2, r⟩ := w
          right
          refine ⟨b2, r, h3, rfl, isErrDesired_weak _ _ _ h4, ?_⟩
          by_cases h5 : r.result = false ∧ (b2.weak.length : Int) < params.weak_count
          · left
            refine ⟨h5.1, h5.2, ?_⟩
            simp only [boostLoop, h1, h2, h3, if_false, h4, h5, and_self, if_true]
          · right
            refine ⟨h5, ?_⟩
            simp only [boostLoop, h1, h2, h3, if_false, h4, h5, if_false]

theorem boostLoop_spec (ops : TrainOps) (exp log : ℚ → ℚ) (params : CascadeBoostParams)
    (fuel : Nat) : ∀ (b : CascadeBoost) (st : BoostState),
    (0 < fuel → params.weak_count ≤ (b.weak.length : Int) + (fuel : Int) →
      boostLoop ops exp log params fuel b st ≠ .outOfFuel)
    ∧ ∀ b1 st1, boostLoop ops exp log params fuel b st = .ok (b1, st1) →
        (∃ ts, b1.weak = b.weak ++ ts)
        ∧ (b1.weak.length : Int) ≤ max ((b.weak.length : Int) + 1) params.weak_count := by
  induction fuel with
  | zero =>
    intro b st
    refine ⟨fun h => absurd h (Nat.lt_irrefl 0), ?_⟩
    intro b1 st1 h
    simp only [boostLoop] at h
    cases h
  | succ fuel ih =>
    intro b st
    rcases boostLoop_succ ops exp log params fuel b st with
      ⟨-, he⟩ | ⟨tree, st1, -, -, he⟩ | ⟨tree, st1, st2, t, -, -, hc⟩
    · rw [he]
      refine ⟨fun _ _ h => (nomatch h), ?_⟩
      intro b1 st1 h
      injection h with h
      injection h with h1 h2
      subst h1
      exact ⟨⟨[], by simp⟩, by omega⟩
    · rw [he]
      exact ⟨fun _ _ h => (nomatch h), fun b1 st1 h => (nomatch h)⟩
    · rcases hc with ⟨-, he⟩ | ⟨-, -, he⟩ | ⟨b2, r, -, -, hw, hc2⟩
      · rw [he]
        refine ⟨fun _ _ h => (nomatch h), ?_⟩
        intro b1 st1 h
        injection h with h
        injection h with h1 h2
        subst h1
        refine ⟨⟨[t.getD tree], rfl⟩, ?_⟩
        simp only [List.length_append, List.length_singleton]
        push_cast
        omega
      · rw [he]
        exact ⟨fun _ _ h => (nomatch h), fun b1 st1 h => (nomatch h)⟩
      · have hlen : (b2.weak.length : Int) = (b.weak.length : Int) + 1 := by
          rw [hw, List.length_append, List.length_singleton]
          push_cast
          rfl
        rcases hc2 with ⟨-, hlt, he⟩ | ⟨-, he⟩
        · rw [he]
          obtain ⟨ih1, ih2⟩ := ih b2 (ops.trim_weights params st2)
          refine ⟨fun _ hfu => ih1 (by omega) (by push_cast at hfu; omega), ?_⟩
          intro b1 st1 h
          obtain ⟨⟨ts, hts⟩, hb⟩ := ih2 b1 st1 h
          refine ⟨⟨t.getD tree :: ts, by rw [hts, hw]; simp⟩, ?_⟩
          omega
        · rw [he]
          refine ⟨fun _ _ h => (nomatch h), ?_⟩
          intro b1 st1 h
          injection h with h
          injection h with h1 h2
          subst h1
          exact ⟨⟨[t.getD tree], hw⟩, by omega⟩

theorem update_weights_core_frame (exp log : ℚ → ℚ) (maxCatCount : Int)
    (getVarValue : Int → Nat → ℚ) (st st0 : BoostState) (tree t0 : Option CvDTreeNode)
    (w : ℚ)
    (h : update_weights_core exp log maxCatCount getVarValue st tree = some (st0, t0, w)) :
    st0.sample_count = st.sample_count ∧ st0.have_subsample = st.have_subsample
      ∧ st0.boost_type = st.boost_type
      ∧ (tree = none →
          st0.subsample_mask = forRange st.sample_count (fun _ => 1) st.subsample_mask)
      ∧ (tree ≠ none → st.have_subsample = false → st0.subsample_mask = st.subsample_mask)
      ∧ (∀ t, tree = some t → st.boost_type ≠ .DISCRETE → t0 = some t) := by
  unfold update_weights_core at h
  cases tree with
  | none =>
    simp only at h
    split at h
    · simp only [Option.some.injEq, Prod.mk.injEq] at h
      obtain ⟨h1, -, -⟩ := h
      subst h1
      cases hbt : st.boost_type <;>
        exact ⟨rfl, rfl, rfl, fun _ => rfl, fun hn => absurd rfl hn, fun t ht => nomatch ht⟩
    · cases h
  | some t =>
    cases hs : st.have_subsample <;> cases hbt : st.boost_type <;>
      simp only [hs, hbt, Option.some.injEq, Prod.mk.injEq] at h <;>
      obtain ⟨h1, h2, -⟩ := h <;> subst h1 <;> subst h2 <;>
      refine ⟨?_, ?_, ?_, ?_, ?_, ?_⟩ <;>
      first
        | rfl
        | exact hs
        | exact hbt
        | (intro t1 ht hd; first | exact absurd rfl hd | exact ht)
        | (intro _ hf; first | rfl | cases hf)
        | (intro hn; cases hn)

theorem update_weights_frame (exp log : ℚ → ℚ) (maxCatCount : Int)
    (getVarValue : Int → Nat → ℚ) (st st1 : BoostState) (tree t0 : Option CvDTreeNode)
    (h : update_weights exp log maxCatCount getVarValue st tree = some (st1, t0)) :
    st1.sample_count = st.sample_count ∧ st1.have_subsample = st.have_subsample
      ∧ st1.boost_type = st.boost_type
      ∧ (tree = none →
          st1.subsample_mask = forRange st.sample_count (fun _ => 1) st.subsample_mask)
      ∧ (tree ≠ none → st.have_subsample = false → st1.subsample_mask = st.subsample_mask)
      ∧ (∀ t, tree = some t → st.boost_type ≠ .DISCRETE → t0 = some t) := by
  unfold update_weights at h
  cases hc : update_weights_core exp log maxCatCount getVarValue st tree with
  | none =>
    rw [hc] at h
    cases h
  | some q =>
    obtain ⟨st0, t, w⟩ := q
    rw [hc] at h
    have hf := update_weights_core_frame exp log maxCatCount getVarValue st st0 tree t w hc
    simp only at h
    split at h <;> simp only [Option.some.injEq, Prod.mk.injEq] at h <;>
      obtain ⟨h1, h2⟩ := h <;> subst h1 <;> subst h2 <;> exact hf

theorem train_of_init (ops : TrainOps) (exp log : ℚ → ℚ) (fuel : Nat)
    (params : CascadeBoostParams) (b : CascadeBoost) (st : BoostState)
    (_params : CascadeBoostParams) (sp : CascadeBoostParams × CascadeBoost × Bool)
    (hsp : sp = CascadeBoost.set_params ops.CvBoost_set_params params
      { b with weak := [], maxCatCount := _params.maxCatCount } _params)
    (bt : BoostType) (st1 : BoostState) (r : Option CvDTreeNode)
    (hbt : BoostType.ofInt sp.1.boost_type = some bt)
    (hu : update_weights exp log sp.2.1.maxCatCount sp.2.1.getVarValue
        { st with boost_type := bt, sample_count := sp.2.1.sample_count,
                  labels := sp.2.1.label } none = some (st1, r)) :
    CascadeBoost.train ops exp log fuel false params b st _params
      = match boostLoop ops exp log sp.1 fuel sp.2.1 st1 with
        | .fault => .fault
        | .outOfFuel => .outOfFuel
        | .ok (b2, st2) =>
          .ok ((trainFinish b2 st2).1, sp.1, (trainFinish b2 st2).2.1,
            (trainFinish b2 st2).2.2) := by
  subst hsp
  unfold CascadeBoost.train
  simp only [Bool.false_eq_true, if_false, hbt, hu]

theorem train_cases (ops : TrainOps) (exp log : ℚ → ℚ) (fuel : Nat) (hasData : Bool)
    (params : CascadeBoostParams) (b : CascadeBoost) (st : BoostState)
    (_params : CascadeBoostParams) (sp : CascadeBoostParams × CascadeBoost × Bool)
    (hsp : sp = CascadeBoost.set_params ops.CvBoost_set_params params
      { b with weak := [], maxCatCount := _params.maxCatCount } _params) :
    CascadeBoost.train ops exp log fuel hasData params b st _params = .fault
    ∨ ∃ bt st1 r, hasData = false
      ∧ BoostType.ofInt sp.1.boost_type = some bt
      ∧ update_weights exp log sp.2.1.maxCatCount sp.2.1.getVarValue
          { st with boost_type := bt, sample_count := sp.2.1.sample_count,
                    labels := sp.2.1.label } none = some (st1, r) := by
  subst hsp
  cases hd : hasData with
  | true => left; unfold CascadeBoost.train; simp only [if_true]
  | false =>
    cases hbt : BoostType.ofInt (CascadeBoost.set_params ops.CvBoost_set_params params
        { b with weak := [], maxCatCount := _params.maxCatCount } _params).1.boost_type with
    | none => left; unfold CascadeBoost.train; simp only [Bool.false_eq_true, if_false, hbt]
    | some bt =>
      cases hu : update_weights exp log
          (CascadeBoost.set_params ops.CvBoost_set_params params
            { b with weak := [], maxCatCount := _params.maxCatCount } _params).2.1.maxCatCount
          (CascadeBoost.set_params ops.CvBoost_set_params params
            { b with weak := [], maxCatCount := _params.maxCatCount } _params).2.1.getVarValue
          { st with
            boost_type := bt
            sample_count := (CascadeBoost.set_params ops.CvBoost_set_params params
              { b with weak := [], maxCatCount := _params.maxCatCount }
              _params).2.1.sample_count
            labels := (CascadeBoost.set_params ops.CvBoost_set_params params
              { b with weak := [], maxCatCount := _params.maxCatCount } _params).2.1.label }
          none with
      | none =>
        left; unfold CascadeBoost.train; simp only [Bool.false_eq_true, if_false, hbt, hu]
      | some q =>
        obtain ⟨st1, r⟩ := q
        right
        exact ⟨bt, st1, r, rfl, rfl, hu⟩

theorem set_params_fields
    (f : CascadeBoostParams → CascadeBoostParams → CascadeBoostParams × Bool)
    (params : CascadeBoostParams) (b : CascadeBoost) (_params : CascadeBoostParams) :
    (CascadeBoost.set_params f params b _params).2.1
      = { b with minTAR := _params.minTAR, maxFAR := _params.maxFAR } := by
  unfold CascadeBoost.set_params
  simp only
  split <;> rfl

theorem trainFinish_spec (b : CascadeBoost) (st : BoostState) :
    ((trainFinish b st).1 = true ↔ b.weak ≠ [])
    ∧ (b.weak ≠ [] → trainFinish b st = (true, b, { st with is_classifier := true }))
    ∧ (b.weak = [] → trainFinish b st = (false, { b with weak := [] }, st))
    ∧ ((trainFinish b st).2.1.weak = b.weak) := by
  unfold trainFinish
  cases hw : b.weak with
  | nil => simp
  | cons t ts => simp [hw]

theorem train_loop_inv (ops : TrainOps) (exp log : ℚ → ℚ) (fuel : Nat) (hasData : Bool)
    (params : CascadeBoostParams) (b : CascadeBoost) (st : BoostState)
    (_params : CascadeBoostParams) (sp : CascadeBoostParams × CascadeBoost × Bool)
    (hsp : sp = CascadeBoost.set_params ops.CvBoost_set_params params
      { b with weak := [], maxCatCount := _params.maxCatCount } _params) :
    (CascadeBoost.train ops exp log fuel hasData params b st _params = .fault)
    ∨ ∃ st1, sp.2.1.weak = []
        ∧ ((boostLoop ops exp log sp.1 fuel sp.2.1 st1 = .fault
            ∧ CascadeBoost.train ops exp log fuel hasData params b st _params = .fault)
          ∨ (boostLoop ops exp log sp.1 fuel sp.2.1 st1 = .outOfFuel
            ∧ CascadeBoost.train ops exp log fuel hasData params b st _params = .outOfFuel)
          ∨ ∃ b2 st2, boostLoop ops exp log sp.1 fuel sp.2.1 st1 = .ok (b2, st2)
            ∧ CascadeBoost.train ops exp log fuel hasData params b st _params
              = .ok ((trainFinish b2 st2).1, sp.1, (trainFinish b2 st2).2.1,
                  (trainFinish b2 st2).2.2)) := by
  rcases train_cases ops exp log fuel hasData params b st _params sp hsp with
    hf | ⟨bt, st1, r, hd, hbt, hu⟩
  · exact Or.inl hf
  · right
    subst hd
    have hw : sp.2.1.weak = [] := by
      rw [hsp, set_params_fields]
    refine ⟨st1, hw, ?_⟩
    rw [train_of_init ops exp log fuel params b st _params sp hsp bt st1 r hbt hu]
    cases hl : boostLoop ops exp log sp.1 fuel sp.2.1 st1 with
    | fault => exact Or.inl ⟨rfl, rfl⟩
    | outOfFuel => exact Or.inr (Or.inl ⟨rfl, rfl⟩)
    | ok q =>
      obtain ⟨b2, st2⟩ := q
      exact Or.inr (Or.inr ⟨b2, st2, rfl, rfl⟩)

/-- C22 (the loop is bounded by `weak_count`).  With `weak_count >= 1` in the `params`
member that the loop reads, `weak_count` iterations are enough for `train` to come to its
end, the ensemble it returns holds at most `weak_count` trees, and one iteration of the
loop either leaves the loop with the ensemble as it was, fails, or appends exactly one
tree and then leaves or goes on, going on only while fewer than `weak_count` trees are
held. -/
theorem train_weak_count_bound (ops : TrainOps) (exp log : ℚ → ℚ) (fuel : Nat)
    (hasData : Bool) (params : CascadeBoostParams) (b : CascadeBoost) (st : BoostState)
    (_params : CascadeBoostParams) (sp : CascadeBoostParams × CascadeBoost × Bool)
    (hsp : sp = CascadeBoost.set_params ops.CvBoost_set_params params
      { b with weak := [], maxCatCount := _params.maxCatCount } _params)
    (hw : 1 ≤ sp.1.weak_count) (hfuel : sp.1.weak_count ≤ (fuel : Int)) :
    CascadeBoost.train ops exp log fuel hasData params b st _params ≠ .outOfFuel
    ∧ (∀ flag p b1 st1,
        CascadeBoost.train ops exp log fuel hasData params b st _params
          = .ok (flag, p, b1, st1) →
        (b1.weak.length : Int) ≤ sp.1.weak_count)
    ∧ ∀ k b0 st0,
        boostLoop ops exp log sp.1 (k + 1) b0 st0 = .ok (b0, st0)
        ∨ boostLoop ops exp log sp.1 (k + 1) b0 st0 = .fault
        ∨ ∃ t b2 st2, b2.weak = b0.weak ++ [t]
            ∧ (boostLoop ops exp log sp.1 (k + 1) b0 st0 = .ok (b2, st2)
              ∨ ((b2.weak.length : Int) < sp.1.weak_count
                ∧ boostLoop ops exp log sp.1 (k + 1) b0 st0
                    = boostLoop ops exp log sp.1 k b2 st2)) := by
  refine ⟨?_, ?_, ?_⟩
  · rcases train_loop_inv ops exp log fuel hasData params b st _params sp hsp with
      hf | ⟨st1, hw0, ⟨-, hf⟩ | ⟨ho, -⟩ | ⟨b2, st2, -, hk⟩⟩
    · rw [hf]; exact fun h => nomatch h
    · rw [hf]; exact fun h => nomatch h
    · exfalso
      refine (boostLoop_spec ops exp log sp.1 fuel sp.2.1 st1).1 ?_ ?_ ho
      · omega
      · rw [hw0]; simpa using hfuel
    · rw [hk]; exact fun h => nomatch h
  · intro flag p b1 st1 h
    rcases train_loop_inv ops exp log fuel hasData params b st _params sp hsp with
      hf | ⟨st0, hw0, ⟨-, hf⟩ | ⟨-, hf⟩ | ⟨b2, st2, hl, hk⟩⟩
    · rw [hf] at h; exact nomatch h
    · rw [hf] at h; exact nomatch h
    · rw [hf] at h; exact nomatch h
    · rw [hk] at h
      injection h with h
      simp only [Prod.mk.injEq] at h
      obtain ⟨-, -, hb, -⟩ := h
      have hb2 := ((boostLoop_spec ops exp log sp.1 fuel sp.2.1 st0).2 b2 st2 hl).2
      rw [hw0] at hb2
      rw [← hb, (trainFinish_spec b2 st2).2.2.2]
      simp only [List.length_nil, Nat.cast_zero, zero_add] at hb2
      omega
  · intro k b0 st0
    rcases boostLoop_succ ops exp log sp.1 k b0 st0 with
      ⟨-, he⟩ | ⟨tree, st1, -, -, he⟩ | ⟨tree, st1, st2, t, -, -, hc⟩
    · exact Or.inl he
    · exact Or.inr (Or.inl he)
    · rcases hc with ⟨-, he⟩ | ⟨-, -, he⟩ | ⟨b2, r, -, -, hw2, hc2⟩
      · exact Or.inr (Or.inr ⟨t.getD tree, _, _, rfl, Or.inl he⟩)
      · exact Or.inr (Or.inl he)
      · rcases hc2 with ⟨-, hlt, he⟩ | ⟨-, he⟩
        · exact Or.inr (Or.inr ⟨t.getD tree, b2, _, hw2, Or.inr ⟨hlt, he⟩⟩)
        · exact Or.inr (Or.inr ⟨t.getD tree, b2, _, hw2, Or.inl he⟩)

/-- C21 (the result of `train` tells whether a tree was appended).  Whenever `train`
returns, its result is true exactly when the ensemble it leaves is not empty, and that
ensemble is the one the loop built from the empty one.  When the training of the first
tree fails, `train` returns false and the ensemble is empty.  When the loop reaches an
iteration with a non-empty ensemble and the training of the tree fails there, `train`
returns true and the ensemble is the one of that iteration. -/
theorem train_true_iff_tree (ops : TrainOps) (exp log : ℚ → ℚ) (fuel : Nat)
    (hasData : Bool) (params : CascadeBoostParams) (b : CascadeBoost) (st : BoostState)
    (_params : CascadeBoostParams) (sp : CascadeBoostParams × CascadeBoost × Bool)
    (hsp : sp = CascadeBoost.set_params ops.CvBoost_set_params params
      { b with weak := [], maxCatCount := _params.maxCatCount } _params) :
    (∀ flag p b1 st1,
        CascadeBoost.train ops exp log fuel hasData params b st _params
          = .ok (flag, p, b1, st1) →
        (flag = true ↔ b1.weak ≠ [])
        ∧ ∃ st0 b2 st2, sp.2.1.weak = []
            ∧ boostLoop ops exp log sp.1 fuel sp.2.1 st0 = .ok (b2, st2)
            ∧ b1.weak = b2.weak)
    ∧ (∀ bt st1 r, hasData = false → BoostType.ofInt sp.1.boost_type = some bt →
        update_weights exp log sp.2.1.maxCatCount sp.2.1.getVarValue
          { st with boost_type := bt, sample_count := sp.2.1.sample_count,
                    labels := sp.2.1.label } none = some (st1, r) →
        0 < fuel → ops.treeTrain sp.2.1 st1 = none →
        CascadeBoost.train ops exp log fuel hasData params b st _params
          = .ok (false, sp.1, { sp.2.1 with weak := [] }, st1))
    ∧ (∀ bt st1 r k b0 st0, hasData = false → BoostType.ofInt sp.1.boost_type = some bt →
        update_weights exp log sp.2.1.maxCatCount sp.2.1.getVarValue
          { st with boost_type := bt, sample_count := sp.2.1.sample_count,
                    labels := sp.2.1.label } none = some (st1, r) →
        boostLoop ops exp log sp.1 fuel sp.2.1 st1
          = boostLoop ops exp log sp.1 (k + 1) b0 st0 →
        b0.weak ≠ [] → ops.treeTrain b0 st0 = none →
        CascadeBoost.train ops exp log fuel hasData params b st _params
          = .ok (true, sp.1, b0, { st0 with is_classifier := true })) := by
  refine ⟨?_, ?_, ?_⟩
  · intro flag p b1 st1 h
    rcases train_loop_inv ops exp log fuel hasData params b st _params sp hsp with
      hf | ⟨st0, hw0, ⟨-, hf⟩ | ⟨-, hf⟩ | ⟨b2, st2, hl, hk⟩⟩
    · rw [hf] at h; exact nomatch h
    · rw [hf] at h; exact nomatch h
    · rw [hf] at h; exact nomatch h
    · rw [hk] at h
      injection h with h
      simp only [Prod.mk.injEq] at h
      obtain ⟨hfl, -, hb, -⟩ := h
      obtain ⟨h1, -, -, h4⟩ := trainFinish_spec b2 st2
      refine ⟨?_, st0, b2, st2, hw0, hl, by rw [← hb, h4]⟩
      rw [← hfl, ← hb, h4]
      exact h1
  · intro bt st1 r hd hbt hu hfuel ht
    subst hd
    obtain ⟨k, hk⟩ := Nat.exists_eq_succ_of_ne_zero (Nat.pos_iff_ne_zero.mp hfuel)
    have hw0 : sp.2.1.weak = [] := by rw [hsp, set_params_fields]
    rw [train_of_init ops exp log fuel params b st _params sp hsp bt st1 r hbt hu, hk]
    rcases boostLoop_succ ops exp log sp.1 k sp.2.1 st1 with
      ⟨-, he⟩ | ⟨tree, s1, h1, -, -⟩ | ⟨tree, s1, s2, t, h1, -, -⟩
    · rw [he]
      simp only [(trainFinish_spec sp.2.1 st1).2.2.1 hw0]
    · rw [ht] at h1; exact nomatch h1
    · rw [ht] at h1; exact nomatch h1
  · intro bt st1 r k b0 st0 hd hbt hu hreach hne ht
    subst hd
    rw [train_of_init ops exp log fuel params b st _params sp hsp bt st1 r hbt hu, hreach]
    rcases boostLoop_succ ops exp log sp.1 k b0 st0 with
      ⟨-, he⟩ | ⟨tree, s1, h1, -, -⟩ | ⟨tree, s1, s2, t, h1, -, -⟩
    · rw [he]
      simp only [(trainFinish_spec b0 st0).2.1 hne]
    · rw [ht] at h1; exact nomatch h1
    · rw [ht] at h1; exact nomatch h1

theorem countNonZeroMask_ne_zero (st : BoostState) (i : Nat) (hi : i < st.sample_count)
    (h : st.subsample_mask i ≠ 0) : countNonZeroMask st ≠ 0 := by
  unfold countNonZeroMask
  have hm : i ∈ (List.range st.sample_count).filter (fun i => st.subsample_mask i ≠ 0) := by
    simp [List.mem_filter, hi, h]
  intro h0
  rw [List.length_eq_zero] at h0
  rw [h0] at hm
  exact nomatch hm

theorem boostLoop_first (ops : TrainOps) (exp log : ℚ → ℚ) (params : CascadeBoostParams)
    (k : Nat) (b b2 : CascadeBoost) (st : BoostState) (tree : CvDTreeNode) (r : ErrReport)
    (ht : ops.treeTrain b st = some (tree, st))
    (htrim : ∀ p s, ops.trim_weights p s = s)
    (hs : st.have_subsample = false) (hbt : st.boost_type = .GENTLE)
    (i : Nat) (hi : i < st.sample_count) (hmask : st.subsample_mask i ≠ 0)
    (he : CascadeBoost.isErrDesired { b with weak := b.weak ++ [tree] } = some (b2, r)) :
    ∃ st2, boostLoop ops exp log params (k + 1) b st
        = if r.result = false ∧ (b2.weak.length : Int) < params.weak_count then
            boostLoop ops exp log params k b2 st2
          else .ok (b2, st2) := by
  obtain ⟨-, t0, -, -, st2, -, hu, -⟩ :=
    update_weights_tree exp log b.maxCatCount b.getVarValue st tree
  obtain ⟨hn, -, -, -, hm, ht0⟩ :=
    update_weights_frame exp log b.maxCatCount b.getVarValue st st2 (some tree) t0 hu
  have ht1 : t0 = some tree := ht0 tree rfl (by rw [hbt]; exact fun h => nomatch h)
  subst ht1
  have hc : countNonZeroMask st2 ≠ 0 := by
    refine countNonZeroMask_ne_zero st2 i (by rw [hn]; exact hi) ?_
    rw [hm (fun h => nomatch h) hs]
    exact hmask
  refine ⟨st2, ?_⟩
  simp only [boostLoop, ht, hu, htrim, hc, if_false, Option.getD_some, he]

theorem driftPool_label (i : Nat) : driftPool.label i = 0 ∨ driftPool.label i = 1 := by
  by_cases h : i = 2 <;> simp [driftPool, h]

theorem badParams_set_params :
    CascadeBoost.set_params exampleOps.CvBoost_set_params exampleParams
        { driftPool with weak := [], maxCatCount := badParams.maxCatCount } badParams
      = (exampleParams, { driftPool with weak := [], maxFAR := 3 / 2 }, false) := by
  simp [CascadeBoost.set_params, badParams, exampleParams, driftPool]
  norm_num

theorem exampleParams_set_params :
    CascadeBoost.set_params exampleOps.CvBoost_set_params exampleParams
        { driftPool with weak := [], maxCatCount := exampleParams.maxCatCount } exampleParams
      = (exampleParams, { driftPool with weak := [] }, true) := by
  simp [CascadeBoost.set_params, exampleOps, exampleParams, driftPool]
  norm_num

theorem stump0_isErrDesired :
    CascadeBoost.isErrDesired
        { driftPool with
          weak := [] ++ [.node (.ord 0 (1 / 2)) (.leaf (-1)) (.leaf 1)], maxFAR := 3 / 2 }
      = some
        ({ driftPool with threshold := 1, maxFAR := 3 / 2 },
         { responses := [1, 1], numPos := 2, numNeg := 1, thresholdIdx := 1,
           numTrueAccepts := 2, TAR := 1, numFalseAccepts := 0, FAR := 0, result := true }) := by
  have h := isErrDesired_eval
    { driftPool with
      weak := [] ++ [.node (.ord 0 (1 / 2)) (.leaf (-1)) (.leaf 1)], maxFAR := 3 / 2 }
    [1, 1] 1 1 2 0 ((1 : Nat) : Int) 1 0 true
    (by simp [positiveScores, driftPool, CascadeBoost.predict, CascadeBoostTree.predict,
          List.range, List.range.loop, CvDTreeSplit.c, CvDTreeSplit.var_idx]
        norm_num)
    (thresholdIdx_eval _ (1 / 2) 1 2 1 (by simpa [driftPool] using f32sub_one_half)
      (by norm_num) (by simpa using roundF32_one) (by norm_num) (by norm_num))
    (by decide) (by rfl)
    (by simp [FLT_EPSILON])
    (by simp [driftPool, CascadeBoost.predict, CascadeBoostTree.predict, List.range,
          List.range.loop, CvDTreeSplit.c, CvDTreeSplit.var_idx, FLT_EPSILON]
        norm_num)
    (by simp [driftPool])
    (rate_eval 2 2 _ (by norm_num) (by norm_num) (by simpa using roundF32_one))
    (rate_eval 0 1 _ (by norm_num) (by norm_num) (by simpa using roundF32_zero))
    (by simp; norm_num)
  simpa [driftPool] using h

theorem stump1_isErrDesired :
    CascadeBoost.isErrDesired
        { driftPool with weak := [] ++ [.node (.ord 1 (1 / 2)) (.leaf (-1)) (.leaf 1)] }
      = some
        ({ driftPool with
           weak := [.node (.ord 1 (1 / 2)) (.leaf (-1)) (.leaf 1)], threshold := 1 },
         { responses := [-1, 1], numPos := 2, numNeg := 1, thresholdIdx := 1,
           numTrueAccepts := 1, TAR := 1 / 2, numFalseAccepts := 1, FAR := 1,
           result := false }) := by
  have h := isErrDesired_eval
    { driftPool with weak := [] ++ [.node (.ord 1 (1 / 2)) (.leaf (-1)) (.leaf 1)] }
    [-1, 1] 1 1 1 1 ((1 : Nat) : Int) (1 / 2) 1 false
    (by simp [positiveScores, driftPool, CascadeBoost.predict, CascadeBoostTree.predict,
          List.range, List.range.loop, CvDTreeSplit.c, CvDTreeSplit.var_idx]
        norm_num)
    (thresholdIdx_eval _ (1 / 2) 1 2 1 (by simpa [driftPool] using f32sub_one_half)
      (by norm_num) (by simpa using roundF32_one) (by norm_num) (by norm_num))
    (by decide) (by rfl)
    (by simp [FLT_EPSILON]; norm_num)
    (by simp [driftPool, CascadeBoost.predict, CascadeBoostTree.predict, List.range,
          List.range.loop, CvDTreeSplit.c, CvDTreeSplit.var_idx, FLT_EPSILON]
        norm_num)
    (by simp [driftPool])
    (rate_eval 1 2 _ (by norm_num) (by norm_num) (by simpa using roundF32_half))
    (rate_eval 1 1 _ (by norm_num) (by norm_num) (by simpa using roundF32_one))
    (by simp [driftPool]; norm_num)
  simpa [driftPool] using h

/-- C23, the code at an input with `maxFAR = 1.5`.  `set_params` returns false for the
parameters `badParams`, and `train` called with them (whatever `exp` and `log` are, with
any positive number of iterations allowed) goes through the boosting loop, appends a tree
and returns true. -/
theorem train_runs_on_invalid_maxFAR (exp log : ℚ → ℚ) (k : Nat) :
    (CascadeBoost.set_params exampleOps.CvBoost_set_params exampleParams
        { driftPool with weak := [], maxCatCount := badParams.maxCatCount } badParams).2.2
      = false
    ∧ ∃ st1, CascadeBoost.train exampleOps exp log (k + 1) false exampleParams driftPool
          examplePool badParams
        = .ok (true, exampleParams,
            { driftPool with
              weak := [.node (.ord 0 (1 / 2)) (.leaf (-1)) (.leaf 1)]
              threshold := 1
              maxFAR := 3 / 2 }, st1) := by
  refine ⟨by rw [badParams_set_params], ?_⟩
  obtain ⟨st1, hu, -⟩ := update_weights_init exp log 0 driftPool.getVarValue
    { examplePool with boost_type := .GENTLE, sample_count := 3, labels := driftPool.label }
    (fun i _ => driftPool_label i)
  obtain ⟨hn, hs, hbt, hm, -, -⟩ :=
    update_weights_frame exp log 0 driftPool.getVarValue _ st1 none none hu
  obtain ⟨st2, hl⟩ := boostLoop_first exampleOps exp log exampleParams k
    { driftPool with weak := [], maxFAR := 3 / 2 } _ st1
    (.node (.ord 0 (1 / 2)) (.leaf (-1)) (.leaf 1)) _
    rfl (fun _ _ => rfl) hs hbt 0 (by rw [hn]; exact Nat.succ_pos 2)
    (by rw [hm rfl]; simp [forRange]) stump0_isErrDesired
  refine ⟨{ st2 with is_classifier := true }, ?_⟩
  rw [train_of_init exampleOps exp log (k + 1) exampleParams driftPool examplePool badParams
    _ badParams_set_params.symm .GENTLE st1 none rfl hu, hl]
  simp [trainFinish, driftPool]

/-- Witness for C22: `exampleParams` has `weak_count = 2`, and two iterations are
allowed. -/
theorem train_weak_count_bound_witness :
    (exampleParams, ({ driftPool with weak := [] } : CascadeBoost), true)
        = CascadeBoost.set_params exampleOps.CvBoost_set_params exampleParams
            { driftPool with weak := [], maxCatCount := exampleParams.maxCatCount }
            exampleParams
    ∧ (1 : Int) ≤ exampleParams.weak_count
    ∧ exampleParams.weak_count ≤ ((2 : Nat) : Int)
    ∧ CascadeBoost.train exampleOps (fun _ => 1) (fun _ => 0) 2 false exampleParams driftPool
        examplePool exampleParams ≠ .outOfFuel
    ∧ ∀ flag p b1 st1,
        CascadeBoost.train exampleOps (fun _ => 1) (fun _ => 0) 2 false exampleParams
          driftPool examplePool exampleParams = .ok (flag, p, b1, st1) →
        (b1.weak.length : Int) ≤ exampleParams.weak_count :=
  ⟨exampleParams_set_params.symm, by decide, by decide,
    (train_weak_count_bound exampleOps (fun _ => 1) (fun _ => 0) 2 false exampleParams
      driftPool examplePool exampleParams
      (exampleParams, ({ driftPool with weak := [] } : CascadeBoost), true)
      exampleParams_set_params.symm (by decide) (by decide)).1,
    (train_weak_count_bound exampleOps (fun _ => 1) (fun _ => 0) 2 false exampleParams
      driftPool examplePool exampleParams
      (exampleParams, ({ driftPool with weak := [] } : CascadeBoost), true)
      exampleParams_set_params.symm (by decide) (by decide)).2.1⟩

/-- Witness for C21: with `failOps` the first tree fails and `train` returns false with
an empty ensemble; with `retryOps` the second tree fails and `train` returns true with
the first tree kept. -/
theorem train_true_iff_tree_witness :
    (∃ st1, update_weights (fun _ => 1) (fun _ => 0) 0 driftPool.getVarValue
          { examplePool with
            boost_type := .GENTLE, sample_count := 3, labels := driftPool.label } none
          = some (st1, none)
        ∧ failOps.treeTrain { driftPool with weak := [] } st1 = none
        ∧ CascadeBoost.train failOps (fun _ => 1) (fun _ => 0) 1 false exampleParams driftPool
            examplePool exampleParams
          = .ok (false, exampleParams, { driftPool with weak := [] }, st1))
    ∧ ∃ st1 st2, update_weights (fun _ => 1) (fun _ => 0) 0 driftPool.getVarValue
          { examplePool with
            boost_type := .GENTLE, sample_count := 3, labels := driftPool.label } none
          = some (st1, none)
        ∧ boostLoop retryOps (fun _ => 1) (fun _ => 0) exampleParams 2
            { driftPool with weak := [] } st1
          = boostLoop retryOps (fun _ => 1) (fun _ => 0) exampleParams 1
            { driftPool with
              weak := [.node (.ord 1 (1 / 2)) (.leaf (-1)) (.leaf 1)], threshold := 1 } st2
        ∧ retryOps.treeTrain
            { driftPool with
              weak := [.node (.ord 1 (1 / 2)) (.leaf (-1)) (.leaf 1)], threshold := 1 } st2
          = none
        ∧ CascadeBoost.train retryOps (fun _ => 1) (fun _ => 0) 2 false exampleParams
            driftPool examplePool exampleParams
          = .ok (true, exampleParams,
              { driftPool with
                weak := [.node (.ord 1 (1 / 2)) (.leaf (-1)) (.leaf 1)], threshold := 1 },
              { st2 with is_classifier := true }) := by
  obtain ⟨st1, hu, -⟩ := update_weights_init (fun _ => 1) (fun _ => 0) 0 driftPool.getVarValue
    { examplePool with boost_type := .GENTLE, sample_count := 3, labels := driftPool.label }
    (fun i _ => driftPool_label i)
  obtain ⟨hn, hs, hbt, hm, -, -⟩ :=
    update_weights_frame (fun _ => 1) (fun _ => 0) 0 driftPool.getVarValue _ st1 none none hu
  obtain ⟨st2, hl⟩ := boostLoop_first retryOps (fun _ => 1) (fun _ => 0) exampleParams 1
    { driftPool with weak := [] } _ st1
    (.node (.ord 1 (1 / 2)) (.leaf (-1)) (.leaf 1)) _
    rfl (fun _ _ => rfl) hs hbt 0 (by rw [hn]; exact Nat.succ_pos 2)
    (by rw [hm rfl]; simp [forRange]) stump1_isErrDesired
  rw [if_pos ⟨rfl, by decide⟩] at hl
  exact ⟨⟨st1, hu, rfl,
      (train_true_iff_tree failOps (fun _ => 1) (fun _ => 0) 1 false exampleParams driftPool
        examplePool exampleParams
        (exampleParams, ({ driftPool with weak := [] } : CascadeBoost), true)
        exampleParams_set_params.symm).2.1 .GENTLE st1 none rfl rfl hu (by decide) rfl⟩,
    st1, st2, hu, hl, rfl,
      (train_true_iff_tree retryOps (fun _ => 1) (fun _ => 0) 2 false exampleParams driftPool
        examplePool exampleParams
        (exampleParams, ({ driftPool with weak := [] } : CascadeBoost), true)
        exampleParams_set_params.symm).2.2 .GENTLE st1 none 0 _ st2 rfl rfl hu hl
        (fun h => nomatch h) rfl⟩

/-! ### The index array preprocessor -/

/-- C31 (integer index arrays are sorted, repeats kept).  For a one-dimensional array of
32-bit integers with at most `N` elements, all in `[0, N)`, and `N` within the range of
`int`, `cvPreprocessIndexArray(idx_arr, N, false)` returns an array that is a permutation
of the input (so every value occurs as often as in the input), is in non-decreasing
order, and hence is the input sorted. -/
theorem preprocess_int_sorted_perm (qsort : List Int → (Int → Int → Int) → List Int)
    (hq : QsortSorts qsort) (m : CvMat) (N : Nat)
    (hty : m.type = MatType.CV_32SC1) (hr : 0 < m.rows) (hc : 0 < m.cols)
    (h1d : m.rows = 1 ∨ m.cols = 1) (hlen : m.rows + m.cols - 1 ≤ N) (hN : N < 2147483648)
    (hel : ∀ i, i < m.rows + m.cols - 1 → 0 ≤ m.geti i ∧ m.geti i < N) :
    ∃ out, cvPreprocessIndexArray qsort m N false = .ok out
      ∧ List.Perm out ((List.range (m.rows + m.cols - 1)).map m.geti)
      ∧ List.Sorted (· ≤ ·) out
      ∧ out.length = m.rows + m.cols - 1
      ∧ (∀ x, out.count x = ((List.range (m.rows + m.cols - 1)).map m.geti).count x)
      ∧ out = ((List.range (m.rows + m.cols - 1)).map m.geti).insertionSort (· ≤ ·) := by
  obtain ⟨he, hs, hp⟩ := cvPreprocessIndexArray_int qsort hq m N hty hr hc h1d hlen hN hel
  refine ⟨_, he, hp, hs, ?_, fun x => hp.count_eq x, ?_⟩
  · rw [hp.length_eq, List.length_map, List.length_range]
  · exact List.eq_of_perm_of_sorted (hp.trans (List.perm_insertionSort _ _).symm) hs
      (List.sorted_insertionSort _ _)

/-- Witness for C31: the array `2, 0, 2` over a pool of three. -/
theorem preprocess_int_sorted_perm_witness :
    QsortSorts insertionQsort
    ∧ repeatedIdx.type = MatType.CV_32SC1 ∧ 0 < repeatedIdx.rows ∧ 0 < repeatedIdx.cols
    ∧ (repeatedIdx.rows = 1 ∨ repeatedIdx.cols = 1)
    ∧ repeatedIdx.rows + repeatedIdx.cols - 1 ≤ 3 ∧ 3 < 2147483648
    ∧ (∀ i, i < repeatedIdx.rows + repeatedIdx.cols - 1 →
        0 ≤ repeatedIdx.geti i ∧ repeatedIdx.geti i < ((3 : Nat) : Int))
    ∧ ∃ out, cvPreprocessIndexArray insertionQsort repeatedIdx ((3 : Nat) : Int) false = .ok out
      ∧ List.Perm out
          ((List.range (repeatedIdx.rows + repeatedIdx.cols - 1)).map repeatedIdx.geti)
      ∧ List.Sorted (· ≤ ·) out
      ∧ out.length = repeatedIdx.rows + repeatedIdx.cols - 1
      ∧ (∀ x, out.count x
          = ((List.range (repeatedIdx.rows + repeatedIdx.cols - 1)).map
              repeatedIdx.geti).count x)
      ∧ out = ((List.range (repeatedIdx.rows + repeatedIdx.cols - 1)).map
          repeatedIdx.geti).insertionSort (· ≤ ·) :=
  have hel : ∀ i, i < repeatedIdx.rows + repeatedIdx.cols - 1 →
      0 ≤ repeatedIdx.geti i ∧ repeatedIdx.geti i < ((3 : Nat) : Int) := by
    intro i hi
    have h3 : i < 3 := hi
    interval_cases i <;> decide
  ⟨insertionQsort_sorts, rfl, by decide, by decide, Or.inl rfl, by decide, by decide, hel,
    preprocess_int_sorted_perm insertionQsort insertionQsort_sorts repeatedIdx 3 rfl
      (by decide) (by decide) (Or.inl rfl) (by decide) (by decide) hel⟩

/-- C32 (a byte mask selects its non-zero positions).  For a one-dimensional array of
bytes: when its length is `data_arr_size` and some entry is non-zero,
`cvPreprocessIndexArray` returns the positions of the non-zero entries, each once, in
strictly increasing order; when its length differs from `data_arr_size` the call fails
with `CV_StsUnmatchedSizes`; when every entry is zero it fails with `CV_StsOutOfRange`. -/
theorem preprocess_mask_positions (qsort : List Int → (Int → Int → Int) → List Int)
    (m : CvMat) (data_arr_size : Int) (check_for_duplicates : Bool)
    (hty : m.type = MatType.CV_8UC1 ∨ m.type = MatType.CV_8SC1)
    (hr : 0 < m.rows) (hc : 0 < m.cols) (h1d : m.rows = 1 ∨ m.cols = 1) :
    (((m.rows + m.cols - 1 : Nat) : Int) = data_arr_size →
      (∃ i, i < m.rows + m.cols - 1 ∧ m.getb i ≠ 0) →
      ∃ out, cvPreprocessIndexArray qsort m data_arr_size check_for_duplicates = .ok out
        ∧ out = ((List.range (m.rows + m.cols - 1)).filter (fun i => m.getb i ≠ 0)).map
            (fun (i : Nat) => (i : Int))
        ∧ List.Sorted (· < ·) out
        ∧ ∀ x : Int, x ∈ out ↔ ∃ i : Nat, x = (i : Int) ∧ i < m.rows + m.cols - 1
            ∧ m.getb i ≠ 0)
    ∧ (((m.rows + m.cols - 1 : Nat) : Int) ≠ data_arr_size →
        cvPreprocessIndexArray qsort m data_arr_size check_for_duplicates
          = .error .StsUnmatchedSizes)
    ∧ (((m.rows + m.cols - 1 : Nat) : Int) = data_arr_size →
        (∀ i, i < m.rows + m.cols - 1 → m.getb i = 0) →
        cvPreprocessIndexArray qsort m data_arr_size check_for_duplicates
          = .error .StsOutOfRange) := by
  have h0 : ¬ ¬ (0 < m.rows ∧ 0 < m.cols) := not_not.mpr ⟨hr, hc⟩
  have h1 : ¬ (m.rows ≠ 1 ∧ m.cols ≠ 1) := by omega
  refine ⟨?_, ?_, ?_⟩
  · intro hlen hsel
    obtain ⟨i, hi, hb⟩ := hsel
    have hne : ((List.range (m.rows + m.cols - 1)).filter (fun i => m.getb i ≠ 0)).length
        ≠ 0 := by
      intro hz
      have hm : i ∈ (List.range (m.rows + m.cols - 1)).filter (fun i => m.getb i ≠ 0) := by
        simp [List.mem_filter, hi, hb]
      rw [List.length_eq_zero] at hz
      rw [hz] at hm
      exact nomatch hm
    refine ⟨_, ?_, rfl, ?_, ?_⟩
    · unfold cvPreprocessIndexArray
      rw [if_neg h0, if_neg h1]
      rcases hty with h | h <;> rw [h] <;> simp only [] <;>
        rw [if_neg (not_not.mpr hlen), if_neg hne]
    · refine List.Pairwise.map _ (fun a b hab => by exact_mod_cast hab) ?_
      exact List.Pairwise.filter _ (List.pairwise_lt_range _)
    · intro x
      simp only [List.mem_map, List.mem_filter, List.mem_range, decide_eq_true_eq]
      constructor
      · rintro ⟨a, ⟨ha, hb⟩, rfl⟩
        exact ⟨a, rfl, ha, hb⟩
      · rintro ⟨a, rfl, ha, hb⟩
        exact ⟨a, ⟨ha, hb⟩, rfl⟩
  · intro hlen
    unfold cvPreprocessIndexArray
    rw [if_neg h0, if_neg h1]
    rcases hty with h | h <;> rw [h] <;> simp only [] <;> rw [if_pos hlen]
  · intro hlen hall
    have hz : ((List.range (m.rows + m.cols - 1)).filter (fun i => m.getb i ≠ 0)).length
        = 0 := by
      rw [List.length_eq_zero, List.filter_eq_nil_iff]
      intro a ha
      simp [hall a (List.mem_range.mp ha)]
    unfold cvPreprocessIndexArray
    rw [if_neg h0, if_neg h1]
    rcases hty with h | h <;> rw [h] <;> simp only [] <;>
      rw [if_neg (not_not.mpr hlen), if_pos hz]

/-- Witness for C32: the mask `1, 0, 1` selects the positions `0` and `2` among three
components, and is refused among two. -/
theorem preprocess_mask_positions_witness :
    (maskIdx.type = MatType.CV_8UC1 ∨ maskIdx.type = MatType.CV_8SC1)
    ∧ 0 < maskIdx.rows ∧ 0 < maskIdx.cols ∧ (maskIdx.rows = 1 ∨ maskIdx.cols = 1)
    ∧ ((maskIdx.rows + maskIdx.cols - 1 : Nat) : Int) = 3
    ∧ (∃ i, i < maskIdx.rows + maskIdx.cols - 1 ∧ maskIdx.getb i ≠ 0)
    ∧ (∃ out, cvPreprocessIndexArray insertionQsort maskIdx 3 false = .ok out
        ∧ out = [0, 2] ∧ List.Sorted (· < ·) out)
    ∧ cvPreprocessIndexArray insertionQsort maskIdx 2 false = .error .StsUnmatchedSizes := by
  have h := preprocess_mask_positions insertionQsort maskIdx 3 false (Or.inl rfl)
    (by decide) (by decide) (Or.inl rfl)
  have h2 := (preprocess_mask_positions insertionQsort maskIdx 2 false (Or.inl rfl)
    (by decide) (by decide) (Or.inl rfl)).2.1 (by decide)
  obtain ⟨out, he, ho, hs, -⟩ := h.1 rfl ⟨0, by decide, by decide⟩
  exact ⟨Or.inl rfl, by decide, by decide, Or.inl rfl, rfl, ⟨0, by decide, by decide⟩,
    ⟨out, he, ho, hs⟩, h2⟩

/-- C37, the code at `a = INT_MIN`, `b = 1`.  The difference `a - b` does not fit 32 bits
and wraps to `INT_MAX`: `icvCmpIntegers` returns a positive value although `a < b`; with
the arguments exchanged it returns a negative value although `b > a`. -/
theorem icvCmpIntegers_sign_overflow :
    (-2147483648 : Int) < 1
    ∧ icvCmpIntegers (-2147483648) 1 = 2147483647
    ∧ icvCmpIntegers 1 (-2147483648) = -2147483647 := by
  refine ⟨by decide, ?_, ?_⟩ <;> rfl

/-! ### The leaf buffer of the serializer -/

theorem leavesMet_length (root : CvDTreeNode) (hroot : root.isLeaf = false) :
    (leavesMet root).length = root.numLeaves := by
  have hq : ∀ t ∈ [root], t.isLeaf = false := by simpa using hroot
  have h := bfsFrom_leaves_length root.numInternal [root] hq (by simp)
  simpa [leavesMet, bfsOrder] using h

/-- C33 (the leaf buffer is large enough).  For a tree whose root is internal and whose
depth is at most `max_depth`, `write` runs to its end (a store outside the buffer of
`size` floats would make it fail), it stores one value per leaf of the tree, at the
indices `0, 1, ..., numLeaves - 1`, and the number of leaves is at most the buffer size
`2^max_depth`, so each of these indices is inside the buffer. -/
theorem write_leaf_buffer_in_bounds (maxCatCount max_depth : Int) (toFloat : ℚ → ℚ)
    (root : CvDTreeNode) (hroot : root.isLeaf = false)
    (hdepth : (root.depth : Int) ≤ max_depth) :
    ∃ internalNodes leafValues,
      CascadeBoostTree.write maxCatCount max_depth toFloat root
        = some (internalNodes, leafValues)
      ∧ leafValues.length = root.numLeaves
      ∧ leafBufSize max_depth = 2 ^ max_depth.toNat
      ∧ (leafValues.length : Int) ≤ leafBufSize max_depth
      ∧ ∀ j, j < leafValues.length → 0 ≤ (j : Int) ∧ (j : Int) < leafBufSize max_depth := by
  have hlen : ((leavesMet root).map toFloat).length = root.numLeaves := by
    rw [List.length_map, leavesMet_length root hroot]
  have hsz := numLeaves_le_leafBufSize root max_depth hdepth
  refine ⟨_, _, write_eq maxCatCount max_depth toFloat root hroot hdepth, hlen, ?_, ?_, ?_⟩
  · have h0 : ¬ max_depth < 0 := by omega
    simp only [leafBufSize, h0, if_false]
  · rw [hlen]; exact hsz
  · intro j hj
    rw [hlen] at hj
    constructor
    · omega
    · have : (j : Int) < (root.numLeaves : Int) := by exact_mod_cast hj
      omega

/-- Witness for C33: the depth-2 tree `exampleTree` with `max_depth = 2`. -/
theorem write_leaf_buffer_in_bounds_witness :
    exampleTree.isLeaf = false ∧ (exampleTree.depth : Int) ≤ 2
    ∧ ∃ internalNodes leafValues,
      CascadeBoostTree.write 0 2 id exampleTree = some (internalNodes, leafValues)
      ∧ leafValues.length = exampleTree.numLeaves
      ∧ leafBufSize 2 = 2 ^ (2 : Int).toNat
      ∧ (leafValues.length : Int) ≤ leafBufSize 2
      ∧ ∀ j, j < leafValues.length → 0 ≤ (j : Int) ∧ (j : Int) < leafBufSize 2 :=
  ⟨rfl, by decide, write_leaf_buffer_in_bounds 0 2 id exampleTree rfl (by decide)⟩

/-! ### Rows of the children -/

theorem splitOrdered_skip (icvSortAux : List Nat → (Nat → ℚ) → List Nat)
    (d : CascadeBoostTrainData) (node left right : DataNode) (nl : Nat)
    (buf : Nat → Nat → Nat → Nat) :
    splitOrdered icvSortAux d node left right nl false buf = some buf := by
  unfold splitOrdered
  induction (List.range d.numPrecalcIdx) with
  | nil => rfl
  | cons vi l ih =>
    rw [List.foldl_cons, Option.some_bind]
    have h : splitOrderedVar icvSortAux d node left right nl false vi buf = some buf := by
      unfold splitOrderedVar
      rw [if_pos (Or.inr rfl)]
    rw [h]
    exact ih

theorem split_node_data_skip (icvSortAux : List Nat → (Nat → ℚ) → List Nat) (newBufIdx : Nat)
    (d : CascadeBoostTrainData) (node : DataNode)
    (hdir : ∀ i, i < node.sample_count → d.direction i = 0 ∨ d.direction i = 1)
    (hn : node.sample_count < 2147483648)
    (hns : ¬ (node.depth + 1 < d.max_depth
      ∧ (((dirPositions d.direction 0 node.sample_count).length : Int) > d.min_sample_count
        ∨ ((dirPositions d.direction 1 node.sample_count).length : Int) > d.min_sample_count)))
    (d1 : CascadeBoostTrainData) (left right : DataNode)
    (h : CascadeBoostTree.split_node_data icvSortAux newBufIdx d node = some (d1, left, right))
    (s vi c : Nat) (hvi : vi + 1 < d.work_var_count) : d1.buf s vi c = d.buf s vi c := by
  obtain ⟨hl, hr, -, -⟩ := split_newIdx_spec d.direction d.split_buf node.sample_count hdir hn
  unfold CascadeBoostTree.split_node_data at h
  simp only [hl, hr] at h
  have hsid : decide (node.depth + 1 < d.max_depth
      ∧ (((new_node (some node) (dirPositions d.direction 0 node.sample_count).length newBufIdx
            node.offset).sample_count : Int) > d.min_sample_count
        ∨ ((new_node (some node) (dirPositions d.direction 1 node.sample_count).length newBufIdx
            (node.offset + (dirPositions d.direction 0 node.sample_count).length)).sample_count
            : Int) > d.min_sample_count)) = false := decide_eq_false hns
  rw [hsid, splitOrdered_skip] at h
  simp only [Option.map_some', Option.some.injEq, Prod.mk.injEq] at h
  obtain ⟨h1, -, -⟩ := h
  rw [← h1]
  show splitCatRow _ node _ _ d.work_var_count
    (splitCatRow _ node _ _ (d.work_var_count - 1) d.buf) s vi c = d.buf s vi c
  unfold splitCatRow
  rw [splitLoop_frame _ _ _ _ _ _ _ _ s vi c (by omega),
    splitLoop_frame _ _ _ _ _ _ _ _ s vi c (by omega)]

/-- C35 (the rows of an eligible child are written).  `split_node_data` gives both
children the depth of the node plus one.  When one of the children can still be split
(its depth is below `max_depth` and its `sample_count` exceeds `min_sample_count`), then
for every ordered feature `vi < numPrecalcIdx` the sorted-index row of each child holds
the samples of that child in the order of the row of the node, each under its new index
`newIdx`.  When neither child can be split, the rows `vi < numPrecalcIdx` of the buffer
are left as they were. -/
theorem split_node_data_rows_when_eligible (icvSortAux : List Nat → (Nat → ℚ) → List Nat)
    (newBufIdx : Nat) (d : CascadeBoostTrainData) (node : DataNode)
    (hdir : ∀ i, i < node.sample_count → d.direction i = 0 ∨ d.direction i = 1)
    (hn : node.sample_count < 2147483648)
    (hW : d.numPrecalcIdx < d.work_var_count)
    (hv : ∀ vi, vi < d.numPrecalcIdx → node.num_valid vi = node.sample_count)
    (hperm : ∀ vi, vi < d.numPrecalcIdx →
      List.Perm (sortedIndexRow d node vi) (List.range node.sample_count)) :
    ∃ d1 left right,
      CascadeBoostTree.split_node_data icvSortAux newBufIdx d node = some (d1, left, right)
      ∧ left.depth = node.depth + 1 ∧ right.depth = node.depth + 1
      ∧ (((left.depth < d.max_depth ∧ (left.sample_count : Int) > d.min_sample_count)
          ∨ (right.depth < d.max_depth ∧ (right.sample_count : Int) > d.min_sample_count)) →
          ∀ vi, vi < d.numPrecalcIdx → d.get_var_type vi < 0 →
            sortedIndexRow d1 left vi
              = ((sortedIndexRow d node vi).filter (fun j => d.direction j = 0)).map
                  (fun j => storeCell d.is_buf_16u (d1.split_buf j))
            ∧ sortedIndexRow d1 right vi
              = ((sortedIndexRow d node vi).filter (fun j => d.direction j = 1)).map
                  (fun j => storeCell d.is_buf_16u (d1.split_buf j)))
      ∧ (¬ (left.depth < d.max_depth ∧ (left.sample_count : Int) > d.min_sample_count) →
          ¬ (right.depth < d.max_depth ∧ (right.sample_count : Int) > d.min_sample_count) →
          ∀ s vi c, vi < d.numPrecalcIdx → d1.buf s vi c = d.buf s vi c) := by
  obtain ⟨buf3, heq, -, -, hrows⟩ :=
    split_node_data_spec icvSortAux newBufIdx d node hdir hn hW hv
  refine ⟨_, _, _, heq, rfl, rfl, ?_, ?_⟩
  · intro hel vi hvi hty
    have hsplit : node.depth + 1 < d.max_depth
        ∧ (((dirPositions d.direction 0 node.sample_count).length : Int) > d.min_sample_count
          ∨ ((dirPositions d.direction 1 node.sample_count).length : Int)
              > d.min_sample_count) := by
      rcases hel with ⟨h1, h2⟩ | ⟨h1, h2⟩
      · exact ⟨h1, Or.inl h2⟩
      · exact ⟨h1, Or.inr h2⟩
    obtain ⟨e1, e2⟩ := hrows vi hvi hty hsplit (hperm vi hvi)
    constructor
    · have h := congrArg (List.map (storeCell d.is_buf_16u)) e1
      rw [List.map_map, List.map_map] at h
      refine Eq.trans ?_ (Eq.trans h ?_)
      · rfl
      · exact List.map_congr_left (fun j _ => storeCell_idem _ _)
    · have h := congrArg (List.map (storeCell d.is_buf_16u)) e2
      rw [List.map_map, List.map_map] at h
      refine Eq.trans ?_ (Eq.trans h ?_)
      · rfl
      · exact List.map_congr_left (fun j _ => storeCell_idem _ _)
  · intro hnl hnr s vi c hvi
    refine split_node_data_skip icvSortAux newBufIdx d node hdir hn ?_ _ _ _ heq s vi c
      (by omega)
    rintro ⟨h1, h2 | h2⟩
    · exact hnl ⟨h1, h2⟩
    · exact hnr ⟨h1, h2⟩

/-- Witness for C35: the root of `exampleData` split into slot `1`. -/
theorem split_node_data_rows_when_eligible_witness :
    (∀ i, i < exampleRoot.sample_count →
      exampleData.direction i = 0 ∨ exampleData.direction i = 1)
    ∧ exampleRoot.sample_count < 2147483648
    ∧ exampleData.numPrecalcIdx < exampleData.work_var_count
    ∧ (∀ vi, vi < exampleData.numPrecalcIdx →
        exampleRoot.num_valid vi = exampleRoot.sample_count)
    ∧ (∀ vi, vi < exampleData.numPrecalcIdx →
        List.Perm (sortedIndexRow exampleData exampleRoot vi)
          (List.range exampleRoot.sample_count))
    ∧ ∃ d1 left right,
      CascadeBoostTree.split_node_data insertionSortAux 1 exampleData exampleRoot
        = some (d1, left, right)
      ∧ left.depth = exampleRoot.depth + 1 ∧ right.depth = exampleRoot.depth + 1
      ∧ (((left.depth < exampleData.max_depth
              ∧ (left.sample_count : Int) > exampleData.min_sample_count)
          ∨ (right.depth < exampleData.max_depth
              ∧ (right.sample_count : Int) > exampleData.min_sample_count)) →
          ∀ vi, vi < exampleData.numPrecalcIdx → exampleData.get_var_type vi < 0 →
            sortedIndexRow d1 left vi
              = ((sortedIndexRow exampleData exampleRoot vi).filter
                  (fun j => exampleData.direction j = 0)).map
                  (fun j => storeCell exampleData.is_buf_16u (d1.split_buf j))
            ∧ sortedIndexRow d1 right vi
              = ((sortedIndexRow exampleData exampleRoot vi).filter
                  (fun j => exampleData.direction j = 1)).map
                  (fun j => storeCell exampleData.is_buf_16u (d1.split_buf j)))
      ∧ (¬ (left.depth < exampleData.max_depth
              ∧ (left.sample_count : Int) > exampleData.min_sample_count) →
          ¬ (right.depth < exampleData.max_depth
              ∧ (right.sample_count : Int) > exampleData.min_sample_count) →
          ∀ s vi c, vi < exampleData.numPrecalcIdx →
            d1.buf s vi c = exampleData.buf s vi c) :=
  ⟨fun i _ => exampleData_dir i, by decide,
    by rw [exampleData_fields.1, exampleData_fields.2.1]; decide, fun _ _ => rfl,
    fun vi hvi => (exampleData_invariant.1 vi hvi).1,
    split_node_data_rows_when_eligible insertionSortAux 1 exampleData exampleRoot
      (fun i _ => exampleData_dir i) (by decide)
      (by rw [exampleData_fields.1, exampleData_fields.2.1]; decide) (fun _ _ => rfl)
      (fun vi hvi => (exampleData_invariant.1 vi hvi).1)⟩

/-! ### Sample storage -/

/-- C36, the code at `idx = numSamples`.  `setImage` reaches `qFatal` exactly when
`idx > data.rows`.  For a storage built for three samples, the index `3` (one past the
last row) and the index `-1` pass the test, and the function goes on to the row and the
label at that index, outside the two matrices; it stores inside them exactly when
`0 <= idx < numSamples`. -/
theorem setImage_accepts_index_numSamples (copyTo : List ℚ → List ℚ → List ℚ) (area : Nat)
    (flat : List ℚ) (label : ℚ) :
    (∀ (s : CascadeDataStorage) (idx : Int),
        s.setImage copyTo flat label idx = .fatal ↔ idx > s.rows)
    ∧ (∀ (s : CascadeDataStorage) (idx : Int),
        (∃ s1, s.setImage copyTo flat label idx = .stored s1) ↔ (0 ≤ idx ∧ idx < s.rows))
    ∧ (CascadeDataStorage.create area 3).setImage copyTo flat label 3 = .outside 3
    ∧ (CascadeDataStorage.create area 3).setImage copyTo flat label (-1) = .outside (-1)
    ∧ (CascadeDataStorage.create area 3).setImage copyTo flat label 4 = .fatal := by
  refine ⟨?_, ?_, ?_, ?_, ?_⟩
  · intro s idx
    unfold CascadeDataStorage.setImage
    by_cases h : idx > s.rows
    · simp only [h, if_true]
    · simp only [h, if_false, iff_false]
      split <;> exact fun h => nomatch h
  · intro s idx
    unfold CascadeDataStorage.setImage
    by_cases h : idx > s.rows
    · simp only [h, if_true]
      constructor
      · rintro ⟨s1, h1⟩; exact nomatch h1
      · intro h2; omega
    · simp only [h, if_false]
      by_cases h2 : 0 ≤ idx ∧ idx < s.rows
      · simp only [h2, and_self, if_true, iff_true]
        exact ⟨_, rfl⟩
      · simp only [h2, if_false, iff_false]
        rintro ⟨s1, h1⟩
        exact nomatch h1
  · simp [CascadeDataStorage.setImage, CascadeDataStorage.create]
  · simp [CascadeDataStorage.setImage, CascadeDataStorage.create]
  · simp [CascadeDataStorage.setImage, CascadeDataStorage.create]

end br
